import Mathlib

/-! Query lifecycle coordinator (`src/Interpreters/executeQuery.cpp`)

A shallow embedding of the control logic of `executeQueryImpl`, its helpers
(`isDDLQuery`, `isQueryInInteractiveSession`, `prepareCnchTransaction`,
`interpretSettings`, `tryQueueQuery`, `onExceptionBeforeStart`), the two
finalization callbacks it attaches to the result handle, and the driver
`executeQuery(ReadBuffer &, WriteBuffer &, ...)`.

Stateful code is embedded as explicit state passing: a computation takes the
mutable `Context` and yields the events it performed on its collaborators (in
order), the context afterwards, and either a value or the exception thrown.
The outcome of every call into a collaborator that lives outside this file
(parser, router, transaction coordinator, interpreter, query cache, process
list, ...) is supplied by an `Env` record, so a theorem quantified over `Env`
covers every behaviour of those collaborators.
-/

namespace DB

/-! ## Statements -/

/-- Members of `ASTAlterCommand::Type` (declared outside this file); the
classification only distinguishes `DROP_PARTITION` and `DROP_PARTITION_WHERE`. -/
inductive AlterCommandType where
  | ADD_COLUMN
  | DROP_COLUMN
  | MODIFY_COLUMN
  | ATTACH_PARTITION
  | DROP_PARTITION
  | DROP_PARTITION_WHERE
  | MOVE_PARTITION
  | FETCH_PARTITION
  | DELETE
  | UPDATE
  deriving DecidableEq, Repr

/-- The fields of `ASTAlterCommand` read by `isDDLQuery`. -/
structure ASTAlterCommand where
  type : AlterCommandType
  attach_from_detached : Bool
  parts : Bool
  detach : Bool
  deriving DecidableEq, Repr

/-- Members of `ASTDropQuery::Kind`. -/
inductive DropKind where
  | Drop
  | Detach
  | Truncate
  deriving DecidableEq, Repr

/-- Members of `ASTSystemQuery::Type`; only `DEDUP` is distinguished here. -/
inductive SystemQueryType where
  | DEDUP
  | RELOAD_CONFIG
  | FLUSH_LOGS
  | START_MERGES
  deriving DecidableEq, Repr

/-- Names of the settings this file reads or writes. -/
inductive SettingName where
  | use_query_cache
  | enable_reads_from_query_cache
  | enable_writes_to_query_cache
  | enable_transactional_query_cache
  | query_cache_store_results_of_queries_with_nondeterministic_functions
  | query_cache_min_query_runs
  | query_cache_share_between_users
  | query_cache_compress_entries
  | enable_auto_query_forwarding
  | enable_query_queue
  | enable_optimizer
  | enable_optimizer_fallback
  | distributed_perfect_shard
  | fallback_perfect_shard
  | enable_distributed_stages
  | enable_query_level_profiling
  | log_queries
  | log_queries_min_type
  | log_queries_min_query_duration_ms
  | log_processors_profiles
  | calculate_text_stack_trace
  | enable_global_with_statement
  | output_format_enable_streaming
  | operator_profile_receive_timeout
  | distributed_product_mode_global
  | max_query_size
  | max_ast_depth
  | max_ast_elements
  deriving DecidableEq, Repr

/-- One `name = value` item of a SETTINGS clause (numeric `Field`; booleans are non-zero). -/
structure SettingChange where
  name : SettingName
  value : Nat
  deriving DecidableEq, Repr

/-- A SETTINGS clause: `ASTSetQuery::changes`. -/
abbrev SettingsChanges := List SettingChange

/-- The fields of `ASTSelectQuery` read here. -/
structure ASTSelectQuery where
  settings : Option SettingsChanges
  deriving DecidableEq, Repr

/-- A first-order child of `list_of_selects`: a plain SELECT or a nested UNION. -/
inductive UnionChild where
  | select (q : ASTSelectQuery)
  | nested
  deriving DecidableEq, Repr

/-- The fields of `ASTInsertQuery` read here. -/
structure ASTInsertQuery where
  database_name : String
  table_name : String
  has_select : Bool
  has_data : Bool
  watch : Bool
  settings_ast : Option SettingsChanges
  deriving DecidableEq, Repr

/-- The fields of `ASTSystemQuery` read here. -/
structure ASTSystemQuery where
  type : SystemQueryType
  database : String
  table : String
  deriving DecidableEq, Repr

/-- A parsed statement, one constructor per AST class this file inspects.
`settings_ast` is the SETTINGS clause of `ASTQueryWithOutput`; `other` stands for
every remaining class, with a flag telling whether it derives from
`ASTQueryWithOutput`. -/
inductive AST where
  | select (q : ASTSelectQuery)
  | selectWithUnion (list_of_selects : List UnionChild) (settings_ast : Option SettingsChanges)
  | insert (q : ASTInsertQuery)
  | alter (command_list : Option (List ASTAlterCommand)) (settings_ast : Option SettingsChanges)
  | create (settings_ast : Option SettingsChanges)
  | drop (kind : DropKind) (settings_ast : Option SettingsChanges)
  | rename (settings_ast : Option SettingsChanges)
  | system (q : ASTSystemQuery)
  | explain (settings_ast : Option SettingsChanges)
  | showProcesslist (settings_ast : Option SettingsChanges)
  | delete
  | update
  | other (with_output : Bool) (settings_ast : Option SettingsChanges)
  deriving DecidableEq, Repr

/-- Members of `ASTType` compared by `tryQueueQuery`. -/
inductive ASTType where
  | ASTSelectQuery
  | ASTSelectWithUnionQuery
  | ASTInsertQuery
  | ASTDeleteQuery
  | ASTUpdateQuery
  | ASTAlterQuery
  | ASTCreateQuery
  | ASTDropQuery
  | ASTRenameQuery
  | ASTSystemQuery
  | ASTExplainQuery
  | ASTShowProcesslistQuery
  | ASTOther
  deriving DecidableEq, Repr

/-- Dynamic class tag of a statement: `IAST::getType`. -/
def AST.getType : AST → ASTType
  | .select _ => .ASTSelectQuery
  | .selectWithUnion _ _ => .ASTSelectWithUnionQuery
  | .insert _ => .ASTInsertQuery
  | .alter _ _ => .ASTAlterQuery
  | .create _ => .ASTCreateQuery
  | .drop _ _ => .ASTDropQuery
  | .rename _ => .ASTRenameQuery
  | .system _ => .ASTSystemQuery
  | .explain _ => .ASTExplainQuery
  | .showProcesslist _ => .ASTShowProcesslistQuery
  | .delete => .ASTDeleteQuery
  | .update => .ASTUpdateQuery
  | .other _ _ => .ASTOther

/-- The downcast `query->as<ASTAlterQuery>()`: the command list when the statement is an ALTER. -/
def AST.asAlter : AST → Option (Option (List ASTAlterCommand))
  | .alter cl _ => some cl
  | _ => none

/-- Whether a statement is an ALTER. -/
def AST.isAlter (q : AST) : Bool := q.asAlter.isSome

/-- The test `->as<ASTSelectQuery>() || ->as<ASTSelectWithUnionQuery>()`. -/
def AST.isSelectLike : AST → Bool
  | .select _ => true
  | .selectWithUnion _ _ => true
  | _ => false

/-- The test `->as<ASTInsertQuery>()`. -/
def AST.isInsert : AST → Bool
  | .insert _ => true
  | _ => false

/-- The test `->as<ASTExplainQuery>()`. -/
def AST.isExplain : AST → Bool
  | .explain _ => true
  | _ => false

/-- The test `->as<ASTShowProcesslistQuery>()`. -/
def AST.isShowProcesslist : AST → Bool
  | .showProcesslist _ => true
  | _ => false

/-- The first early return of the ALTER branch of `isDDLQuery`: a single command that is
ATTACH PARTS FROM or ATTACH DETACHED PARTITION. -/
def isAttachDML (command_list : Option (List ASTAlterCommand)) : Bool :=
  match command_list with
  | some [c] => c.attach_from_detached || c.parts
  | _ => false

/-- The second early return of the ALTER branch of `isDDLQuery`: a single DROP PARTITION or
DROP PARTITION WHERE command without DETACH. -/
def isDropPartitionDML (command_list : Option (List ASTAlterCommand)) : Bool :=
  match command_list with
  | some [c] =>
      (c.type == AlterCommandType.DROP_PARTITION || c.type == AlterCommandType.DROP_PARTITION_WHERE)
        && !c.detach
  | _ => false

/-- Whether the statement is treated as DDL: `isDDLQuery` (the context argument is unused). -/
def isDDLQuery (query : AST) : Bool :=
  match query with
  | .alter command_list _ =>
      if isAttachDML command_list then false
      else if isDropPartitionDML command_list then false
      else true
  | .create _ => true
  | .drop kind _ => kind != DropKind.Truncate
  | .rename _ => true
  | _ => false

/-! ## Settings, context and collaborators -/

/-- Members of `QueryLogElementType`, in declaration order (`QUERY_START = 1`). -/
inductive QueryLogElementType where
  | QUERY_START
  | QUERY_FINISH
  | EXCEPTION_BEFORE_START
  | EXCEPTION_WHILE_PROCESSING
  deriving DecidableEq, Repr

/-- Numeric value of a `QueryLogElementType`, used by `elem.type >= log_queries_min_type`. -/
def QueryLogElementType.toNat : QueryLogElementType → Nat
  | .QUERY_START => 1
  | .QUERY_FINISH => 2
  | .EXCEPTION_BEFORE_START => 3
  | .EXCEPTION_WHILE_PROCESSING => 4

/-- Inverse of `QueryLogElementType.toNat` on setting values (out-of-range values clamp). -/
def QueryLogElementType.fromSettingValue (n : Nat) : QueryLogElementType :=
  if n ≤ 1 then .QUERY_START
  else if n = 2 then .QUERY_FINISH
  else if n = 3 then .EXCEPTION_BEFORE_START
  else .EXCEPTION_WHILE_PROCESSING

/-- The settings read or written by this file. -/
structure Settings where
  use_query_cache : Bool
  enable_reads_from_query_cache : Bool
  enable_writes_to_query_cache : Bool
  enable_transactional_query_cache : Bool
  query_cache_store_results_of_queries_with_nondeterministic_functions : Bool
  query_cache_min_query_runs : Nat
  query_cache_share_between_users : Bool
  query_cache_compress_entries : Bool
  enable_auto_query_forwarding : Bool
  enable_query_queue : Bool
  enable_optimizer : Bool
  enable_optimizer_fallback : Bool
  distributed_perfect_shard : Bool
  fallback_perfect_shard : Bool
  enable_distributed_stages : Bool
  enable_query_level_profiling : Bool
  log_queries : Bool
  log_queries_min_type : QueryLogElementType
  log_queries_min_query_duration_ms : Nat
  log_processors_profiles : Bool
  calculate_text_stack_trace : Bool
  enable_global_with_statement : Bool
  output_format_enable_streaming : Bool
  operator_profile_receive_timeout : Nat
  distributed_product_mode_global : Bool
  max_query_size : Nat
  max_ast_depth : Nat
  max_ast_elements : Nat
  deriving DecidableEq, Repr

/-- The assignment `context->setSetting(name, value)` on the modelled settings. -/
def Settings.set (s : Settings) (name : SettingName) (value : Nat) : Settings :=
  match name with
  | .use_query_cache => { s with use_query_cache := value != 0 }
  | .enable_reads_from_query_cache => { s with enable_reads_from_query_cache := value != 0 }
  | .enable_writes_to_query_cache => { s with enable_writes_to_query_cache := value != 0 }
  | .enable_transactional_query_cache => { s with enable_transactional_query_cache := value != 0 }
  | .query_cache_store_results_of_queries_with_nondeterministic_functions =>
      { s with query_cache_store_results_of_queries_with_nondeterministic_functions := value != 0 }
  | .query_cache_min_query_runs => { s with query_cache_min_query_runs := value }
  | .query_cache_share_between_users => { s with query_cache_share_between_users := value != 0 }
  | .query_cache_compress_entries => { s with query_cache_compress_entries := value != 0 }
  | .enable_auto_query_forwarding => { s with enable_auto_query_forwarding := value != 0 }
  | .enable_query_queue => { s with enable_query_queue := value != 0 }
  | .enable_optimizer => { s with enable_optimizer := value != 0 }
  | .enable_optimizer_fallback => { s with enable_optimizer_fallback := value != 0 }
  | .distributed_perfect_shard => { s with distributed_perfect_shard := value != 0 }
  | .fallback_perfect_shard => { s with fallback_perfect_shard := value != 0 }
  | .enable_distributed_stages => { s with enable_distributed_stages := value != 0 }
  | .enable_query_level_profiling => { s with enable_query_level_profiling := value != 0 }
  | .log_queries => { s with log_queries := value != 0 }
  | .log_queries_min_type => { s with log_queries_min_type := QueryLogElementType.fromSettingValue value }
  | .log_queries_min_query_duration_ms => { s with log_queries_min_query_duration_ms := value }
  | .log_processors_profiles => { s with log_processors_profiles := value != 0 }
  | .calculate_text_stack_trace => { s with calculate_text_stack_trace := value != 0 }
  | .enable_global_with_statement => { s with enable_global_with_statement := value != 0 }
  | .output_format_enable_streaming => { s with output_format_enable_streaming := value != 0 }
  | .operator_profile_receive_timeout => { s with operator_profile_receive_timeout := value }
  | .distributed_product_mode_global => { s with distributed_product_mode_global := value != 0 }
  | .max_query_size => { s with max_query_size := value }
  | .max_ast_depth => { s with max_ast_depth := value }
  | .max_ast_elements => { s with max_ast_elements := value }

/-- Applying the items of a SETTINGS clause in order: `Context::applySettingsChanges`. -/
def Settings.applyChanges (s : Settings) (changes : SettingsChanges) : Settings :=
  changes.foldl (fun acc ch => acc.set ch.name ch.value) s

/-- Members of `ServerType` (declared outside this file). -/
inductive ServerType where
  | standalone
  | cnch_server
  | cnch_worker
  | cnch_daemon_manager
  | cnch_resource_manager
  | cnch_tso_server
  deriving DecidableEq, Repr

/-- A 64-bit transaction timestamp (`TxnTimestamp`); only compared here, never added. -/
abbrev TxnTimestamp := Nat

/-- The dynamic class of a transaction handle. -/
inductive TransactionKind where
  | CnchServerTransaction
  | CnchExplicitTransaction
  | CnchWorkerTransaction
  deriving DecidableEq, Repr

/-- A transaction handle as seen by the coordinator. -/
structure Transaction where
  kind : TransactionKind
  id : TxnTimestamp
  read_only : Bool
  primary_txn_id : TxnTimestamp
  deriving DecidableEq, Repr

/-- Members of `ClientInfo::QueryKind`. -/
inductive QueryKind where
  | NO_QUERY
  | INITIAL_QUERY
  | SECONDARY_QUERY
  deriving DecidableEq, Repr

/-- The error codes named in this file; `other` carries any further code. The last member is
not an error code of the source: it marks the abnormal end of a computation that calls a
member function through a null pointer, which the source leaves undefined. -/
inductive ErrorCode where
  | INTO_OUTFILE_NOT_ALLOWED
  | QUERY_WAS_CANCELLED
  | CANNOT_PARSE_DOMAIN_VALUE_FROM_STRING
  | CNCH_QUEUE_QUERY_FAILURE
  | other (code : Int)
  | nullPointerDereference
  deriving DecidableEq, Repr

/-- A thrown `DB::Exception`: code and message. -/
structure Exception where
  code : ErrorCode
  message : String
  deriving DecidableEq, Repr

deriving instance DecidableEq for Except

/-- A target server as returned by the router (`HostWithPorts`). -/
structure HostWithPorts where
  host : String
  rpc_port : Nat
  tcp_port : Nat
  deriving DecidableEq, Repr

/-- Modelled from the spec: `HostWithPorts::empty` is declared outside this file; a target
is unresolved when it names no host. -/
def HostWithPorts.empty (h : HostWithPorts) : Bool := h.host.isEmpty

/-- A worker-group handle: virtual warehouse name and worker-group id. -/
structure WorkerGroupHandle where
  vw_name : String
  id : String
  deriving DecidableEq, Repr

/-- Members of `QueueResultStatus` (declared outside this file). -/
inductive QueueResultStatus where
  | QueueSuccess
  | QueueCancel
  | QueueFailed
  | QueueOverSize
  | QueueStop
  | QueueTimeOut
  deriving DecidableEq, Repr

/-- Members of `QueryProcessingStage::Enum`. -/
inductive QueryProcessingStage where
  | FetchColumns
  | WithMergeableState
  | Complete
  | WithMergeableStateAfterAggregation
  deriving DecidableEq, Repr

/-- Quota resource types charged by this file. -/
inductive QuotaType where
  | QUERIES
  | QUERY_SELECTS
  | QUERY_INSERTS
  | ERRORS
  deriving DecidableEq, Repr

/-- Identity of a table (`StorageID`). -/
structure StorageID where
  database_name : String
  table_name : String
  deriving DecidableEq, Repr

/-- Fingerprint of an output header (`Block`). -/
abbrev Header := Nat

/-- The arguments of `QueryCache::Key`'s constructor, in order. -/
structure QueryCacheKey where
  ast : AST
  header : Header
  user_name : String
  is_shared : Bool
  expires_at : Nat
  is_compressed : Bool
  txn_id : TxnTimestamp
  deriving DecidableEq, Repr

/-- A cached result with the source update time its writer was created with. -/
structure QueryCacheEntry where
  key : QueryCacheKey
  update_time : TxnTimestamp
  rows : List Nat
  deriving DecidableEq, Repr

/-- State of the process-wide query cache: stored entries and per-key run counters. -/
structure QueryCache where
  entries : List QueryCacheEntry
  times_executed : List (QueryCacheKey × Nat)
  deriving DecidableEq, Repr

/-- A process-list entry (`QueryStatus`): the cancellation flag checked before execution. -/
structure QueryStatus where
  is_killed : Bool
  deriving DecidableEq, Repr

/-- The mutable execution context of one query (`Context`), restricted to what this file
reads or writes. `session_transaction` is the current transaction of the session context
and is meaningful when a session context exists; `span_log_enabled` is the test
`query_trace_context.trace_id != UUID() && opentelemetry_span_log`. -/
structure Context where
  server_type : ServerType
  settings : Settings
  has_session_context : Bool
  session_is_self : Bool
  session_transaction : Option Transaction
  session_statements : List AST
  current_transaction : Option Transaction
  query_kind : QueryKind
  current_query_id : String
  user_name : String
  current_database : String
  async_query_id : String
  has_quota : Bool
  has_query_log : Bool
  span_log_enabled : Bool
  vw_customized_settings : Option (List (String × SettingsChanges))
  current_worker_group : Option WorkerGroupHandle
  has_query_parameters : Bool
  process_list_element : Option QueryStatus
  query_cache : Option QueryCache
  deriving DecidableEq, Repr

/-- Current transaction id of the context (`getCurrentTransactionID`), 0 when none is bound. -/
def Context.getCurrentTransactionID (c : Context) : TxnTimestamp :=
  match c.current_transaction with
  | some t => t.id
  | none => 0

/-! ## Result handle -/

/-- A cache write stage created by `QueryCache::createWriter`. -/
structure QueryCacheWriter where
  key : QueryCacheKey
  source_update_time : TxnTimestamp
  deriving DecidableEq, Repr

/-- The state of a `QueryPipeline` observed or changed by the coordinator. -/
structure QueryPipeline where
  initialized : Bool
  num_streams : Nat
  completed : Bool
  has_all_used_storage_ids : Bool
  used_storage_ids : List StorageID
  header : Header
  reads_from_query_cache : Bool
  query_cache_writer : Option QueryCacheWriter
  has_limits_checking : Bool
  deriving DecidableEq, Repr

/-- A default-constructed `QueryPipeline`. -/
def QueryPipeline.fresh : QueryPipeline :=
  { initialized := false, num_streams := 0, completed := false,
    has_all_used_storage_ids := false, used_storage_ids := [], header := 0,
    reads_from_query_cache := false, query_cache_writer := none, has_limits_checking := false }

/-- The values captured by the `finish_callback` closure when it is attached. -/
structure FinishCallback where
  ast : AST
  query_id : String
  my_can_use_query_cache : Bool
  enable_writes_to_query_cache : Bool
  query_cache_store_results_of_queries_with_nondeterministic_functions : Bool
  log_queries : Bool
  log_queries_min_type : QueryLogElementType
  log_queries_min_query_duration_ms : Nat
  log_processors_profiles : Bool
  pulling_pipeline : Bool
  deriving DecidableEq, Repr

/-- The values captured by the `exception_callback` closure when it is attached; `quota`
is the captured quota pointer (absent when the interpreter ignores quota or no quota exists). -/
structure ExceptionCallback where
  ast : AST
  query_id : String
  log_queries : Bool
  log_queries_min_type : QueryLogElementType
  log_queries_min_query_duration_ms : Nat
  quota : Bool
  deriving DecidableEq, Repr

/-- The result handle (`BlockIO` in the source): streams, pipeline and the two callbacks. -/
structure BlockIO where
  pipeline : QueryPipeline
  has_in : Bool
  has_out : Bool
  in_has_limits : Bool
  in_has_quota : Bool
  process_list_entry : Option QueryStatus
  finish_callback : Option FinishCallback
  exception_callback : Option ExceptionCallback
  deriving DecidableEq, Repr

/-- A default-constructed result handle. -/
def BlockIO.fresh : BlockIO :=
  { pipeline := QueryPipeline.fresh, has_in := false, has_out := false, in_has_limits := false,
    in_has_quota := false, process_list_entry := none, finish_callback := none,
    exception_callback := none }

/-- What the coordinator asks of an interpreter besides `execute`. -/
structure Interpreter where
  is_select_query_use_optimizer : Bool
  is_insert_query : Bool
  ignore_quota : Bool
  ignore_limits : Bool
  deriving DecidableEq, Repr

/-- The storage classes `prepareCnchTransaction` tests for. -/
inductive StorageKind where
  | StorageCnchMergeTree
  | StorageCloudMergeTree
  | StorageOther
  deriving DecidableEq, Repr

/-! ## Events -/

/-- An observable call from the coordinator into one of its collaborators. -/
inductive Event where
  | parseQuery
  | overwriteDefaultSettings (vw_name : String)
  | implicitCommit
  | getTargetServer
  | initializeExternalTablesIfSet
  | executeQueryByProxy (host : HostWithPorts)
  | interpreterSetQuery (changes : SettingsChanges)
  | createTransaction (read_only : Bool) (primary_txn_id : TxnTimestamp)
  | setCurrentTransaction (txn : Transaction)
  | addStatement (session_txn_id : TxnTimestamp)
  | getTable (database : String) (table : String)
  | finishTransaction (txn : Transaction)
  | trySetVirtualWarehouseAndWorkerGroup
  | initCnchServerResource (txn_id : TxnTimestamp)
  | enqueue (vw_name : String) (wg_name : String)
  | replaceQueryParameters
  | checkASTSizeLimits
  | processListInsert
  | interpreterFactoryGet (is_retry : Bool)
  | interpreterExecute (is_retry : Bool)
  | turnOffOptimizer
  | turnOffPerfectShard
  | quotaUsed (type : QuotaType)
  | quotaCheckExceeded (type : QuotaType)
  | getMaxUpdateTime
  | createReader (key : QueryCacheKey) (update_time : TxnTimestamp)
  | readFromQueryCache
  | recordQueryRun (key : QueryCacheKey)
  | createWriter (key : QueryCacheKey) (update_time : TxnTimestamp)
  | writeResultIntoQueryCache
  | addLimitsCheckingTransform
  | setLimits
  | setQuota
  | queryLogAdd (type : QueryLogElementType)
  | insertCnchQueryMetric (type : QueryLogElementType)
  | spanLogAdd (type : QueryLogElementType)
  | finishCallbackInvoked
  | exceptionCallbackInvoked
  | finalizeWriteInQueryCache
  | getInfo (element_present : Bool)
  | updateAsyncQueryStatus (failed : Bool)
  | tryCancelPlanSegmentGroup (query_id : String)
  | finishPlanSegments (query_id : String)
  | updateSegmentInstanceStatus (code : ErrorCode)
  | waitUntilFinish
  | drive
  | executeHttpQueryInAsyncMode
  deriving DecidableEq, Repr

/-! ## Computations over the context -/

/-- What a computation leaves behind: the events performed, the context afterwards, and
the value returned or the exception thrown. -/
structure Outcome (α : Type) where
  events : List Event
  context : Context
  result : Except Exception α

/-- A computation over the mutable context. -/
def Exec (α : Type) : Type := Context → Outcome α

/-- Returning a value without touching anything. -/
protected def Exec.pure {α : Type} (a : α) : Exec α :=
  fun c => { events := [], context := c, result := .ok a }

/-- Sequencing: the second computation runs only if the first did not throw. -/
protected def Exec.bind {α β : Type} (m : Exec α) (f : α → Exec β) : Exec β :=
  fun c =>
    match (m c).result with
    | .ok a =>
        { events := (m c).events ++ (f a (m c).context).events,
          context := (f a (m c).context).context,
          result := (f a (m c).context).result }
    | .error e => { events := (m c).events, context := (m c).context, result := .error e }

instance : Monad Exec where
  pure := Exec.pure
  bind := Exec.bind

/-- Performing one call on a collaborator. -/
def emit (e : Event) : Exec Unit :=
  fun c => { events := [e], context := c, result := .ok () }

/-- Performing a call on a collaborator under a guard: `if (cond) call;`. -/
def emitWhen (cond : Bool) (e : Event) : Exec Unit :=
  if cond then emit e else pure ()

/-- The statement `throw Exception(...)`. -/
def throwException {α : Type} (e : Exception) : Exec α :=
  fun c => { events := [], context := c, result := .error e }

/-- The outcome of a collaborator call: its value, or the exception it throws. -/
def ofExcept {α : Type} (r : Except Exception α) : Exec α :=
  fun c => { events := [], context := c, result := r }

/-- Reading the context. -/
def getContext : Exec Context :=
  fun c => { events := [], context := c, result := .ok c }

/-- Updating the context in place. -/
def modifyContext (f : Context → Context) : Exec Unit :=
  fun c => { events := [], context := f c, result := .ok () }

/-- The block `try { body } catch (...) { handler; throw; }`: when the body throws, the
handler runs on the context the body left and the same exception is rethrown, unless the
handler throws itself. -/
def tryCatchRethrow {α : Type} (body : Exec α) (handler : Exec Unit) : Exec α :=
  fun c =>
    match (body c).result with
    | .ok a => { events := (body c).events, context := (body c).context, result := .ok a }
    | .error e =>
        { events := (body c).events ++ (handler (body c).context).events,
          context := (handler (body c).context).context,
          result :=
            match (handler (body c).context).result with
            | .ok _ => .error e
            | .error e2 => .error e2 }

/-- The block `try { body } catch (...) { handler }` where the handler receives the
exception and decides what to return or throw. -/
def tryCatch {α : Type} (body : Exec α) (handler : Exception → Exec α) : Exec α :=
  fun c =>
    match (body c).result with
    | .ok a => { events := (body c).events, context := (body c).context, result := .ok a }
    | .error e =>
        { events := (body c).events ++ (handler e (body c).context).events,
          context := (handler e (body c).context).context,
          result := (handler e (body c).context).result }

/-- The assignment `context->setSetting(name, value)`. -/
def setSetting (name : SettingName) (value : Nat) : Exec Unit :=
  modifyContext fun c => { c with settings := c.settings.set name value }

/-! ## Collaborators -/

/-- The outcomes of every call the coordinator makes into code outside this file during
one statement. A field of type `Except Exception _` is a call that may throw. -/
structure Env where
  /-- `parseQuery(parser, begin, end, "", max_query_size, max_parser_depth)`. -/
  parseQuery : Except Exception AST
  /-- `tryGetVirtualWarehouseName(ast, context)`; `none` is `EMPTY_VIRTUAL_WAREHOUSE_NAME`. -/
  tryGetVirtualWarehouseName : Option String
  /-- `InterpreterCommitQuery(nullptr, context).execute()`. -/
  commitQuery : Except Exception Unit
  /-- Current transaction of the session context once the implicit commit has run. -/
  session_transaction_after_commit : Option Transaction
  /-- `getTargetServer(context, ast)`. -/
  getTargetServer : Except Exception HostWithPorts
  /-- `isLocalServer(host_ports.getRPCAddress(), std::to_string(context->getRPCPort()))`. -/
  isLocalServer : Bool
  /-- `context->initializeExternalTablesIfSet()`. -/
  initializeExternalTablesIfSet : Except Exception Unit
  /-- `executeQueryByProxy(context, host_ports, ast, res)`: the remote pipeline put into `res`. -/
  executeQueryByProxy : Except Exception QueryPipeline
  /-- `InterpreterSetQuery(changes, context).executeForCurrentContext()` may reject a change. -/
  interpreterSetQuery : Except Exception Unit
  /-- `isReadOnlyTransaction(ast)`. -/
  isReadOnlyTransaction : AST → Bool
  /-- `getCnchTransactionCoordinator().createTransaction(options)`: the id of the new transaction. -/
  createTransaction : Except Exception TxnTimestamp
  /-- `DatabaseCatalog::instance().getTable(StorageID(database, table), context)`. -/
  getTable : Except Exception StorageKind
  /-- Construction of the `CnchWorkerTransaction` bound to the owning server: its id. -/
  createWorkerTransaction : Except Exception TxnTimestamp
  /-- `trySetVirtualWarehouseAndWorkerGroup(ast, context)`: the worker group it binds, if any. -/
  trySetVirtualWarehouseAndWorkerGroup : Except Exception (Option WorkerGroupHandle)
  /-- `query_queue->enqueue(queue_info, query_queue_timeout_ms)`. -/
  enqueue : QueueResultStatus
  /-- `tryGetCurrentVW()` followed by `getWorkerGroup(wg_name)`; `none` when there is no current VW. -/
  current_vw_worker_group : Option WorkerGroupHandle
  /-- `ReplaceQueryParameterVisitor(...).visit(ast)`. -/
  replaceQueryParameters : Except Exception Unit
  /-- The WITH / INTERSECT-EXCEPT / UNION normalisation visitors. -/
  normalizeAST : Except Exception Unit
  /-- `checkASTSizeLimits(*ast, settings)` when a limit is set. -/
  checkASTSizeLimits : Except Exception Unit
  /-- `context->getProcessList().insert(query_for_logging, ast.get(), context)`. -/
  processListInsert : Except Exception QueryStatus
  /-- Preparation of the input storage of an INSERT SELECT with an input buffer. -/
  prepareInputStorage : Except Exception Unit
  /-- `InterpreterFactory::get(ast, context, SelectQueryOptions(stage).setInternal(internal))`. -/
  interpreterFactoryGet : Except Exception Interpreter
  /-- The checked quota charges `quota->used(type, 1)`. -/
  quotaUsed : QuotaType → Except Exception Unit
  /-- `quota->checkExceeded(Quota::ERRORS)`. -/
  quotaCheckExceeded : Except Exception Unit
  /-- `interpreter->execute()`. -/
  execute : Except Exception BlockIO
  /-- `InterpreterFactory::get(ast, context, stage)` on a fallback path. -/
  retryInterpreterFactoryGet : Except Exception Interpreter
  /-- `retry_interpreter->execute()`. -/
  retryExecute : Except Exception BlockIO
  /-- `TxnTimestamp::minTS()` (declared outside this file). -/
  minTS : TxnTimestamp
  /-- `getMaxUpdateTime(storage_ids, context)`. -/
  getMaxUpdateTime : Except Exception TxnTimestamp
  /-- `astContainsNonDeterministicFunctions(ast, context)`. -/
  astContainsNonDeterministicFunctions : AST → Bool
  /-- `std::chrono::system_clock::now() + std::chrono::seconds(settings.query_cache_ttl)`. -/
  expires_at : Nat
  /-- Whether `MPPQueryManager::instance().getCoordinator(query_id)` finds a coordinator. -/
  has_coordinator : Bool
  /-- `isAmbiguosError(code)`. -/
  isAmbiguosError : ErrorCode → Bool
  /-- `coordinator->waitUntilFinish(code, message)`: summarized code and message. -/
  waitUntilFinish : ErrorCode × String
  /-- Driving the streams or the pipeline to completion in `executeQuery`. -/
  drive : Except Exception Unit
  /-- `context->isAsyncMode()`. -/
  isAsyncMode : Bool
  /-- The duration recorded in the query-log element when a callback runs. -/
  query_duration_ms : Nat
  /-- The rows buffered by a cache write stage while the pipeline was driven. -/
  result_rows : List Nat

/-! ## Helpers of `executeQueryImpl` -/

/-- Whether the query runs inside an interactive transaction session:
`isQueryInInteractiveSession` (the statement argument is unused). -/
def isQueryInInteractiveSession (context : Context) : Bool :=
  context.has_session_context && !context.session_is_self
    && context.session_transaction.isSome

/-- The lambda `finish_current_transaction`: completion is requested from the transaction
coordinator only when a transaction is bound and the node is a `cnch_server`. -/
def finish_current_transaction : Exec Unit := do
  let query_context ← getContext
  match query_context.current_transaction with
  | some cur_txn =>
      if query_context.server_type == ServerType.cnch_server then
        emit (.finishTransaction cur_txn)
      else pure ()
  | none => pure ()

/-- The function `onExceptionBeforeStart`, restricted to quota, query log, query metric and
span log (text logging and profile counters are not modelled). -/
def onExceptionBeforeStart : Exec Unit := do
  let context ← getContext
  emitWhen context.has_quota (.quotaUsed .ERRORS)
  let settings := context.settings
  let elem_type := QueryLogElementType.EXCEPTION_BEFORE_START
  emitWhen
    (settings.log_queries && decide (settings.log_queries_min_type.toNat ≤ elem_type.toNat)
      && settings.log_queries_min_query_duration_ms == 0 && context.has_query_log)
    (.queryLogAdd .EXCEPTION_BEFORE_START)
  emitWhen settings.enable_query_level_profiling
    (.insertCnchQueryMetric .EXCEPTION_BEFORE_START)
  emitWhen context.span_log_enabled (.spanLogAdd .EXCEPTION_BEFORE_START)

/-- The function `doSomeReplacementForSettings`. -/
def doSomeReplacementForSettings : Exec Unit := do
  let context ← getContext
  if context.settings.enable_distributed_stages then
    setSetting .enable_optimizer 1
    setSetting .enable_distributed_stages 0
  else pure ()

/-- The function `setQuerySpecificSettings`. -/
def setQuerySpecificSettings (ast : AST) : Exec Unit :=
  match ast with
  | .insert q => if q.watch then setSetting .output_format_enable_streaming 1 else pure ()
  | _ => pure ()

/-- The downcast `->as<CnchExplicitTransaction>()` on the session transaction. -/
def asCnchExplicitTransaction (txn : Option Transaction) : Option Transaction :=
  match txn with
  | some t => if t.kind == TransactionKind.CnchExplicitTransaction then some t else none
  | none => none

/-- Target database and table read by the worker branch of `prepareCnchTransaction`. -/
def workerTargetTable (ast : AST) : String × String :=
  match ast with
  | .insert q => (q.database_name, q.table_name)
  | .system q => if q.type == SystemQueryType.DEDUP then (q.database, q.table) else ("", "")
  | _ => ("", "")

/-- The function `prepareCnchTransaction`: the transaction bound to the statement, if any. -/
def prepareCnchTransaction (env : Env) (ast : AST) : Exec (Option Transaction) := do
  let context ← getContext
  let server_type := context.server_type
  if server_type != ServerType.cnch_server && server_type != ServerType.cnch_worker then
    return none
  else
    match context.current_transaction with
    | some txn => return some txn
    | none =>
        if server_type == ServerType.cnch_server then
          let read_only := env.isReadOnlyTransaction ast
          let session_txn :=
            if isQueryInInteractiveSession context then
              asCnchExplicitTransaction context.session_transaction
            else none
          let primary_txn_id : TxnTimestamp :=
            match session_txn with
            | some t => t.id
            | none => 0
          emit (.createTransaction read_only primary_txn_id)
          let id ← ofExcept env.createTransaction
          let txn : Transaction :=
            { kind := .CnchServerTransaction, id := id, read_only := read_only,
              primary_txn_id := primary_txn_id }
          emit (.setCurrentTransaction txn)
          modifyContext fun c => { c with current_transaction := some txn }
          match session_txn with
          | some t =>
              if !read_only then
                emit (.addStatement t.id)
                modifyContext fun c => { c with session_statements := c.session_statements ++ [ast] }
              else pure ()
          | none => pure ()
          return some txn
        else
          let is_initial_query := context.query_kind == QueryKind.INITIAL_QUERY
          let target := workerTargetTable ast
          if is_initial_query && !target.2.isEmpty then
            let database := if target.1.isEmpty then context.current_database else target.1
            emit (.getTable database target.2)
            let storage ← ofExcept env.getTable
            if storage != StorageKind.StorageCnchMergeTree
                && storage != StorageKind.StorageCloudMergeTree then
              return none
            else
              let id ← ofExcept env.createWorkerTransaction
              let txn : Transaction :=
                { kind := .CnchWorkerTransaction, id := id, read_only := false,
                  primary_txn_id := 0 }
              emit (.setCurrentTransaction txn)
              modifyContext fun c => { c with current_transaction := some txn }
              return some txn
          else return none

/-- Running `InterpreterSetQuery(changes, context).executeForCurrentContext()`. -/
def executeForCurrentContext (env : Env) (changes : SettingsChanges) : Exec Unit := do
  emit (.interpreterSetQuery changes)
  ofExcept env.interpreterSetQuery
  modifyContext fun c => { c with settings := c.settings.applyChanges changes }

/-- The SETTINGS clause of a statement deriving from `ASTQueryWithOutput` (outer `none`
when the statement does not derive from it). -/
def AST.queryWithOutputSettings : AST → Option (Option SettingsChanges)
  | .alter _ s => some s
  | .create s => some s
  | .drop _ s => some s
  | .rename s => some s
  | .explain s => some s
  | .showProcesslist s => some s
  | .other true s => some s
  | _ => none

/-- The function `interpretSettings`. -/
def interpretSettings (env : Env) (ast : AST) : Exec Unit :=
  match ast with
  | .select q =>
      match q.settings with
      | some new_settings => executeForCurrentContext env new_settings
      | none => pure ()
  | .selectWithUnion list_of_selects _ =>
      match list_of_selects.getLast? with
      | some (.select last_select) =>
          match last_select.settings with
          | some s => executeForCurrentContext env s
          | none => pure ()
      | _ => pure ()
  | .insert q =>
      match q.settings_ast with
      | some s => executeForCurrentContext env s
      | none => pure ()
  | q =>
      match q.queryWithOutputSettings with
      | some (some s) => executeForCurrentContext env s
      | _ => pure ()

/-- The statement kinds admitted to the queue by `tryQueueQuery`. -/
def isQueuedType (ast_type : ASTType) : Bool :=
  ast_type == ASTType.ASTSelectQuery || ast_type == ASTType.ASTSelectWithUnionQuery
    || ast_type == ASTType.ASTInsertQuery || ast_type == ASTType.ASTDeleteQuery
    || ast_type == ASTType.ASTUpdateQuery

/-- The function `tryQueueQuery`. -/
def tryQueueQuery (env : Env) (ast_type : ASTType) : Exec Unit := do
  let context ← getContext
  let worker_group_handler := context.current_worker_group
  if !isQueuedType ast_type then
    return ()
  else
    match worker_group_handler with
    | some wg =>
        emit (.enqueue wg.vw_name wg.id)
        let queue_result := env.enqueue
        if queue_result == QueueResultStatus.QueueSuccess then
          match env.current_vw_worker_group with
          | some g => modifyContext fun c => { c with current_worker_group := some g }
          | none => pure ()
        else
          throwException
            { code := .CNCH_QUEUE_QUERY_FAILURE, message := "query queue failed" }
    | none => pure ()

/-! ## Query cache protocol -/

/-- The identity components of a cache key: statement, output header, principal, sharing
scope and transaction id. -/
def QueryCacheKey.sameIdentity (a b : QueryCacheKey) : Bool :=
  a.ast == b.ast && a.header == b.header && a.user_name == b.user_name
    && a.is_shared == b.is_shared && a.txn_id == b.txn_id

/-- Modelled from the spec: `QueryCache::Reader::hasCacheEntryForKey` is declared outside
this file. A reader created with `key` and the current source update time hits when an
entry with the same key identity exists whose recorded update time is not older. -/
def QueryCache.hasCacheEntryForKey (cache : QueryCache) (key : QueryCacheKey)
    (update_time : TxnTimestamp) : Bool :=
  cache.entries.any fun e => e.key.sameIdentity key && decide (update_time ≤ e.update_time)

/-- Number of runs recorded so far for a key. -/
def QueryCache.timesExecuted (cache : QueryCache) (key : QueryCacheKey) : Nat :=
  match cache.times_executed.find? (fun p => p.1.sameIdentity key) with
  | some p => p.2
  | none => 0

/-- Modelled from the spec: `QueryCache::recordQueryRun` is declared outside this file. It
counts one more run for the key and returns the new count. -/
def QueryCache.recordQueryRun (cache : QueryCache) (key : QueryCacheKey) : Nat × QueryCache :=
  let n := cache.timesExecuted key + 1
  (n, { cache with
          times_executed :=
            (key, n) :: cache.times_executed.filter (fun p => !p.1.sameIdentity key) })

/-- Modelled from the spec: `QueryPipeline::readFromQueryCache` is declared outside this
file. It builds a pipeline sourced from the cached rows, totals and extremes. -/
def QueryPipeline.readFromQueryCache (header : Header) : QueryPipeline :=
  { QueryPipeline.fresh with
      initialized := true, num_streams := 1, header := header, reads_from_query_cache := true }

/-! ## `executeQueryImpl` -/

/-- The arguments of `executeQueryImpl` that steer its control flow. -/
structure Input where
  input_ast : Option AST
  internal : Bool
  stage : QueryProcessingStage
  has_istr : Bool
  deriving DecidableEq, Repr

/-- How the first `try` block of `executeQueryImpl` ends when it does not throw: with the
early return of the proxied result, or by falling through to local execution. -/
inductive FirstTry where
  | routed (ast : AST) (res : BlockIO)
  | proceed (ast : AST)
  deriving DecidableEq, Repr

/-- Per-warehouse setting overrides, applied on a `cnch_server` that has them. -/
def applyVWCustomizedSettings (env : Env) : Exec Unit := do
  let context ← getContext
  if context.server_type == ServerType.cnch_server then
    match context.vw_customized_settings with
    | some overrides =>
        match env.tryGetVirtualWarehouseName with
        | some vw_name =>
            emit (.overwriteDefaultSettings vw_name)
            match overrides.lookup vw_name with
            | some changes =>
                modifyContext fun c => { c with settings := c.settings.applyChanges changes }
            | none => pure ()
        | none => pure ()
    | none => pure ()
  else pure ()

/-- The implicit commit of the session transaction: `InterpreterCommitQuery(nullptr, context).execute()`. -/
def implicitCommit (env : Env) : Exec Unit := do
  emit .implicitCommit
  ofExcept env.commitQuery
  modifyContext fun c => { c with session_transaction := env.session_transaction_after_commit }

/-- Modelled from the spec: `executeQueryByProxy` is declared outside this file. It delegates
the whole execution to the target host and fills the pipeline of the result handle. -/
def executeQueryByProxy (env : Env) (host_ports : HostWithPorts) (res : BlockIO) :
    Exec BlockIO := do
  emit (.executeQueryByProxy host_ports)
  let pipeline ← ofExcept env.executeQueryByProxy
  return { res with pipeline := pipeline }

/-- The routing decision: the proxied result when the statement is rerouted to another server. -/
def routeQuery (env : Env) (res : BlockIO) : Exec (Option BlockIO) := do
  let context ← getContext
  if context.server_type == ServerType.cnch_server
      && (isQueryInInteractiveSession context || context.settings.enable_auto_query_forwarding
          || context.settings.use_query_cache) then
    emit .getTargetServer
    let host_ports ← ofExcept env.getTargetServer
    if !host_ports.empty && !env.isLocalServer then
      emit .initializeExternalTablesIfSet
      ofExcept env.initializeExternalTablesIfSet
      let res ← executeQueryByProxy env host_ports res
      return some res
    else return none
  else return none

/-- The statement a call of `executeQueryImpl` is about, if there is one: the pre-parsed
statement when one is supplied, otherwise what the parser returns. -/
def statementOf (env : Env) (inp : Input) : Except Exception AST :=
  match inp.input_ast with
  | none => env.parseQuery
  | some input_ast => .ok input_ast

/-- The statement `executeQueryImpl` works on: the pre-parsed one, or the parser's result. -/
def obtainAST (env : Env) (inp : Input) : Exec AST :=
  match inp.input_ast with
  | none => do
      emit .parseQuery
      ofExcept env.parseQuery
  | some input_ast => pure input_ast

/-- Start of the first `try` block: parse, per-warehouse overrides, implicit commit before DDL. -/
def parseAndCommit (env : Env) (inp : Input) : Exec AST := do
  let ast ← obtainAST env inp
  applyVWCustomizedSettings env
  let context ← getContext
  if isQueryInInteractiveSession context && isDDLQuery ast then
    implicitCommit env
  else pure ()
  return ast

/-- The statement `if (input_ast == nullptr) interpretSettings(ast, context);`. -/
def interpretSettingsIfParsed (env : Env) (inp : Input) (ast : AST) : Exec Unit :=
  if inp.input_ast.isNone then interpretSettings env ast else pure ()

/-- End of the first `try` block: the routing decision with its early return, then the
SETTINGS clause of a statement that stays on this node. -/
def routeOrProceed (env : Env) (inp : Input) (ast : AST) : Exec FirstTry := do
  let routed ← routeQuery env BlockIO.fresh
  match routed with
  | some res => return .routed ast res
  | none => do
      interpretSettingsIfParsed env inp ast
      return .proceed ast

/-- The body of the first `try` block: parse, per-warehouse overrides, implicit commit before
DDL, routing, SETTINGS clause. -/
def parseAndRoute (env : Env) (inp : Input) : Exec FirstTry := do
  let ast ← parseAndCommit env inp
  routeOrProceed env inp ast

/-- The handler of both `catch (...)` blocks of `executeQueryImpl`. -/
def beforeStartHandler (inp : Input) : Exec Unit := do
  finish_current_transaction
  if !inp.internal then onExceptionBeforeStart else pure ()

/-- The worker group chosen by `trySetVirtualWarehouseAndWorkerGroup`, when it chose one. -/
def bindWorkerGroup (wg : Option WorkerGroupHandle) : Exec Unit :=
  match wg with
  | some g => modifyContext fun c => { c with current_worker_group := some g }
  | none => pure ()

/-- What follows a successful `prepareCnchTransaction`: warehouse and worker group, server
resource, and admission to the query queue. -/
def admitQuery (env : Env) (inp : Input) (ast : AST) (txn : Transaction) : Exec Unit := do
  emit .trySetVirtualWarehouseAndWorkerGroup
  let wg ← ofExcept env.trySetVirtualWarehouseAndWorkerGroup
  bindWorkerGroup wg
  let context ← getContext
  if context.server_type == ServerType.cnch_server then do
    emit (.initCnchServerResource txn.id)
    if !inp.internal && !ast.isShowProcesslist && context.settings.enable_query_queue then
      tryQueueQuery env ast.getType
    else pure ()
  else pure ()

/-- The block `if (txn) { ... }` after `prepareCnchTransaction`. -/
def admitWhenAttached (env : Env) (inp : Input) (ast : AST) (txn : Option Transaction) :
    Exec Unit :=
  match txn with
  | some t => admitQuery env inp ast t
  | none => pure ()

/-- Transaction attachment and admission, between the two `try` blocks. -/
def attachTransaction (env : Env) (inp : Input) (ast : AST) : Exec (Option Transaction) := do
  let txn ← prepareCnchTransaction env ast
  admitWhenAttached env inp ast txn
  return txn

/-- Start of the second `try` block: query parameters, AST normalisation, size limits and the
process-list registration; returns the process-list entry. -/
def registerQuery (env : Env) (inp : Input) (ast : AST) : Exec (Option QueryStatus) := do
  let context ← getContext
  if context.has_query_parameters then
    emit .replaceQueryParameters
    ofExcept env.replaceQueryParameters
  else pure ()
  ofExcept env.normalizeAST
  if context.settings.max_ast_depth != 0 || context.settings.max_ast_elements != 0 then
    emit .checkASTSizeLimits
    ofExcept env.checkASTSizeLimits
  else pure ()
  if !inp.internal && !ast.isShowProcesslist then
    emit .processListInsert
    let process_list_entry ← ofExcept env.processListInsert
    modifyContext fun c => { c with process_list_element := some process_list_entry }
    return some process_list_entry
  else return none

/-- Whether the statement is an INSERT with a SELECT part. -/
def AST.isInsertSelect : AST → Bool
  | .insert q => q.has_select
  | _ => false

/-- External tables, optimizer switch for internal queries, input storage, interpreter
construction; returns the interpreter. -/
def buildInterpreter (env : Env) (inp : Input) (ast : AST) : Exec Interpreter := do
  emit .initializeExternalTablesIfSet
  ofExcept env.initializeExternalTablesIfSet
  if inp.internal then setSetting .enable_optimizer 0 else pure ()
  if ast.isInsertSelect && inp.has_istr then ofExcept env.prepareInputStorage else pure ()
  emit (.interpreterFactoryGet false)
  ofExcept env.interpreterFactoryGet

/-- Quota charged before execution; returns whether a quota object is held in `quota`. -/
def chargeQuota (env : Env) (ast : AST) (interpreter : Interpreter) : Exec Bool := do
  let context ← getContext
  if !interpreter.ignore_quota then
    if context.has_quota then
      if ast.isSelectLike then
        emit (.quotaUsed .QUERY_SELECTS)
        ofExcept (env.quotaUsed .QUERY_SELECTS)
      else if ast.isInsert then
        emit (.quotaUsed .QUERY_INSERTS)
        ofExcept (env.quotaUsed .QUERY_INSERTS)
      else pure ()
      emit (.quotaUsed .QUERIES)
      ofExcept (env.quotaUsed .QUERIES)
      emit (.quotaCheckExceeded .ERRORS)
      ofExcept env.quotaCheckExceeded
      return true
    else return false
  else return false

/-- Modelled from the spec: `turnOffOptimizer` is declared outside this file; it disables the
optimizer on the context. -/
def turnOffOptimizer : Exec Unit := do
  emit .turnOffOptimizer
  setSetting .enable_optimizer 0

/-- Modelled from the spec: `InterpreterPerfectShard::turnOffPerfectShard` is declared outside
this file; it disables perfect-sharding on the context. -/
def turnOffPerfectShard : Exec Unit := do
  emit .turnOffPerfectShard
  setSetting .distributed_perfect_shard 0

/-- Building and executing the retry interpreter on a fallback path. -/
def retryExecute (env : Env) : Exec BlockIO := do
  emit (.interpreterFactoryGet true)
  let _retry_interpreter ← ofExcept env.retryInterpreterFactoryGet
  emit (.interpreterExecute true)
  ofExcept env.retryExecute

/-- The `catch (...)` block around `interpreter->execute()`: the fallback policy. -/
def executeFallback (env : Env) (interpreter : Interpreter) (e : Exception) : Exec BlockIO := do
  let context ← getContext
  if interpreter.is_select_query_use_optimizer then
    if context.settings.enable_optimizer_fallback then
      turnOffOptimizer
      let res ← retryExecute env
      setSetting .operator_profile_receive_timeout 3001
      return res
    else throwException e
  else if !context.settings.enable_optimizer && context.settings.distributed_perfect_shard
      && context.settings.fallback_perfect_shard then
    turnOffPerfectShard
    retryExecute env
  else throwException e

/-- The statement `res = interpreter->execute()` with its fallback handler. -/
def executeInterpreter (env : Env) (interpreter : Interpreter) : Exec BlockIO :=
  tryCatch
    (do
      emit (.interpreterExecute false)
      ofExcept env.execute)
    (executeFallback env interpreter)

/-- The cache key built for the reader. -/
def readerKey (context : Context) (ast : AST) (res : BlockIO) : QueryCacheKey :=
  { ast := ast, header := res.pipeline.header, user_name := context.user_name,
    is_shared := false, expires_at := 1, is_compressed := false,
    txn_id := context.getCurrentTransactionID }

/-- The cache key built for the writer. -/
def writerKey (env : Env) (context : Context) (ast : AST) (res : BlockIO) : QueryCacheKey :=
  { ast := ast, header := res.pipeline.header, user_name := context.user_name,
    is_shared := context.settings.query_cache_share_between_users,
    expires_at := env.expires_at,
    is_compressed := context.settings.query_cache_compress_entries,
    txn_id := context.getCurrentTransactionID }

/-- The result of the cache read step: the (possibly substituted) result handle, the flag
`read_result_from_query_cache`, and `source_update_time_for_query_cache`. -/
structure CacheRead where
  res : BlockIO
  read_result_from_query_cache : Bool
  source_update_time_for_query_cache : TxnTimestamp
  deriving DecidableEq, Repr

/-- The result-cache read step. -/
def readQueryCache (env : Env) (can_use_query_cache : Bool) (ast : AST) (res : BlockIO) :
    Exec CacheRead := do
  let context ← getContext
  let storage_ids := res.pipeline.used_storage_ids
  match context.query_cache with
  | some query_cache =>
      if (can_use_query_cache && context.settings.enable_reads_from_query_cache)
          && decide (res.pipeline.num_streams > 0) && res.pipeline.has_all_used_storage_ids
          && !storage_ids.isEmpty then
        let source_update_time ←
          if context.settings.enable_transactional_query_cache then do
            emit .getMaxUpdateTime
            ofExcept env.getMaxUpdateTime
          else pure env.minTS
        if source_update_time != 0 then
          let key := readerKey context ast res
          emit (.createReader key source_update_time)
          if query_cache.hasCacheEntryForKey key source_update_time then
            emit .readFromQueryCache
            return { res := { res with
                                pipeline := QueryPipeline.readFromQueryCache res.pipeline.header },
                     read_result_from_query_cache := true,
                     source_update_time_for_query_cache := source_update_time }
          else return ⟨res, false, source_update_time⟩
        else return ⟨res, false, source_update_time⟩
      else return ⟨res, false, env.minTS⟩
  | none => return ⟨res, false, env.minTS⟩

/-- The pre-start cancellation check; stores the process-list entry in the result handle. -/
def checkKilled (process_list_entry : Option QueryStatus) (res : BlockIO) : Exec BlockIO := do
  match process_list_entry with
  | some entry =>
      if entry.is_killed then
        throwException { code := .QUERY_WAS_CANCELLED, message := "Query is killed in pending state" }
      else pure ()
  | none => pure ()
  return { res with process_list_entry := process_list_entry }

/-- Attachment of the result limits and quota to the final result. -/
def attachLimits (inp : Input) (interpreter : Interpreter) (res : BlockIO) : Exec BlockIO := do
  if res.pipeline.initialized then
    if inp.stage == QueryProcessingStage.Complete && !res.pipeline.completed then
      emit .addLimitsCheckingTransform
      return { res with pipeline := { res.pipeline with num_streams := 1, has_limits_checking := true } }
    else return res
  else if res.has_in then
    if inp.stage == QueryProcessingStage.Complete then
      if !interpreter.ignore_quota then emit .setQuota else pure ()
      if !interpreter.ignore_limits then emit .setLimits else pure ()
      return { res with in_has_quota := !interpreter.ignore_quota,
                        in_has_limits := !interpreter.ignore_limits }
    else return res
  else return res

/-- The result-cache write step: the run is recorded, and a writer is attached once the
run count exceeds `query_cache_min_query_runs`. -/
def writeQueryCache (env : Env) (can_use_query_cache : Bool) (ast : AST) (cr : CacheRead) :
    Exec BlockIO := do
  let context ← getContext
  let res := cr.res
  match context.query_cache with
  | some query_cache =>
      if !cr.read_result_from_query_cache
          && can_use_query_cache && context.settings.enable_writes_to_query_cache
          && decide (res.pipeline.num_streams > 0)
          && (!env.astContainsNonDeterministicFunctions ast
              || context.settings.query_cache_store_results_of_queries_with_nondeterministic_functions) then
        let key := writerKey env context ast res
        emit (.recordQueryRun key)
        let num_query_runs := (query_cache.recordQueryRun key).1
        modifyContext fun c => { c with query_cache := some (query_cache.recordQueryRun key).2 }
        if num_query_runs > context.settings.query_cache_min_query_runs then
          emit (.createWriter key cr.source_update_time_for_query_cache)
          emit .writeResultIntoQueryCache
          return { res with
                     pipeline := { res.pipeline with
                       query_cache_writer :=
                         some { key := key,
                                source_update_time := cr.source_update_time_for_query_cache } } }
        else return res
      else return res
  | none => return res

/-- The query-log record of the query start. -/
def logQueryStart (inp : Input) : Exec Unit := do
  let context ← getContext
  let settings := context.settings
  let elem_type := QueryLogElementType.QUERY_START
  emitWhen
    ((settings.log_queries && !inp.internal)
      && decide (settings.log_queries_min_type.toNat ≤ elem_type.toNat)
      && settings.log_queries_min_query_duration_ms == 0 && context.has_query_log)
    (.queryLogAdd .QUERY_START)
  emitWhen
    (settings.enable_query_level_profiling && context.server_type == ServerType.cnch_server)
    (.insertCnchQueryMetric .QUERY_START)

/-- Construction and attachment of the two finalization callbacks. -/
def attachCallbacks (inp : Input) (can_use_query_cache : Bool) (ast : AST) (quota : Bool)
    (res : BlockIO) : Exec BlockIO := do
  let context ← getContext
  let settings := context.settings
  let log_queries := settings.log_queries && !inp.internal
  let finish_callback : FinishCallback :=
    { ast := ast, query_id := context.current_query_id,
      my_can_use_query_cache := can_use_query_cache,
      enable_writes_to_query_cache := settings.enable_writes_to_query_cache,
      query_cache_store_results_of_queries_with_nondeterministic_functions :=
        settings.query_cache_store_results_of_queries_with_nondeterministic_functions,
      log_queries := log_queries,
      log_queries_min_type := settings.log_queries_min_type,
      log_queries_min_query_duration_ms := settings.log_queries_min_query_duration_ms,
      log_processors_profiles := settings.log_processors_profiles,
      pulling_pipeline := decide (res.pipeline.num_streams > 0) }
  let exception_callback : ExceptionCallback :=
    { ast := ast, query_id := context.current_query_id, log_queries := log_queries,
      log_queries_min_type := settings.log_queries_min_type,
      log_queries_min_query_duration_ms := settings.log_queries_min_query_duration_ms,
      quota := quota }
  return { res with finish_callback := some finish_callback,
                    exception_callback := some exception_callback }

/-- The body of the second `try` block: everything from the process-list registration to
the attachment of the callbacks. -/
def executeLocally (env : Env) (inp : Input) (can_use_query_cache : Bool) (ast : AST) :
    Exec BlockIO := do
  let process_list_entry ← registerQuery env inp ast
  let interpreter ← buildInterpreter env inp ast
  let quota ← chargeQuota env ast interpreter
  let res ← executeInterpreter env interpreter
  let cr ← readQueryCache env can_use_query_cache ast res
  let res ← checkKilled process_list_entry cr.res
  let res ← attachLimits inp interpreter res
  let res ← writeQueryCache env can_use_query_cache ast { cr with res := res }
  logQueryStart inp
  attachCallbacks inp can_use_query_cache ast quota res

/-- On a `cnch_server`, `distributed_product_mode` is set to `global` before anything else. -/
def useGlobalProductMode : Exec Unit := do
  let context ← getContext
  if context.server_type == ServerType.cnch_server then
    setSetting .distributed_product_mode_global 1
  else pure ()

/-- The flag `can_use_query_cache`, computed before the transaction is attached. -/
def canUseQueryCache (context : Context) (inp : Input) (ast : AST) : Bool :=
  context.settings.use_query_cache && !inp.internal && !ast.isExplain

/-- What `executeQueryImpl` does once the statement stays on this node: setting replacements,
transaction attachment and admission, then the second `try` block. -/
def attachAndExecute (env : Env) (inp : Input) (ast : AST) : Exec (AST × BlockIO) := do
  doSomeReplacementForSettings
  setQuerySpecificSettings ast
  let context ← getContext
  let _txn ← attachTransaction env inp ast
  let res ← tryCatchRethrow (executeLocally env inp (canUseQueryCache context inp ast) ast)
    (beforeStartHandler inp)
  return (ast, res)

/-- After the first `try` block: the early return of a rerouted statement, or local execution. -/
def continueAfterFirstTry (env : Env) (inp : Input) (first : FirstTry) :
    Exec (AST × BlockIO) :=
  match first with
  | .routed ast res => return (ast, res)
  | .proceed ast => attachAndExecute env inp ast

/-- The function `executeQueryImpl`. -/
def executeQueryImpl (env : Env) (inp : Input) : Exec (AST × BlockIO) := do
  useGlobalProductMode
  let first ← tryCatchRethrow (parseAndRoute env inp) (beforeStartHandler inp)
  continueAfterFirstTry env inp first

/-! ## Finalization callbacks and the driver -/

/-- The cache after a writer stored its buffered result: the new entry replaces any entry
of the same key identity. -/
def storeEntry (env : Env) (writer : QueryCacheWriter) (cache : QueryCache) : QueryCache :=
  { cache with
      entries :=
        { key := writer.key, update_time := writer.source_update_time, rows := env.result_rows }
          :: cache.entries.filter (fun e => !e.key.sameIdentity writer.key) }

/-- Modelled from the spec: `QueryPipeline::finalizeWriteInQueryCache` is declared outside
this file. When a writer is attached, the buffered result is stored under the writer's key,
replacing an entry of the same identity; without a writer nothing is stored. -/
def finalizeWriteInQueryCache (env : Env) (pipeline : QueryPipeline) : Exec Unit := do
  emit .finalizeWriteInQueryCache
  match pipeline.query_cache_writer with
  | some writer =>
      modifyContext fun c =>
        { c with query_cache := c.query_cache.map (storeEntry env writer) }
  | none => pure ()

/-- The first statement of `finish_callback`: the cache write is finalized when a cache
exists and the captured flags say the execution was eligible for caching. -/
def FinishCallback.finalizeCacheWrite (env : Env) (cb : FinishCallback) (res : BlockIO) :
    Exec Unit := do
  let context ← getContext
  if context.query_cache.isSome && cb.pulling_pipeline
      && cb.my_can_use_query_cache && cb.enable_writes_to_query_cache
      && (!env.astContainsNonDeterministicFunctions cb.ast
          || cb.query_cache_store_results_of_queries_with_nondeterministic_functions) then
    finalizeWriteInQueryCache env res.pipeline
  else pure ()

/-- The body of the `finish_callback` closure. -/
def FinishCallback.run (env : Env) (cb : FinishCallback) (res : BlockIO) : Exec Unit := do
  cb.finalizeCacheWrite env res
  finish_current_transaction
  let context ← getContext
  match context.process_list_element with
  | none => return ()
  | some _ =>
      emit (.getInfo true)
      let elem_type := QueryLogElementType.QUERY_FINISH
      emitWhen context.settings.enable_query_level_profiling (.insertCnchQueryMetric .QUERY_FINISH)
      emitWhen
        (cb.log_queries && decide (cb.log_queries_min_type.toNat ≤ elem_type.toNat)
          && decide (cb.log_queries_min_query_duration_ms ≤ env.query_duration_ms)
          && context.has_query_log)
        (.queryLogAdd .QUERY_FINISH)
      emitWhen context.span_log_enabled (.spanLogAdd .QUERY_FINISH)
      emitWhen (!context.async_query_id.isEmpty) (.updateAsyncQueryStatus false)
      emit (.tryCancelPlanSegmentGroup cb.query_id)
      emit (.finishPlanSegments cb.query_id)

/-- The abnormal end of a computation that dereferences a null pointer. -/
def Exception.nullDereference : Exception :=
  { code := .nullPointerDereference, message := "null pointer dereference" }

/-- The statement `QueryStatusInfo info = process_list_elem->getInfo(...)` made without a null
test. Through a null pointer the call is undefined in the source; the computation ends there
and nothing after the call is run. -/
def getInfoUnguarded (process_list_elem : Option QueryStatus) : Exec Unit := do
  emit (.getInfo process_list_elem.isSome)
  match process_list_elem with
  | some _ => pure ()
  | none => throwException Exception.nullDereference

/-- The query-metric record of `exception_callback`, made under
`enable_query_level_profiling`: `getInfo` is called on the process-list element without a
null test, then `insertCnchQueryMetric`. -/
def exceptionQueryMetric : Exec Unit := do
  let context ← getContext
  if context.settings.enable_query_level_profiling then do
    getInfoUnguarded context.process_list_element
    emit (.insertCnchQueryMetric .EXCEPTION_WHILE_PROCESSING)
  else pure ()

/-- The body of the `exception_callback` closure, run while exception `e` is being handled.
The query-metric record in it calls `getInfo` on the process-list element without a null
test; with no element the callback ends there. -/
def ExceptionCallback.run (env : Env) (cb : ExceptionCallback) (e : Exception) : Exec Unit := do
  finish_current_transaction
  emitWhen cb.quota (.quotaUsed .ERRORS)
  let elem_type := QueryLogElementType.EXCEPTION_WHILE_PROCESSING
  let context ← getContext
  let process_list_elem := context.process_list_element
  emitWhen process_list_elem.isSome (.getInfo true)
  let ambiguous := env.has_coordinator && env.isAmbiguosError e.code
  emitWhen env.has_coordinator (.updateSegmentInstanceStatus e.code)
  emitWhen ambiguous .waitUntilFinish
  let throw_root_cause := ambiguous && env.waitUntilFinish.1 != e.code
  let exception_code := if ambiguous then env.waitUntilFinish.1 else e.code
  let exception := if ambiguous then env.waitUntilFinish.2 else e.message
  emitWhen
    (cb.log_queries && decide (cb.log_queries_min_type.toNat ≤ elem_type.toNat)
      && decide (cb.log_queries_min_query_duration_ms ≤ env.query_duration_ms)
      && context.has_query_log)
    (.queryLogAdd .EXCEPTION_WHILE_PROCESSING)
  exceptionQueryMetric
  emitWhen (!context.async_query_id.isEmpty) (.updateAsyncQueryStatus true)
  emitWhen env.has_coordinator (.updateSegmentInstanceStatus exception_code)
  if throw_root_cause then
    throwException { code := exception_code, message := exception }
  else pure ()

/-- Modelled from the spec: `onFinish` of the result handle is declared outside this file; it
invokes the finish callback when one is attached. -/
def BlockIO.onFinish (env : Env) (streams : BlockIO) : Exec Unit :=
  match streams.finish_callback with
  | some cb => do
      emit .finishCallbackInvoked
      cb.run env streams
  | none => pure ()

/-- Modelled from the spec: `onException` of the result handle is declared outside this file;
it invokes the exception callback when one is attached. -/
def BlockIO.onException (env : Env) (streams : BlockIO) (e : Exception) : Exec Unit :=
  match streams.exception_callback with
  | some cb => do
      emit .exceptionCallbackInvoked
      cb.run env e
  | none => pure ()

/-- Whether the statement is an INSERT carrying inline data. -/
def AST.isInsertWithData : AST → Bool
  | .insert q => q.has_data
  | _ => false

/-- Driving the result handle in `executeQuery`: one of the three branches on the handle's
output stream, input stream or pipeline, or none of them. -/
def driveStreams (env : Env) (streams : BlockIO) : Exec Unit := do
  if streams.has_out || streams.has_in || streams.pipeline.initialized then
    emit .drive
    ofExcept env.drive
  else pure ()

/-- The `try`/`catch` around the driving of the result handle: the exception to rethrow, if any. -/
def driveAndCatch (env : Env) (streams : BlockIO) : Exec (Option Exception) :=
  tryCatch
    (do
      driveStreams env streams
      return none)
    (fun e =>
      tryCatch
        (do
          streams.onException env e
          return some e)
        (fun e2 => pure (some e2)))

/-- The end of `executeQuery`: drive the handle, rethrow the exception caught while driving,
otherwise call `onFinish`. -/
def driveAndFinish (env : Env) (streams : BlockIO) : Exec Unit := do
  let exception ← driveAndCatch env streams
  match exception with
  | some e => throwException e
  | none => streams.onFinish env

/-- The start of `executeQuery`: parse the statement and interpret its SETTINGS clause. -/
def parseAndInterpretSettings (env : Env) : Exec AST := do
  emit .parseQuery
  let ast ← ofExcept env.parseQuery
  interpretSettings env ast
  return ast

/-- The arguments `executeQuery` passes to `executeQueryImpl`. -/
def executeQueryInput (ast : AST) (internal : Bool) : Input :=
  { input_ast := some ast, internal := internal, stage := .Complete, has_istr := true }

/-- The function `executeQuery(ReadBuffer &, WriteBuffer &, ...)`. -/
def executeQuery (env : Env) (internal : Bool) : Exec Unit := do
  let ast ← parseAndInterpretSettings env
  if !ast.isInsertWithData && env.isAsyncMode then
    emit .executeHttpQueryInAsyncMode
    return ()
  else
    let r ← executeQueryImpl env (executeQueryInput ast internal)
    driveAndFinish env r.2

/-! ## Event classes and sample collaborators -/

/-- Events of the routing part of the first `try` block (per-warehouse overrides, routing,
SETTINGS clause). -/
def Event.isRoutingEvent : Event → Bool
  | .overwriteDefaultSettings _ => true
  | .getTargetServer => true
  | .initializeExternalTablesIfSet => true
  | .executeQueryByProxy _ => true
  | .interpreterSetQuery _ => true
  | _ => false

/-- Events of the before-start finalize path (the two `catch (...)` blocks). -/
def Event.isBeforeStartEvent : Event → Bool
  | .finishTransaction _ => true
  | .quotaUsed .ERRORS => true
  | .queryLogAdd .EXCEPTION_BEFORE_START => true
  | .insertCnchQueryMetric .EXCEPTION_BEFORE_START => true
  | .spanLogAdd .EXCEPTION_BEFORE_START => true
  | _ => false

/-- Events of transaction attachment and admission. -/
def Event.isAttachEvent : Event → Bool
  | .createTransaction _ _ => true
  | .setCurrentTransaction _ => true
  | .addStatement _ => true
  | .getTable _ _ => true
  | .trySetVirtualWarehouseAndWorkerGroup => true
  | .initCnchServerResource _ => true
  | .enqueue _ _ => true
  | _ => false

/-- Events of the second `try` block other than the substitution of the pipeline from the
cache and the attachment of a cache writer. -/
def Event.isExecutionEvent : Event → Bool
  | .replaceQueryParameters => true
  | .checkASTSizeLimits => true
  | .processListInsert => true
  | .initializeExternalTablesIfSet => true
  | .interpreterFactoryGet _ => true
  | .interpreterExecute _ => true
  | .turnOffOptimizer => true
  | .turnOffPerfectShard => true
  | .quotaUsed .QUERIES => true
  | .quotaUsed .QUERY_SELECTS => true
  | .quotaUsed .QUERY_INSERTS => true
  | .quotaCheckExceeded _ => true
  | .getMaxUpdateTime => true
  | .createReader _ _ => true
  | .recordQueryRun _ => true
  | .createWriter _ _ => true
  | .addLimitsCheckingTransform => true
  | .setLimits => true
  | .setQuota => true
  | .queryLogAdd .QUERY_START => true
  | .insertCnchQueryMetric .QUERY_START => true
  | _ => false

/-- Events performed by the bodies of the two finalization callbacks. -/
def Event.isFinalizationEvent : Event → Bool
  | .finalizeWriteInQueryCache => true
  | .finishTransaction _ => true
  | .getInfo _ => true
  | .quotaUsed .ERRORS => true
  | .insertCnchQueryMetric .QUERY_FINISH => true
  | .insertCnchQueryMetric .EXCEPTION_WHILE_PROCESSING => true
  | .queryLogAdd .QUERY_FINISH => true
  | .queryLogAdd .EXCEPTION_WHILE_PROCESSING => true
  | .spanLogAdd .QUERY_FINISH => true
  | .updateAsyncQueryStatus _ => true
  | .tryCancelPlanSegmentGroup _ => true
  | .finishPlanSegments _ => true
  | .updateSegmentInstanceStatus _ => true
  | .waitUntilFinish => true
  | _ => false

/-- The invocation of one of the two finalization callbacks. -/
def Event.isCallbackInvocation : Event → Bool
  | .finishCallbackInvoked => true
  | .exceptionCallbackInvoked => true
  | _ => false

/-- Events that bind a transaction to the statement. -/
def Event.isTransactionAttach : Event → Bool
  | .createTransaction _ _ => true
  | .setCurrentTransaction _ => true
  | _ => false

/-- Every event a computation performs, from any context, satisfies `P`. -/
structure OnlyEmits {α : Type} (P : Event → Prop) (m : Exec α) : Prop where
  holds : ∀ c, ∀ e ∈ (m c).events, P e

/-- Every value a computation returns, from any context, satisfies `Q`. -/
structure Returns {α : Type} (Q : α → Prop) (m : Exec α) : Prop where
  holds : ∀ c a, (m c).result = .ok a → Q a

/-- In no run of the computation is the pipeline both substituted from the cache and given a
cache writer. -/
structure NeverBoth {α : Type} (m : Exec α) : Prop where
  holds : ∀ c, ¬ (Event.readFromQueryCache ∈ (m c).events
    ∧ Event.writeResultIntoQueryCache ∈ (m c).events)

/-- A cache read step substitutes the pipeline only in runs that return with the flag
`read_result_from_query_cache` set. -/
structure FlagTracksRead (m : Exec CacheRead) : Prop where
  holds : ∀ c cr, (m c).result = .ok cr → cr.read_result_from_query_cache = false →
    Event.readFromQueryCache ∉ (m c).events

/-- The computation keeps a property of the context, whether it returns or throws. -/
structure Preserves {α : Type} (I : Context → Prop) (m : Exec α) : Prop where
  holds : ∀ c, I c → I (m c).context

/-- The context has the given bound transaction and server type. -/
def Bound (txn : Option Transaction) (st : ServerType) (c : Context) : Prop :=
  c.current_transaction = txn ∧ c.server_type = st

/-- Settings with every switch off and every number zero. -/
def Settings.allOff : Settings :=
  { use_query_cache := false, enable_reads_from_query_cache := false,
    enable_writes_to_query_cache := false, enable_transactional_query_cache := false,
    query_cache_store_results_of_queries_with_nondeterministic_functions := false,
    query_cache_min_query_runs := 0, query_cache_share_between_users := false,
    query_cache_compress_entries := false, enable_auto_query_forwarding := false,
    enable_query_queue := false, enable_optimizer := false, enable_optimizer_fallback := false,
    distributed_perfect_shard := false, fallback_perfect_shard := false,
    enable_distributed_stages := false, enable_query_level_profiling := false,
    log_queries := false, log_queries_min_type := .QUERY_START,
    log_queries_min_query_duration_ms := 0, log_processors_profiles := false,
    calculate_text_stack_trace := false, enable_global_with_statement := false,
    output_format_enable_streaming := false, operator_profile_receive_timeout := 0,
    distributed_product_mode_global := false, max_query_size := 0, max_ast_depth := 0,
    max_ast_elements := 0 }

/-- A context on a `cnch_server` with no session, no transaction, no quota and no cache. -/
def Context.server : Context :=
  { server_type := .cnch_server, settings := Settings.allOff, has_session_context := false,
    session_is_self := false, session_transaction := none, session_statements := [],
    current_transaction := none, query_kind := .INITIAL_QUERY, current_query_id := "q",
    user_name := "u", current_database := "d", async_query_id := "", has_quota := false,
    has_query_log := false, span_log_enabled := false, vw_customized_settings := none,
    current_worker_group := none, has_query_parameters := false, process_list_element := none,
    query_cache := none }

/-- A pipeline with one output stream. -/
def QueryPipeline.oneStream : QueryPipeline :=
  { QueryPipeline.fresh with initialized := true, num_streams := 1 }

/-- Collaborators that all succeed: a SELECT is parsed, no routing target is resolved, the
interpreter is a plain one and returns a one-stream pipeline. -/
def Env.nominal : Env :=
  { parseQuery := .ok (.select { settings := none }),
    tryGetVirtualWarehouseName := none,
    commitQuery := .ok (),
    session_transaction_after_commit := none,
    getTargetServer := .ok { host := "", rpc_port := 0, tcp_port := 0 },
    isLocalServer := true,
    initializeExternalTablesIfSet := .ok (),
    executeQueryByProxy := .ok QueryPipeline.oneStream,
    interpreterSetQuery := .ok (),
    isReadOnlyTransaction := fun q => q.isSelectLike,
    createTransaction := .ok 7,
    getTable := .ok .StorageCnchMergeTree,
    createWorkerTransaction := .ok 9,
    trySetVirtualWarehouseAndWorkerGroup := .ok none,
    enqueue := .QueueSuccess,
    current_vw_worker_group := none,
    replaceQueryParameters := .ok (),
    normalizeAST := .ok (),
    checkASTSizeLimits := .ok (),
    processListInsert := .ok { is_killed := false },
    prepareInputStorage := .ok (),
    interpreterFactoryGet :=
      .ok { is_select_query_use_optimizer := false, is_insert_query := false,
            ignore_quota := false, ignore_limits := false },
    quotaUsed := fun _ => .ok (),
    quotaCheckExceeded := .ok (),
    execute := .ok { BlockIO.fresh with pipeline := QueryPipeline.oneStream },
    retryInterpreterFactoryGet :=
      .ok { is_select_query_use_optimizer := false, is_insert_query := false,
            ignore_quota := false, ignore_limits := false },
    retryExecute := .ok { BlockIO.fresh with pipeline := QueryPipeline.oneStream },
    minTS := 0,
    getMaxUpdateTime := .ok 1,
    astContainsNonDeterministicFunctions := fun _ => false,
    expires_at := 100,
    has_coordinator := false,
    isAmbiguosError := fun _ => false,
    waitUntilFinish := (.other 0, ""),
    drive := .ok (),
    isAsyncMode := false,
    query_duration_ms := 0,
    result_rows := [] }

/-- A server context with a query cache that never saw a run, cache writes enabled and the
given minimum run threshold. -/
def Context.withQueryCache (threshold : Nat) : Context :=
  { Context.server with
      settings := { Settings.allOff with
                      use_query_cache := true, enable_writes_to_query_cache := true,
                      query_cache_min_query_runs := threshold },
      query_cache := some { entries := [], times_executed := [] } }

/-- The outcome of a cache read step that did not serve the result from the cache. -/
def CacheRead.notServed : CacheRead :=
  { res := { BlockIO.fresh with pipeline := QueryPipeline.oneStream },
    read_result_from_query_cache := false,
    source_update_time_for_query_cache := 0 }

/-- An explicit transaction opened by an interactive session. -/
def Transaction.session : Transaction :=
  { kind := .CnchExplicitTransaction, id := 3, read_only := false, primary_txn_id := 3 }

/-- A server context inside an interactive transaction session: a distinct session context
holds an open explicit transaction. -/
def Context.interactive : Context :=
  { Context.server with
      has_session_context := true, session_is_self := false,
      session_transaction := some Transaction.session }

/-- The command of `ALTER TABLE t DROP PARTITION p` (no DETACH). -/
def ASTAlterCommand.dropPartition : ASTAlterCommand :=
  { type := .DROP_PARTITION, attach_from_detached := false, parts := false, detach := false }

/-- The collaborators of `Env.nominal`, except that the router resolves another server. -/
def Env.remote : Env :=
  { Env.nominal with
      getTargetServer := .ok { host := "server-2", rpc_port := 9010, tcp_port := 9000 },
      isLocalServer := false }

/-- A server context with automatic query forwarding enabled. -/
def Context.forwarding : Context :=
  { Context.server with
      settings := { Settings.allOff with enable_auto_query_forwarding := true } }

/-- The arguments of a client statement given as text, run to the final stage. -/
def Input.client : Input :=
  { input_ast := none, internal := false, stage := .Complete, has_istr := false }

/-- A context on a `cnch_worker` receiving an initial query. -/
def Context.worker : Context := { Context.server with server_type := .cnch_worker }

/-- The statement `INSERT INTO t VALUES`, without inline data. -/
def AST.insertIntoT : AST :=
  .insert { database_name := "", table_name := "t", has_select := false, has_data := false,
            watch := false, settings_ast := none }

/-- The collaborators of `Env.nominal`, except that the statement parsed is `INSERT INTO t`. -/
def Env.workerInsert : Env := { Env.nominal with parseQuery := .ok AST.insertIntoT }

/-- The worker transaction created under `Env.workerInsert`. -/
def Transaction.worker : Transaction :=
  { kind := .CnchWorkerTransaction, id := 9, read_only := false, primary_txn_id := 0 }

/-- An exception used as a sample failure. -/
def Exception.sample : Exception := { code := .other 1, message := "failure" }

/-- A second, different sample failure. -/
def Exception.sampleRetry : Exception := { code := .other 2, message := "retry failure" }

/-- The collaborators of `Env.nominal`, except that `interpreter->execute()` throws. -/
def Env.executeFails : Env := { Env.nominal with execute := .error Exception.sample }

/-- The collaborators of `Env.nominal`, except that driving the result fails, a distributed
coordinator exists, every error code is ambiguous and the coordinator reports another root
cause. -/
def Env.ambiguousFailure : Env :=
  { Env.nominal with
      drive := .error Exception.sample, has_coordinator := true,
      isAmbiguosError := fun _ => true, waitUntilFinish := (.other 5, "root cause") }

/-- An exception callback captured for a SELECT with query logging off and no quota. -/
def ExceptionCallback.sample : ExceptionCallback :=
  { ast := .select { settings := none }, query_id := "q", log_queries := false,
    log_queries_min_type := .QUERY_START, log_queries_min_query_duration_ms := 0,
    quota := false }

/-- A result handle with a one-stream pipeline and the sample exception callback attached. -/
def BlockIO.withExceptionCallback : BlockIO :=
  { BlockIO.fresh with
      pipeline := QueryPipeline.oneStream, exception_callback := some ExceptionCallback.sample }

/-- The creation of a cache reader. -/
def Event.isCreateReader : Event → Bool
  | .createReader _ _ => true
  | _ => false

/-- The recording of a run against a cache key. -/
def Event.isRecordQueryRun : Event → Bool
  | .recordQueryRun _ => true
  | _ => false

/-- A context with a query cache and cache writes enabled, but `use_query_cache` off. -/
def Context.cacheUnused : Context :=
  { Context.server with
      settings := { Settings.allOff with enable_writes_to_query_cache := true },
      query_cache := some { entries := [], times_executed := [] } }

/-- A server context with a query cache, `use_query_cache` on and results shared between
users. -/
def Context.sharedCache : Context :=
  { Context.server with
      settings := { Settings.allOff with
                      use_query_cache := true, enable_reads_from_query_cache := true,
                      enable_writes_to_query_cache := true,
                      query_cache_share_between_users := true },
      query_cache := some { entries := [], times_executed := [] } }

/-- A one-stream pipeline over table `d.t` that reports all its used storage ids. -/
def QueryPipeline.overT : QueryPipeline :=
  { QueryPipeline.oneStream with
      has_all_used_storage_ids := true,
      used_storage_ids := [{ database_name := "d", table_name := "t" }] }

/-- The charge `quota->used(Quota::ERRORS, 1, false)`. -/
def Event.isErrorQuotaCharge : Event → Bool
  | .quotaUsed .ERRORS => true
  | _ => false

/-- The ERRORS quota is charged at most once by the computation, and not at all when it
returns normally. -/
structure ChargedOnFailureOnly {α : Type} (m : Exec α) : Prop where
  holds : ∀ c, (m c).events.countP Event.isErrorQuotaCharge ≤ 1
    ∧ ∀ a, (m c).result = .ok a → (m c).events.countP Event.isErrorQuotaCharge = 0

/-- A server context whose user has a quota. -/
def Context.withQuota : Context := { Context.server with has_quota := true }

/-- The collaborators of `Env.nominal`, except that the interpreter ignores quota and
driving its result fails. -/
def Env.ignoresQuotaAndFails : Env :=
  { Env.nominal with
      interpreterFactoryGet :=
        .ok { is_select_query_use_optimizer := false, is_insert_query := false,
              ignore_quota := true, ignore_limits := false },
      drive := .error Exception.sample }

/-- A record of type `EXCEPTION_WHILE_PROCESSING` in the query log, query metrics or span
log. -/
def Event.isWhileProcessingRecord : Event → Bool
  | .queryLogAdd .EXCEPTION_WHILE_PROCESSING => true
  | .insertCnchQueryMetric .EXCEPTION_WHILE_PROCESSING => true
  | .spanLogAdd .EXCEPTION_WHILE_PROCESSING => true
  | _ => false

/-- A server context with query logging on and a query log. -/
def Context.logging : Context :=
  { Context.server with
      settings := { Settings.allOff with log_queries := true }, has_query_log := true }

/-- The collaborators of `Env.nominal`, except that a worker group is bound to the statement
and the query queue answers with a timeout. -/
def Env.queueTimesOut : Env :=
  { Env.nominal with
      trySetVirtualWarehouseAndWorkerGroup := .ok (some { vw_name := "vw", id := "wg" }),
      enqueue := .QueueTimeOut }

/-- The collaborators of `Env.nominal`, except that the transaction coordinator fails to
create a transaction. -/
def Env.createTransactionFails : Env :=
  { Env.nominal with createTransaction := .error Exception.sample }

/-- A server context with the query queue, query logging and a quota. -/
def Context.queueing : Context :=
  { Context.server with
      settings := { Settings.allOff with log_queries := true, enable_query_queue := true },
      has_query_log := true, has_quota := true }

/-- The server transaction created under `Env.nominal` for a SELECT. -/
def Transaction.server : Transaction :=
  { kind := .CnchServerTransaction, id := 7, read_only := true, primary_txn_id := 0 }

/-- The collaborators of `Env.nominal`, except that the interpreter returns a pipeline over
table `d.t`, whose last update time is `t`, and the result has two rows. -/
def Env.overT (t : TxnTimestamp) : Env :=
  { Env.nominal with
      execute := .ok { BlockIO.fresh with pipeline := QueryPipeline.overT },
      getMaxUpdateTime := .ok t, result_rows := [1, 2] }

/-- A server context with an empty query cache, cache reads and writes enabled in
transactional-cache mode, and a run threshold of zero. -/
def Context.cached : Context :=
  { Context.server with
      settings := { Settings.allOff with
                      use_query_cache := true, enable_reads_from_query_cache := true,
                      enable_writes_to_query_cache := true,
                      enable_transactional_query_cache := true,
                      query_cache_min_query_runs := 0 },
      query_cache := some { entries := [], times_executed := [] } }

/-- The context of the next statement of the same user: as `Context.cached`, with the query
cache in the state a previous run left it. -/
def Context.cachedAfter (previous : Outcome Unit) : Context :=
  { Context.cached with query_cache := previous.context.query_cache }

/-- The variable `session_txn` of `prepareCnchTransaction`: the explicit transaction of the
session when the query runs in an interactive session. -/
def sessionExplicitTransaction (context : Context) : Option Transaction :=
  if isQueryInInteractiveSession context then
    asCnchExplicitTransaction context.session_transaction
  else none

/-- The creation of a transaction by the coordinator. -/
def Event.isCreateTransaction : Event → Bool
  | .createTransaction _ _ => true
  | _ => false

/-- A server context with a worker group bound. -/
def Context.withWorkerGroup : Context :=
  { Context.server with current_worker_group := some { vw_name := "vw", id := "wg" } }

/-- A request for cancellation or cleanup of the plan segments of a query. -/
def Event.isPlanSegmentCleanup : Event → Bool
  | .tryCancelPlanSegmentGroup _ => true
  | .finishPlanSegments _ => true
  | _ => false

/-- A server context with query-level profiling on. -/
def Context.profiling : Context :=
  { Context.server with
      settings := { Settings.allOff with enable_query_level_profiling := true } }

/-- The collaborators of `Env.nominal`, except that driving the result fails. -/
def Env.driveFails : Env := { Env.nominal with drive := .error Exception.sample }

/-- Events of the process-list registration step. -/
def Event.isRegisterEvent : Event → Bool
  | .replaceQueryParameters => true
  | .checkASTSizeLimits => true
  | .processListInsert => true
  | _ => false

/-- Events of the construction of the interpreter. -/
def Event.isBuildEvent : Event → Bool
  | .initializeExternalTablesIfSet => true
  | .interpreterFactoryGet false => true
  | _ => false

/-- Events of the quota charge before execution. -/
def Event.isQuotaChargeEvent : Event → Bool
  | .quotaUsed .QUERY_SELECTS => true
  | .quotaUsed .QUERY_INSERTS => true
  | .quotaUsed .QUERIES => true
  | .quotaCheckExceeded _ => true
  | _ => false

/-- Events of `interpreter->execute()` and its fallback handler. -/
def Event.isInterpreterEvent : Event → Bool
  | .interpreterExecute _ => true
  | .turnOffOptimizer => true
  | .turnOffPerfectShard => true
  | .interpreterFactoryGet true => true
  | _ => false

/-- Events of the cache read step. -/
def Event.isCacheReadEvent : Event → Bool
  | .getMaxUpdateTime => true
  | .createReader _ _ => true
  | .readFromQueryCache => true
  | _ => false

/-- Events of the attachment of limits and quota to the result. -/
def Event.isLimitEvent : Event → Bool
  | .addLimitsCheckingTransform => true
  | .setLimits => true
  | .setQuota => true
  | _ => false

/-- Events of the cache write step. -/
def Event.isCacheWriteEvent : Event → Bool
  | .recordQueryRun _ => true
  | .createWriter _ _ => true
  | .writeResultIntoQueryCache => true
  | _ => false

/-- Events of the record of the query start. -/
def Event.isLogStartEvent : Event → Bool
  | .queryLogAdd .QUERY_START => true
  | .insertCnchQueryMetric .QUERY_START => true
  | _ => false

/-- The attachment of row and byte ceilings to the result: a `LimitsCheckingTransform` on a
pipeline, `setLimits` on a pull stream. -/
def Event.isLimitAttachment : Event → Bool
  | .addLimitsCheckingTransform => true
  | .setLimits => true
  | _ => false

/-- The arguments of a statement given as text and run to an intermediate stage. -/
def Input.intermediate : Input :=
  { input_ast := none, internal := false, stage := .WithMergeableState, has_istr := false }

/-- The execution of a retry interpreter: `retry_interpreter->execute()`. -/
def Event.isRetryExecution : Event → Bool
  | .interpreterExecute true => true
  | _ => false

/-- The computation performs at most one event of the class `p`. -/
structure EmitsAtMostOnce {α : Type} (p : Event → Bool) (m : Exec α) : Prop where
  holds : ∀ c, (m c).events.countP p ≤ 1

/-- Events performed outside the second `try` block of `executeQueryImpl`: by the parser, the
implicit commit, the routing part, the transaction attachment and the before-start handler. -/
def Event.isOutsideLocalExecution (e : Event) : Bool :=
  e == .parseQuery || e == .implicitCommit || e.isRoutingEvent || e.isAttachEvent
    || e.isBeforeStartEvent

/-- The exception is one thrown by a collaborator that `executeQueryImpl` calls between the
process-list registration and the check for a killed query. -/
def Env.throwsBeforeKillCheck (env : Env) (x : Exception) : Prop :=
  env.initializeExternalTablesIfSet = .error x ∨ env.prepareInputStorage = .error x
    ∨ env.interpreterFactoryGet = .error x ∨ (∃ t, env.quotaUsed t = .error x)
    ∨ env.quotaCheckExceeded = .error x ∨ env.execute = .error x
    ∨ env.retryInterpreterFactoryGet = .error x ∨ env.retryExecute = .error x
    ∨ env.getMaxUpdateTime = .error x

/-- The exception reports the cancellation of the query, or was thrown by a collaborator
called between the process-list registration and the check for a killed query. -/
def Env.cancelledOrThrownBefore (env : Env) (x : Exception) : Prop :=
  x.code = .QUERY_WAS_CANCELLED ∨ env.throwsBeforeKillCheck x

/-- Every exception the computation throws, from any context, satisfies `Q`. -/
structure Throws {α : Type} (Q : Exception → Prop) (m : Exec α) : Prop where
  holds : ∀ c x, (m c).result = .error x → Q x

/-- The computation never returns: from any context it throws an exception satisfying `Q`. -/
structure FailsWith {α : Type} (Q : Exception → Prop) (m : Exec α) : Prop where
  holds : ∀ c, ∃ x, (m c).result = .error x ∧ Q x

/-- The collaborators of `Env.nominal`, except that the process-list entry of the query is
already killed when it is registered. -/
def Env.killed : Env := { Env.nominal with processListInsert := .ok { is_killed := true } }

/-- The SETTINGS clause `interpretSettings` looks at: that of a SELECT, of the last
first-order child of a UNION when it is a plain SELECT, of a statement deriving from
`ASTQueryWithOutput`, or of an INSERT. -/
def AST.embeddedSettings : AST → Option SettingsChanges
  | .select q => q.settings
  | .selectWithUnion list_of_selects _ =>
      match list_of_selects.getLast? with
      | some (.select last_select) => last_select.settings
      | _ => none
  | .insert q => q.settings_ast
  | q =>
      match q.queryWithOutputSettings with
      | some (some s) => some s
      | _ => none

/-- The function `executeQuery(const String &, ASTPtr, ContextMutablePtr, bool,
QueryProcessingStage::Enum, bool)`, the overload taking a pre-parsed statement (the
`null_format` flag of the result is not modelled). -/
def executeQueryWithAST (env : Env) (ast : AST) (internal : Bool)
    (stage : QueryProcessingStage) : Exec BlockIO := do
  let r ← executeQueryImpl env
    { input_ast := some ast, internal := internal, stage := stage, has_istr := false }
  return r.2

/-- The application of a SETTINGS clause to the context. -/
def Event.isInterpreterSetQuery : Event → Bool
  | .interpreterSetQuery _ => true
  | _ => false

/-- Events of the routing decision. -/
def Event.isRouteEvent : Event → Bool
  | .getTargetServer => true
  | .initializeExternalTablesIfSet => true
  | .executeQueryByProxy _ => true
  | _ => false

/-- The statement `SELECT ... SETTINGS log_queries = 1`. -/
def AST.selectWithSettings : AST :=
  .select { settings := some [{ name := .log_queries, value := 1 }] }

/-- The collaborators of `Env.nominal`, except that the statement parsed is
`SELECT ... SETTINGS log_queries = 1`. -/
def Env.selectWithSettings : Env := { Env.nominal with parseQuery := .ok AST.selectWithSettings }

/-- The call `query_pipeline->finalizeWriteInQueryCache()`. -/
def Event.isFinalizeWrite : Event → Bool
  | .finalizeWriteInQueryCache => true
  | _ => false

/-- The statement `SELECT ... SETTINGS log_queries = 1 UNION ALL SELECT ...`: the SETTINGS
clause is on the first child of the UNION, the last child is a plain SELECT without one. -/
def AST.unionWithSettingsOnFirst : AST :=
  .selectWithUnion
    [.select { settings := some [{ name := .log_queries, value := 1 }] },
     .select { settings := none }]
    none

/-- The collaborators of `Env.nominal`, except that the statement parsed is
`AST.unionWithSettingsOnFirst`. -/
def Env.unionWithSettingsOnFirst : Env :=
  { Env.nominal with parseQuery := .ok AST.unionWithSettingsOnFirst }

/-! ## Theorems -/

set_option linter.unusedTactic false
set_option linter.unreachableTactic false
set_option linter.unusedVariables false

/-! ### Events of a computation -/

theorem OnlyEmits.mono {α : Type} {P Q : Event → Prop} {m : Exec α}
    (h : OnlyEmits P m) (hPQ : ∀ e, P e → Q e) : OnlyEmits Q m :=
  ⟨fun c e he => hPQ e (h.holds c e he)⟩

theorem onlyEmits_pure {α : Type} (P : Event → Prop) (a : α) :
    OnlyEmits P (pure a : Exec α) := by
  refine ⟨fun c e he => ?_⟩
  simp [pure, Exec.pure] at he

theorem onlyEmits_emit {P : Event → Prop} {e : Event} (h : P e) : OnlyEmits P (emit e) := by
  refine ⟨fun c e2 he => ?_⟩
  simp [emit] at he
  subst he
  exact h

theorem onlyEmits_emitWhen {P : Event → Prop} {e : Event} (cond : Bool) (h : P e) :
    OnlyEmits P (emitWhen cond e) := by
  unfold emitWhen
  split
  · exact onlyEmits_emit h
  · exact onlyEmits_pure _ _

theorem onlyEmits_throwException {α : Type} (P : Event → Prop) (x : Exception) :
    OnlyEmits P (throwException x : Exec α) := by
  refine ⟨fun c e he => ?_⟩
  simp [throwException] at he

theorem onlyEmits_ofExcept {α : Type} (P : Event → Prop) (r : Except Exception α) :
    OnlyEmits P (ofExcept r) := by
  refine ⟨fun c e he => ?_⟩
  simp [ofExcept] at he

theorem onlyEmits_getContext (P : Event → Prop) : OnlyEmits P getContext := by
  refine ⟨fun c e he => ?_⟩
  simp [getContext] at he

theorem onlyEmits_modifyContext (P : Event → Prop) (f : Context → Context) :
    OnlyEmits P (modifyContext f) := by
  refine ⟨fun c e he => ?_⟩
  simp [modifyContext] at he

theorem onlyEmits_setSetting (P : Event → Prop) (n : SettingName) (v : Nat) :
    OnlyEmits P (setSetting n v) :=
  onlyEmits_modifyContext P _

theorem onlyEmits_bind {α β : Type} {P : Event → Prop} {m : Exec α} {f : α → Exec β}
    (hm : OnlyEmits P m) (hf : ∀ a, OnlyEmits P (f a)) : OnlyEmits P (m >>= f) := by
  refine ⟨fun c e he => ?_⟩
  simp only [bind, Exec.bind] at he
  cases hr : (m c).result with
  | ok a =>
      rw [hr] at he
      simp only [List.mem_append] at he
      rcases he with he | he
      · exact hm.holds c e he
      · exact (hf a).holds _ e he
  | error x =>
      rw [hr] at he
      exact hm.holds c e he

theorem onlyEmits_tryCatchRethrow {α : Type} {P : Event → Prop} {m : Exec α} {h : Exec Unit}
    (hm : OnlyEmits P m) (hh : OnlyEmits P h) : OnlyEmits P (tryCatchRethrow m h) := by
  refine ⟨fun c e he => ?_⟩
  simp only [tryCatchRethrow] at he
  cases hr : (m c).result with
  | ok a =>
      rw [hr] at he
      exact hm.holds c e he
  | error x =>
      rw [hr] at he
      simp only [List.mem_append] at he
      rcases he with he | he
      · exact hm.holds c e he
      · exact hh.holds _ e he

theorem onlyEmits_tryCatch {α : Type} {P : Event → Prop} {m : Exec α}
    {h : Exception → Exec α}
    (hm : OnlyEmits P m) (hh : ∀ x, OnlyEmits P (h x)) : OnlyEmits P (tryCatch m h) := by
  refine ⟨fun c e he => ?_⟩
  simp only [tryCatch] at he
  cases hr : (m c).result with
  | ok a =>
      rw [hr] at he
      exact hm.holds c e he
  | error x =>
      rw [hr] at he
      simp only [List.mem_append] at he
      rcases he with he | he
      · exact hm.holds c e he
      · exact (hh x).holds _ e he

/-! ### Events of each step -/

theorem onlyEmits_applyVWCustomizedSettings_of {P : Event → Prop} (env : Env)
    (h : ∀ n, P (.overwriteDefaultSettings n)) :
    OnlyEmits P (applyVWCustomizedSettings env) := by
  unfold applyVWCustomizedSettings
  repeat' first
    | intro _
    | exact onlyEmits_pure _ _
    | exact onlyEmits_getContext _
    | exact onlyEmits_modifyContext _ _
    | exact onlyEmits_ofExcept _ _
    | exact onlyEmits_emit (h _)
    | apply onlyEmits_bind
    | split

theorem onlyEmits_applyVWCustomizedSettings {P : Event → Prop} (env : Env)
    (h : ∀ e, e.isRoutingEvent = true → P e) :
    OnlyEmits P (applyVWCustomizedSettings env) :=
  onlyEmits_applyVWCustomizedSettings_of env (fun _ => h _ rfl)

theorem onlyEmits_executeForCurrentContext_of {P : Event → Prop} (env : Env)
    (changes : SettingsChanges) (h : ∀ ch, P (.interpreterSetQuery ch)) :
    OnlyEmits P (executeForCurrentContext env changes) := by
  unfold executeForCurrentContext
  repeat' first
    | intro _
    | exact onlyEmits_pure _ _
    | exact onlyEmits_getContext _
    | exact onlyEmits_modifyContext _ _
    | exact onlyEmits_ofExcept _ _
    | exact onlyEmits_emit (h _)
    | apply onlyEmits_bind
    | split

theorem onlyEmits_interpretSettings_of {P : Event → Prop} (env : Env) (ast : AST)
    (h : ∀ ch, P (.interpreterSetQuery ch)) :
    OnlyEmits P (interpretSettings env ast) := by
  unfold interpretSettings
  repeat' first
    | intro _
    | exact onlyEmits_pure _ _
    | exact onlyEmits_getContext _
    | exact onlyEmits_modifyContext _ _
    | exact onlyEmits_ofExcept _ _
    | exact onlyEmits_emit (h _)
    | exact onlyEmits_executeForCurrentContext_of env _ h
    | apply onlyEmits_bind
    | split

theorem onlyEmits_interpretSettings {P : Event → Prop} (env : Env) (ast : AST)
    (h : ∀ e, e.isRoutingEvent = true → P e) :
    OnlyEmits P (interpretSettings env ast) :=
  onlyEmits_interpretSettings_of env ast (fun _ => h _ rfl)

theorem onlyEmits_executeQueryByProxy {P : Event → Prop} (env : Env) (host_ports : HostWithPorts) (res : BlockIO)
    (h : ∀ e, e.isRoutingEvent = true → P e) :
    OnlyEmits P (executeQueryByProxy env host_ports res) := by
  unfold executeQueryByProxy
  repeat' first
    | intro _
    | exact onlyEmits_pure _ _
    | exact onlyEmits_getContext _
    | exact onlyEmits_modifyContext _ _
    | exact onlyEmits_setSetting _ _ _
    | exact onlyEmits_ofExcept _ _
    | exact onlyEmits_throwException _ _
    | exact onlyEmits_emit (h _ rfl)
    | exact onlyEmits_emitWhen _ (h _ rfl)
    | apply onlyEmits_bind
    | apply onlyEmits_tryCatch
    | dsimp only
    | split

theorem onlyEmits_routeQuery {P : Event → Prop} (env : Env) (res : BlockIO)
    (h : ∀ e, e.isRoutingEvent = true → P e) :
    OnlyEmits P (routeQuery env res) := by
  unfold routeQuery
  repeat' first
    | intro _
    | exact onlyEmits_pure _ _
    | exact onlyEmits_getContext _
    | exact onlyEmits_modifyContext _ _
    | exact onlyEmits_setSetting _ _ _
    | exact onlyEmits_ofExcept _ _
    | exact onlyEmits_throwException _ _
    | exact onlyEmits_emit (h _ rfl)
    | exact onlyEmits_emitWhen _ (h _ rfl)
    | exact onlyEmits_executeQueryByProxy env _ _ h
    | apply onlyEmits_bind
    | apply onlyEmits_tryCatch
    | dsimp only
    | split

theorem onlyEmits_finish_current_transaction {P : Event → Prop}
    (h : ∀ e, e.isBeforeStartEvent = true → P e) :
    OnlyEmits P (finish_current_transaction) := by
  unfold finish_current_transaction
  repeat' first
    | intro _
    | exact onlyEmits_pure _ _
    | exact onlyEmits_getContext _
    | exact onlyEmits_modifyContext _ _
    | exact onlyEmits_setSetting _ _ _
    | exact onlyEmits_ofExcept _ _
    | exact onlyEmits_throwException _ _
    | exact onlyEmits_emit (h _ rfl)
    | exact onlyEmits_emitWhen _ (h _ rfl)
    | apply onlyEmits_bind
    | apply onlyEmits_tryCatch
    | dsimp only
    | split

theorem onlyEmits_onExceptionBeforeStart {P : Event → Prop}
    (h : ∀ e, e.isBeforeStartEvent = true → P e) :
    OnlyEmits P (onExceptionBeforeStart) := by
  unfold onExceptionBeforeStart
  repeat' first
    | intro _
    | exact onlyEmits_pure _ _
    | exact onlyEmits_getContext _
    | exact onlyEmits_modifyContext _ _
    | exact onlyEmits_setSetting _ _ _
    | exact onlyEmits_ofExcept _ _
    | exact onlyEmits_throwException _ _
    | exact onlyEmits_emit (h _ rfl)
    | exact onlyEmits_emitWhen _ (h _ rfl)
    | apply onlyEmits_bind
    | apply onlyEmits_tryCatch
    | dsimp only
    | split

theorem onlyEmits_beforeStartHandler {P : Event → Prop} (inp : Input)
    (h : ∀ e, e.isBeforeStartEvent = true → P e) :
    OnlyEmits P (beforeStartHandler inp) := by
  unfold beforeStartHandler
  repeat' first
    | intro _
    | exact onlyEmits_pure _ _
    | exact onlyEmits_getContext _
    | exact onlyEmits_modifyContext _ _
    | exact onlyEmits_setSetting _ _ _
    | exact onlyEmits_ofExcept _ _
    | exact onlyEmits_throwException _ _
    | exact onlyEmits_emit (h _ rfl)
    | exact onlyEmits_emitWhen _ (h _ rfl)
    | exact onlyEmits_finish_current_transaction h
    | exact onlyEmits_onExceptionBeforeStart h
    | apply onlyEmits_bind
    | apply onlyEmits_tryCatch
    | dsimp only
    | split

theorem onlyEmits_prepareCnchTransaction {P : Event → Prop} (env : Env) (ast : AST)
    (h : ∀ e, e.isAttachEvent = true → P e) :
    OnlyEmits P (prepareCnchTransaction env ast) := by
  unfold prepareCnchTransaction
  repeat' first
    | intro _
    | exact onlyEmits_pure _ _
    | exact onlyEmits_getContext _
    | exact onlyEmits_modifyContext _ _
    | exact onlyEmits_setSetting _ _ _
    | exact onlyEmits_ofExcept _ _
    | exact onlyEmits_throwException _ _
    | exact onlyEmits_emit (h _ rfl)
    | exact onlyEmits_emitWhen _ (h _ rfl)
    | apply onlyEmits_bind
    | apply onlyEmits_tryCatch
    | dsimp only
    | split

theorem onlyEmits_tryQueueQuery {P : Event → Prop} (env : Env) (ast_type : ASTType)
    (h : ∀ e, e.isAttachEvent = true → P e) :
    OnlyEmits P (tryQueueQuery env ast_type) := by
  unfold tryQueueQuery
  repeat' first
    | intro _
    | exact onlyEmits_pure _ _
    | exact onlyEmits_getContext _
    | exact onlyEmits_modifyContext _ _
    | exact onlyEmits_setSetting _ _ _
    | exact onlyEmits_ofExcept _ _
    | exact onlyEmits_throwException _ _
    | exact onlyEmits_emit (h _ rfl)
    | exact onlyEmits_emitWhen _ (h _ rfl)
    | apply onlyEmits_bind
    | apply onlyEmits_tryCatch
    | dsimp only
    | split

theorem onlyEmits_attachTransaction {P : Event → Prop} (env : Env) (inp : Input) (ast : AST)
    (h : ∀ e, e.isAttachEvent = true → P e) :
    OnlyEmits P (attachTransaction env inp ast) := by
  unfold attachTransaction admitWhenAttached admitQuery bindWorkerGroup
  repeat' first
    | intro _
    | exact onlyEmits_pure _ _
    | exact onlyEmits_getContext _
    | exact onlyEmits_modifyContext _ _
    | exact onlyEmits_ofExcept _ _
    | exact onlyEmits_emit (h _ rfl)
    | exact onlyEmits_prepareCnchTransaction env ast h
    | exact onlyEmits_tryQueueQuery env _ h
    | apply onlyEmits_bind
    | dsimp only
    | split

theorem onlyEmits_registerQuery {P : Event → Prop} (env : Env) (inp : Input) (ast : AST)
    (h : ∀ e, e.isExecutionEvent = true → P e) :
    OnlyEmits P (registerQuery env inp ast) := by
  unfold registerQuery
  repeat' first
    | intro _
    | exact onlyEmits_pure _ _
    | exact onlyEmits_getContext _
    | exact onlyEmits_modifyContext _ _
    | exact onlyEmits_setSetting _ _ _
    | exact onlyEmits_ofExcept _ _
    | exact onlyEmits_throwException _ _
    | exact onlyEmits_emit (h _ rfl)
    | exact onlyEmits_emitWhen _ (h _ rfl)
    | apply onlyEmits_bind
    | apply onlyEmits_tryCatch
    | dsimp only
    | split

theorem onlyEmits_buildInterpreter {P : Event → Prop} (env : Env) (inp : Input) (ast : AST)
    (h : ∀ e, e.isExecutionEvent = true → P e) :
    OnlyEmits P (buildInterpreter env inp ast) := by
  unfold buildInterpreter
  repeat' first
    | intro _
    | exact onlyEmits_pure _ _
    | exact onlyEmits_getContext _
    | exact onlyEmits_modifyContext _ _
    | exact onlyEmits_setSetting _ _ _
    | exact onlyEmits_ofExcept _ _
    | exact onlyEmits_throwException _ _
    | exact onlyEmits_emit (h _ rfl)
    | exact onlyEmits_emitWhen _ (h _ rfl)
    | apply onlyEmits_bind
    | apply onlyEmits_tryCatch
    | dsimp only
    | split

theorem onlyEmits_chargeQuota {P : Event → Prop} (env : Env) (ast : AST) (interpreter : Interpreter)
    (h : ∀ e, e.isExecutionEvent = true → P e) :
    OnlyEmits P (chargeQuota env ast interpreter) := by
  unfold chargeQuota
  repeat' first
    | intro _
    | exact onlyEmits_pure _ _
    | exact onlyEmits_getContext _
    | exact onlyEmits_modifyContext _ _
    | exact onlyEmits_setSetting _ _ _
    | exact onlyEmits_ofExcept _ _
    | exact onlyEmits_throwException _ _
    | exact onlyEmits_emit (h _ rfl)
    | exact onlyEmits_emitWhen _ (h _ rfl)
    | apply onlyEmits_bind
    | apply onlyEmits_tryCatch
    | dsimp only
    | split

theorem onlyEmits_turnOffOptimizer {P : Event → Prop}
    (h : ∀ e, e.isExecutionEvent = true → P e) :
    OnlyEmits P (turnOffOptimizer) := by
  unfold turnOffOptimizer
  repeat' first
    | intro _
    | exact onlyEmits_pure _ _
    | exact onlyEmits_getContext _
    | exact onlyEmits_modifyContext _ _
    | exact onlyEmits_setSetting _ _ _
    | exact onlyEmits_ofExcept _ _
    | exact onlyEmits_throwException _ _
    | exact onlyEmits_emit (h _ rfl)
    | exact onlyEmits_emitWhen _ (h _ rfl)
    | apply onlyEmits_bind
    | apply onlyEmits_tryCatch
    | dsimp only
    | split

theorem onlyEmits_turnOffPerfectShard {P : Event → Prop}
    (h : ∀ e, e.isExecutionEvent = true → P e) :
    OnlyEmits P (turnOffPerfectShard) := by
  unfold turnOffPerfectShard
  repeat' first
    | intro _
    | exact onlyEmits_pure _ _
    | exact onlyEmits_getContext _
    | exact onlyEmits_modifyContext _ _
    | exact onlyEmits_setSetting _ _ _
    | exact onlyEmits_ofExcept _ _
    | exact onlyEmits_throwException _ _
    | exact onlyEmits_emit (h _ rfl)
    | exact onlyEmits_emitWhen _ (h _ rfl)
    | apply onlyEmits_bind
    | apply onlyEmits_tryCatch
    | dsimp only
    | split

theorem onlyEmits_retryExecute {P : Event → Prop} (env : Env)
    (h : ∀ e, e.isExecutionEvent = true → P e) :
    OnlyEmits P (retryExecute env) := by
  unfold retryExecute
  repeat' first
    | intro _
    | exact onlyEmits_pure _ _
    | exact onlyEmits_getContext _
    | exact onlyEmits_modifyContext _ _
    | exact onlyEmits_setSetting _ _ _
    | exact onlyEmits_ofExcept _ _
    | exact onlyEmits_throwException _ _
    | exact onlyEmits_emit (h _ rfl)
    | exact onlyEmits_emitWhen _ (h _ rfl)
    | apply onlyEmits_bind
    | apply onlyEmits_tryCatch
    | dsimp only
    | split

theorem onlyEmits_executeFallback {P : Event → Prop} (env : Env) (interpreter : Interpreter) (x : Exception)
    (h : ∀ e, e.isExecutionEvent = true → P e) :
    OnlyEmits P (executeFallback env interpreter x) := by
  unfold executeFallback
  repeat' first
    | intro _
    | exact onlyEmits_pure _ _
    | exact onlyEmits_getContext _
    | exact onlyEmits_modifyContext _ _
    | exact onlyEmits_setSetting _ _ _
    | exact onlyEmits_ofExcept _ _
    | exact onlyEmits_throwException _ _
    | exact onlyEmits_emit (h _ rfl)
    | exact onlyEmits_emitWhen _ (h _ rfl)
    | exact onlyEmits_turnOffOptimizer h
    | exact onlyEmits_turnOffPerfectShard h
    | exact onlyEmits_retryExecute env h
    | apply onlyEmits_bind
    | apply onlyEmits_tryCatch
    | dsimp only
    | split

theorem onlyEmits_executeInterpreter {P : Event → Prop} (env : Env) (interpreter : Interpreter)
    (h : ∀ e, e.isExecutionEvent = true → P e) :
    OnlyEmits P (executeInterpreter env interpreter) := by
  unfold executeInterpreter
  repeat' first
    | intro _
    | exact onlyEmits_pure _ _
    | exact onlyEmits_getContext _
    | exact onlyEmits_modifyContext _ _
    | exact onlyEmits_setSetting _ _ _
    | exact onlyEmits_ofExcept _ _
    | exact onlyEmits_throwException _ _
    | exact onlyEmits_emit (h _ rfl)
    | exact onlyEmits_emitWhen _ (h _ rfl)
    | exact onlyEmits_executeFallback env interpreter _ h
    | apply onlyEmits_bind
    | apply onlyEmits_tryCatch
    | dsimp only
    | split

theorem onlyEmits_checkKilled {P : Event → Prop} (entry : Option QueryStatus) (res : BlockIO)
    (h : ∀ e, e.isExecutionEvent = true → P e) :
    OnlyEmits P (checkKilled entry res) := by
  unfold checkKilled
  repeat' first
    | intro _
    | exact onlyEmits_pure _ _
    | exact onlyEmits_getContext _
    | exact onlyEmits_modifyContext _ _
    | exact onlyEmits_setSetting _ _ _
    | exact onlyEmits_ofExcept _ _
    | exact onlyEmits_throwException _ _
    | exact onlyEmits_emit (h _ rfl)
    | exact onlyEmits_emitWhen _ (h _ rfl)
    | apply onlyEmits_bind
    | apply onlyEmits_tryCatch
    | dsimp only
    | split

theorem onlyEmits_attachLimits {P : Event → Prop} (inp : Input) (interpreter : Interpreter) (res : BlockIO)
    (h : ∀ e, e.isExecutionEvent = true → P e) :
    OnlyEmits P (attachLimits inp interpreter res) := by
  unfold attachLimits
  repeat' first
    | intro _
    | exact onlyEmits_pure _ _
    | exact onlyEmits_getContext _
    | exact onlyEmits_modifyContext _ _
    | exact onlyEmits_setSetting _ _ _
    | exact onlyEmits_ofExcept _ _
    | exact onlyEmits_throwException _ _
    | exact onlyEmits_emit (h _ rfl)
    | exact onlyEmits_emitWhen _ (h _ rfl)
    | apply onlyEmits_bind
    | apply onlyEmits_tryCatch
    | dsimp only
    | split

theorem onlyEmits_logQueryStart {P : Event → Prop} (inp : Input)
    (h : ∀ e, e.isExecutionEvent = true → P e) :
    OnlyEmits P (logQueryStart inp) := by
  unfold logQueryStart
  repeat' first
    | intro _
    | exact onlyEmits_pure _ _
    | exact onlyEmits_getContext _
    | exact onlyEmits_modifyContext _ _
    | exact onlyEmits_setSetting _ _ _
    | exact onlyEmits_ofExcept _ _
    | exact onlyEmits_throwException _ _
    | exact onlyEmits_emit (h _ rfl)
    | exact onlyEmits_emitWhen _ (h _ rfl)
    | apply onlyEmits_bind
    | apply onlyEmits_tryCatch
    | dsimp only
    | split

theorem onlyEmits_attachCallbacks {P : Event → Prop} (inp : Input) (can_use_query_cache : Bool) (ast : AST) (quota : Bool) (res : BlockIO)
    (h : ∀ e, e.isExecutionEvent = true → P e) :
    OnlyEmits P (attachCallbacks inp can_use_query_cache ast quota res) := by
  unfold attachCallbacks
  repeat' first
    | intro _
    | exact onlyEmits_pure _ _
    | exact onlyEmits_getContext _
    | exact onlyEmits_modifyContext _ _
    | exact onlyEmits_setSetting _ _ _
    | exact onlyEmits_ofExcept _ _
    | exact onlyEmits_throwException _ _
    | exact onlyEmits_emit (h _ rfl)
    | exact onlyEmits_emitWhen _ (h _ rfl)
    | apply onlyEmits_bind
    | apply onlyEmits_tryCatch
    | dsimp only
    | split

theorem onlyEmits_readQueryCache {P : Event → Prop} (env : Env) (can_use_query_cache : Bool)
    (ast : AST) (res : BlockIO)
    (h : ∀ e, e.isExecutionEvent = true → P e) (hread : P .readFromQueryCache) :
    OnlyEmits P (readQueryCache env can_use_query_cache ast res) := by
  unfold readQueryCache
  repeat' first
    | intro _
    | exact onlyEmits_pure _ _
    | exact onlyEmits_getContext _
    | exact onlyEmits_ofExcept _ _
    | exact onlyEmits_emit (h _ rfl)
    | exact onlyEmits_emitWhen _ (h _ rfl)
    | exact onlyEmits_emit hread
    | apply onlyEmits_bind
    | dsimp only
    | split

theorem onlyEmits_writeQueryCache {P : Event → Prop} (env : Env) (can_use_query_cache : Bool)
    (ast : AST) (cr : CacheRead)
    (h : ∀ e, e.isExecutionEvent = true → P e) (hwrite : P .writeResultIntoQueryCache) :
    OnlyEmits P (writeQueryCache env can_use_query_cache ast cr) := by
  unfold writeQueryCache
  repeat' first
    | intro _
    | exact onlyEmits_pure _ _
    | exact onlyEmits_getContext _
    | exact onlyEmits_modifyContext _ _
    | exact onlyEmits_emit (h _ rfl)
    | exact onlyEmits_emitWhen _ (h _ rfl)
    | exact onlyEmits_emit hwrite
    | apply onlyEmits_bind
    | dsimp only
    | split

theorem onlyEmits_executeLocally {P : Event → Prop} (env : Env) (inp : Input)
    (can_use_query_cache : Bool) (ast : AST)
    (h : ∀ e, e.isExecutionEvent = true → P e) (hread : P .readFromQueryCache)
    (hwrite : P .writeResultIntoQueryCache) :
    OnlyEmits P (executeLocally env inp can_use_query_cache ast) := by
  unfold executeLocally
  repeat' first
    | intro _
    | exact onlyEmits_registerQuery env inp ast h
    | exact onlyEmits_buildInterpreter env inp ast h
    | exact onlyEmits_chargeQuota env ast _ h
    | exact onlyEmits_executeInterpreter env _ h
    | exact onlyEmits_readQueryCache env _ ast _ h hread
    | exact onlyEmits_checkKilled _ _ h
    | exact onlyEmits_attachLimits inp _ _ h
    | exact onlyEmits_writeQueryCache env _ ast _ h hwrite
    | exact onlyEmits_logQueryStart inp h
    | exact onlyEmits_attachCallbacks inp _ ast _ _ h
    | apply onlyEmits_bind

theorem onlyEmits_obtainAST {P : Event → Prop} (env : Env) (inp : Input)
    (hparse : P .parseQuery) : OnlyEmits P (obtainAST env inp) := by
  unfold obtainAST
  repeat' first
    | intro _
    | exact onlyEmits_pure _ _
    | exact onlyEmits_ofExcept _ _
    | exact onlyEmits_emit hparse
    | apply onlyEmits_bind
    | split

theorem onlyEmits_implicitCommit {P : Event → Prop} (env : Env)
    (hcommit : P .implicitCommit) : OnlyEmits P (implicitCommit env) := by
  unfold implicitCommit
  repeat' first
    | intro _
    | exact onlyEmits_modifyContext _ _
    | exact onlyEmits_ofExcept _ _
    | exact onlyEmits_emit hcommit
    | apply onlyEmits_bind

theorem onlyEmits_parseAndCommit_of {P : Event → Prop} (env : Env) (inp : Input)
    (h : ∀ n, P (.overwriteDefaultSettings n)) (hparse : P .parseQuery)
    (hcommit : P .implicitCommit) : OnlyEmits P (parseAndCommit env inp) := by
  unfold parseAndCommit
  repeat' first
    | intro _
    | exact onlyEmits_pure _ _
    | exact onlyEmits_getContext _
    | exact onlyEmits_obtainAST env inp hparse
    | exact onlyEmits_applyVWCustomizedSettings_of env h
    | exact onlyEmits_implicitCommit env hcommit
    | apply onlyEmits_bind
    | split

theorem onlyEmits_parseAndCommit {P : Event → Prop} (env : Env) (inp : Input)
    (h : ∀ e, e.isRoutingEvent = true → P e) (hparse : P .parseQuery)
    (hcommit : P .implicitCommit) : OnlyEmits P (parseAndCommit env inp) :=
  onlyEmits_parseAndCommit_of env inp (fun _ => h _ rfl) hparse hcommit

theorem onlyEmits_interpretSettingsIfParsed_of {P : Event → Prop} (env : Env) (inp : Input)
    (ast : AST) (h : ∀ ch, P (.interpreterSetQuery ch)) :
    OnlyEmits P (interpretSettingsIfParsed env inp ast) := by
  unfold interpretSettingsIfParsed
  split
  · exact onlyEmits_interpretSettings_of env ast h
  · exact onlyEmits_pure _ _

theorem onlyEmits_interpretSettingsIfParsed {P : Event → Prop} (env : Env) (inp : Input)
    (ast : AST) (h : ∀ e, e.isRoutingEvent = true → P e) :
    OnlyEmits P (interpretSettingsIfParsed env inp ast) :=
  onlyEmits_interpretSettingsIfParsed_of env inp ast (fun _ => h _ rfl)

theorem onlyEmits_useGlobalProductMode (P : Event → Prop) :
    OnlyEmits P useGlobalProductMode := by
  unfold useGlobalProductMode
  repeat' first
    | intro _
    | exact onlyEmits_pure _ _
    | exact onlyEmits_getContext _
    | exact onlyEmits_setSetting _ _ _
    | apply onlyEmits_bind
    | split

theorem onlyEmits_routeOrProceed {P : Event → Prop} (env : Env) (inp : Input) (ast : AST)
    (h : ∀ e, e.isRoutingEvent = true → P e) : OnlyEmits P (routeOrProceed env inp ast) := by
  unfold routeOrProceed
  repeat' first
    | intro _
    | exact onlyEmits_pure _ _
    | exact onlyEmits_routeQuery env _ h
    | exact onlyEmits_interpretSettingsIfParsed env inp _ h
    | apply onlyEmits_bind
    | split

theorem onlyEmits_parseAndRoute {P : Event → Prop} (env : Env) (inp : Input)
    (hpc : OnlyEmits P (parseAndCommit env inp))
    (h : ∀ e, e.isRoutingEvent = true → P e) : OnlyEmits P (parseAndRoute env inp) := by
  unfold parseAndRoute
  exact onlyEmits_bind hpc (fun ast => onlyEmits_routeOrProceed env inp ast h)

theorem onlyEmits_doSomeReplacementForSettings (P : Event → Prop) :
    OnlyEmits P doSomeReplacementForSettings := by
  unfold doSomeReplacementForSettings
  repeat' first
    | intro _
    | exact onlyEmits_pure _ _
    | exact onlyEmits_getContext _
    | exact onlyEmits_setSetting _ _ _
    | apply onlyEmits_bind
    | split

theorem onlyEmits_setQuerySpecificSettings (P : Event → Prop) (ast : AST) :
    OnlyEmits P (setQuerySpecificSettings ast) := by
  unfold setQuerySpecificSettings
  repeat' first
    | intro _
    | exact onlyEmits_pure _ _
    | exact onlyEmits_setSetting _ _ _
    | split

theorem onlyEmits_attachAndExecute {P : Event → Prop} (env : Env) (inp : Input) (ast : AST)
    (hB : ∀ e, e.isBeforeStartEvent = true → P e)
    (hA : ∀ e, e.isAttachEvent = true → P e)
    (hX : ∀ e, e.isExecutionEvent = true → P e)
    (hread : P .readFromQueryCache) (hwrite : P .writeResultIntoQueryCache) :
    OnlyEmits P (attachAndExecute env inp ast) := by
  unfold attachAndExecute
  repeat' first
    | intro _
    | exact onlyEmits_pure _ _
    | exact onlyEmits_getContext _
    | exact onlyEmits_doSomeReplacementForSettings _
    | exact onlyEmits_setQuerySpecificSettings _ _
    | exact onlyEmits_attachTransaction env inp _ hA
    | exact onlyEmits_tryCatchRethrow (onlyEmits_executeLocally env inp _ _ hX hread hwrite)
        (onlyEmits_beforeStartHandler inp hB)
    | apply onlyEmits_bind

theorem onlyEmits_continueAfterFirstTry {P : Event → Prop} (env : Env) (inp : Input)
    (first : FirstTry)
    (hB : ∀ e, e.isBeforeStartEvent = true → P e)
    (hA : ∀ e, e.isAttachEvent = true → P e)
    (hX : ∀ e, e.isExecutionEvent = true → P e)
    (hread : P .readFromQueryCache) (hwrite : P .writeResultIntoQueryCache) :
    OnlyEmits P (continueAfterFirstTry env inp first) := by
  unfold continueAfterFirstTry
  cases first with
  | routed ast res => exact onlyEmits_pure _ _
  | proceed ast => exact onlyEmits_attachAndExecute env inp ast hB hA hX hread hwrite

/-- The events of `executeQueryImpl`, given those of its parse-and-commit prefix. -/
theorem onlyEmits_executeQueryImpl_of {P : Event → Prop} (env : Env) (inp : Input)
    (hpc : OnlyEmits P (parseAndCommit env inp))
    (hR : ∀ e, e.isRoutingEvent = true → P e)
    (hB : ∀ e, e.isBeforeStartEvent = true → P e)
    (hA : ∀ e, e.isAttachEvent = true → P e)
    (hX : ∀ e, e.isExecutionEvent = true → P e)
    (hread : P .readFromQueryCache) (hwrite : P .writeResultIntoQueryCache) :
    OnlyEmits P (executeQueryImpl env inp) := by
  unfold executeQueryImpl
  repeat' first
    | intro _
    | exact onlyEmits_useGlobalProductMode _
    | exact onlyEmits_continueAfterFirstTry env inp _ hB hA hX hread hwrite
    | exact onlyEmits_tryCatchRethrow (onlyEmits_parseAndRoute env inp hpc hR)
        (onlyEmits_beforeStartHandler inp hB)
    | apply onlyEmits_bind

/-- Neither callback is invoked while `executeQueryImpl` runs. -/
theorem executeQueryImpl_invokes_no_callback (env : Env) (inp : Input) :
    OnlyEmits (fun e => e.isCallbackInvocation = false) (executeQueryImpl env inp) := by
  apply onlyEmits_executeQueryImpl_of env inp
  · apply onlyEmits_parseAndCommit env inp
    · intro e he; cases e <;> simp_all [Event.isRoutingEvent, Event.isCallbackInvocation]
    · rfl
    · rfl
  · intro e he; cases e <;> simp_all [Event.isRoutingEvent, Event.isCallbackInvocation]
  · intro e he; cases e <;> simp_all [Event.isBeforeStartEvent, Event.isCallbackInvocation]
  · intro e he; cases e <;> simp_all [Event.isAttachEvent, Event.isCallbackInvocation]
  · intro e he; cases e <;> simp_all [Event.isExecutionEvent, Event.isCallbackInvocation]
  · rfl
  · rfl

/-! ### Stepping through sequenced computations -/

theorem bind_ok {α β : Type} {m : Exec α} {f : α → Exec β} {c : Context} {a : α}
    (h : (m c).result = .ok a) :
    (m >>= f) c =
      { events := (m c).events ++ (f a (m c).context).events,
        context := (f a (m c).context).context,
        result := (f a (m c).context).result } := by
  simp only [bind, Exec.bind, h]

theorem bind_error {α β : Type} {m : Exec α} {f : α → Exec β} {c : Context} {x : Exception}
    (h : (m c).result = .error x) :
    (m >>= f) c = { events := (m c).events, context := (m c).context, result := .error x } := by
  simp only [bind, Exec.bind, h]

theorem onlyEmits_countP_eq_zero {α : Type} {m : Exec α} {p : Event → Bool}
    (h : OnlyEmits (fun e => p e = false) m) (c : Context) : (m c).events.countP p = 0 := by
  rw [List.countP_eq_zero]
  intro e he
  simp [h.holds c e he]

theorem onlyEmits_not_mem {α : Type} {m : Exec α} {P : Event → Prop} {e : Event}
    (h : OnlyEmits P m) (he : ¬ P e) (c : Context) : e ∉ (m c).events :=
  fun hmem => he (h.holds c e hmem)

/-! ### The finalization callbacks -/

theorem onlyEmits_finalizeWriteInQueryCache {P : Event → Prop} (env : Env)
    (pipeline : QueryPipeline) (h : ∀ e, e.isFinalizationEvent = true → P e) :
    OnlyEmits P (finalizeWriteInQueryCache env pipeline) := by
  unfold finalizeWriteInQueryCache
  repeat' first
    | intro _
    | exact onlyEmits_pure _ _
    | exact onlyEmits_modifyContext _ _
    | exact onlyEmits_emit (h _ rfl)
    | exact onlyEmits_emitWhen _ (h _ rfl)
    | apply onlyEmits_bind
    | split

theorem onlyEmits_finish_current_transaction_final {P : Event → Prop}
    (h : ∀ e, e.isFinalizationEvent = true → P e) :
    OnlyEmits P finish_current_transaction := by
  unfold finish_current_transaction
  repeat' first
    | intro _
    | exact onlyEmits_pure _ _
    | exact onlyEmits_getContext _
    | exact onlyEmits_emit (h _ rfl)
    | exact onlyEmits_emitWhen _ (h _ rfl)
    | apply onlyEmits_bind
    | split

theorem onlyEmits_finishCallback_run {P : Event → Prop} (env : Env) (cb : FinishCallback)
    (res : BlockIO) (h : ∀ e, e.isFinalizationEvent = true → P e) :
    OnlyEmits P (cb.run env res) := by
  unfold FinishCallback.run FinishCallback.finalizeCacheWrite
  repeat' first
    | intro _
    | exact onlyEmits_pure _ _
    | exact onlyEmits_getContext _
    | exact onlyEmits_emit (h _ rfl)
    | exact onlyEmits_emitWhen _ (h _ rfl)
    | exact onlyEmits_finalizeWriteInQueryCache env _ h
    | exact onlyEmits_finish_current_transaction_final h
    | apply onlyEmits_bind
    | dsimp only
    | split

theorem onlyEmits_exceptionCallback_run {P : Event → Prop} (env : Env)
    (cb : ExceptionCallback) (x : Exception)
    (h : ∀ e, e.isFinalizationEvent = true → P e) :
    OnlyEmits P (cb.run env x) := by
  unfold ExceptionCallback.run
  repeat' first
    | intro _
    | exact onlyEmits_pure _ _
    | exact onlyEmits_getContext _
    | exact onlyEmits_throwException _ _
    | exact onlyEmits_emit (h _ rfl)
    | exact onlyEmits_emitWhen _ (h _ rfl)
    | exact onlyEmits_finish_current_transaction_final h
    | apply onlyEmits_bind
    | dsimp only
    | split

theorem finalization_is_no_invocation (e : Event) (h : e.isFinalizationEvent = true) :
    e.isCallbackInvocation = false := by
  cases e <;> simp_all [Event.isFinalizationEvent, Event.isCallbackInvocation]

theorem onlyEmits_driveStreams {P : Event → Prop} (env : Env) (streams : BlockIO)
    (h : P .drive) : OnlyEmits P (driveStreams env streams) := by
  unfold driveStreams
  repeat' first
    | intro _
    | exact onlyEmits_pure _ _
    | exact onlyEmits_ofExcept _ _
    | exact onlyEmits_emit h
    | apply onlyEmits_bind
    | split

theorem onlyEmits_parseAndInterpretSettings {P : Event → Prop} (env : Env)
    (h : ∀ e, e.isRoutingEvent = true → P e) (hparse : P .parseQuery) :
    OnlyEmits P (parseAndInterpretSettings env) := by
  unfold parseAndInterpretSettings
  repeat' first
    | intro _
    | exact onlyEmits_pure _ _
    | exact onlyEmits_ofExcept _ _
    | exact onlyEmits_emit hparse
    | exact onlyEmits_interpretSettings env _ h
    | apply onlyEmits_bind

/-- On a handle with a finish callback, `onFinish` invokes it once and nothing else. -/
theorem onFinish_invocations (env : Env) (streams : BlockIO) (cb : FinishCallback)
    (h : streams.finish_callback = some cb) (c : Context) :
    (streams.onFinish env c).events = .finishCallbackInvoked :: (cb.run env streams c).events := by
  simp only [ BlockIO.onFinish, h]
  rw [bind_ok (a := ()) rfl]
  rfl

theorem onException_invocations (env : Env) (streams : BlockIO) (cb : ExceptionCallback)
    (x : Exception) (h : streams.exception_callback = some cb) (c : Context) :
    (streams.onException env x c).events
      = .exceptionCallbackInvoked :: (cb.run env x c).events := by
  simp only [ BlockIO.onException, h]
  rw [bind_ok (a := ()) rfl]
  rfl

theorem driveAndFinish_ok (env : Env) (streams : BlockIO) (c : Context)
    (h : (driveStreams env streams c).result = .ok ()) :
    (driveAndFinish env streams c).events
      = (driveStreams env streams c).events
          ++ (streams.onFinish env (driveStreams env streams c).context).events := by
  have h1 : (driveAndCatch env streams c).result = .ok none
      ∧ (driveAndCatch env streams c).events = (driveStreams env streams c).events
      ∧ (driveAndCatch env streams c).context = (driveStreams env streams c).context := by
    simp [driveAndCatch, tryCatch, bind, Exec.bind, h, pure, Exec.pure]
  unfold driveAndFinish
  rw [bind_ok h1.1]
  simp [h1.2.1, h1.2.2]

theorem driveAndFinish_error (env : Env) (streams : BlockIO) (c : Context) (x : Exception)
    (h : (driveStreams env streams c).result = .error x) :
    (driveAndFinish env streams c).events
      = (driveStreams env streams c).events
          ++ (streams.onException env x (driveStreams env streams c).context).events
    ∧ ∃ y, (driveAndFinish env streams c).result = .error y := by
  unfold driveAndFinish
  cases hx : (streams.onException env x (driveStreams env streams c).context).result with
  | ok u =>
      have h1 : (driveAndCatch env streams c).result = .ok (some x)
          ∧ (driveAndCatch env streams c).events = (driveStreams env streams c).events
            ++ (streams.onException env x (driveStreams env streams c).context).events := by
        simp [driveAndCatch, tryCatch, bind, Exec.bind, h, hx, pure, Exec.pure]
      rw [bind_ok h1.1]
      simp [h1.2, throwException]
  | error y =>
      have h1 : (driveAndCatch env streams c).result = .ok (some y)
          ∧ (driveAndCatch env streams c).events = (driveStreams env streams c).events
            ++ (streams.onException env x (driveStreams env streams c).context).events := by
        simp [driveAndCatch, tryCatch, bind, Exec.bind, h, hx, pure, Exec.pure]
      rw [bind_ok h1.1]
      simp [h1.2, throwException]

/-! ### Values returned by a computation -/

theorem returns_pure {α : Type} {Q : α → Prop} {a : α} (h : Q a) :
    Returns Q (pure a : Exec α) := by
  refine ⟨fun c b hb => ?_⟩
  simp only [pure, Exec.pure, Except.ok.injEq] at hb
  exact hb ▸ h

theorem returns_throwException {α : Type} (Q : α → Prop) (x : Exception) :
    Returns Q (throwException x : Exec α) := by
  refine ⟨fun c b hb => ?_⟩
  simp [throwException] at hb

theorem returns_bind {α β : Type} {R : α → Prop} {Q : β → Prop} {m : Exec α}
    {f : α → Exec β} (hm : Returns R m) (hf : ∀ a, R a → Returns Q (f a)) :
    Returns Q (m >>= f) := by
  refine ⟨fun c b hb => ?_⟩
  cases hr : (m c).result with
  | ok a =>
      rw [bind_ok hr] at hb
      exact (hf a (hm.holds c a hr)).holds _ b hb
  | error x =>
      rw [bind_error hr] at hb
      simp at hb

theorem returns_bind_any {α β : Type} {Q : β → Prop} {m : Exec α} {f : α → Exec β}
    (hf : ∀ a, Returns Q (f a)) : Returns Q (m >>= f) :=
  returns_bind (R := fun _ => True) ⟨fun _ _ _ => trivial⟩ (fun a _ => hf a)

theorem returns_tryCatchRethrow {α : Type} {Q : α → Prop} {m : Exec α} {h : Exec Unit}
    (hm : Returns Q m) : Returns Q (tryCatchRethrow m h) := by
  refine ⟨fun c b hb => ?_⟩
  simp only [tryCatchRethrow] at hb
  cases hr : (m c).result with
  | ok a =>
      rw [hr] at hb
      simp only [Except.ok.injEq] at hb
      exact hb ▸ hm.holds c a hr
  | error x =>
      rw [hr] at hb
      dsimp only at hb
      split at hb <;> simp at hb

/-- A handle filled by the proxy carries no callback and no process-list entry. -/
theorem returns_executeQueryByProxy (env : Env) (host_ports : HostWithPorts) :
    Returns (fun res => ∃ p, env.executeQueryByProxy = .ok p
        ∧ res = { BlockIO.fresh with pipeline := p })
      (executeQueryByProxy env host_ports BlockIO.fresh) := by
  refine ⟨fun c b hb => ?_⟩
  cases hp : env.executeQueryByProxy with
  | ok p =>
      refine ⟨p, rfl, ?_⟩
      simp [executeQueryByProxy, bind, Exec.bind, emit, ofExcept, hp, pure, Exec.pure] at hb
      exact hb.symm
  | error x =>
      simp [executeQueryByProxy, bind, Exec.bind, emit, ofExcept, hp] at hb

theorem returns_routeQuery (env : Env) :
    Returns (fun o => ∀ res, o = some res →
        ∃ p, env.executeQueryByProxy = .ok p ∧ res = { BlockIO.fresh with pipeline := p })
      (routeQuery env BlockIO.fresh) := by
  unfold routeQuery
  apply returns_bind_any
  intro context
  split
  · apply returns_bind_any
    intro _
    apply returns_bind_any
    intro host_ports
    split
    · apply returns_bind_any
      intro _
      apply returns_bind_any
      intro _
      apply returns_bind (returns_executeQueryByProxy env host_ports)
      intro res hres
      exact returns_pure (fun r hr => by cases hr; exact hres)
    · exact returns_pure (fun r hr => by cases hr)
  · exact returns_pure (fun r hr => by cases hr)

theorem returns_parseAndRoute (env : Env) (inp : Input) :
    Returns (fun first => ∀ ast res, first = .routed ast res →
        ∃ p, env.executeQueryByProxy = .ok p ∧ res = { BlockIO.fresh with pipeline := p })
      (parseAndRoute env inp) := by
  unfold parseAndRoute
  apply returns_bind_any
  intro ast
  unfold routeOrProceed
  apply returns_bind (returns_routeQuery env)
  intro routed hrouted
  cases routed with
  | some res =>
      exact returns_pure (fun a r h => by cases h; exact hrouted res rfl)
  | none =>
      apply returns_bind_any
      intro _
      exact returns_pure (fun a r h => by cases h)

theorem returns_attachCallbacks (inp : Input) (can_use_query_cache : Bool) (ast : AST)
    (quota : Bool) (res : BlockIO) :
    Returns (fun r => r.finish_callback.isSome = true ∧ r.exception_callback.isSome = true)
      (attachCallbacks inp can_use_query_cache ast quota res) := by
  refine ⟨fun c b hb => ?_⟩
  simp [attachCallbacks, bind, Exec.bind, getContext, pure, Exec.pure] at hb
  subst hb
  simp

theorem returns_executeLocally (env : Env) (inp : Input) (can_use_query_cache : Bool)
    (ast : AST) :
    Returns (fun r => r.finish_callback.isSome = true ∧ r.exception_callback.isSome = true)
      (executeLocally env inp can_use_query_cache ast) := by
  unfold executeLocally
  repeat' first
    | intro _
    | exact returns_attachCallbacks _ _ _ _ _
    | apply returns_bind_any

/-- A handle returned by `executeQueryImpl` is either the proxied one, without callbacks, or a
locally built one with both callbacks attached. -/
theorem executeQueryImpl_handle_shape (env : Env) (inp : Input) :
    Returns (fun r =>
        (∃ p, env.executeQueryByProxy = .ok p ∧ r.2 = { BlockIO.fresh with pipeline := p })
        ∨ (r.2.finish_callback.isSome = true ∧ r.2.exception_callback.isSome = true))
      (executeQueryImpl env inp) := by
  unfold executeQueryImpl
  apply returns_bind_any
  intro _
  apply returns_bind (returns_tryCatchRethrow (returns_parseAndRoute env inp))
  intro first hfirst
  unfold continueAfterFirstTry
  cases first with
  | routed ast res => exact returns_pure (Or.inl (hfirst ast res rfl))
  | proceed ast =>
      dsimp only
      unfold attachAndExecute
      apply returns_bind_any
      intro _
      apply returns_bind_any
      intro _
      apply returns_bind_any
      intro context
      apply returns_bind_any
      intro _
      apply returns_bind (returns_tryCatchRethrow (returns_executeLocally env inp _ ast))
      intro res hres
      exact returns_pure (Or.inr hres)

/-! ### Exactly-once finalization in `executeQuery` -/

theorem executeQuery_sync (env : Env) (internal : Bool) (c : Context) (ast : AST)
    (hparse : (parseAndInterpretSettings env c).result = .ok ast)
    (hsync : (!ast.isInsertWithData && env.isAsyncMode) = false) :
    executeQuery env internal c =
      { events := (parseAndInterpretSettings env c).events
          ++ ((executeQueryImpl env (executeQueryInput ast internal) >>=
                fun r => driveAndFinish env r.2) (parseAndInterpretSettings env c).context).events,
        context := ((executeQueryImpl env (executeQueryInput ast internal) >>=
                fun r => driveAndFinish env r.2) (parseAndInterpretSettings env c).context).context,
        result := ((executeQueryImpl env (executeQueryInput ast internal) >>=
                fun r => driveAndFinish env r.2) (parseAndInterpretSettings env c).context).result } := by
  unfold executeQuery
  rw [bind_ok hparse]
  simp only [hsync, Bool.false_eq_true, if_false]

theorem countP_parseAndInterpretSettings (env : Env) (c : Context) :
    (parseAndInterpretSettings env c).events.countP Event.isCallbackInvocation = 0 := by
  apply onlyEmits_countP_eq_zero
  apply onlyEmits_parseAndInterpretSettings
  · intro e he; cases e <;> simp_all [Event.isRoutingEvent, Event.isCallbackInvocation]
  · rfl

theorem countP_executeQueryImpl (env : Env) (inp : Input) (c : Context) :
    (executeQueryImpl env inp c).events.countP Event.isCallbackInvocation = 0 :=
  onlyEmits_countP_eq_zero (executeQueryImpl_invokes_no_callback env inp) c

theorem countP_driveStreams (env : Env) (streams : BlockIO) (c : Context) :
    (driveStreams env streams c).events.countP Event.isCallbackInvocation = 0 :=
  onlyEmits_countP_eq_zero (onlyEmits_driveStreams env streams rfl) c

theorem countP_finishCallback_run (env : Env) (cb : FinishCallback) (res : BlockIO)
    (c : Context) : (cb.run env res c).events.countP Event.isCallbackInvocation = 0 :=
  onlyEmits_countP_eq_zero
    (onlyEmits_finishCallback_run env cb res finalization_is_no_invocation) c

theorem countP_exceptionCallback_run (env : Env) (cb : ExceptionCallback) (x : Exception)
    (c : Context) : (cb.run env x c).events.countP Event.isCallbackInvocation = 0 :=
  onlyEmits_countP_eq_zero
    (onlyEmits_exceptionCallback_run env cb x finalization_is_no_invocation) c

theorem not_mem_of_countP_eq_zero {l : List Event} {e : Event}
    (h : l.countP Event.isCallbackInvocation = 0) (he : e.isCallbackInvocation = true) :
    e ∉ l := by
  intro hmem
  rw [List.countP_eq_zero] at h
  exact h e hmem he

/-- The callback invocations of `driveAndFinish` on a handle with both callbacks. -/
theorem driveAndFinish_attached (env : Env) (streams : BlockIO) (c : Context)
    (fcb : FinishCallback) (ecb : ExceptionCallback)
    (hf : streams.finish_callback = some fcb) (he : streams.exception_callback = some ecb) :
    (driveAndFinish env streams c).events.countP Event.isCallbackInvocation = 1
    ∧ ((driveStreams env streams c).result = .ok () →
        Event.finishCallbackInvoked ∈ (driveAndFinish env streams c).events
          ∧ Event.exceptionCallbackInvoked ∉ (driveAndFinish env streams c).events)
    ∧ (∀ x, (driveStreams env streams c).result = .error x →
        Event.exceptionCallbackInvoked ∈ (driveAndFinish env streams c).events
          ∧ Event.finishCallbackInvoked ∉ (driveAndFinish env streams c).events) := by
  cases hd : (driveStreams env streams c).result with
  | ok u =>
      cases u
      have hev := driveAndFinish_ok env streams c hd
      rw [onFinish_invocations env streams fcb hf] at hev
      refine ⟨?_, fun _ => ⟨?_, ?_⟩, fun x hx => by simp at hx⟩
      · rw [hev, List.countP_append, List.countP_cons, countP_driveStreams,
          countP_finishCallback_run]
        rfl
      · rw [hev]; simp
      · rw [hev]
        simp only [List.mem_append, List.mem_cons, not_or]
        exact ⟨not_mem_of_countP_eq_zero (countP_driveStreams env streams c) rfl,
          by simp, not_mem_of_countP_eq_zero (countP_finishCallback_run env fcb streams _) rfl⟩
  | error x =>
      have hev := (driveAndFinish_error env streams c x hd).1
      rw [onException_invocations env streams ecb x he] at hev
      refine ⟨?_, fun h => by simp at h, fun y _ => ⟨?_, ?_⟩⟩
      · rw [hev, List.countP_append, List.countP_cons, countP_driveStreams,
          countP_exceptionCallback_run]
        rfl
      · rw [hev]; simp
      · rw [hev]
        simp only [List.mem_append, List.mem_cons, not_or]
        exact ⟨not_mem_of_countP_eq_zero (countP_driveStreams env streams c) rfl,
          by simp, not_mem_of_countP_eq_zero (countP_exceptionCallback_run env ecb x _) rfl⟩

/-- On a handle without callbacks `driveAndFinish` invokes none. -/
theorem driveAndFinish_detached (env : Env) (streams : BlockIO) (c : Context)
    (hf : streams.finish_callback = none) (he : streams.exception_callback = none) :
    (driveAndFinish env streams c).events.countP Event.isCallbackInvocation = 0 := by
  cases hd : (driveStreams env streams c).result with
  | ok u =>
      cases u
      rw [driveAndFinish_ok env streams c hd, List.countP_append, countP_driveStreams]
      simp [ BlockIO.onFinish, hf, pure, Exec.pure]
  | error x =>
      rw [(driveAndFinish_error env streams c x hd).1, List.countP_append, countP_driveStreams]
      simp [ BlockIO.onException, he, pure, Exec.pure]

/-- C1 (amended). In `executeQuery(istr, ostr, ...)`, once the statement is parsed and the
synchronous path is taken: when `executeQueryImpl` fails, its error reaches the caller and
neither callback is invoked; when it returns the proxied handle (no callbacks attached),
none is invoked; when it returns a locally built handle, exactly one callback invocation
happens in the whole run, the finish callback if driving succeeds and the exception
callback if driving fails. -/
theorem callbacks_fire_exactly_once_on_attached_handle (env : Env) (internal : Bool)
    (c : Context) (ast : AST)
    (hparse : (parseAndInterpretSettings env c).result = .ok ast)
    (hsync : (!ast.isInsertWithData && env.isAsyncMode) = false) :
    (∀ x, (executeQueryImpl env (executeQueryInput ast internal)
              (parseAndInterpretSettings env c).context).result = .error x →
        (executeQuery env internal c).result = .error x
          ∧ (executeQuery env internal c).events.countP Event.isCallbackInvocation = 0)
    ∧ (∀ r, (executeQueryImpl env (executeQueryInput ast internal)
              (parseAndInterpretSettings env c).context).result = .ok r →
        r.2.finish_callback = none →
        (executeQuery env internal c).events.countP Event.isCallbackInvocation = 0)
    ∧ (∀ r, (executeQueryImpl env (executeQueryInput ast internal)
              (parseAndInterpretSettings env c).context).result = .ok r →
        r.2.finish_callback.isSome = true →
        (executeQuery env internal c).events.countP Event.isCallbackInvocation = 1
          ∧ ((driveStreams env r.2 (executeQueryImpl env (executeQueryInput ast internal)
                (parseAndInterpretSettings env c).context).context).result = .ok () →
              Event.finishCallbackInvoked ∈ (executeQuery env internal c).events
                ∧ Event.exceptionCallbackInvoked ∉ (executeQuery env internal c).events)
          ∧ (∀ x, (driveStreams env r.2 (executeQueryImpl env (executeQueryInput ast internal)
                (parseAndInterpretSettings env c).context).context).result = .error x →
              Event.exceptionCallbackInvoked ∈ (executeQuery env internal c).events
                ∧ Event.finishCallbackInvoked ∉ (executeQuery env internal c).events)) := by
  have h0 := countP_parseAndInterpretSettings env c
  have hi := countP_executeQueryImpl env (executeQueryInput ast internal)
    (parseAndInterpretSettings env c).context
  refine ⟨?_, ?_, ?_⟩
  · intro x hx
    rw [executeQuery_sync env internal c ast hparse hsync, bind_error hx]
    exact ⟨rfl, by simp only [List.countP_append, h0, hi]⟩
  · intro r hr hnone
    have hshape := (executeQueryImpl_handle_shape env (executeQueryInput ast internal)).holds
      _ r hr
    have hexc : r.2.exception_callback = none := by
      rcases hshape with ⟨p, _, hp⟩ | ⟨hs, _⟩
      · rw [hp]; rfl
      · rw [hnone] at hs; simp at hs
    rw [executeQuery_sync env internal c ast hparse hsync, bind_ok hr]
    simp only [List.countP_append, h0, hi, driveAndFinish_detached env r.2 _ hnone hexc]
  · intro r hr hsome
    have hshape := (executeQueryImpl_handle_shape env (executeQueryInput ast internal)).holds
      _ r hr
    have hexc : r.2.exception_callback.isSome = true := by
      rcases hshape with ⟨p, _, hp⟩ | ⟨_, hs⟩
      · rw [hp] at hsome; simp [ BlockIO.fresh] at hsome
      · exact hs
    obtain ⟨fcb, hf⟩ := Option.isSome_iff_exists.mp hsome
    obtain ⟨ecb, he⟩ := Option.isSome_iff_exists.mp hexc
    have hd := driveAndFinish_attached env r.2
      (executeQueryImpl env (executeQueryInput ast internal)
        (parseAndInterpretSettings env c).context).context fcb ecb hf he
    have hnot0 : ∀ e, e.isCallbackInvocation = true →
        e ∉ (parseAndInterpretSettings env c).events := fun e he =>
      not_mem_of_countP_eq_zero h0 he
    have hnoti : ∀ e, e.isCallbackInvocation = true →
        e ∉ (executeQueryImpl env (executeQueryInput ast internal)
          (parseAndInterpretSettings env c).context).events := fun e he =>
      not_mem_of_countP_eq_zero hi he
    rw [executeQuery_sync env internal c ast hparse hsync, bind_ok hr]
    refine ⟨?_, ?_, ?_⟩
    · simp only [List.countP_append, h0, hi, hd.1]
    · intro hok
      have := hd.2.1 hok
      simp only [List.mem_append, not_or]
      exact ⟨Or.inr (Or.inr this.1), hnot0 _ rfl, hnoti _ rfl, this.2⟩
    · intro x hx
      have := hd.2.2 x hx
      simp only [List.mem_append, not_or]
      exact ⟨Or.inr (Or.inr this.1), hnot0 _ rfl, hnoti _ rfl, this.2⟩

/-- C1 (as stated) fails: when `interpreter->execute()` throws inside `executeQueryImpl`, the
error reaches the caller of `executeQuery` and neither callback has been invoked. -/
theorem no_callback_when_executeQueryImpl_fails :
    (executeQuery Env.executeFails false Context.server).result = .error Exception.sample
      ∧ (executeQuery Env.executeFails false Context.server).events.countP
          Event.isCallbackInvocation = 0 := by
  decide

theorem callbacks_fire_exactly_once_on_attached_handle_witness :
    (executeQuery Env.nominal false Context.server).events.countP
        Event.isCallbackInvocation = 1
      ∧ Event.finishCallbackInvoked ∈ (executeQuery Env.nominal false Context.server).events
      ∧ Event.exceptionCallbackInvoked ∉ (executeQuery Env.nominal false Context.server).events := by
  have h := (callbacks_fire_exactly_once_on_attached_handle Env.nominal false Context.server
    (.select { settings := none }) (by decide) (by decide)).2.2
  have hshape : (match (executeQueryImpl Env.nominal
        (executeQueryInput (.select { settings := none }) false)
        (parseAndInterpretSettings Env.nominal Context.server).context).result with
      | .ok r => r.2.finish_callback.isSome
      | .error _ => false) = true := by decide
  have hdrive : ∀ r, (driveStreams Env.nominal r (executeQueryImpl Env.nominal
        (executeQueryInput (.select { settings := none }) false)
        (parseAndInterpretSettings Env.nominal Context.server).context).context).result
          = .ok () := by
    intro r
    simp [driveStreams, bind, Exec.bind, emit, ofExcept, Env.nominal, pure, Exec.pure]
    split <;> rfl
  rcases hr : (executeQueryImpl Env.nominal
        (executeQueryInput (.select { settings := none }) false)
        (parseAndInterpretSettings Env.nominal Context.server).context).result with x | r
  · rw [hr] at hshape
    cases hshape
  · rw [hr] at hshape
    have h1 := h r hr hshape
    exact ⟨h1.1, h1.2.1 (hdrive r.2)⟩

/-! ### DDL classification -/

theorem isDDLQuery_alter_eq_false_iff (command_list : Option (List ASTAlterCommand))
    (settings_ast : Option SettingsChanges) :
    isDDLQuery (.alter command_list settings_ast) = false ↔
      ∃ c, command_list = some [c] ∧
        (c.attach_from_detached = true ∨ c.parts = true ∨
          ((c.type = .DROP_PARTITION ∨ c.type = .DROP_PARTITION_WHERE) ∧ c.detach = false)) := by
  match command_list with
  | none => simp [isDDLQuery, isAttachDML, isDropPartitionDML]
  | some [] => simp [isDDLQuery, isAttachDML, isDropPartitionDML]
  | some (_ :: _ :: _) => simp [isDDLQuery, isAttachDML, isDropPartitionDML]
  | some [c] =>
      simp only [isDDLQuery, isAttachDML, isDropPartitionDML]
      constructor
      · intro h
        refine ⟨c, rfl, ?_⟩
        by_cases h1 : (c.attach_from_detached || c.parts) = true
        · simp only [Bool.or_eq_true] at h1
          rcases h1 with h1 | h1
          · exact Or.inl h1
          · exact Or.inr (Or.inl h1)
        · simp only [h1] at h
          by_cases h2 : ((c.type == AlterCommandType.DROP_PARTITION
              || c.type == AlterCommandType.DROP_PARTITION_WHERE) && !c.detach) = true
          · simp only [Bool.and_eq_true, Bool.or_eq_true, beq_iff_eq, Bool.not_eq_true'] at h2
            exact Or.inr (Or.inr h2)
          · simp [h2] at h
      · rintro ⟨c2, hc, h⟩
        have hc2 : c = c2 := by
          simpa using hc
        subst hc2
        rcases h with h | h | ⟨h, hd⟩
        · simp [h]
        · simp [h]
        · have : ((c.type == AlterCommandType.DROP_PARTITION
              || c.type == AlterCommandType.DROP_PARTITION_WHERE) && !c.detach) = true := by
            simp only [Bool.and_eq_true, Bool.or_eq_true, beq_iff_eq, Bool.not_eq_true']
            exact ⟨h, hd⟩
          simp [this]

/-- C7. For an ALTER statement `isDDLQuery` returns false exactly when the command list holds
exactly one command and that command has `attach_from_detached` set, has `parts` set, or is a
DROP PARTITION / DROP PARTITION WHERE with `detach` unset; for every other ALTER (no command
list, no or several commands, a single command of another shape) it returns true. -/
theorem isDDLQuery_alter_classification (command_list : Option (List ASTAlterCommand))
    (settings_ast : Option SettingsChanges) :
    (isDDLQuery (.alter command_list settings_ast) = false ↔
      ∃ c, command_list = some [c] ∧
        (c.attach_from_detached = true ∨ c.parts = true ∨
          ((c.type = .DROP_PARTITION ∨ c.type = .DROP_PARTITION_WHERE) ∧ c.detach = false)))
    ∧ (isDDLQuery (.alter command_list settings_ast) = true ↔
      ¬ ∃ c, command_list = some [c] ∧
        (c.attach_from_detached = true ∨ c.parts = true ∨
          ((c.type = .DROP_PARTITION ∨ c.type = .DROP_PARTITION_WHERE) ∧ c.detach = false))) := by
  have key := isDDLQuery_alter_eq_false_iff command_list settings_ast
  refine ⟨key, ?_⟩
  rw [← key]
  cases isDDLQuery (.alter command_list settings_ast) <;> simp

/-- C8. For a statement that is not an ALTER, `isDDLQuery` returns true exactly when the
statement is a CREATE, a RENAME, or a DROP whose kind is not `Truncate`. -/
theorem isDDLQuery_non_alter_classification (query : AST) (h : query.isAlter = false) :
    isDDLQuery query = true ↔
      ((∃ s, query = .create s) ∨ (∃ s, query = .rename s)
        ∨ ∃ kind s, query = .drop kind s ∧ kind ≠ DropKind.Truncate) := by
  cases query <;> simp [isDDLQuery, AST.isAlter, AST.asAlter] at h ⊢

theorem isDDLQuery_non_alter_classification_witness :
    (AST.drop DropKind.Truncate none).isAlter = false ∧
    (isDDLQuery (.drop .Truncate none) = true ↔
      ((∃ s, AST.drop DropKind.Truncate none = .create s)
        ∨ (∃ s, AST.drop DropKind.Truncate none = .rename s)
        ∨ ∃ kind s, AST.drop DropKind.Truncate none = .drop kind s ∧ kind ≠ DropKind.Truncate)) :=
  ⟨rfl, isDDLQuery_non_alter_classification _ rfl⟩

/-! ### Fallback policy of `interpreter->execute()` -/

/-- C3. When `interpreter->execute()` fails on an optimizer-path interpreter: with
`enable_optimizer_fallback` off nothing more is called, the context is untouched and the
original error propagates; with it on the optimizer is turned off, the retry interpreter is
built exactly once and executed at most once (exactly once when its construction succeeds),
and the outcome of the retry, its error included, is the outcome of the step. -/
theorem optimizer_fallback_retries_once (env : Env) (interpreter : Interpreter)
    (c : Context) (e : Exception)
    (hfail : env.execute = .error e)
    (hopt : interpreter.is_select_query_use_optimizer = true) :
    (c.settings.enable_optimizer_fallback = false →
      (executeInterpreter env interpreter c).events = [.interpreterExecute false]
        ∧ (executeInterpreter env interpreter c).result = .error e
        ∧ (executeInterpreter env interpreter c).context = c)
    ∧ (c.settings.enable_optimizer_fallback = true →
      (executeInterpreter env interpreter c).context.settings.enable_optimizer = false
        ∧ (executeInterpreter env interpreter c).events.count (.interpreterFactoryGet true) = 1
        ∧ (executeInterpreter env interpreter c).events.count (.interpreterExecute true) ≤ 1
        ∧ (∀ r, env.retryInterpreterFactoryGet = .ok r →
            (executeInterpreter env interpreter c).events =
                [.interpreterExecute false, .turnOffOptimizer, .interpreterFactoryGet true,
                  .interpreterExecute true]
              ∧ (executeInterpreter env interpreter c).result = env.retryExecute)
        ∧ (∀ e1, env.retryInterpreterFactoryGet = .error e1 →
            (executeInterpreter env interpreter c).events =
                [.interpreterExecute false, .turnOffOptimizer, .interpreterFactoryGet true]
              ∧ (executeInterpreter env interpreter c).result = .error e1)) := by
  constructor
  · intro hoff
    simp [executeInterpreter, tryCatch, executeFallback, bind, Exec.bind, emit, ofExcept,
      getContext, throwException, hfail, hopt, hoff]
  · intro hon
    cases hget : env.retryInterpreterFactoryGet with
    | error e1 =>
        simp [executeInterpreter, tryCatch, executeFallback, retryExecute, turnOffOptimizer,
          setSetting, modifyContext, bind, Exec.bind, emit, ofExcept, getContext, throwException,
          pure, Exec.pure, Settings.set, hfail, hopt, hon, hget]
    | ok r =>
        cases hexec : env.retryExecute with
        | error e2 =>
            simp [executeInterpreter, tryCatch, executeFallback, retryExecute, turnOffOptimizer,
              setSetting, modifyContext, bind, Exec.bind, emit, ofExcept, getContext,
              throwException, pure, Exec.pure, Settings.set, hfail, hopt, hon, hget, hexec]
        | ok res =>
            simp [executeInterpreter, tryCatch, executeFallback, retryExecute, turnOffOptimizer,
              setSetting, modifyContext, bind, Exec.bind, emit, ofExcept, getContext,
              throwException, pure, Exec.pure, Settings.set, hfail, hopt, hon, hget, hexec]

theorem optimizer_fallback_retries_once_witness :
    (executeInterpreter
        { Env.nominal with execute := .error Exception.sample,
                           retryExecute := .error Exception.sampleRetry }
        { is_select_query_use_optimizer := true, is_insert_query := false,
          ignore_quota := false, ignore_limits := false }
        { Context.server with
            settings := { Settings.allOff with enable_optimizer_fallback := true } }).result
      = .error Exception.sampleRetry :=
  (((optimizer_fallback_retries_once
      { Env.nominal with execute := .error Exception.sample,
                         retryExecute := .error Exception.sampleRetry }
      { is_select_query_use_optimizer := true, is_insert_query := false,
        ignore_quota := false, ignore_limits := false }
      { Context.server with
          settings := { Settings.allOff with enable_optimizer_fallback := true } }
      Exception.sample rfl rfl).2 rfl).2.2.2.1 _ rfl).2

/-! ### Result-cache write -/

/-- C9. On a write-eligible execution (a cache exists, the result was not served from the
cache, `can_use_query_cache` and `enable_writes_to_query_cache` hold, the pipeline has a
stream, and the statement is deterministic or non-deterministic caching is allowed), a cache
writer is attached if and only if the count returned by `recordQueryRun(key)` is strictly
greater than `query_cache_min_query_runs`: a returned count equal to the threshold attaches
none, a returned count one above it attaches one. -/
theorem cache_writer_attached_iff_runs_exceed_threshold (env : Env)
    (can_use_query_cache : Bool) (ast : AST) (cr : CacheRead) (c : Context)
    (query_cache : QueryCache)
    (hcache : c.query_cache = some query_cache)
    (hread : cr.read_result_from_query_cache = false)
    (hcan : can_use_query_cache = true)
    (hwrites : c.settings.enable_writes_to_query_cache = true)
    (hstreams : cr.res.pipeline.num_streams > 0)
    (hdet : env.astContainsNonDeterministicFunctions ast = false
      ∨ c.settings.query_cache_store_results_of_queries_with_nondeterministic_functions = true) :
    (Event.recordQueryRun (writerKey env c ast cr.res)
        ∈ (writeQueryCache env can_use_query_cache ast cr c).events)
    ∧ (Event.writeResultIntoQueryCache ∈ (writeQueryCache env can_use_query_cache ast cr c).events
        ↔ (query_cache.recordQueryRun (writerKey env c ast cr.res)).1
            > c.settings.query_cache_min_query_runs)
    ∧ ((query_cache.recordQueryRun (writerKey env c ast cr.res)).1
          = c.settings.query_cache_min_query_runs →
        (writeQueryCache env can_use_query_cache ast cr c).result = .ok cr.res)
    ∧ ((query_cache.recordQueryRun (writerKey env c ast cr.res)).1
          = c.settings.query_cache_min_query_runs + 1 →
        (writeQueryCache env can_use_query_cache ast cr c).result =
          .ok { cr.res with
                  pipeline := { cr.res.pipeline with
                    query_cache_writer :=
                      some { key := writerKey env c ast cr.res,
                             source_update_time := cr.source_update_time_for_query_cache } } }) := by
  have hd : (!env.astContainsNonDeterministicFunctions ast
      || c.settings.query_cache_store_results_of_queries_with_nondeterministic_functions)
        = true := by
    rcases hdet with h | h <;> simp [h]
  by_cases hgt : (query_cache.recordQueryRun (writerKey env c ast cr.res)).1
      > c.settings.query_cache_min_query_runs
  · have hne : (query_cache.recordQueryRun (writerKey env c ast cr.res)).1
        ≠ c.settings.query_cache_min_query_runs := by omega
    simp [writeQueryCache, bind, Exec.bind, getContext, emit, modifyContext, pure, Exec.pure,
      hcache, hread, hcan, hwrites, hstreams, hd, hgt, hne]
  · have hne : (query_cache.recordQueryRun (writerKey env c ast cr.res)).1
        ≠ c.settings.query_cache_min_query_runs + 1 := by omega
    simp [writeQueryCache, bind, Exec.bind, getContext, emit, modifyContext, pure, Exec.pure,
      hcache, hread, hcan, hwrites, hstreams, hd, hgt, hne]

theorem cache_writer_attached_iff_runs_exceed_threshold_witness :
    Event.writeResultIntoQueryCache ∉
        (writeQueryCache Env.nominal true (.select { settings := none }) CacheRead.notServed
          (Context.withQueryCache 1)).events
      ∧ Event.writeResultIntoQueryCache ∈
        (writeQueryCache Env.nominal true (.select { settings := none }) CacheRead.notServed
          (Context.withQueryCache 0)).events :=
  ⟨fun h => absurd
      ((cache_writer_attached_iff_runs_exceed_threshold Env.nominal true
        (.select { settings := none }) CacheRead.notServed (Context.withQueryCache 1)
        { entries := [], times_executed := [] } rfl rfl rfl rfl (by decide)
        (Or.inl rfl)).2.1.mp h) (by decide),
    (cache_writer_attached_iff_runs_exceed_threshold Env.nominal true
        (.select { settings := none }) CacheRead.notServed (Context.withQueryCache 0)
        { entries := [], times_executed := [] } rfl rfl rfl rfl (by decide)
        (Or.inl rfl)).2.1.mpr (by decide)⟩

/-! ### A cache read and a cache write never both apply -/

theorem neverBoth_of_no_read {α : Type} {m : Exec α}
    (h : OnlyEmits (fun e => e ≠ .readFromQueryCache) m) : NeverBoth m :=
  ⟨fun c hb => h.holds c _ hb.1 rfl⟩

theorem neverBoth_of_no_write {α : Type} {m : Exec α}
    (h : OnlyEmits (fun e => e ≠ .writeResultIntoQueryCache) m) : NeverBoth m :=
  ⟨fun c hb => h.holds c _ hb.2 rfl⟩

theorem neverBoth_bind_left {α β : Type} {m : Exec α} {f : α → Exec β}
    (hm : OnlyEmits (fun e => e ≠ .readFromQueryCache ∧ e ≠ .writeResultIntoQueryCache) m)
    (hf : ∀ a, NeverBoth (f a)) : NeverBoth (m >>= f) := by
  refine ⟨fun c hb => ?_⟩
  cases hr : (m c).result with
  | ok a =>
      rw [bind_ok hr] at hb
      simp only [List.mem_append] at hb
      rcases hb with ⟨h1 | h1, h2 | h2⟩
      · exact (hm.holds c _ h1).1 rfl
      · exact (hm.holds c _ h1).1 rfl
      · exact (hm.holds c _ h2).2 rfl
      · exact (hf a).holds _ ⟨h1, h2⟩
  | error x =>
      rw [bind_error hr] at hb
      exact (hm.holds c _ hb.1).1 rfl

theorem neverBoth_bind_right {α β : Type} {m : Exec α} {f : α → Exec β}
    (hm : NeverBoth m)
    (hf : ∀ a, OnlyEmits
      (fun e => e ≠ .readFromQueryCache ∧ e ≠ .writeResultIntoQueryCache) (f a)) :
    NeverBoth (m >>= f) := by
  refine ⟨fun c hb => ?_⟩
  cases hr : (m c).result with
  | ok a =>
      rw [bind_ok hr] at hb
      simp only [List.mem_append] at hb
      rcases hb with ⟨h1 | h1, h2 | h2⟩
      · exact hm.holds c ⟨h1, h2⟩
      · exact ((hf a).holds _ _ h2).2 rfl
      · exact ((hf a).holds _ _ h1).1 rfl
      · exact ((hf a).holds _ _ h1).1 rfl
  | error x =>
      rw [bind_error hr] at hb
      exact hm.holds c hb

theorem neverBoth_tryCatchRethrow {α : Type} {m : Exec α} {h : Exec Unit}
    (hm : NeverBoth m)
    (hh : OnlyEmits (fun e => e ≠ .readFromQueryCache ∧ e ≠ .writeResultIntoQueryCache) h) :
    NeverBoth (tryCatchRethrow m h) := by
  refine ⟨fun c hb => ?_⟩
  simp only [tryCatchRethrow] at hb
  cases hr : (m c).result with
  | ok a =>
      rw [hr] at hb
      exact hm.holds c hb
  | error x =>
      rw [hr] at hb
      simp only [List.mem_append] at hb
      rcases hb with ⟨h1 | h1, h2 | h2⟩
      · exact hm.holds c ⟨h1, h2⟩
      · exact (hh.holds _ _ h2).2 rfl
      · exact (hh.holds _ _ h1).1 rfl
      · exact (hh.holds _ _ h1).1 rfl

/-- Sequencing a step that returns a flag with a continuation that may write only when the
flag is unset, where the step may have read only when it sets the flag. -/
theorem neverBoth_bind_flag {α β : Type} {m : Exec α} {f : α → Exec β} (flag : α → Bool)
    (hmW : OnlyEmits (fun e => e ≠ .writeResultIntoQueryCache) m)
    (hmR : ∀ c a, (m c).result = .ok a → flag a = false →
      Event.readFromQueryCache ∉ (m c).events)
    (hfR : ∀ a, OnlyEmits (fun e => e ≠ .readFromQueryCache) (f a))
    (hfW : ∀ a, flag a = true → OnlyEmits (fun e => e ≠ .writeResultIntoQueryCache) (f a)) :
    NeverBoth (m >>= f) := by
  refine ⟨fun c hb => ?_⟩
  cases hr : (m c).result with
  | ok a =>
      rw [bind_ok hr] at hb
      simp only [List.mem_append] at hb
      cases hflag : flag a with
      | true =>
          rcases hb.2 with h2 | h2
          · exact hmW.holds c _ h2 rfl
          · exact (hfW a hflag).holds _ _ h2 rfl
      | false =>
          rcases hb.1 with h1 | h1
          · exact hmR c a hr hflag h1
          · exact (hfR a).holds _ _ h1 rfl
  | error x =>
      rw [bind_error hr] at hb
      exact hmW.holds c _ hb.2 rfl

theorem execution_event_ne_read (e : Event) (h : e.isExecutionEvent = true) :
    e ≠ .readFromQueryCache := by
  cases e <;> simp_all [Event.isExecutionEvent]

theorem execution_event_ne_write (e : Event) (h : e.isExecutionEvent = true) :
    e ≠ .writeResultIntoQueryCache := by
  cases e <;> simp_all [Event.isExecutionEvent]

theorem flagTracksRead_pure (cr : CacheRead) : FlagTracksRead (pure cr) :=
  ⟨fun c _ _ _ hmem => by simp [pure, Exec.pure] at hmem⟩

theorem flagTracksRead_of_returns {m : Exec CacheRead}
    (h : Returns (fun cr => cr.read_result_from_query_cache = true) m) : FlagTracksRead m :=
  ⟨fun c cr hr hflag _ => by
    have := h.holds c cr hr
    rw [hflag] at this
    cases this⟩

theorem flagTracksRead_bind {α : Type} {m : Exec α} {f : α → Exec CacheRead}
    (hm : OnlyEmits (fun e => e ≠ .readFromQueryCache) m)
    (hf : ∀ a, FlagTracksRead (f a)) : FlagTracksRead (m >>= f) := by
  refine ⟨fun c cr hr hflag hmem => ?_⟩
  cases hr1 : (m c).result with
  | ok a =>
      rw [bind_ok hr1] at hr hmem
      simp only [List.mem_append] at hmem
      rcases hmem with h | h
      · exact hm.holds c _ h rfl
      · exact (hf a).holds _ cr hr hflag h
  | error x =>
      rw [bind_error hr1] at hr
      simp at hr

/-- The read step substitutes the pipeline only when it sets `read_result_from_query_cache`. -/
theorem flagTracksRead_readQueryCache (env : Env) (can_use_query_cache : Bool) (ast : AST)
    (res : BlockIO) : FlagTracksRead (readQueryCache env can_use_query_cache ast res) := by
  unfold readQueryCache
  repeat' first
    | intro _
    | exact flagTracksRead_pure _
    | exact flagTracksRead_of_returns (returns_bind_any fun _ => returns_pure rfl)
    | exact onlyEmits_pure _ _
    | exact onlyEmits_getContext _
    | exact onlyEmits_ofExcept _ _
    | exact onlyEmits_emit (by simp)
    | apply flagTracksRead_bind
    | apply onlyEmits_bind
    | dsimp only
    | split

theorem onlyEmits_writeQueryCache_served {P : Event → Prop} (env : Env)
    (can_use_query_cache : Bool) (ast : AST) (cr : CacheRead)
    (hflag : cr.read_result_from_query_cache = true) :
    OnlyEmits P (writeQueryCache env can_use_query_cache ast cr) := by
  refine ⟨fun c e he => ?_⟩
  cases hq : c.query_cache <;>
    simp [writeQueryCache, bind, Exec.bind, getContext, hflag, hq, pure, Exec.pure] at he

/-- What follows the cache read step in the second `try` block. -/
theorem executeLocally_neverBoth (env : Env) (inp : Input) (can_use_query_cache : Bool)
    (ast : AST) : NeverBoth (executeLocally env inp can_use_query_cache ast) := by
  unfold executeLocally
  have hX : ∀ e : Event, e.isExecutionEvent = true →
      e ≠ .readFromQueryCache ∧ e ≠ .writeResultIntoQueryCache :=
    fun e he => ⟨execution_event_ne_read e he, execution_event_ne_write e he⟩
  apply neverBoth_bind_left (onlyEmits_registerQuery env inp ast hX)
  intro process_list_entry
  apply neverBoth_bind_left (onlyEmits_buildInterpreter env inp ast hX)
  intro interpreter
  apply neverBoth_bind_left (onlyEmits_chargeQuota env ast interpreter hX)
  intro quota
  apply neverBoth_bind_left (onlyEmits_executeInterpreter env interpreter hX)
  intro res
  apply neverBoth_bind_flag (fun cr => cr.read_result_from_query_cache)
  · exact onlyEmits_readQueryCache env _ ast res execution_event_ne_write (by simp)
  · exact (flagTracksRead_readQueryCache env _ ast res).holds
  · intro cr
    repeat' first
      | intro _
      | exact onlyEmits_checkKilled _ _ execution_event_ne_read
      | exact onlyEmits_attachLimits inp _ _ execution_event_ne_read
      | exact onlyEmits_writeQueryCache env _ ast _ execution_event_ne_read (by simp)
      | exact onlyEmits_logQueryStart inp execution_event_ne_read
      | exact onlyEmits_attachCallbacks inp _ ast _ _ execution_event_ne_read
      | apply onlyEmits_bind
  · intro cr hflag
    repeat' first
      | intro _
      | exact onlyEmits_checkKilled _ _ execution_event_ne_write
      | exact onlyEmits_attachLimits inp _ _ execution_event_ne_write
      | exact onlyEmits_writeQueryCache_served env _ ast _ hflag
      | exact onlyEmits_logQueryStart inp execution_event_ne_write
      | exact onlyEmits_attachCallbacks inp _ ast _ _ execution_event_ne_write
      | apply onlyEmits_bind

theorem executeQueryImpl_neverBoth (env : Env) (inp : Input) :
    NeverBoth (executeQueryImpl env inp) := by
  have hR : ∀ e : Event, e.isRoutingEvent = true →
      e ≠ .readFromQueryCache ∧ e ≠ .writeResultIntoQueryCache := by
    intro e he; cases e <;> simp_all [Event.isRoutingEvent]
  have hB : ∀ e : Event, e.isBeforeStartEvent = true →
      e ≠ .readFromQueryCache ∧ e ≠ .writeResultIntoQueryCache := by
    intro e he; cases e <;> simp_all [Event.isBeforeStartEvent]
  have hA : ∀ e : Event, e.isAttachEvent = true →
      e ≠ .readFromQueryCache ∧ e ≠ .writeResultIntoQueryCache := by
    intro e he; cases e <;> simp_all [Event.isAttachEvent]
  unfold executeQueryImpl
  apply neverBoth_bind_left (onlyEmits_useGlobalProductMode _)
  intro _
  apply neverBoth_bind_left
    (onlyEmits_tryCatchRethrow
      (onlyEmits_parseAndRoute env inp
        (onlyEmits_parseAndCommit env inp hR (by simp) (by simp)) hR)
      (onlyEmits_beforeStartHandler inp hB))
  intro first
  unfold continueAfterFirstTry
  cases first with
  | routed ast res =>
      exact neverBoth_of_no_read (onlyEmits_pure _ _)
  | proceed ast =>
      dsimp only
      unfold attachAndExecute
      apply neverBoth_bind_left (onlyEmits_doSomeReplacementForSettings _)
      intro _
      apply neverBoth_bind_left (onlyEmits_setQuerySpecificSettings _ _)
      intro _
      apply neverBoth_bind_left (onlyEmits_getContext _)
      intro context
      apply neverBoth_bind_left (onlyEmits_attachTransaction env inp ast hA)
      intro _
      apply neverBoth_bind_right
      · exact neverBoth_tryCatchRethrow (executeLocally_neverBoth env inp _ ast)
          (onlyEmits_beforeStartHandler inp hB)
      · intro res
        exact onlyEmits_pure _ _

/-- C10. In no execution of `executeQueryImpl` is the result pipeline both substituted from a
cache reader and given a cache writer; and whenever `read_result_from_query_cache` is set, the
write step calls nothing (no run is recorded, no writer is created or attached) and leaves
the result handle unchanged. -/
theorem cache_read_and_write_never_both (env : Env) (inp : Input) (c : Context) :
    ¬ (Event.readFromQueryCache ∈ (executeQueryImpl env inp c).events
        ∧ Event.writeResultIntoQueryCache ∈ (executeQueryImpl env inp c).events)
    ∧ (∀ (can_use_query_cache : Bool) (ast : AST) (cr : CacheRead) (c2 : Context),
        cr.read_result_from_query_cache = true →
        (writeQueryCache env can_use_query_cache ast cr c2).events = []
          ∧ (writeQueryCache env can_use_query_cache ast cr c2).result = .ok cr.res) := by
  refine ⟨(executeQueryImpl_neverBoth env inp).holds c, ?_⟩
  intro can_use_query_cache ast cr c2 hflag
  cases hq : c2.query_cache <;>
    simp [writeQueryCache, bind, Exec.bind, getContext, hflag, hq, pure, Exec.pure]

/-! ### Implicit commit before DDL -/

theorem returns_obtainAST (env : Env) (inp : Input) :
    Returns (fun ast => statementOf env inp = .ok ast) (obtainAST env inp) := by
  refine ⟨fun c a ha => ?_⟩
  unfold obtainAST at ha
  unfold statementOf
  cases hin : inp.input_ast with
  | none =>
      simp only [hin] at ha ⊢
      cases hp : env.parseQuery with
      | ok q =>
          simp [bind, Exec.bind, emit, ofExcept, hp] at ha
          rw [ha]
      | error x => simp [bind, Exec.bind, emit, ofExcept, hp] at ha
  | some q =>
      simp only [hin, pure, Exec.pure, Except.ok.injEq] at ha ⊢
      exact ha

theorem onlyEmits_bind_returns {α β : Type} {P : Event → Prop} {R : α → Prop} {m : Exec α}
    {f : α → Exec β} (hm : OnlyEmits P m) (hr : Returns R m)
    (hf : ∀ a, R a → OnlyEmits P (f a)) : OnlyEmits P (m >>= f) := by
  refine ⟨fun c e he => ?_⟩
  cases hres : (m c).result with
  | ok a =>
      rw [bind_ok hres] at he
      simp only [List.mem_append] at he
      rcases he with he | he
      · exact hm.holds c e he
      · exact (hf a (hr.holds c a hres)).holds _ e he
  | error x =>
      rw [bind_error hres] at he
      exact hm.holds c e he

/-- The parse-and-commit prefix performs no implicit commit on a statement that is not DDL. -/
theorem onlyEmits_parseAndCommit_not_ddl {P : Event → Prop} (env : Env) (inp : Input)
    (ast : AST) (hstmt : statementOf env inp = .ok ast) (hddl : isDDLQuery ast = false)
    (h : ∀ n, P (.overwriteDefaultSettings n)) (hparse : P .parseQuery) :
    OnlyEmits P (parseAndCommit env inp) := by
  unfold parseAndCommit
  apply onlyEmits_bind_returns (onlyEmits_obtainAST env inp hparse) (returns_obtainAST env inp)
  intro a ha
  have hast : a = ast := by
    rw [hstmt] at ha
    simp only [Except.ok.injEq] at ha
    exact ha.symm
  subst hast
  apply onlyEmits_bind (onlyEmits_applyVWCustomizedSettings_of env h)
  intro _
  apply onlyEmits_bind (onlyEmits_getContext _)
  intro context
  simp only [hddl, Bool.and_false, Bool.false_eq_true, if_false]
  apply onlyEmits_bind (onlyEmits_pure _ _)
  intro _
  exact onlyEmits_pure _ _

/-- C6. For an ALTER statement whose only command is an attach-from-detached or attach-parts
operation, or a DROP PARTITION / DROP PARTITION WHERE without DETACH, `executeQueryImpl`
never performs the implicit commit of the session transaction, from any context (whatever
the session state) and whatever the collaborators do. -/
theorem dml_alter_never_commits_session_implicitly (env : Env) (inp : Input) (c : Context)
    (command : ASTAlterCommand) (settings_ast : Option SettingsChanges)
    (hstmt : statementOf env inp = .ok (.alter (some [command]) settings_ast))
    (hdml : command.attach_from_detached = true ∨ command.parts = true
      ∨ ((command.type = .DROP_PARTITION ∨ command.type = .DROP_PARTITION_WHERE)
          ∧ command.detach = false)) :
    Event.implicitCommit ∉ (executeQueryImpl env inp c).events := by
  have hddl : isDDLQuery (.alter (some [command]) settings_ast) = false :=
    (isDDLQuery_alter_eq_false_iff _ _).mpr ⟨command, rfl, hdml⟩
  have hR : ∀ e : Event, e.isRoutingEvent = true → e ≠ .implicitCommit := by
    intro e he; cases e <;> simp_all [Event.isRoutingEvent]
  have hB : ∀ e : Event, e.isBeforeStartEvent = true → e ≠ .implicitCommit := by
    intro e he; cases e <;> simp_all [Event.isBeforeStartEvent]
  have hA : ∀ e : Event, e.isAttachEvent = true → e ≠ .implicitCommit := by
    intro e he; cases e <;> simp_all [Event.isAttachEvent]
  have hX : ∀ e : Event, e.isExecutionEvent = true → e ≠ .implicitCommit := by
    intro e he; cases e <;> simp_all [Event.isExecutionEvent]
  have hall : OnlyEmits (fun e => e ≠ .implicitCommit) (executeQueryImpl env inp) :=
    onlyEmits_executeQueryImpl_of env inp
      (onlyEmits_parseAndCommit_not_ddl env inp _ hstmt hddl (by simp) (by simp))
      hR hB hA hX (by simp) (by simp)
  exact fun hmem => hall.holds c _ hmem rfl

theorem dml_alter_never_commits_session_implicitly_witness :
    Event.implicitCommit ∉
      (executeQueryImpl Env.nominal
        { input_ast := some (.alter (some [ASTAlterCommand.dropPartition]) none),
          internal := false, stage := .Complete, has_istr := false }
        Context.interactive).events :=
  dml_alter_never_commits_session_implicitly Env.nominal _ Context.interactive
    ASTAlterCommand.dropPartition none rfl (Or.inr (Or.inr ⟨Or.inl rfl, rfl⟩))

theorem bind_events_extend {α β : Type} {P : Event → Prop} {m : Exec α} {f : α → Exec β}
    (hf : ∀ a, OnlyEmits P (f a)) (c : Context) :
    ∃ t, ((m >>= f) c).events = (m c).events ++ t ∧ ∀ e ∈ t, P e := by
  cases hr : (m c).result with
  | ok a =>
      rw [bind_ok hr]
      exact ⟨_, rfl, fun e he => (hf a).holds _ e he⟩
  | error x =>
      rw [bind_error hr]
      exact ⟨[], by simp, by simp⟩

theorem tryCatchRethrow_events_extend {α : Type} {P : Event → Prop} {m : Exec α}
    {h : Exec Unit} (hh : OnlyEmits P h) (c : Context) :
    ∃ t, (tryCatchRethrow m h c).events = (m c).events ++ t ∧ ∀ e ∈ t, P e := by
  simp only [tryCatchRethrow]
  cases hr : (m c).result with
  | ok a => exact ⟨[], by simp, by simp⟩
  | error x => exact ⟨_, rfl, fun e he => hh.holds _ e he⟩

theorem useGlobalProductMode_run (c : Context) :
    (useGlobalProductMode c).result = .ok ()
      ∧ (useGlobalProductMode c).events = []
      ∧ isQueryInInteractiveSession (useGlobalProductMode c).context
          = isQueryInInteractiveSession c
      ∧ (useGlobalProductMode c).context.server_type = c.server_type
      ∧ (useGlobalProductMode c).context.current_transaction = c.current_transaction := by
  unfold useGlobalProductMode
  by_cases h : (c.server_type == ServerType.cnch_server) = true
  · simp [bind, Exec.bind, getContext, h, setSetting, modifyContext,
      isQueryInInteractiveSession]
  · simp [bind, Exec.bind, getContext, h, pure, Exec.pure]

theorem obtainAST_run (env : Env) (inp : Input) (c : Context) :
    (obtainAST env inp c).result = statementOf env inp
      ∧ (obtainAST env inp c).context = c
      ∧ ∀ e ∈ (obtainAST env inp c).events, e = .parseQuery := by
  unfold obtainAST statementOf
  cases hin : inp.input_ast with
  | none =>
      cases hp : env.parseQuery <;> simp [bind, Exec.bind, emit, ofExcept, hp]
  | some q => simp [pure, Exec.pure]

theorem applyVWCustomizedSettings_run (env : Env) (c : Context) :
    (applyVWCustomizedSettings env c).result = .ok ()
      ∧ (∀ e ∈ (applyVWCustomizedSettings env c).events, ∃ n, e = .overwriteDefaultSettings n)
      ∧ isQueryInInteractiveSession (applyVWCustomizedSettings env c).context
          = isQueryInInteractiveSession c := by
  unfold applyVWCustomizedSettings
  by_cases h : (c.server_type == ServerType.cnch_server) = true
  · cases hvw : c.vw_customized_settings with
    | none => simp [bind, Exec.bind, getContext, h, hvw, pure, Exec.pure]
    | some overrides =>
        cases hn : env.tryGetVirtualWarehouseName with
        | none => simp [bind, Exec.bind, getContext, h, hvw, hn, pure, Exec.pure]
        | some vw_name =>
            cases hl : overrides.lookup vw_name <;>
              simp [bind, Exec.bind, getContext, h, hvw, hn, hl, pure, Exec.pure, emit,
                modifyContext, isQueryInInteractiveSession]
  · simp [bind, Exec.bind, getContext, h, pure, Exec.pure]

theorem implicitCommit_events (env : Env) (c : Context) :
    (implicitCommit env c).events = [.implicitCommit] := by
  unfold implicitCommit
  cases hc : env.commitQuery <;>
    simp [bind, Exec.bind, emit, ofExcept, hc, modifyContext]

/-- The events of the parse-and-commit prefix on a DDL statement in an interactive session. -/
theorem parseAndCommit_events_ddl (env : Env) (inp : Input) (c : Context) (ast : AST)
    (hstmt : statementOf env inp = .ok ast) (hddl : isDDLQuery ast = true)
    (hsession : isQueryInInteractiveSession c = true) :
    ∃ pre, (parseAndCommit env inp c).events = pre ++ [.implicitCommit]
      ∧ ∀ e ∈ pre, e = .parseQuery ∨ ∃ n, e = .overwriteDefaultSettings n := by
  have hob := obtainAST_run env inp c
  rw [hstmt] at hob
  have hvw := applyVWCustomizedSettings_run env c
  unfold parseAndCommit
  rw [bind_ok hob.1, hob.2.1, bind_ok hvw.1]
  have hctx : (getContext (applyVWCustomizedSettings env c).context).result
      = .ok (applyVWCustomizedSettings env c).context := rfl
  rw [bind_ok hctx]
  have hcond : (isQueryInInteractiveSession (applyVWCustomizedSettings env c).context
      && isDDLQuery ast) = true := by
    rw [hvw.2.2, hsession, hddl]; rfl
  have hc2 : (getContext (applyVWCustomizedSettings env c).context).context
      = (applyVWCustomizedSettings env c).context := rfl
  simp only [hc2, hcond, if_true]
  refine ⟨(obtainAST env inp c).events ++ (applyVWCustomizedSettings env c).events, ?_, ?_⟩
  · cases hr : (implicitCommit env (applyVWCustomizedSettings env c).context).result with
    | ok u =>
        rw [bind_ok hr]
        simp [implicitCommit_events, getContext, pure, Exec.pure]
    | error x =>
        rw [bind_error hr]
        simp [implicitCommit_events, getContext]
  · intro e he
    simp only [List.mem_append] at he
    rcases he with he | he
    · exact Or.inl (hob.2.2 e he)
    · exact Or.inr (hvw.2.1 e he)

/-- What follows the parse-and-commit prefix inside `executeQueryImpl` performs no implicit
commit: the events of `executeQueryImpl` are those of the prefix followed by others. -/
theorem executeQueryImpl_events_after_prefix (env : Env) (inp : Input) (c : Context) :
    ∃ t, (executeQueryImpl env inp c).events
        = (parseAndCommit env inp (useGlobalProductMode c).context).events ++ t
      ∧ ∀ e ∈ t, e ≠ .implicitCommit := by
  have hR : ∀ e : Event, e.isRoutingEvent = true → e ≠ .implicitCommit := by
    intro e he; cases e <;> simp_all [Event.isRoutingEvent]
  have hB : ∀ e : Event, e.isBeforeStartEvent = true → e ≠ .implicitCommit := by
    intro e he; cases e <;> simp_all [Event.isBeforeStartEvent]
  have hA : ∀ e : Event, e.isAttachEvent = true → e ≠ .implicitCommit := by
    intro e he; cases e <;> simp_all [Event.isAttachEvent]
  have hX : ∀ e : Event, e.isExecutionEvent = true → e ≠ .implicitCommit := by
    intro e he; cases e <;> simp_all [Event.isExecutionEvent]
  have hg := useGlobalProductMode_run c
  unfold executeQueryImpl
  rw [bind_ok hg.1, hg.2.1]
  obtain ⟨t1, ht1, hP1⟩ := bind_events_extend
    (P := fun e => e ≠ .implicitCommit)
    (m := tryCatchRethrow (parseAndRoute env inp) (beforeStartHandler inp))
    (f := continueAfterFirstTry env inp)
    (fun first => onlyEmits_continueAfterFirstTry env inp first hB hA hX (by simp) (by simp))
    (useGlobalProductMode c).context
  obtain ⟨t2, ht2, hP2⟩ := tryCatchRethrow_events_extend
    (P := fun e => e ≠ .implicitCommit) (m := parseAndRoute env inp)
    (onlyEmits_beforeStartHandler inp hB) (useGlobalProductMode c).context
  obtain ⟨t3, ht3, hP3⟩ := bind_events_extend
    (P := fun e => e ≠ .implicitCommit) (m := parseAndCommit env inp)
    (f := routeOrProceed env inp)
    (fun ast => onlyEmits_routeOrProceed env inp ast hR)
    (useGlobalProductMode c).context
  refine ⟨t3 ++ t2 ++ t1, ?_, ?_⟩
  · simp only [List.nil_append]
    rw [ht1, ht2]
    unfold parseAndRoute
    rw [ht3]
    simp only [List.append_assoc]
  · intro e he
    simp only [List.mem_append] at he
    rcases he with (he | he) | he
    · exact hP3 e he
    · exact hP2 e he
    · exact hP1 e he

/-- C5. For a statement that `isDDLQuery` classifies as DDL and that arrives while
`isQueryInInteractiveSession` holds, `executeQueryImpl` performs the implicit commit of the
session transaction exactly once, and nothing but the parser call and the per-warehouse
settings override precedes it: in particular no call that creates or binds a transaction
(`prepareCnchTransaction`) comes before the commit. -/
theorem ddl_in_interactive_session_commits_before_attach (env : Env) (inp : Input)
    (c : Context) (ast : AST)
    (hstmt : statementOf env inp = .ok ast)
    (hddl : isDDLQuery ast = true)
    (hsession : isQueryInInteractiveSession c = true) :
    ∃ pre post, (executeQueryImpl env inp c).events = pre ++ Event.implicitCommit :: post
      ∧ (∀ e ∈ pre, e = .parseQuery ∨ ∃ n, e = .overwriteDefaultSettings n)
      ∧ (∀ e ∈ pre, e.isAttachEvent = false)
      ∧ Event.implicitCommit ∉ pre
      ∧ Event.implicitCommit ∉ post := by
  have hg := useGlobalProductMode_run c
  obtain ⟨t, ht, hPt⟩ := executeQueryImpl_events_after_prefix env inp c
  obtain ⟨pre, hpre, hPpre⟩ := parseAndCommit_events_ddl env inp
    (useGlobalProductMode c).context ast hstmt hddl (by rw [hg.2.2.1]; exact hsession)
  refine ⟨pre, t, ?_, hPpre, ?_, ?_, ?_⟩
  · rw [ht, hpre]
    simp
  · intro e he
    rcases hPpre e he with h | ⟨n, h⟩ <;> subst h <;> rfl
  · intro hmem
    rcases hPpre _ hmem with h | ⟨n, h⟩ <;> cases h
  · exact fun hmem => hPt _ hmem rfl

theorem ddl_in_interactive_session_commits_before_attach_witness :
    ∃ pre post,
      (executeQueryImpl Env.nominal
        { input_ast := some (.create none), internal := false, stage := .Complete,
          has_istr := false }
        Context.interactive).events = pre ++ Event.implicitCommit :: post
      ∧ (∀ e ∈ pre, e = .parseQuery ∨ ∃ n, e = .overwriteDefaultSettings n)
      ∧ (∀ e ∈ pre, e.isAttachEvent = false)
      ∧ Event.implicitCommit ∉ pre
      ∧ Event.implicitCommit ∉ post :=
  ddl_in_interactive_session_commits_before_attach Env.nominal _ Context.interactive
    (.create none) rfl rfl rfl

/-! ### Properties of the context kept by a computation -/

theorem preserves_pure {α : Type} (I : Context → Prop) (a : α) :
    Preserves I (pure a : Exec α) := ⟨fun _ h => h⟩

theorem preserves_emit (I : Context → Prop) (e : Event) : Preserves I (emit e) :=
  ⟨fun _ h => h⟩

theorem preserves_emitWhen (I : Context → Prop) (cond : Bool) (e : Event) :
    Preserves I (emitWhen cond e) := by
  unfold emitWhen
  split
  · exact preserves_emit I e
  · exact preserves_pure I ()

theorem preserves_throwException {α : Type} (I : Context → Prop) (x : Exception) :
    Preserves I (throwException x : Exec α) := ⟨fun _ h => h⟩

theorem preserves_ofExcept {α : Type} (I : Context → Prop) (r : Except Exception α) :
    Preserves I (ofExcept r) := ⟨fun _ h => h⟩

theorem preserves_getContext (I : Context → Prop) : Preserves I getContext :=
  ⟨fun _ h => h⟩

theorem preserves_modifyContext {I : Context → Prop} {f : Context → Context}
    (h : ∀ c, I c → I (f c)) : Preserves I (modifyContext f) := ⟨fun c hc => h c hc⟩

theorem preserves_setSetting {I : Context → Prop}
    (h : ∀ c s, I c → I { c with settings := s }) (n : SettingName) (v : Nat) :
    Preserves I (setSetting n v) :=
  preserves_modifyContext (fun c hc => h c _ hc)

theorem preserves_bind {α β : Type} {I : Context → Prop} {m : Exec α} {f : α → Exec β}
    (hm : Preserves I m) (hf : ∀ a, Preserves I (f a)) : Preserves I (m >>= f) := by
  refine ⟨fun c hc => ?_⟩
  cases hr : (m c).result with
  | ok a =>
      rw [bind_ok hr]
      exact (hf a).holds _ (hm.holds c hc)
  | error x =>
      rw [bind_error hr]
      exact hm.holds c hc

theorem preserves_tryCatchRethrow {α : Type} {I : Context → Prop} {m : Exec α}
    {h : Exec Unit} (hm : Preserves I m) (hh : Preserves I h) :
    Preserves I (tryCatchRethrow m h) := by
  refine ⟨fun c hc => ?_⟩
  simp only [tryCatchRethrow]
  cases hr : (m c).result with
  | ok a => exact hm.holds c hc
  | error x => exact hh.holds _ (hm.holds c hc)

theorem preserves_tryCatch {α : Type} {I : Context → Prop} {m : Exec α}
    {h : Exception → Exec α} (hm : Preserves I m) (hh : ∀ x, Preserves I (h x)) :
    Preserves I (tryCatch m h) := by
  refine ⟨fun c hc => ?_⟩
  simp only [tryCatch]
  cases hr : (m c).result with
  | ok a => exact hm.holds c hc
  | error x => exact (hh x).holds _ (hm.holds c hc)

/-- The first `try` block and its handler leave the bound transaction, the process-list
element and the server type of the context as they were. -/
theorem preserves_firstTry (env : Env) (inp : Input) (txn : Option Transaction)
    (elem : Option QueryStatus) (st : ServerType) :
    Preserves
      (fun c => c.current_transaction = txn ∧ c.process_list_element = elem
        ∧ c.server_type = st)
      (tryCatchRethrow (parseAndRoute env inp) (beforeStartHandler inp)) := by
  unfold parseAndRoute parseAndCommit routeOrProceed beforeStartHandler obtainAST
    applyVWCustomizedSettings implicitCommit routeQuery executeQueryByProxy
    interpretSettingsIfParsed interpretSettings executeForCurrentContext
    finish_current_transaction onExceptionBeforeStart
  repeat' first
    | intro _
    | exact preserves_pure _ _
    | exact preserves_emit _ _
    | exact preserves_emitWhen _ _ _
    | exact preserves_getContext _
    | exact preserves_ofExcept _ _
    | exact preserves_throwException _ _
    | exact preserves_modifyContext (fun c hc => hc)
    | apply preserves_bind
    | apply preserves_tryCatchRethrow
    | dsimp only
    | split

/-! ### Rerouted statements -/

/-- The routing step when the router resolves a non-empty, non-local host: either the router
is not consulted and the step returns nothing, or it is consulted and the step ends with the
proxied handle or with the failure of the delegation. -/
theorem routeQuery_run (env : Env) (res : BlockIO) (c : Context) (host : HostWithPorts)
    (hhost : env.getTargetServer = .ok host) (hnonempty : host.empty = false)
    (hremote : env.isLocalServer = false) :
    ((routeQuery env res c).events = [] ∧ (routeQuery env res c).result = .ok none)
    ∨ (Event.getTargetServer ∈ (routeQuery env res c).events
        ∧ (routeQuery env res c).result ≠ .ok none
        ∧ (∀ p, env.initializeExternalTablesIfSet = .ok () → env.executeQueryByProxy = .ok p →
            (routeQuery env res c).result = .ok (some { res with pipeline := p }))) := by
  unfold routeQuery
  by_cases hcond : (c.server_type == ServerType.cnch_server
      && (isQueryInInteractiveSession c || c.settings.enable_auto_query_forwarding
          || c.settings.use_query_cache)) = true
  · right
    cases hinit : env.initializeExternalTablesIfSet with
    | error x =>
        simp [bind, Exec.bind, getContext, hcond, emit, ofExcept, hhost, hnonempty, hremote,
          hinit]
    | ok u =>
        cases hp : env.executeQueryByProxy with
        | error x =>
            simp [bind, Exec.bind, getContext, hcond, emit, ofExcept, hhost, hnonempty,
              hremote, hinit, executeQueryByProxy, hp]
        | ok p =>
            simp [bind, Exec.bind, getContext, hcond, emit, ofExcept, hhost, hnonempty,
              hremote, hinit, executeQueryByProxy, hp, pure, Exec.pure]
  · left
    simp [bind, Exec.bind, getContext, hcond, pure, Exec.pure]

theorem routeOrProceed_run (env : Env) (inp : Input) (ast : AST) (c : Context)
    (host : HostWithPorts)
    (hhost : env.getTargetServer = .ok host) (hnonempty : host.empty = false)
    (hremote : env.isLocalServer = false) :
    (∀ a, (routeOrProceed env inp ast c).result = .ok (.proceed a) →
        Event.getTargetServer ∉ (routeOrProceed env inp ast c).events)
    ∧ (Event.getTargetServer ∈ (routeOrProceed env inp ast c).events →
        ∀ p, env.initializeExternalTablesIfSet = .ok () → env.executeQueryByProxy = .ok p →
          (routeOrProceed env inp ast c).result
            = .ok (.routed ast { BlockIO.fresh with pipeline := p })) := by
  have hnone : ∀ c2, Event.getTargetServer ∉
      ((do interpretSettingsIfParsed env inp ast
           return FirstTry.proceed ast : Exec FirstTry) c2).events := by
    intro c2
    apply onlyEmits_not_mem (P := fun e => e ≠ .getTargetServer) _ (by simp)
    exact onlyEmits_bind
      (onlyEmits_interpretSettingsIfParsed_of env inp ast (by simp))
      (fun _ => onlyEmits_pure _ _)
  unfold routeOrProceed
  rcases routeQuery_run env BlockIO.fresh c host hhost hnonempty hremote with
    ⟨hev, hres⟩ | ⟨hmem, hne, hok⟩
  · rw [bind_ok hres]
    simp only [hev, List.nil_append]
    exact ⟨fun _ _ => hnone _, fun h => absurd h (hnone _)⟩
  · constructor
    · intro a ha
      cases hr : (routeQuery env BlockIO.fresh c).result with
      | error x =>
          rw [bind_error hr] at ha
          simp at ha
      | ok o =>
          cases o with
          | none => exact absurd hr hne
          | some r =>
              rw [bind_ok hr] at ha
              simp [pure, Exec.pure] at ha
    · intro _ p hinit hp
      rw [bind_ok (hok p hinit hp)]
      rfl

theorem parseAndRoute_run (env : Env) (inp : Input) (c : Context) (host : HostWithPorts)
    (hhost : env.getTargetServer = .ok host) (hnonempty : host.empty = false)
    (hremote : env.isLocalServer = false) :
    (∀ a, (parseAndRoute env inp c).result = .ok (.proceed a) →
        Event.getTargetServer ∉ (parseAndRoute env inp c).events)
    ∧ (Event.getTargetServer ∈ (parseAndRoute env inp c).events →
        ∀ p, env.initializeExternalTablesIfSet = .ok () → env.executeQueryByProxy = .ok p →
          ∃ ast, (parseAndRoute env inp c).result
            = .ok (.routed ast { BlockIO.fresh with pipeline := p })) := by
  have hpc : Event.getTargetServer ∉ (parseAndCommit env inp c).events :=
    onlyEmits_not_mem (P := fun e => e ≠ .getTargetServer)
      (onlyEmits_parseAndCommit_of env inp (by simp) (by simp) (by simp)) (by simp) c
  unfold parseAndRoute
  cases hr : (parseAndCommit env inp c).result with
  | error x =>
      rw [bind_error hr]
      exact ⟨fun a ha => by simp at ha, fun h => absurd h hpc⟩
  | ok ast =>
      rw [bind_ok hr]
      have h := routeOrProceed_run env inp ast (parseAndCommit env inp c).context host hhost
        hnonempty hremote
      constructor
      · intro a ha hmem
        simp only [List.mem_append] at hmem
        rcases hmem with hmem | hmem
        · exact hpc hmem
        · exact h.1 a ha hmem
      · intro hmem p hinit hp
        simp only [List.mem_append] at hmem
        rcases hmem with hmem | hmem
        · exact absurd hmem hpc
        · exact ⟨ast, h.2 hmem p hinit hp⟩

/-- The events of the first `try` block and its handler. -/
theorem onlyEmits_firstTry (env : Env) (inp : Input) :
    OnlyEmits
      (fun e => e.isAttachEvent = false ∧ e ≠ .processListInsert
        ∧ e.isCallbackInvocation = false)
      (tryCatchRethrow (parseAndRoute env inp) (beforeStartHandler inp)) := by
  have hR : ∀ e : Event, e.isRoutingEvent = true →
      e.isAttachEvent = false ∧ e ≠ .processListInsert ∧ e.isCallbackInvocation = false := by
    intro e he
    cases e <;> simp_all [Event.isRoutingEvent, Event.isAttachEvent, Event.isCallbackInvocation]
  have hB : ∀ e : Event, e.isBeforeStartEvent = true →
      e.isAttachEvent = false ∧ e ≠ .processListInsert ∧ e.isCallbackInvocation = false := by
    intro e he
    cases e <;>
      simp_all [Event.isBeforeStartEvent, Event.isAttachEvent, Event.isCallbackInvocation]
  exact onlyEmits_tryCatchRethrow
    (onlyEmits_parseAndRoute env inp
      (onlyEmits_parseAndCommit env inp hR (by simp [Event.isAttachEvent,
        Event.isCallbackInvocation]) (by simp [Event.isAttachEvent,
        Event.isCallbackInvocation])) hR)
    (onlyEmits_beforeStartHandler inp hB)

theorem firstTry_run (env : Env) (inp : Input) (c : Context) (host : HostWithPorts)
    (hhost : env.getTargetServer = .ok host) (hnonempty : host.empty = false)
    (hremote : env.isLocalServer = false) :
    (∀ a, (tryCatchRethrow (parseAndRoute env inp) (beforeStartHandler inp) c).result
          = .ok (.proceed a) →
        Event.getTargetServer ∉
          (tryCatchRethrow (parseAndRoute env inp) (beforeStartHandler inp) c).events)
    ∧ (Event.getTargetServer ∈
          (tryCatchRethrow (parseAndRoute env inp) (beforeStartHandler inp) c).events →
        ∀ p, env.initializeExternalTablesIfSet = .ok () → env.executeQueryByProxy = .ok p →
          ∃ ast, (tryCatchRethrow (parseAndRoute env inp) (beforeStartHandler inp) c).result
            = .ok (.routed ast { BlockIO.fresh with pipeline := p })) := by
  have h := parseAndRoute_run env inp c host hhost hnonempty hremote
  have hB : ∀ c2, Event.getTargetServer ∉ (beforeStartHandler inp c2).events := by
    intro c2
    apply onlyEmits_not_mem (P := fun e => e ≠ .getTargetServer) _ (by simp)
    apply onlyEmits_beforeStartHandler
    intro e he
    cases e <;> simp_all [Event.isBeforeStartEvent]
  simp only [tryCatchRethrow]
  cases hr : (parseAndRoute env inp c).result with
  | ok first =>
      simp only
      rw [hr] at h
      exact h
  | error x =>
      simp only
      rw [hr] at h
      constructor
      · intro a ha
        split at ha <;> simp at ha
      · intro hmem p hinit hp
        simp only [List.mem_append] at hmem
        rcases hmem with hmem | hmem
        · obtain ⟨ast, hast⟩ := h.2 hmem p hinit hp
          simp at hast
        · exact absurd hmem (hB _)

theorem preserves_useGlobalProductMode {I : Context → Prop}
    (h : ∀ c s, I c → I { c with settings := s }) : Preserves I useGlobalProductMode := by
  unfold useGlobalProductMode
  repeat' first
    | intro _
    | exact preserves_pure _ _
    | exact preserves_getContext _
    | exact preserves_setSetting h _ _
    | apply preserves_bind
    | split

/-- How `executeQueryImpl` ends, by the way its first `try` block ends. -/
theorem executeQueryImpl_of_firstTry (env : Env) (inp : Input) (c : Context) :
    (∀ x, (tryCatchRethrow (parseAndRoute env inp) (beforeStartHandler inp)
            (useGlobalProductMode c).context).result = .error x →
        executeQueryImpl env inp c =
          { events := (tryCatchRethrow (parseAndRoute env inp) (beforeStartHandler inp)
              (useGlobalProductMode c).context).events,
            context := (tryCatchRethrow (parseAndRoute env inp) (beforeStartHandler inp)
              (useGlobalProductMode c).context).context,
            result := .error x })
    ∧ (∀ ast res, (tryCatchRethrow (parseAndRoute env inp) (beforeStartHandler inp)
            (useGlobalProductMode c).context).result = .ok (.routed ast res) →
        executeQueryImpl env inp c =
          { events := (tryCatchRethrow (parseAndRoute env inp) (beforeStartHandler inp)
              (useGlobalProductMode c).context).events,
            context := (tryCatchRethrow (parseAndRoute env inp) (beforeStartHandler inp)
              (useGlobalProductMode c).context).context,
            result := .ok (ast, res) })
    ∧ (∀ ast, (tryCatchRethrow (parseAndRoute env inp) (beforeStartHandler inp)
            (useGlobalProductMode c).context).result = .ok (.proceed ast) →
        executeQueryImpl env inp c =
          { events := (tryCatchRethrow (parseAndRoute env inp) (beforeStartHandler inp)
              (useGlobalProductMode c).context).events
                ++ (attachAndExecute env inp ast
                    (tryCatchRethrow (parseAndRoute env inp) (beforeStartHandler inp)
                      (useGlobalProductMode c).context).context).events,
            context := (attachAndExecute env inp ast
                    (tryCatchRethrow (parseAndRoute env inp) (beforeStartHandler inp)
                      (useGlobalProductMode c).context).context).context,
            result := (attachAndExecute env inp ast
                    (tryCatchRethrow (parseAndRoute env inp) (beforeStartHandler inp)
                      (useGlobalProductMode c).context).context).result }) := by
  have hg := useGlobalProductMode_run c
  refine ⟨?_, ?_, ?_⟩
  · intro x hx
    unfold executeQueryImpl
    rw [bind_ok hg.1, bind_error hx, hg.2.1]
    simp
  · intro ast res hx
    unfold executeQueryImpl
    rw [bind_ok hg.1, bind_ok hx, hg.2.1]
    simp [continueAfterFirstTry, pure, Exec.pure]
  · intro ast hx
    unfold executeQueryImpl
    rw [bind_ok hg.1, bind_ok hx, hg.2.1]
    simp [continueAfterFirstTry]

theorem attachAndExecute_consults_no_router (env : Env) (inp : Input) (ast : AST) :
    OnlyEmits (fun e => e ≠ .getTargetServer) (attachAndExecute env inp ast) := by
  apply onlyEmits_attachAndExecute env inp ast
  · intro e he; cases e <;> simp_all [Event.isBeforeStartEvent]
  · intro e he; cases e <;> simp_all [Event.isAttachEvent]
  · intro e he; cases e <;> simp_all [Event.isExecutionEvent]
  · simp
  · simp

/-- C4. When the router is consulted and resolves a non-empty target host that is not the
local server, `executeQueryImpl` performs no call of transaction attachment or admission
(`prepareCnchTransaction` and what follows it), no insertion into the process list and no
callback invocation; the context keeps the bound transaction and process-list element it
had; a returned handle is exactly the proxied one, with neither callback and no process-list
entry; and the proxied handle is returned whenever the initialization of external tables
and the delegation itself do not throw. -/
theorem rerouted_statement_has_no_local_effects (env : Env) (inp : Input) (c : Context)
    (host : HostWithPorts)
    (hconsulted : Event.getTargetServer ∈ (executeQueryImpl env inp c).events)
    (hhost : env.getTargetServer = .ok host)
    (hnonempty : host.empty = false)
    (hremote : env.isLocalServer = false) :
    (∀ e ∈ (executeQueryImpl env inp c).events,
        e.isAttachEvent = false ∧ e ≠ .processListInsert ∧ e.isCallbackInvocation = false)
    ∧ (executeQueryImpl env inp c).context.current_transaction = c.current_transaction
    ∧ (executeQueryImpl env inp c).context.process_list_element = c.process_list_element
    ∧ (∀ r, (executeQueryImpl env inp c).result = .ok r →
        (∃ p, env.executeQueryByProxy = .ok p ∧ r.2 = { BlockIO.fresh with pipeline := p })
          ∧ r.2.finish_callback = none ∧ r.2.exception_callback = none
          ∧ r.2.process_list_entry = none)
    ∧ (∀ p, env.initializeExternalTablesIfSet = .ok () → env.executeQueryByProxy = .ok p →
        ∃ ast, (executeQueryImpl env inp c).result
          = .ok (ast, { BlockIO.fresh with pipeline := p })) := by
  have hcases := executeQueryImpl_of_firstTry env inp c
  have hrun := firstTry_run env inp (useGlobalProductMode c).context host hhost hnonempty
    hremote
  have hev := (onlyEmits_firstTry env inp).holds (useGlobalProductMode c).context
  have hshape := (returns_tryCatchRethrow (h := beforeStartHandler inp)
    (returns_parseAndRoute env inp)).holds (useGlobalProductMode c).context
  have hctx0 := (preserves_useGlobalProductMode
    (I := fun c2 => c2.current_transaction = c.current_transaction
      ∧ c2.process_list_element = c.process_list_element
      ∧ c2.server_type = c.server_type) (fun _ _ h => h)).holds c ⟨rfl, rfl, rfl⟩
  have hctx := (preserves_firstTry env inp c.current_transaction c.process_list_element
    c.server_type).holds (useGlobalProductMode c).context hctx0
  cases hT : (tryCatchRethrow (parseAndRoute env inp) (beforeStartHandler inp)
      (useGlobalProductMode c).context).result with
  | error x =>
      have heq := hcases.1 x hT
      rw [heq] at hconsulted ⊢
      refine ⟨hev, hctx.1, hctx.2.1, fun r hr => by simp at hr, ?_⟩
      intro p hinit hp
      obtain ⟨ast, hast⟩ := hrun.2 hconsulted p hinit hp
      rw [hT] at hast
      simp at hast
  | ok first =>
      cases first with
      | routed ast res =>
          have heq := hcases.2.1 ast res hT
          rw [heq] at hconsulted ⊢
          obtain ⟨p, hp, hres⟩ := hshape _ hT ast res rfl
          refine ⟨hev, hctx.1, hctx.2.1, ?_, ?_⟩
          · intro r hr
            simp only [Except.ok.injEq] at hr
            subst hr
            refine ⟨⟨p, hp, hres⟩, ?_, ?_, ?_⟩ <;> rw [hres] <;> rfl
          · intro p2 hinit hp2
            obtain ⟨ast2, hast⟩ := hrun.2 hconsulted p2 hinit hp2
            rw [hT] at hast
            simp only [Except.ok.injEq, FirstTry.routed.injEq] at hast
            exact ⟨ast, by rw [hast.2]⟩
      | proceed ast =>
          exfalso
          have heq := hcases.2.2 ast hT
          rw [heq] at hconsulted
          simp only [List.mem_append] at hconsulted
          rcases hconsulted with hmem | hmem
          · exact hrun.1 ast hT hmem
          · exact (attachAndExecute_consults_no_router env inp ast).holds _ _ hmem rfl

theorem rerouted_statement_has_no_local_effects_witness :
    (∀ e ∈ (executeQueryImpl Env.remote Input.client Context.forwarding).events,
        e.isAttachEvent = false ∧ e ≠ .processListInsert ∧ e.isCallbackInvocation = false)
    ∧ (∃ ast, (executeQueryImpl Env.remote Input.client Context.forwarding).result
          = .ok (ast, { BlockIO.fresh with pipeline := QueryPipeline.oneStream })) :=
  ⟨(rerouted_statement_has_no_local_effects Env.remote Input.client Context.forwarding
      { host := "server-2", rpc_port := 9010, tcp_port := 9000 }
      (by decide) rfl (by decide) rfl).1,
   (rerouted_statement_has_no_local_effects Env.remote Input.client Context.forwarding
      { host := "server-2", rpc_port := 9010, tcp_port := 9000 }
      (by decide) rfl (by decide) rfl).2.2.2.2 QueryPipeline.oneStream rfl rfl⟩

/-! ### Completion of the attached transaction -/

theorem mem_bind_left {α β : Type} {m : Exec α} {f : α → Exec β} {c : Context} {e : Event}
    (h : e ∈ (m c).events) : e ∈ ((m >>= f) c).events := by
  cases hr : (m c).result with
  | ok a => rw [bind_ok hr]; exact List.mem_append_left _ h
  | error x => rw [bind_error hr]; exact h

theorem bind_inv {α β : Type} {m : Exec α} {f : α → Exec β} {c : Context} {b : β}
    (h : ((m >>= f) c).result = .ok b) :
    ∃ a, (m c).result = .ok a ∧ (f a (m c).context).result = .ok b
      ∧ ((m >>= f) c).context = (f a (m c).context).context
      ∧ ((m >>= f) c).events = (m c).events ++ (f a (m c).context).events := by
  cases hr : (m c).result with
  | ok a =>
      rw [bind_ok hr] at h ⊢
      exact ⟨a, rfl, h, rfl, rfl⟩
  | error x =>
      rw [bind_error hr] at h
      simp at h

theorem tryCatchRethrow_inv {α : Type} {m : Exec α} {h : Exec Unit} {c : Context} {a : α}
    (hr : (tryCatchRethrow m h c).result = .ok a) :
    (m c).result = .ok a
      ∧ (tryCatchRethrow m h c).context = (m c).context
      ∧ (tryCatchRethrow m h c).events = (m c).events := by
  simp only [tryCatchRethrow] at hr ⊢
  cases hm : (m c).result with
  | ok b =>
      rw [hm] at hr
      simp only [Except.ok.injEq] at hr
      subst hr
      exact ⟨rfl, rfl, rfl⟩
  | error x =>
      rw [hm] at hr
      dsimp only at hr
      split at hr <;> simp at hr

/-- On a `cnch_server`, when `prepareCnchTransaction` returns, it returns a transaction that
is the one bound to the context: either it was bound before, or it has just been bound. -/
theorem prepareCnchTransaction_on_server (env : Env) (ast : AST) (c : Context)
    (hserver : c.server_type = .cnch_server) (r : Option Transaction)
    (hr : (prepareCnchTransaction env ast c).result = .ok r) :
    ∃ txn, r = some txn
      ∧ (prepareCnchTransaction env ast c).context.server_type = .cnch_server
      ∧ (prepareCnchTransaction env ast c).context.current_transaction = some txn
      ∧ (c.current_transaction = some txn
          ∨ Event.setCurrentTransaction txn ∈ (prepareCnchTransaction env ast c).events) := by
  unfold prepareCnchTransaction at hr ⊢
  cases hcur : c.current_transaction with
  | some t =>
      simp only [bind, Exec.bind, getContext, hserver, hcur, pure, Exec.pure,
        bne_self_eq_false, Bool.false_and, Bool.false_eq_true, if_false,
        Except.ok.injEq] at hr ⊢
      exact ⟨t, hr.symm, trivial, rfl, Or.inl rfl⟩
  | none =>
      cases hcreate : env.createTransaction with
      | error x =>
          simp [bind, Exec.bind, getContext, hserver, hcur, emit, ofExcept, hcreate] at hr
      | ok id =>
          cases hro : env.isReadOnlyTransaction ast <;>
          cases hint : isQueryInInteractiveSession c <;>
          cases hex : asCnchExplicitTransaction c.session_transaction <;>
          simp [bind, Exec.bind, getContext, hserver, hcur, emit, ofExcept, hcreate,
            modifyContext, pure, Exec.pure, hro, hint, hex] at hr ⊢ <;>
          exact hr.symm


/-- The steps of local execution and both finalization paths leave the bound transaction
and the server type of the context as they were. -/
theorem preserves_finish_current_transaction (txn : Option Transaction) (st : ServerType) :
    Preserves (Bound txn st) (finish_current_transaction) := by
  unfold finish_current_transaction
  repeat' first
    | intro _
    | exact preserves_pure _ _
    | exact preserves_emit _ _
    | exact preserves_emitWhen _ _ _
    | exact preserves_getContext _
    | exact preserves_ofExcept _ _
    | exact preserves_throwException _ _
    | exact preserves_modifyContext (fun c hc => hc)
    | exact preserves_setSetting (fun c s hc => hc) _ _
    | apply preserves_bind
    | apply preserves_tryCatch
    | apply preserves_tryCatchRethrow
    | dsimp only
    | split

theorem preserves_onExceptionBeforeStart (txn : Option Transaction) (st : ServerType) :
    Preserves (Bound txn st) (onExceptionBeforeStart) := by
  unfold onExceptionBeforeStart
  repeat' first
    | intro _
    | exact preserves_pure _ _
    | exact preserves_emit _ _
    | exact preserves_emitWhen _ _ _
    | exact preserves_getContext _
    | exact preserves_ofExcept _ _
    | exact preserves_throwException _ _
    | exact preserves_modifyContext (fun c hc => hc)
    | exact preserves_setSetting (fun c s hc => hc) _ _
    | apply preserves_bind
    | apply preserves_tryCatch
    | apply preserves_tryCatchRethrow
    | dsimp only
    | split

theorem preserves_beforeStartHandler (txn : Option Transaction) (st : ServerType) (inp : Input) :
    Preserves (Bound txn st) (beforeStartHandler inp) := by
  unfold beforeStartHandler
  repeat' first
    | intro _
    | exact preserves_pure _ _
    | exact preserves_emit _ _
    | exact preserves_emitWhen _ _ _
    | exact preserves_getContext _
    | exact preserves_ofExcept _ _
    | exact preserves_throwException _ _
    | exact preserves_modifyContext (fun c hc => hc)
    | exact preserves_setSetting (fun c s hc => hc) _ _
    | exact preserves_finish_current_transaction txn st
    | exact preserves_onExceptionBeforeStart txn st
    | apply preserves_bind
    | apply preserves_tryCatch
    | apply preserves_tryCatchRethrow
    | dsimp only
    | split

theorem preserves_tryQueueQuery (txn : Option Transaction) (st : ServerType) (env : Env) (ast_type : ASTType) :
    Preserves (Bound txn st) (tryQueueQuery env ast_type) := by
  unfold tryQueueQuery
  repeat' first
    | intro _
    | exact preserves_pure _ _
    | exact preserves_emit _ _
    | exact preserves_emitWhen _ _ _
    | exact preserves_getContext _
    | exact preserves_ofExcept _ _
    | exact preserves_throwException _ _
    | exact preserves_modifyContext (fun c hc => hc)
    | exact preserves_setSetting (fun c s hc => hc) _ _
    | apply preserves_bind
    | apply preserves_tryCatch
    | apply preserves_tryCatchRethrow
    | dsimp only
    | split

theorem preserves_admitWhenAttached (txn : Option Transaction) (st : ServerType) (env : Env) (inp : Input) (ast : AST) (t : Option Transaction) :
    Preserves (Bound txn st) (admitWhenAttached env inp ast t) := by
  unfold admitWhenAttached admitQuery bindWorkerGroup
  repeat' first
    | intro _
    | exact preserves_pure _ _
    | exact preserves_emit _ _
    | exact preserves_emitWhen _ _ _
    | exact preserves_getContext _
    | exact preserves_ofExcept _ _
    | exact preserves_throwException _ _
    | exact preserves_modifyContext (fun c hc => hc)
    | exact preserves_setSetting (fun c s hc => hc) _ _
    | exact preserves_tryQueueQuery txn st env _
    | apply preserves_bind
    | apply preserves_tryCatch
    | apply preserves_tryCatchRethrow
    | dsimp only
    | split

theorem preserves_registerQuery (txn : Option Transaction) (st : ServerType) (env : Env) (inp : Input) (ast : AST) :
    Preserves (Bound txn st) (registerQuery env inp ast) := by
  unfold registerQuery
  repeat' first
    | intro _
    | exact preserves_pure _ _
    | exact preserves_emit _ _
    | exact preserves_emitWhen _ _ _
    | exact preserves_getContext _
    | exact preserves_ofExcept _ _
    | exact preserves_throwException _ _
    | exact preserves_modifyContext (fun c hc => hc)
    | exact preserves_setSetting (fun c s hc => hc) _ _
    | apply preserves_bind
    | apply preserves_tryCatch
    | apply preserves_tryCatchRethrow
    | dsimp only
    | split

theorem preserves_buildInterpreter (txn : Option Transaction) (st : ServerType) (env : Env) (inp : Input) (ast : AST) :
    Preserves (Bound txn st) (buildInterpreter env inp ast) := by
  unfold buildInterpreter
  repeat' first
    | intro _
    | exact preserves_pure _ _
    | exact preserves_emit _ _
    | exact preserves_emitWhen _ _ _
    | exact preserves_getContext _
    | exact preserves_ofExcept _ _
    | exact preserves_throwException _ _
    | exact preserves_modifyContext (fun c hc => hc)
    | exact preserves_setSetting (fun c s hc => hc) _ _
    | apply preserves_bind
    | apply preserves_tryCatch
    | apply preserves_tryCatchRethrow
    | dsimp only
    | split

theorem preserves_chargeQuota (txn : Option Transaction) (st : ServerType) (env : Env) (ast : AST) (interpreter : Interpreter) :
    Preserves (Bound txn st) (chargeQuota env ast interpreter) := by
  unfold chargeQuota
  repeat' first
    | intro _
    | exact preserves_pure _ _
    | exact preserves_emit _ _
    | exact preserves_emitWhen _ _ _
    | exact preserves_getContext _
    | exact preserves_ofExcept _ _
    | exact preserves_throwException _ _
    | exact preserves_modifyContext (fun c hc => hc)
    | exact preserves_setSetting (fun c s hc => hc) _ _
    | apply preserves_bind
    | apply preserves_tryCatch
    | apply preserves_tryCatchRethrow
    | dsimp only
    | split

theorem preserves_executeInterpreter (txn : Option Transaction) (st : ServerType) (env : Env) (interpreter : Interpreter) :
    Preserves (Bound txn st) (executeInterpreter env interpreter) := by
  unfold executeInterpreter executeFallback retryExecute turnOffOptimizer turnOffPerfectShard
  repeat' first
    | intro _
    | exact preserves_pure _ _
    | exact preserves_emit _ _
    | exact preserves_emitWhen _ _ _
    | exact preserves_getContext _
    | exact preserves_ofExcept _ _
    | exact preserves_throwException _ _
    | exact preserves_modifyContext (fun c hc => hc)
    | exact preserves_setSetting (fun c s hc => hc) _ _
    | apply preserves_bind
    | apply preserves_tryCatch
    | apply preserves_tryCatchRethrow
    | dsimp only
    | split

theorem preserves_readQueryCache (txn : Option Transaction) (st : ServerType) (env : Env) (can_use_query_cache : Bool) (ast : AST) (res : BlockIO) :
    Preserves (Bound txn st) (readQueryCache env can_use_query_cache ast res) := by
  unfold readQueryCache
  repeat' first
    | intro _
    | exact preserves_pure _ _
    | exact preserves_emit _ _
    | exact preserves_emitWhen _ _ _
    | exact preserves_getContext _
    | exact preserves_ofExcept _ _
    | exact preserves_throwException _ _
    | exact preserves_modifyContext (fun c hc => hc)
    | exact preserves_setSetting (fun c s hc => hc) _ _
    | apply preserves_bind
    | apply preserves_tryCatch
    | apply preserves_tryCatchRethrow
    | dsimp only
    | split

theorem preserves_checkKilled (txn : Option Transaction) (st : ServerType) (entry : Option QueryStatus) (res : BlockIO) :
    Preserves (Bound txn st) (checkKilled entry res) := by
  unfold checkKilled
  repeat' first
    | intro _
    | exact preserves_pure _ _
    | exact preserves_emit _ _
    | exact preserves_emitWhen _ _ _
    | exact preserves_getContext _
    | exact preserves_ofExcept _ _
    | exact preserves_throwException _ _
    | exact preserves_modifyContext (fun c hc => hc)
    | exact preserves_setSetting (fun c s hc => hc) _ _
    | apply preserves_bind
    | apply preserves_tryCatch
    | apply preserves_tryCatchRethrow
    | dsimp only
    | split

theorem preserves_attachLimits (txn : Option Transaction) (st : ServerType) (inp : Input) (interpreter : Interpreter) (res : BlockIO) :
    Preserves (Bound txn st) (attachLimits inp interpreter res) := by
  unfold attachLimits
  repeat' first
    | intro _
    | exact preserves_pure _ _
    | exact preserves_emit _ _
    | exact preserves_emitWhen _ _ _
    | exact preserves_getContext _
    | exact preserves_ofExcept _ _
    | exact preserves_throwException _ _
    | exact preserves_modifyContext (fun c hc => hc)
    | exact preserves_setSetting (fun c s hc => hc) _ _
    | apply preserves_bind
    | apply preserves_tryCatch
    | apply preserves_tryCatchRethrow
    | dsimp only
    | split

theorem preserves_writeQueryCache (txn : Option Transaction) (st : ServerType) (env : Env) (can_use_query_cache : Bool) (ast : AST) (cr : CacheRead) :
    Preserves (Bound txn st) (writeQueryCache env can_use_query_cache ast cr) := by
  unfold writeQueryCache
  repeat' first
    | intro _
    | exact preserves_pure _ _
    | exact preserves_emit _ _
    | exact preserves_emitWhen _ _ _
    | exact preserves_getContext _
    | exact preserves_ofExcept _ _
    | exact preserves_throwException _ _
    | exact preserves_modifyContext (fun c hc => hc)
    | exact preserves_setSetting (fun c s hc => hc) _ _
    | apply preserves_bind
    | apply preserves_tryCatch
    | apply preserves_tryCatchRethrow
    | dsimp only
    | split

theorem preserves_logQueryStart (txn : Option Transaction) (st : ServerType) (inp : Input) :
    Preserves (Bound txn st) (logQueryStart inp) := by
  unfold logQueryStart
  repeat' first
    | intro _
    | exact preserves_pure _ _
    | exact preserves_emit _ _
    | exact preserves_emitWhen _ _ _
    | exact preserves_getContext _
    | exact preserves_ofExcept _ _
    | exact preserves_throwException _ _
    | exact preserves_modifyContext (fun c hc => hc)
    | exact preserves_setSetting (fun c s hc => hc) _ _
    | apply preserves_bind
    | apply preserves_tryCatch
    | apply preserves_tryCatchRethrow
    | dsimp only
    | split

theorem preserves_attachCallbacks (txn : Option Transaction) (st : ServerType) (inp : Input) (can_use_query_cache : Bool) (ast : AST) (quota : Bool) (res : BlockIO) :
    Preserves (Bound txn st) (attachCallbacks inp can_use_query_cache ast quota res) := by
  unfold attachCallbacks
  repeat' first
    | intro _
    | exact preserves_pure _ _
    | exact preserves_emit _ _
    | exact preserves_emitWhen _ _ _
    | exact preserves_getContext _
    | exact preserves_ofExcept _ _
    | exact preserves_throwException _ _
    | exact preserves_modifyContext (fun c hc => hc)
    | exact preserves_setSetting (fun c s hc => hc) _ _
    | apply preserves_bind
    | apply preserves_tryCatch
    | apply preserves_tryCatchRethrow
    | dsimp only
    | split

theorem preserves_executeLocally (txn : Option Transaction) (st : ServerType) (env : Env) (inp : Input) (can_use_query_cache : Bool) (ast : AST) :
    Preserves (Bound txn st) (executeLocally env inp can_use_query_cache ast) := by
  unfold executeLocally
  repeat' first
    | intro _
    | exact preserves_pure _ _
    | exact preserves_emit _ _
    | exact preserves_emitWhen _ _ _
    | exact preserves_getContext _
    | exact preserves_ofExcept _ _
    | exact preserves_throwException _ _
    | exact preserves_modifyContext (fun c hc => hc)
    | exact preserves_setSetting (fun c s hc => hc) _ _
    | exact preserves_registerQuery txn st env inp ast
    | exact preserves_buildInterpreter txn st env inp ast
    | exact preserves_chargeQuota txn st env ast _
    | exact preserves_executeInterpreter txn st env _
    | exact preserves_readQueryCache txn st env _ ast _
    | exact preserves_checkKilled txn st _ _
    | exact preserves_attachLimits txn st inp _ _
    | exact preserves_writeQueryCache txn st env _ ast _
    | exact preserves_logQueryStart txn st inp
    | exact preserves_attachCallbacks txn st inp _ ast _ _
    | apply preserves_bind
    | apply preserves_tryCatch
    | apply preserves_tryCatchRethrow
    | dsimp only
    | split

theorem preserves_doSomeReplacementForSettings (txn : Option Transaction) (st : ServerType) :
    Preserves (Bound txn st) (doSomeReplacementForSettings) := by
  unfold doSomeReplacementForSettings
  repeat' first
    | intro _
    | exact preserves_pure _ _
    | exact preserves_emit _ _
    | exact preserves_emitWhen _ _ _
    | exact preserves_getContext _
    | exact preserves_ofExcept _ _
    | exact preserves_throwException _ _
    | exact preserves_modifyContext (fun c hc => hc)
    | exact preserves_setSetting (fun c s hc => hc) _ _
    | apply preserves_bind
    | apply preserves_tryCatch
    | apply preserves_tryCatchRethrow
    | dsimp only
    | split

theorem preserves_setQuerySpecificSettings (txn : Option Transaction) (st : ServerType) (ast : AST) :
    Preserves (Bound txn st) (setQuerySpecificSettings ast) := by
  unfold setQuerySpecificSettings
  repeat' first
    | intro _
    | exact preserves_pure _ _
    | exact preserves_emit _ _
    | exact preserves_emitWhen _ _ _
    | exact preserves_getContext _
    | exact preserves_ofExcept _ _
    | exact preserves_throwException _ _
    | exact preserves_modifyContext (fun c hc => hc)
    | exact preserves_setSetting (fun c s hc => hc) _ _
    | apply preserves_bind
    | apply preserves_tryCatch
    | apply preserves_tryCatchRethrow
    | dsimp only
    | split

theorem preserves_finalizeCacheWrite (txn : Option Transaction) (st : ServerType) (env : Env) (cb : FinishCallback) (res : BlockIO) :
    Preserves (Bound txn st) (cb.finalizeCacheWrite env res) := by
  unfold FinishCallback.finalizeCacheWrite finalizeWriteInQueryCache
  repeat' first
    | intro _
    | exact preserves_pure _ _
    | exact preserves_emit _ _
    | exact preserves_emitWhen _ _ _
    | exact preserves_getContext _
    | exact preserves_ofExcept _ _
    | exact preserves_throwException _ _
    | exact preserves_modifyContext (fun c hc => hc)
    | exact preserves_setSetting (fun c s hc => hc) _ _
    | apply preserves_bind
    | apply preserves_tryCatch
    | apply preserves_tryCatchRethrow
    | dsimp only
    | split

theorem preserves_finishCallback_run (txn : Option Transaction) (st : ServerType) (env : Env) (cb : FinishCallback) (res : BlockIO) :
    Preserves (Bound txn st) (cb.run env res) := by
  unfold FinishCallback.run
  repeat' first
    | intro _
    | exact preserves_pure _ _
    | exact preserves_emit _ _
    | exact preserves_emitWhen _ _ _
    | exact preserves_getContext _
    | exact preserves_ofExcept _ _
    | exact preserves_throwException _ _
    | exact preserves_modifyContext (fun c hc => hc)
    | exact preserves_setSetting (fun c s hc => hc) _ _
    | exact preserves_finalizeCacheWrite txn st env cb res
    | exact preserves_finish_current_transaction txn st
    | apply preserves_bind
    | apply preserves_tryCatch
    | apply preserves_tryCatchRethrow
    | dsimp only
    | split

theorem preserves_exceptionCallback_run (txn : Option Transaction) (st : ServerType) (env : Env) (cb : ExceptionCallback) (x : Exception) :
    Preserves (Bound txn st) (cb.run env x) := by
  unfold ExceptionCallback.run
  repeat' first
    | intro _
    | exact preserves_pure _ _
    | exact preserves_emit _ _
    | exact preserves_emitWhen _ _ _
    | exact preserves_getContext _
    | exact preserves_ofExcept _ _
    | exact preserves_throwException _ _
    | exact preserves_modifyContext (fun c hc => hc)
    | exact preserves_setSetting (fun c s hc => hc) _ _
    | exact preserves_finish_current_transaction txn st
    | apply preserves_bind
    | apply preserves_tryCatch
    | apply preserves_tryCatchRethrow
    | dsimp only
    | split

theorem preserves_driveStreams (txn : Option Transaction) (st : ServerType) (env : Env) (streams : BlockIO) :
    Preserves (Bound txn st) (driveStreams env streams) := by
  unfold driveStreams
  repeat' first
    | intro _
    | exact preserves_pure _ _
    | exact preserves_emit _ _
    | exact preserves_emitWhen _ _ _
    | exact preserves_getContext _
    | exact preserves_ofExcept _ _
    | exact preserves_throwException _ _
    | exact preserves_modifyContext (fun c hc => hc)
    | exact preserves_setSetting (fun c s hc => hc) _ _
    | apply preserves_bind
    | apply preserves_tryCatch
    | apply preserves_tryCatchRethrow
    | dsimp only
    | split

theorem preserves_driveAndFinish (txn : Option Transaction) (st : ServerType) (env : Env) (streams : BlockIO) :
    Preserves (Bound txn st) (driveAndFinish env streams) := by
  unfold driveAndFinish driveAndCatch
    BlockIO.onFinish BlockIO.onException
  repeat' first
    | intro _
    | exact preserves_pure _ _
    | exact preserves_emit _ _
    | exact preserves_emitWhen _ _ _
    | exact preserves_getContext _
    | exact preserves_ofExcept _ _
    | exact preserves_throwException _ _
    | exact preserves_modifyContext (fun c hc => hc)
    | exact preserves_setSetting (fun c s hc => hc) _ _
    | exact preserves_driveStreams txn st env streams
    | exact preserves_finishCallback_run txn st env _ _
    | exact preserves_exceptionCallback_run txn st env _ _
    | apply preserves_bind
    | apply preserves_tryCatch
    | apply preserves_tryCatchRethrow
    | dsimp only
    | split

theorem preserves_executeForCurrentContext (txn : Option Transaction) (st : ServerType) (env : Env) (changes : SettingsChanges) :
    Preserves (Bound txn st) (executeForCurrentContext env changes) := by
  unfold executeForCurrentContext
  repeat' first
    | intro _
    | exact preserves_pure _ _
    | exact preserves_emit _ _
    | exact preserves_emitWhen _ _ _
    | exact preserves_getContext _
    | exact preserves_ofExcept _ _
    | exact preserves_throwException _ _
    | exact preserves_modifyContext (fun c hc => hc)
    | exact preserves_setSetting (fun c s hc => hc) _ _
    | apply preserves_bind
    | apply preserves_tryCatch
    | apply preserves_tryCatchRethrow
    | dsimp only
    | split

theorem preserves_parseAndInterpretSettings (txn : Option Transaction) (st : ServerType) (env : Env) :
    Preserves (Bound txn st) (parseAndInterpretSettings env) := by
  unfold parseAndInterpretSettings interpretSettings
  repeat' first
    | intro _
    | exact preserves_pure _ _
    | exact preserves_emit _ _
    | exact preserves_emitWhen _ _ _
    | exact preserves_getContext _
    | exact preserves_ofExcept _ _
    | exact preserves_throwException _ _
    | exact preserves_modifyContext (fun c hc => hc)
    | exact preserves_setSetting (fun c s hc => hc) _ _
    | exact preserves_executeForCurrentContext txn st env _
    | apply preserves_bind
    | apply preserves_tryCatch
    | apply preserves_tryCatchRethrow
    | dsimp only
    | split

theorem attachTransaction_on_server (env : Env) (inp : Input) (ast : AST) (c : Context)
    (hserver : c.server_type = .cnch_server) (r : Option Transaction)
    (hr : (attachTransaction env inp ast c).result = .ok r) :
    ∃ txn, r = some txn
      ∧ Bound (some txn) .cnch_server (attachTransaction env inp ast c).context := by
  unfold attachTransaction at hr ⊢
  obtain ⟨a, ha, hb, hctx, _⟩ := bind_inv hr
  obtain ⟨txn, hsome, hst, hcur, _⟩ := prepareCnchTransaction_on_server env ast c hserver a ha
  obtain ⟨u, hu, hp, hctx2, _⟩ := bind_inv hb
  have hra : r = a := by
    simp only [pure, Exec.pure, Except.ok.injEq] at hp
    exact hp.symm
  refine ⟨txn, by rw [hra, hsome], ?_⟩
  rw [hctx, hctx2]
  exact (preserves_admitWhenAttached (some txn) .cnch_server env inp ast a).holds _ ⟨hcur, hst⟩

theorem attachAndExecute_on_server (env : Env) (inp : Input) (ast : AST) (c : Context)
    (hserver : c.server_type = .cnch_server) (r : AST × BlockIO)
    (hr : (attachAndExecute env inp ast c).result = .ok r) :
    ∃ txn, Bound (some txn) .cnch_server (attachAndExecute env inp ast c).context := by
  unfold attachAndExecute at hr ⊢
  obtain ⟨u1, h1, hb1, hctx1, _⟩ := bind_inv hr
  obtain ⟨u2, h2, hb2, hctx2, _⟩ := bind_inv hb1
  obtain ⟨context, h3, hb3, hctx3, _⟩ := bind_inv hb2
  obtain ⟨t, h4, hb4, hctx4, _⟩ := bind_inv hb3
  obtain ⟨res, h5, hb5, hctx5, _⟩ := bind_inv hb4
  have hs1 := (preserves_doSomeReplacementForSettings c.current_transaction
    .cnch_server).holds c ⟨rfl, hserver⟩
  have hs2 := (preserves_setQuerySpecificSettings c.current_transaction
    .cnch_server ast).holds _ hs1
  obtain ⟨txn, _, hbound⟩ := attachTransaction_on_server env inp ast _ hs2.2 t h4
  refine ⟨txn, ?_⟩
  rw [hctx1, hctx2, hctx3, hctx4, hctx5]
  exact (preserves_tryCatchRethrow (preserves_executeLocally (some txn) .cnch_server env inp _
    ast) (preserves_beforeStartHandler (some txn) .cnch_server inp)).holds _ hbound

/-- On a `cnch_server`, when `executeQueryImpl` returns a handle with callbacks, a
transaction is bound to the context it leaves. -/
theorem executeQueryImpl_on_server (env : Env) (inp : Input) (c : Context)
    (hserver : c.server_type = .cnch_server) (r : AST × BlockIO)
    (hr : (executeQueryImpl env inp c).result = .ok r)
    (hcb : r.2.finish_callback.isSome = true) :
    ∃ txn, Bound (some txn) .cnch_server (executeQueryImpl env inp c).context := by
  have hcases := executeQueryImpl_of_firstTry env inp c
  have hshape := (returns_tryCatchRethrow (h := beforeStartHandler inp)
    (returns_parseAndRoute env inp)).holds (useGlobalProductMode c).context
  have hg := useGlobalProductMode_run c
  have hctx := (preserves_firstTry env inp c.current_transaction
    (useGlobalProductMode c).context.process_list_element .cnch_server).holds
    (useGlobalProductMode c).context ⟨hg.2.2.2.2, rfl, by rw [hg.2.2.2.1]; exact hserver⟩
  cases hT : (tryCatchRethrow (parseAndRoute env inp) (beforeStartHandler inp)
      (useGlobalProductMode c).context).result with
  | error x =>
      rw [hcases.1 x hT] at hr
      simp at hr
  | ok first =>
      cases first with
      | routed ast res =>
          obtain ⟨p, _, hres⟩ := hshape _ hT ast res rfl
          rw [hcases.2.1 ast res hT] at hr
          simp only [Except.ok.injEq] at hr
          subst hr
          rw [hres] at hcb
          simp [ BlockIO.fresh] at hcb
      | proceed ast =>
          rw [hcases.2.2 ast hT] at hr ⊢
          exact attachAndExecute_on_server env inp ast _ hctx.2.2 r hr

theorem finish_current_transaction_run (c : Context) (txn : Transaction)
    (h : Bound (some txn) .cnch_server c) :
    (finish_current_transaction c).events = [.finishTransaction txn] := by
  unfold finish_current_transaction
  simp [bind, Exec.bind, getContext, h.1, h.2, emit]

theorem finalizeCacheWrite_returns (env : Env) (cb : FinishCallback) (res : BlockIO)
    (c : Context) : (cb.finalizeCacheWrite env res c).result = .ok () := by
  unfold FinishCallback.finalizeCacheWrite finalizeWriteInQueryCache
  simp only [bind, Exec.bind, getContext]
  split
  · cases res.pipeline.query_cache_writer <;>
      simp [Exec.bind, emit, modifyContext, pure, Exec.pure]
  · rfl

/-- With a transaction bound on a `cnch_server`, `finish_callback` requests its completion. -/
theorem finishCallback_finishes (env : Env) (cb : FinishCallback) (res : BlockIO)
    (c : Context) (txn : Transaction) (h : Bound (some txn) .cnch_server c) :
    Event.finishTransaction txn ∈ (cb.run env res c).events := by
  unfold FinishCallback.run
  rw [bind_ok (finalizeCacheWrite_returns env cb res c)]
  apply List.mem_append_right
  apply mem_bind_left
  rw [finish_current_transaction_run _ txn
    ((preserves_finalizeCacheWrite (some txn) .cnch_server env cb res).holds c h)]
  simp

/-- With a transaction bound on a `cnch_server`, `exception_callback` requests its completion,
whether or not it ends by throwing the summarized root cause. -/
theorem exceptionCallback_finishes (env : Env) (cb : ExceptionCallback) (x : Exception)
    (c : Context) (txn : Transaction) (h : Bound (some txn) .cnch_server c) :
    Event.finishTransaction txn ∈ (cb.run env x c).events := by
  unfold ExceptionCallback.run
  apply mem_bind_left
  rw [finish_current_transaction_run _ txn h]
  simp

theorem driveAndFinish_finishes (env : Env) (streams : BlockIO) (c : Context)
    (fcb : FinishCallback) (ecb : ExceptionCallback) (txn : Transaction)
    (hf : streams.finish_callback = some fcb) (he : streams.exception_callback = some ecb)
    (h : Bound (some txn) .cnch_server c) :
    ∃ pre e post, (driveAndFinish env streams c).events = pre ++ e :: post
      ∧ e.isCallbackInvocation = true ∧ Event.finishTransaction txn ∈ post := by
  have hb := (preserves_driveStreams (some txn) .cnch_server env streams).holds c h
  cases hd : (driveStreams env streams c).result with
  | ok u =>
      cases u
      refine ⟨(driveStreams env streams c).events, .finishCallbackInvoked,
        (fcb.run env streams (driveStreams env streams c).context).events, ?_, rfl, ?_⟩
      · rw [driveAndFinish_ok env streams c hd, onFinish_invocations env streams fcb hf]
      · exact finishCallback_finishes env fcb streams _ txn hb
  | error x =>
      refine ⟨(driveStreams env streams c).events, .exceptionCallbackInvoked,
        (ecb.run env x (driveStreams env streams c).context).events, ?_, rfl, ?_⟩
      · rw [(driveAndFinish_error env streams c x hd).1,
          onException_invocations env streams ecb x he]
      · exact exceptionCallback_finishes env ecb x _ txn hb

/-- C2 (amended). On a coordinating server (`cnch_server`), in every run of `executeQuery` in
which a callback fires, a transaction is bound to the context (the one
`prepareCnchTransaction` returned), and `finishTransaction` is called on it inside the
firing callback, after its invocation and before the end of the run. -/
theorem attached_transaction_finished_by_firing_callback_on_server (env : Env)
    (internal : Bool) (c : Context)
    (hserver : c.server_type = .cnch_server)
    (hfired : ∃ e ∈ (executeQuery env internal c).events, e.isCallbackInvocation = true) :
    ∃ txn pre e post,
      (executeQuery env internal c).context.current_transaction = some txn
        ∧ (executeQuery env internal c).events = pre ++ e :: post
        ∧ e.isCallbackInvocation = true
        ∧ Event.finishTransaction txn ∈ post := by
  obtain ⟨e0, he0, hcb0⟩ := hfired
  have h0 := countP_parseAndInterpretSettings env c
  have hb0 := (preserves_parseAndInterpretSettings c.current_transaction .cnch_server
    env).holds c ⟨rfl, hserver⟩
  cases hparse : (parseAndInterpretSettings env c).result with
  | error x =>
      exfalso
      unfold executeQuery at he0
      rw [bind_error hparse] at he0
      exact not_mem_of_countP_eq_zero h0 hcb0 he0
  | ok ast =>
      by_cases hsync : (!ast.isInsertWithData && env.isAsyncMode) = false
      · have hi := countP_executeQueryImpl env (executeQueryInput ast internal)
          (parseAndInterpretSettings env c).context
        rw [executeQuery_sync env internal c ast hparse hsync] at he0 ⊢
        cases himpl : (executeQueryImpl env (executeQueryInput ast internal)
            (parseAndInterpretSettings env c).context).result with
        | error x =>
            exfalso
            rw [bind_error himpl] at he0
            simp only [List.mem_append] at he0
            rcases he0 with he0 | he0
            · exact not_mem_of_countP_eq_zero h0 hcb0 he0
            · exact not_mem_of_countP_eq_zero hi hcb0 he0
        | ok r =>
            rw [bind_ok himpl] at he0 ⊢
            have hshape := (executeQueryImpl_handle_shape env
              (executeQueryInput ast internal)).holds _ r himpl
            rcases hshape with ⟨p, _, hp⟩ | ⟨hfs, hes⟩
            · exfalso
              have hd := driveAndFinish_detached env r.2
                (executeQueryImpl env (executeQueryInput ast internal)
                  (parseAndInterpretSettings env c).context).context
                (by rw [hp]; rfl) (by rw [hp]; rfl)
              simp only [List.mem_append] at he0
              rcases he0 with he0 | he0 | he0
              · exact not_mem_of_countP_eq_zero h0 hcb0 he0
              · exact not_mem_of_countP_eq_zero hi hcb0 he0
              · exact not_mem_of_countP_eq_zero hd hcb0 he0
            · obtain ⟨fcb, hf⟩ := Option.isSome_iff_exists.mp hfs
              obtain ⟨ecb, he⟩ := Option.isSome_iff_exists.mp hes
              obtain ⟨txn, hbound⟩ := executeQueryImpl_on_server env
                (executeQueryInput ast internal) _ hb0.2 r himpl hfs
              obtain ⟨pre, e, post, hev, hcb, hmem⟩ := driveAndFinish_finishes env r.2 _ fcb ecb
                txn hf he hbound
              have hfinal := (preserves_driveAndFinish (some txn) .cnch_server env r.2).holds
                _ hbound
              refine ⟨txn, (parseAndInterpretSettings env c).events
                ++ (executeQueryImpl env (executeQueryInput ast internal)
                  (parseAndInterpretSettings env c).context).events ++ pre, e, post,
                hfinal.1, ?_, hcb, hmem⟩
              simp only [hev, List.append_assoc]
      · exfalso
        have hasync : (!ast.isInsertWithData && env.isAsyncMode) = true := by
          simpa using hsync
        unfold executeQuery at he0
        rw [bind_ok hparse] at he0
        simp only [hasync, if_true] at he0
        simp only [List.mem_append] at he0
        rcases he0 with he0 | he0
        · exact not_mem_of_countP_eq_zero h0 hcb0 he0
        · simp [bind, Exec.bind, emit, pure, Exec.pure] at he0
          subst he0
          cases hcb0

/-- C2 (as stated) fails on a worker: for an initial INSERT into a transactional table,
`prepareCnchTransaction` attaches a worker transaction, the run succeeds and the finish
callback fires, but `finishTransaction` is never called on that transaction. -/
theorem worker_transaction_completion_never_requested :
    (prepareCnchTransaction Env.workerInsert AST.insertIntoT Context.worker).result
        = .ok (some Transaction.worker)
      ∧ Event.setCurrentTransaction Transaction.worker
          ∈ (executeQuery Env.workerInsert false Context.worker).events
      ∧ Event.finishCallbackInvoked
          ∈ (executeQuery Env.workerInsert false Context.worker).events
      ∧ (executeQuery Env.workerInsert false Context.worker).context.current_transaction
          = some Transaction.worker
      ∧ Event.finishTransaction Transaction.worker
          ∉ (executeQuery Env.workerInsert false Context.worker).events := by
  decide

theorem attached_transaction_finished_by_firing_callback_on_server_witness :
    ∃ txn pre e post,
      (executeQuery Env.nominal false Context.server).context.current_transaction = some txn
        ∧ (executeQuery Env.nominal false Context.server).events = pre ++ e :: post
        ∧ e.isCallbackInvocation = true
        ∧ Event.finishTransaction txn ∈ post :=
  attached_transaction_finished_by_firing_callback_on_server Env.nominal false Context.server
    rfl (by decide)

/-! ### Perfect-shard fallback of `interpreter->execute()` -/

/-- C14. When `interpreter->execute()` fails on an interpreter that is not the optimizer-path
interpreter, the perfect-shard retry (turn off perfect-shard, rebuild the interpreter, execute
it) happens if and only if `enable_optimizer` is off and `distributed_perfect_shard` and
`fallback_perfect_shard` are on. The retry interpreter is built and executed at most once,
the outcome of the retry, its error included, is the outcome of the step, and in every other
case nothing more is called, the context is untouched and the original error propagates. -/
theorem perfect_shard_fallback_retries_once (env : Env) (interpreter : Interpreter)
    (c : Context) (e : Exception)
    (hfail : env.execute = .error e)
    (hplain : interpreter.is_select_query_use_optimizer = false) :
    (Event.turnOffPerfectShard ∈ (executeInterpreter env interpreter c).events
        ↔ (c.settings.enable_optimizer = false ∧ c.settings.distributed_perfect_shard = true
            ∧ c.settings.fallback_perfect_shard = true))
    ∧ (Event.interpreterFactoryGet true ∈ (executeInterpreter env interpreter c).events
        ↔ (c.settings.enable_optimizer = false ∧ c.settings.distributed_perfect_shard = true
            ∧ c.settings.fallback_perfect_shard = true))
    ∧ (executeInterpreter env interpreter c).events.count (.interpreterFactoryGet true) ≤ 1
    ∧ (executeInterpreter env interpreter c).events.count (.interpreterExecute true) ≤ 1
    ∧ ((c.settings.enable_optimizer = false ∧ c.settings.distributed_perfect_shard = true
          ∧ c.settings.fallback_perfect_shard = true) →
        (executeInterpreter env interpreter c).context.settings.distributed_perfect_shard = false
          ∧ (∀ r, env.retryInterpreterFactoryGet = .ok r →
              (executeInterpreter env interpreter c).events =
                  [.interpreterExecute false, .turnOffPerfectShard, .interpreterFactoryGet true,
                    .interpreterExecute true]
                ∧ (executeInterpreter env interpreter c).result = env.retryExecute)
          ∧ (∀ e1, env.retryInterpreterFactoryGet = .error e1 →
              (executeInterpreter env interpreter c).events =
                  [.interpreterExecute false, .turnOffPerfectShard, .interpreterFactoryGet true]
                ∧ (executeInterpreter env interpreter c).result = .error e1))
    ∧ (¬ (c.settings.enable_optimizer = false ∧ c.settings.distributed_perfect_shard = true
          ∧ c.settings.fallback_perfect_shard = true) →
        (executeInterpreter env interpreter c).events = [.interpreterExecute false]
          ∧ (executeInterpreter env interpreter c).result = .error e
          ∧ (executeInterpreter env interpreter c).context = c) := by
  cases hopt : c.settings.enable_optimizer <;> cases hdps : c.settings.distributed_perfect_shard
    <;> cases hfps : c.settings.fallback_perfect_shard
    <;> cases hget : env.retryInterpreterFactoryGet
    <;> cases hexec : env.retryExecute
    <;> simp [executeInterpreter, tryCatch, executeFallback, retryExecute, turnOffPerfectShard,
      setSetting, modifyContext, bind, Exec.bind, emit, ofExcept, getContext, throwException,
      pure, Exec.pure, Settings.set, hfail, hplain, hopt, hdps, hfps, hget, hexec]

theorem perfect_shard_fallback_retries_once_witness :
    (executeInterpreter
        { Env.nominal with execute := .error Exception.sample,
                           retryExecute := .error Exception.sampleRetry }
        { is_select_query_use_optimizer := false, is_insert_query := false,
          ignore_quota := false, ignore_limits := false }
        { Context.server with
            settings := { Settings.allOff with distributed_perfect_shard := true,
                                               fallback_perfect_shard := true } }).result
      = .error Exception.sampleRetry :=
  (((perfect_shard_fallback_retries_once
      { Env.nominal with execute := .error Exception.sample,
                         retryExecute := .error Exception.sampleRetry }
      { is_select_query_use_optimizer := false, is_insert_query := false,
        ignore_quota := false, ignore_limits := false }
      { Context.server with
          settings := { Settings.allOff with distributed_perfect_shard := true,
                                             fallback_perfect_shard := true } }
      Exception.sample rfl rfl).2.2.2.2.1 ⟨rfl, rfl, rfl⟩).2.1 _ rfl).2

/-! ### Ambiguous errors in `exception_callback` -/

theorem emitWhen_result (cond : Bool) (e : Event) (c : Context) :
    (emitWhen cond e c).result = .ok () := by
  cases cond <;> rfl

theorem emitWhen_context (cond : Bool) (e : Event) (c : Context) :
    (emitWhen cond e c).context = c := by
  cases cond <;> rfl

theorem emitWhen_events (cond : Bool) (e : Event) (c : Context) :
    (emitWhen cond e c).events = if cond then [e] else [] := by
  cases cond <;> rfl

theorem finish_current_transaction_result (c : Context) :
    (finish_current_transaction c).result = .ok ()
      ∧ (finish_current_transaction c).context = c := by
  unfold finish_current_transaction
  cases htxn : c.current_transaction <;> cases hs : c.server_type <;>
    simp [bind, Exec.bind, getContext, emit, pure, Exec.pure, htxn, hs]

/-- The query-metric step of the exception callback: nothing without profiling; with
profiling, `getInfo` and the metric record when the process-list element is present, and the
abnormal end at `getInfo` when it is absent. -/
theorem exceptionQueryMetric_run (c : Context) :
    exceptionQueryMetric c
      = (if c.settings.enable_query_level_profiling then
           (match c.process_list_element with
            | some _ =>
                { events := [.getInfo true,
                             .insertCnchQueryMetric .EXCEPTION_WHILE_PROCESSING],
                  context := c, result := .ok () }
            | none =>
                { events := [.getInfo false], context := c,
                  result := .error Exception.nullDereference })
         else { events := [], context := c, result := .ok () }) := by
  unfold exceptionQueryMetric getInfoUnguarded
  cases hp : c.settings.enable_query_level_profiling <;>
    cases he : c.process_list_element <;>
    simp [bind, Exec.bind, getContext, emit, pure, Exec.pure, throwException, hp, he]

/-- With a coordinator and an ambiguous local error, in a context where the callback's
unguarded `getInfo` is not reached with an absent process-list element, the callback throws
the summarized root cause exactly when its code differs from the local one, and its last
status update carries the code stored in the query-log element. -/
theorem exceptionCallback_run_ambiguous (env : Env) (cb : ExceptionCallback) (e : Exception)
    (c : Context) (hcoord : env.has_coordinator = true)
    (hamb : env.isAmbiguosError e.code = true)
    (hsafe : c.settings.enable_query_level_profiling = false
      ∨ c.process_list_element.isSome = true) :
    (cb.run env e c).result
        = (if env.waitUntilFinish.1 = e.code then .ok ()
           else .error { code := env.waitUntilFinish.1, message := env.waitUntilFinish.2 })
      ∧ Event.waitUntilFinish ∈ (cb.run env e c).events
      ∧ (cb.run env e c).events.getLast?
          = some (.updateSegmentInstanceStatus env.waitUntilFinish.1) := by
  have h1 := finish_current_transaction_result c
  have hm : (exceptionQueryMetric c).result = .ok () ∧ (exceptionQueryMetric c).context = c := by
    rw [exceptionQueryMetric_run]
    rcases hsafe with hp | hel
    · simp [hp]
    · cases hq : c.process_list_element with
      | none => rw [hq] at hel; simp at hel
      | some q => cases c.settings.enable_query_level_profiling <;> simp
  by_cases hne : env.waitUntilFinish.1 = e.code
  · simp [ExceptionCallback.run, bind, Exec.bind, h1.1, h1.2, emitWhen_result, emitWhen_context,
      emitWhen_events, getContext, hcoord, hamb, hne, pure, Exec.pure, throwException, hm.1, hm.2]
    simp only [← List.append_assoc, ← List.cons_append, List.getLast?_concat]
  · simp [ExceptionCallback.run, bind, Exec.bind, h1.1, h1.2, emitWhen_result, emitWhen_context,
      emitWhen_events, getContext, hcoord, hamb, hne, pure, Exec.pure, throwException, hm.1, hm.2]
    simp only [← List.append_assoc, ← List.cons_append, List.getLast?_concat]

/-- With query-level profiling on and no process-list element, the exception callback ends
abnormally at its unguarded `getInfo`: that call is the last thing it does, whatever the
coordinator reports. -/
theorem exceptionCallback_run_faults (env : Env) (cb : ExceptionCallback) (e : Exception)
    (c : Context) (hprof : c.settings.enable_query_level_profiling = true)
    (hnone : c.process_list_element = none) :
    (cb.run env e c).result = .error Exception.nullDereference
      ∧ (cb.run env e c).events.getLast? = some (.getInfo false) := by
  have h1 := finish_current_transaction_result c
  have hm : exceptionQueryMetric c
      = { events := [.getInfo false], context := c,
          result := .error Exception.nullDereference } := by
    rw [exceptionQueryMetric_run, if_pos hprof, hnone]
  simp [ExceptionCallback.run, bind, Exec.bind, h1.1, h1.2, emitWhen_result, emitWhen_context,
    emitWhen_events, getContext, pure, Exec.pure, throwException, hm]

theorem driveAndFinish_result_of_drive_error (env : Env) (streams : BlockIO)
    (cb : ExceptionCallback) (c : Context) (e : Exception)
    (hcb : streams.exception_callback = some cb) (hdrive : env.drive = .error e)
    (hdrivable : (streams.has_out || streams.has_in || streams.pipeline.initialized) = true) :
    (driveAndFinish env streams c).result
      = (match (cb.run env e c).result with
         | .ok _ => .error e
         | .error y => .error y) := by
  have hd : (driveStreams env streams c).result = .error e
      ∧ (driveStreams env streams c).context = c := by
    simp [driveStreams, hdrivable, bind, Exec.bind, emit, ofExcept, hdrive]
  have hx : (streams.onException env e c).result = (cb.run env e c).result := by
    simp only [ BlockIO.onException, hcb]
    rw [bind_ok (a := ()) rfl]
    rfl
  unfold driveAndFinish
  cases hr : (cb.run env e c).result with
  | ok u =>
      have h1 : (driveAndCatch env streams c).result = .ok (some e) := by
        simp [driveAndCatch, tryCatch, bind, Exec.bind, hd.1, hd.2, hx, hr, pure, Exec.pure]
      rw [bind_ok h1]
      simp [throwException]
  | error y =>
      have h1 : (driveAndCatch env streams c).result = .ok (some y) := by
        simp [driveAndCatch, tryCatch, bind, Exec.bind, hd.1, hd.2, hx, hr, pure, Exec.pure]
      rw [bind_ok h1]
      simp [throwException]

/-- Ambiguous-error resolution where the callback runs to its end (the context has a
process-list element, or `enable_query_level_profiling` is off). In `exception_callback`,
when a distributed coordinator exists for the query id and the locally observed error code
C1 is ambiguous: if `waitUntilFinish` reports a root cause with a code C2 different from C1,
the callback throws an exception carrying C2 and the summarized message, its final status
update carries C2 as the code stored in the query-log element, and the error `executeQuery`
rethrows to its caller is that exception and not the original one; if C2 equals C1 the
callback throws nothing and the original error is rethrown. -/
theorem ambiguous_error_surfaces_root_cause (env : Env) (cb : ExceptionCallback)
    (e : Exception) (c : Context) (streams : BlockIO)
    (hcoord : env.has_coordinator = true)
    (hamb : env.isAmbiguosError e.code = true)
    (hsafe : c.settings.enable_query_level_profiling = false
      ∨ c.process_list_element.isSome = true)
    (hcb : streams.exception_callback = some cb)
    (hdrive : env.drive = .error e)
    (hdrivable : (streams.has_out || streams.has_in || streams.pipeline.initialized) = true) :
    (env.waitUntilFinish.1 ≠ e.code →
        (cb.run env e c).result
            = .error { code := env.waitUntilFinish.1, message := env.waitUntilFinish.2 }
          ∧ (cb.run env e c).events.getLast?
              = some (.updateSegmentInstanceStatus env.waitUntilFinish.1)
          ∧ (driveAndFinish env streams c).result
              = .error { code := env.waitUntilFinish.1, message := env.waitUntilFinish.2 }
          ∧ (driveAndFinish env streams c).result ≠ .error e)
      ∧ (env.waitUntilFinish.1 = e.code →
          (cb.run env e c).result = .ok ()
            ∧ (driveAndFinish env streams c).result = .error e) := by
  have h := exceptionCallback_run_ambiguous env cb e c hcoord hamb hsafe
  have hd := driveAndFinish_result_of_drive_error env streams cb c e hcb hdrive hdrivable
  constructor
  · intro hne
    have hr : (cb.run env e c).result
        = .error { code := env.waitUntilFinish.1, message := env.waitUntilFinish.2 } := by
      rw [h.1, if_neg hne]
    refine ⟨hr, h.2.2, ?_, ?_⟩
    · rw [hd, hr]
    · rw [hd, hr]
      intro heq
      injection heq with heq
      exact hne (by rw [← heq])
  · intro heq
    have hr : (cb.run env e c).result = .ok () := by rw [h.1, if_pos heq]
    refine ⟨hr, ?_⟩
    rw [hd, hr]

theorem ambiguous_error_surfaces_root_cause_witness :
    (driveAndFinish Env.ambiguousFailure BlockIO.withExceptionCallback Context.server).result
      = .error { code := .other 5, message := "root cause" } :=
  ((ambiguous_error_surfaces_root_cause Env.ambiguousFailure ExceptionCallback.sample
      Exception.sample Context.server BlockIO.withExceptionCallback rfl rfl (Or.inl rfl) rfl
      rfl rfl).1
    (by decide)).2.2.1

/-- C11 on the code. The same ambiguous failure (a coordinator exists, the local code is
ambiguous, the summarized root cause has another code C2) surfaces C2 for a registered
statement, but not for an internal statement run with `enable_query_level_profiling` on:
its context has no process-list element, so the exception callback, after `waitUntilFinish`,
reaches the unguarded `process_list_elem->getInfo` and ends there, before its closing status
update and before its `throw` of C2. In every such context the callback ends at that call,
whatever the coordinator reports. -/
theorem ambiguous_root_cause_lost_on_absent_process_list_element (env : Env)
    (cb : ExceptionCallback) (e : Exception) (c : Context) :
    (c.settings.enable_query_level_profiling = true → c.process_list_element = none →
        (cb.run env e c).result = .error Exception.nullDereference
          ∧ (cb.run env e c).events.getLast? = some (.getInfo false))
      ∧ (executeQuery Env.ambiguousFailure false Context.profiling).result
          = .error { code := .other 5, message := "root cause" }
      ∧ (executeQuery Env.ambiguousFailure true Context.profiling).context.process_list_element
          = none
      ∧ Event.waitUntilFinish
          ∈ (executeQuery Env.ambiguousFailure true Context.profiling).events
      ∧ (executeQuery Env.ambiguousFailure true Context.profiling).events.getLast?
          = some (.getInfo false)
      ∧ Event.updateSegmentInstanceStatus (.other 5)
          ∉ (executeQuery Env.ambiguousFailure true Context.profiling).events
      ∧ (executeQuery Env.ambiguousFailure true Context.profiling).result
          = .error Exception.nullDereference := by
  refine ⟨fun hprof hnone => exceptionCallback_run_faults env cb e c hprof hnone,
    by decide, by decide, by decide, by decide, by decide, by decide⟩

/-! ### Eligibility for the result cache -/

/-- The conjunction tested before the cache read step does anything. -/
theorem readQueryCache_not_eligible (env : Env) (can_use_query_cache : Bool) (ast : AST)
    (res : BlockIO) (c : Context)
    (h : ((can_use_query_cache && c.settings.enable_reads_from_query_cache)
          && decide (res.pipeline.num_streams > 0) && res.pipeline.has_all_used_storage_ids
          && !res.pipeline.used_storage_ids.isEmpty) = false) :
    readQueryCache env can_use_query_cache ast res c
      = { events := [], context := c,
          result := .ok { res := res, read_result_from_query_cache := false,
                          source_update_time_for_query_cache := env.minTS } } := by
  unfold readQueryCache
  cases hq : c.query_cache <;>
    simp [bind, Exec.bind, getContext, pure, Exec.pure, hq, h]

/-- C19. The cache read step creates a cache reader, and serves the result from the cache,
only if the statement is not internal, is not an EXPLAIN, `enable_reads_from_query_cache` is
on, the pipeline reports all its used storage ids and has at least one stream; if any of
these fails the step calls nothing, keeps the freshly built result handle and leaves
`read_result_from_query_cache` false. -/
theorem cache_reader_created_only_if_read_eligible (env : Env) (inp : Input) (ast : AST)
    (res : BlockIO) (c0 c : Context) :
    ((∃ e ∈ (readQueryCache env (canUseQueryCache c0 inp ast) ast res c).events,
          e.isCreateReader = true) →
        inp.internal = false ∧ ast.isExplain = false
          ∧ c.settings.enable_reads_from_query_cache = true
          ∧ res.pipeline.has_all_used_storage_ids = true
          ∧ 0 < res.pipeline.num_streams)
      ∧ (∀ cr, (readQueryCache env (canUseQueryCache c0 inp ast) ast res c).result = .ok cr →
          cr.read_result_from_query_cache = true →
          ∃ e ∈ (readQueryCache env (canUseQueryCache c0 inp ast) ast res c).events,
            e.isCreateReader = true)
      ∧ ((inp.internal = true ∨ ast.isExplain = true
            ∨ c.settings.enable_reads_from_query_cache = false
            ∨ res.pipeline.has_all_used_storage_ids = false
            ∨ res.pipeline.num_streams = 0) →
          (readQueryCache env (canUseQueryCache c0 inp ast) ast res c).events = []
            ∧ (readQueryCache env (canUseQueryCache c0 inp ast) ast res c).result
                = .ok { res := res, read_result_from_query_cache := false,
                        source_update_time_for_query_cache := env.minTS }
            ∧ (readQueryCache env (canUseQueryCache c0 inp ast) ast res c).context = c) := by
  cases hel : ((canUseQueryCache c0 inp ast && c.settings.enable_reads_from_query_cache)
          && decide (res.pipeline.num_streams > 0) && res.pipeline.has_all_used_storage_ids
          && !res.pipeline.used_storage_ids.isEmpty)
  · rw [readQueryCache_not_eligible env _ ast res c hel]
    refine ⟨?_, ?_, ?_⟩
    · simp
    · intro cr hcr
      simp only [Except.ok.injEq] at hcr
      subst hcr
      simp
    · intro _
      exact ⟨rfl, rfl, rfl⟩
  · have hfacts : inp.internal = false ∧ ast.isExplain = false
          ∧ c.settings.enable_reads_from_query_cache = true
          ∧ res.pipeline.has_all_used_storage_ids = true
          ∧ 0 < res.pipeline.num_streams := by
      simp [canUseQueryCache] at hel
      simp [hel]
    refine ⟨fun _ => hfacts, ?_, ?_⟩
    · intro cr hcr hflag
      revert hcr
      unfold readQueryCache
      cases hq : c.query_cache with
      | none =>
          simp [bind, Exec.bind, getContext, pure, Exec.pure, hq]
          intro h; subst h; simp at hflag
      | some query_cache =>
          cases htx : c.settings.enable_transactional_query_cache <;>
            cases hmax : env.getMaxUpdateTime <;>
            simp [bind, Exec.bind, getContext, pure, Exec.pure, emit, ofExcept, hq, hel, htx,
              hmax] <;>
            (split <;> simp [pure, Exec.pure, bind, Exec.bind, emit, Event.isCreateReader]) <;>
            (try (split <;> simp [pure, Exec.pure, bind, Exec.bind, emit, Event.isCreateReader])) <;>
            (try (intro h; subst h; simp at hflag))
    · intro hany
      obtain ⟨h1, h2, h3, h4, h5⟩ := hfacts
      rcases hany with h | h | h | h | h
      · simp [h1] at h
      · simp [h2] at h
      · simp [h3] at h
      · simp [h4] at h
      · omega

/-- When the condition of the cache write step fails, the step does nothing. -/
theorem writeQueryCache_not_eligible (env : Env) (can_use_query_cache : Bool) (ast : AST)
    (cr : CacheRead) (c : Context)
    (h : c.query_cache = none
      ∨ (!cr.read_result_from_query_cache
          && can_use_query_cache && c.settings.enable_writes_to_query_cache
          && decide (cr.res.pipeline.num_streams > 0)
          && (!env.astContainsNonDeterministicFunctions ast
              || c.settings.query_cache_store_results_of_queries_with_nondeterministic_functions))
          = false) :
    writeQueryCache env can_use_query_cache ast cr c
      = { events := [], context := c, result := .ok cr.res } := by
  unfold writeQueryCache
  cases hq : c.query_cache with
  | none => simp [bind, Exec.bind, getContext, pure, Exec.pure, hq]
  | some query_cache =>
      rcases h with h | h
      · simp [hq] at h
      · simp [bind, Exec.bind, getContext, pure, Exec.pure, hq, h]

/-- When the condition of the cache write step holds, the run is recorded against the
writer's key before anything else. -/
theorem writeQueryCache_eligible (env : Env) (can_use_query_cache : Bool) (ast : AST)
    (cr : CacheRead) (c : Context) (query_cache : QueryCache)
    (hq : c.query_cache = some query_cache)
    (h : (!cr.read_result_from_query_cache
          && can_use_query_cache && c.settings.enable_writes_to_query_cache
          && decide (cr.res.pipeline.num_streams > 0)
          && (!env.astContainsNonDeterministicFunctions ast
              || c.settings.query_cache_store_results_of_queries_with_nondeterministic_functions))
          = true) :
    (writeQueryCache env can_use_query_cache ast cr c).events.head?
        = some (.recordQueryRun (writerKey env c ast cr.res))
      ∧ (writeQueryCache env can_use_query_cache ast cr c).context.query_cache
        = some (query_cache.recordQueryRun (writerKey env c ast cr.res)).2 := by
  unfold writeQueryCache
  simp [bind, Exec.bind, getContext, pure, Exec.pure, emit, modifyContext, hq, h]
  split <;> simp [pure, Exec.pure, bind, Exec.bind, emit]

/-- C20 (amended). The cache write step records the run of an execution with
`recordQueryRun` if and only if a query cache exists, `can_use_query_cache` holds
(`use_query_cache` was on, the statement is not internal and is not an EXPLAIN), the result
was not served from the cache, `enable_writes_to_query_cache` is on, the pipeline has at
least one stream, and the statement contains no non-deterministic function or
`query_cache_store_results_of_queries_with_nondeterministic_functions` is set; the run is
then recorded against the writer's cache key. -/
theorem run_recorded_iff_write_eligible (env : Env) (inp : Input) (ast : AST) (cr : CacheRead)
    (c0 c : Context) :
    ((∃ e ∈ (writeQueryCache env (canUseQueryCache c0 inp ast) ast cr c).events,
          e.isRecordQueryRun = true)
        ↔ (c.query_cache.isSome = true
            ∧ (c0.settings.use_query_cache = true ∧ inp.internal = false ∧ ast.isExplain = false)
            ∧ cr.read_result_from_query_cache = false
            ∧ c.settings.enable_writes_to_query_cache = true
            ∧ 0 < cr.res.pipeline.num_streams
            ∧ (env.astContainsNonDeterministicFunctions ast = false
                ∨ c.settings.query_cache_store_results_of_queries_with_nondeterministic_functions
                    = true)))
      ∧ (∀ key, Event.recordQueryRun key
            ∈ (writeQueryCache env (canUseQueryCache c0 inp ast) ast cr c).events →
          key = writerKey env c ast cr.res) := by
  cases hq : c.query_cache with
  | none =>
      rw [writeQueryCache_not_eligible env _ ast cr c (Or.inl hq)]
      simp
  | some query_cache =>
      cases hel : (!cr.read_result_from_query_cache
          && canUseQueryCache c0 inp ast && c.settings.enable_writes_to_query_cache
          && decide (cr.res.pipeline.num_streams > 0)
          && (!env.astContainsNonDeterministicFunctions ast
              || c.settings.query_cache_store_results_of_queries_with_nondeterministic_functions))
      · rw [writeQueryCache_not_eligible env _ ast cr c (Or.inr hel)]
        simp [canUseQueryCache] at hel
        simp
        intro h1 h2 h3 h4 h5 h6
        exact hel h4 h1 h2 h3 h5 h6
      · constructor
        · constructor
          · intro _
            simp [canUseQueryCache] at hel
            simp [hel]
          · intro _
            have h := (writeQueryCache_eligible env _ ast cr c query_cache hq hel).1
            refine ⟨_, List.mem_of_mem_head? h, rfl⟩
        · intro key hkey
          revert hkey
          unfold writeQueryCache
          simp [bind, Exec.bind, getContext, pure, Exec.pure, emit, modifyContext, hq, hel]
          split <;> simp [pure, Exec.pure, bind, Exec.bind, emit]

/-- C20 (as stated) fails when `use_query_cache` is off: the execution was not served from
the cache, cache writes are enabled, the pipeline has a stream and the statement is
deterministic, yet no run is recorded. -/
theorem run_not_recorded_without_use_query_cache :
    (CacheRead.notServed.read_result_from_query_cache = false
        ∧ Context.cacheUnused.settings.enable_writes_to_query_cache = true
        ∧ 0 < CacheRead.notServed.res.pipeline.num_streams
        ∧ Env.nominal.astContainsNonDeterministicFunctions (.select { settings := none }) = false)
      ∧ ¬ ∃ e ∈ (writeQueryCache Env.nominal
                  (canUseQueryCache Context.cacheUnused Input.client (.select { settings := none }))
                  (.select { settings := none }) CacheRead.notServed Context.cacheUnused).events,
            e.isRecordQueryRun = true := by
  decide

/-! ### Cache keys and freshness -/

/-- C17 (amended). The cache key built for the reader and the one built for the writer, from
the same context, statement and result handle, agree in statement, output header, principal
and transaction id. The reader passes the dummy value `false` for the sharing scope while
the writer takes it from `query_cache_share_between_users`, so the two keys have the same
identity exactly when that setting is off. -/
theorem reader_and_writer_keys_agree_up_to_sharing_scope (env : Env) (context : Context)
    (ast : AST) (res : BlockIO) :
    (readerKey context ast res).ast = (writerKey env context ast res).ast
      ∧ (readerKey context ast res).header = (writerKey env context ast res).header
      ∧ (readerKey context ast res).user_name = (writerKey env context ast res).user_name
      ∧ (readerKey context ast res).txn_id = (writerKey env context ast res).txn_id
      ∧ (readerKey context ast res).is_shared = false
      ∧ (writerKey env context ast res).is_shared
          = context.settings.query_cache_share_between_users
      ∧ ((readerKey context ast res).sameIdentity (writerKey env context ast res) = true
          ↔ context.settings.query_cache_share_between_users = false) := by
  refine ⟨rfl, rfl, rfl, rfl, rfl, rfl, ?_⟩
  cases h : context.settings.query_cache_share_between_users <;>
    simp [QueryCacheKey.sameIdentity, readerKey, writerKey, h]

/-- C17 (as stated) fails when `query_cache_share_between_users` is on: the reader's key is
not shared, the writer's key is, and the two keys do not have the same identity. -/
theorem reader_and_writer_keys_differ_in_sharing_scope :
    (readerKey Context.sharedCache (.select { settings := none })
        { BlockIO.fresh with pipeline := QueryPipeline.oneStream }).is_shared = false
      ∧ (writerKey Env.nominal Context.sharedCache (.select { settings := none })
          { BlockIO.fresh with pipeline := QueryPipeline.oneStream }).is_shared = true
      ∧ (readerKey Context.sharedCache (.select { settings := none })
            { BlockIO.fresh with pipeline := QueryPipeline.oneStream }).sameIdentity
          (writerKey Env.nominal Context.sharedCache (.select { settings := none })
            { BlockIO.fresh with pipeline := QueryPipeline.oneStream }) = false := by
  decide

/-- The cache read step once its eligibility condition holds: the freshness value is the
sentinel, or `getMaxUpdateTime` in transactional-cache mode, and the reader is created with
the reader's key when that value is not zero. -/
theorem readQueryCache_eligible (env : Env) (can_use_query_cache : Bool) (ast : AST)
    (res : BlockIO) (c : Context) (query_cache : QueryCache)
    (hq : c.query_cache = some query_cache)
    (hel : ((can_use_query_cache && c.settings.enable_reads_from_query_cache)
          && decide (res.pipeline.num_streams > 0) && res.pipeline.has_all_used_storage_ids
          && !res.pipeline.used_storage_ids.isEmpty) = true)
    (t : TxnTimestamp)
    (ht : (c.settings.enable_transactional_query_cache = false ∧ t = env.minTS)
      ∨ (c.settings.enable_transactional_query_cache = true ∧ env.getMaxUpdateTime = .ok t)) :
    (readQueryCache env can_use_query_cache ast res c).context = c
      ∧ (∃ cr, (readQueryCache env can_use_query_cache ast res c).result = .ok cr
          ∧ cr.source_update_time_for_query_cache = t
          ∧ cr.read_result_from_query_cache
              = (t != 0 && query_cache.hasCacheEntryForKey (readerKey c ast res) t)
          ∧ cr.res = (if (t != 0 && query_cache.hasCacheEntryForKey (readerKey c ast res) t)
                      then { res with pipeline :=
                                QueryPipeline.readFromQueryCache res.pipeline.header }
                      else res))
      ∧ (Event.getMaxUpdateTime ∈ (readQueryCache env can_use_query_cache ast res c).events
          ↔ c.settings.enable_transactional_query_cache = true)
      ∧ (Event.createReader (readerKey c ast res) t
            ∈ (readQueryCache env can_use_query_cache ast res c).events ↔ t ≠ 0) := by
  unfold readQueryCache
  rcases ht with ⟨htx, rfl⟩ | ⟨htx, hmax⟩
  · by_cases h0 : env.minTS = 0 <;>
      cases hhit : query_cache.hasCacheEntryForKey (readerKey c ast res) env.minTS <;>
      simp [bind, Exec.bind, getContext, pure, Exec.pure, emit, ofExcept, hq, hel, htx, h0, hhit]
  · by_cases h0 : t = 0 <;>
      cases hhit : query_cache.hasCacheEntryForKey (readerKey c ast res) t <;>
      simp [bind, Exec.bind, getContext, pure, Exec.pure, emit, ofExcept, hq, hel, htx, hmax,
        h0, hhit]

theorem chargedOnFailureOnly_of_onlyEmits {α : Type} {m : Exec α}
    (h : OnlyEmits (fun e => e.isErrorQuotaCharge = false) m) : ChargedOnFailureOnly m :=
  ⟨fun c => by
    have h0 := onlyEmits_countP_eq_zero h c
    exact ⟨by omega, fun _ _ => h0⟩⟩

theorem chargedOnFailureOnly_bind {α β : Type} {m : Exec α} {f : α → Exec β}
    (hm : ChargedOnFailureOnly m) (hf : ∀ a, ChargedOnFailureOnly (f a)) :
    ChargedOnFailureOnly (m >>= f) := by
  refine ⟨fun c => ?_⟩
  cases hr : (m c).result with
  | ok a =>
      rw [bind_ok hr]
      have h0 := (hm.holds c).2 a hr
      have h1 := (hf a).holds (m c).context
      simp only [List.countP_append, h0, Nat.zero_add]
      exact h1
  | error x =>
      rw [bind_error hr]
      exact ⟨(hm.holds c).1, fun a ha => by simp at ha⟩

theorem chargedOnFailureOnly_tryCatchRethrow {α : Type} {m : Exec α} {h : Exec Unit}
    (hm : OnlyEmits (fun e => e.isErrorQuotaCharge = false) m)
    (hh : ∀ c, (h c).events.countP Event.isErrorQuotaCharge ≤ 1) :
    ChargedOnFailureOnly (tryCatchRethrow m h) := by
  refine ⟨fun c => ?_⟩
  have h0 := onlyEmits_countP_eq_zero hm c
  simp only [tryCatchRethrow]
  cases hr : (m c).result with
  | ok a => exact ⟨by simp [h0], fun _ _ => by simp [h0]⟩
  | error x =>
      refine ⟨?_, ?_⟩
      · simp only [List.countP_append, h0, Nat.zero_add]
        exact hh _
      · intro a ha
        dsimp only at ha
        split at ha <;> simp at ha

theorem charges_bind_left {α β : Type} {m : Exec α} {f : α → Exec β} {c : Context} {a : α}
    (hm : OnlyEmits (fun e => e.isErrorQuotaCharge = false) m) (hr : (m c).result = .ok a) :
    ((m >>= f) c).events.countP Event.isErrorQuotaCharge
      = (f a (m c).context).events.countP Event.isErrorQuotaCharge := by
  rw [bind_ok hr]
  simp only [List.countP_append, onlyEmits_countP_eq_zero hm c, Nat.zero_add]

theorem charges_bind_right {α β : Type} {m : Exec α} {f : α → Exec β} {c : Context}
    (hf : ∀ a, OnlyEmits (fun e => e.isErrorQuotaCharge = false) (f a)) :
    ((m >>= f) c).events.countP Event.isErrorQuotaCharge
      = (m c).events.countP Event.isErrorQuotaCharge := by
  cases hr : (m c).result with
  | ok a =>
      rw [bind_ok hr]
      simp only [List.countP_append, onlyEmits_countP_eq_zero (hf a) _, Nat.add_zero]
  | error x => rw [bind_error hr]

theorem finish_current_transaction_charges_nothing :
    OnlyEmits (fun e => e.isErrorQuotaCharge = false) finish_current_transaction := by
  unfold finish_current_transaction
  repeat' first
    | intro _
    | exact onlyEmits_pure _ _
    | exact onlyEmits_getContext _
    | exact onlyEmits_emit rfl
    | apply onlyEmits_bind
    | dsimp only
    | split

/-- The charges of the before-start handler: one when the statement is not internal and a
quota exists, none otherwise. -/
theorem beforeStartHandler_charges (inp : Input) (c : Context) :
    (beforeStartHandler inp c).events.countP Event.isErrorQuotaCharge
      = (if !inp.internal && c.has_quota then 1 else 0) := by
  have h1 := finish_current_transaction_result c
  unfold beforeStartHandler
  rw [charges_bind_left finish_current_transaction_charges_nothing h1.1, h1.2]
  cases hint : inp.internal
  · simp only [Bool.not_false, Bool.true_and, if_true]
    unfold onExceptionBeforeStart
    rw [charges_bind_left (a := c) (onlyEmits_getContext _) rfl]
    dsimp only [getContext]
    rw [charges_bind_right, emitWhen_events]
    · cases c.has_quota <;> rfl
    · repeat' first
        | intro _
        | exact onlyEmits_pure _ _
        | exact onlyEmits_emitWhen _ rfl
        | apply onlyEmits_bind
        | dsimp only
  · rfl

/-- The charges of the exception callback: one when it captured a quota, none otherwise. -/
theorem exceptionCallback_run_charges (env : Env) (cb : ExceptionCallback) (e : Exception)
    (c : Context) :
    (cb.run env e c).events.countP Event.isErrorQuotaCharge
      = (if cb.quota then 1 else 0) := by
  have h1 := finish_current_transaction_result c
  unfold ExceptionCallback.run
  rw [charges_bind_left finish_current_transaction_charges_nothing h1.1, h1.2]
  rw [charges_bind_right, emitWhen_events]
  · cases cb.quota <;> rfl
  · repeat' first
      | intro _
      | exact onlyEmits_pure _ _
      | exact onlyEmits_getContext _
      | exact onlyEmits_throwException _ _
      | exact onlyEmits_emit rfl
      | exact onlyEmits_emitWhen _ rfl
      | apply onlyEmits_bind
      | dsimp only
      | split

theorem routing_charges_nothing (e : Event) (h : e.isRoutingEvent = true) :
    e.isErrorQuotaCharge = false := by
  cases e <;> first | rfl | simp [Event.isRoutingEvent] at h

theorem attach_charges_nothing (e : Event) (h : e.isAttachEvent = true) :
    e.isErrorQuotaCharge = false := by
  cases e <;> first | rfl | simp [Event.isAttachEvent] at h

theorem execution_charges_nothing (e : Event) (h : e.isExecutionEvent = true) :
    e.isErrorQuotaCharge = false := by
  cases e with
  | quotaUsed t => cases t <;> first | rfl | simp [Event.isExecutionEvent] at h
  | _ => first | rfl | simp [Event.isExecutionEvent] at h

theorem beforeStartHandler_charges_le (inp : Input) (c : Context) :
    (beforeStartHandler inp c).events.countP Event.isErrorQuotaCharge ≤ 1 := by
  rw [beforeStartHandler_charges]
  split <;> omega

theorem chargedOnFailureOnly_attachAndExecute (env : Env) (inp : Input) (ast : AST) :
    ChargedOnFailureOnly (attachAndExecute env inp ast) := by
  unfold attachAndExecute
  apply chargedOnFailureOnly_bind
    (chargedOnFailureOnly_of_onlyEmits (onlyEmits_doSomeReplacementForSettings _))
  intro _
  apply chargedOnFailureOnly_bind
    (chargedOnFailureOnly_of_onlyEmits (onlyEmits_setQuerySpecificSettings _ ast))
  intro _
  apply chargedOnFailureOnly_bind (chargedOnFailureOnly_of_onlyEmits (onlyEmits_getContext _))
  intro context
  apply chargedOnFailureOnly_bind
    (chargedOnFailureOnly_of_onlyEmits
      (onlyEmits_attachTransaction env inp ast attach_charges_nothing))
  intro _
  apply chargedOnFailureOnly_bind
  · exact chargedOnFailureOnly_tryCatchRethrow
      (onlyEmits_executeLocally env inp _ ast execution_charges_nothing rfl rfl)
      (beforeStartHandler_charges_le inp)
  · intro _
    exact chargedOnFailureOnly_of_onlyEmits (onlyEmits_pure _ _)

theorem chargedOnFailureOnly_executeQueryImpl (env : Env) (inp : Input) :
    ChargedOnFailureOnly (executeQueryImpl env inp) := by
  unfold executeQueryImpl
  apply chargedOnFailureOnly_bind
    (chargedOnFailureOnly_of_onlyEmits (onlyEmits_useGlobalProductMode _))
  intro _
  apply chargedOnFailureOnly_bind
  · exact chargedOnFailureOnly_tryCatchRethrow
      (onlyEmits_parseAndRoute env inp
        (onlyEmits_parseAndCommit env inp routing_charges_nothing rfl rfl)
        routing_charges_nothing)
      (beforeStartHandler_charges_le inp)
  · intro first
    cases first with
    | routed ast res => exact chargedOnFailureOnly_of_onlyEmits (onlyEmits_pure _ _)
    | proceed ast => exact chargedOnFailureOnly_attachAndExecute env inp ast

theorem finishCallback_run_charges_nothing (env : Env) (cb : FinishCallback) (res : BlockIO) :
    OnlyEmits (fun e => e.isErrorQuotaCharge = false) (cb.run env res) := by
  unfold FinishCallback.run FinishCallback.finalizeCacheWrite finalizeWriteInQueryCache
  repeat' first
    | intro _
    | exact onlyEmits_pure _ _
    | exact onlyEmits_getContext _
    | exact onlyEmits_modifyContext _ _
    | exact finish_current_transaction_charges_nothing
    | exact onlyEmits_emit rfl
    | exact onlyEmits_emitWhen _ rfl
    | apply onlyEmits_bind
    | dsimp only
    | split

theorem chargedOnFailureOnly_driveAndFinish (env : Env) (streams : BlockIO) :
    ChargedOnFailureOnly (driveAndFinish env streams) := by
  refine ⟨fun c => ?_⟩
  have hdrive :=
    onlyEmits_countP_eq_zero
      (onlyEmits_driveStreams (P := fun e => e.isErrorQuotaCharge = false) env streams rfl) c
  cases hd : (driveStreams env streams c).result with
  | ok u =>
      cases u
      have hfin : (streams.onFinish env (driveStreams env streams c).context).events.countP
          Event.isErrorQuotaCharge = 0 := by
        cases hf : streams.finish_callback with
        | none => simp [ BlockIO.onFinish, hf, pure, Exec.pure]
        | some cb =>
            rw [onFinish_invocations env streams cb hf, List.countP_cons,
              onlyEmits_countP_eq_zero (finishCallback_run_charges_nothing env cb streams) _]
            rfl
      rw [driveAndFinish_ok env streams c hd, List.countP_append, hdrive, hfin]
      exact ⟨by omega, fun _ _ => rfl⟩
  | error x =>
      obtain ⟨hev, y, hy⟩ := driveAndFinish_error env streams c x hd
      have hexc : (streams.onException env x (driveStreams env streams c).context).events.countP
          Event.isErrorQuotaCharge ≤ 1 := by
        cases he : streams.exception_callback with
        | none => simp [ BlockIO.onException, he, pure, Exec.pure]
        | some cb =>
            rw [onException_invocations env streams cb x he, List.countP_cons,
              exceptionCallback_run_charges]
            split <;> simp [Event.isErrorQuotaCharge]
      rw [hev, List.countP_append, hdrive, Nat.zero_add]
      exact ⟨hexc, fun a ha => by rw [hy] at ha; simp at ha⟩

theorem chargedOnFailureOnly_executeQuery (env : Env) (internal : Bool) :
    ChargedOnFailureOnly (executeQuery env internal) := by
  unfold executeQuery
  apply chargedOnFailureOnly_bind
    (chargedOnFailureOnly_of_onlyEmits
      (onlyEmits_parseAndInterpretSettings env routing_charges_nothing rfl))
  intro ast
  split
  · apply chargedOnFailureOnly_of_onlyEmits
    repeat' first
      | intro _
      | exact onlyEmits_pure _ _
      | exact onlyEmits_emit rfl
      | apply onlyEmits_bind
  · apply chargedOnFailureOnly_bind (chargedOnFailureOnly_executeQueryImpl env _)
    intro r
    exact chargedOnFailureOnly_driveAndFinish env r.2

/-- The quota captured by the exception callback is the one held after the charge before
execution: present when the interpreter does not ignore quota and the context has one. -/
theorem captured_quota (env : Env) (inp : Input) (can_use_query_cache : Bool) (ast : AST)
    (interpreter : Interpreter) (res : BlockIO) (c1 c2 : Context) (q : Bool) (r : BlockIO)
    (hq : (chargeQuota env ast interpreter c1).result = .ok q)
    (hr : (attachCallbacks inp can_use_query_cache ast q res c2).result = .ok r) :
    q = (!interpreter.ignore_quota && c1.has_quota)
      ∧ ∃ cb, r.exception_callback = some cb ∧ cb.quota = q := by
  constructor
  · revert hq
    unfold chargeQuota
    cases hi : interpreter.ignore_quota <;> cases hc : c1.has_quota <;>
      cases hsel : ast.isSelectLike <;> cases hins : ast.isInsert <;>
      cases h1 : env.quotaUsed .QUERY_SELECTS <;> cases h2 : env.quotaUsed .QUERY_INSERTS <;>
      cases h3 : env.quotaUsed .QUERIES <;> cases h4 : env.quotaCheckExceeded <;>
      simp [bind, Exec.bind, getContext, emit, ofExcept, pure, Exec.pure, hi, hc, hsel, hins,
        h1, h2, h3, h4] <;> intro h <;> exact h.symm
  · simp [attachCallbacks, bind, Exec.bind, getContext, pure, Exec.pure] at hr
    subst hr
    exact ⟨_, rfl, rfl⟩

/-- C15 (amended). On the before-start path the ERRORS quota is charged exactly once when
the statement is not internal and the context has a quota, and not at all otherwise. On the
while-processing path it is charged exactly once when the exception callback captured a
quota, which it does when the interpreter does not ignore quota and the context has one,
and not at all otherwise. In a whole run of `executeQuery` it is charged at most once, and
not at all when the run succeeds. -/
theorem errors_quota_charged_once_where_a_quota_is_held (env : Env) (inp : Input)
    (internal : Bool) (cb : ExceptionCallback) (e : Exception) (c : Context) :
    (beforeStartHandler inp c).events.countP Event.isErrorQuotaCharge
        = (if !inp.internal && c.has_quota then 1 else 0)
      ∧ (cb.run env e c).events.countP Event.isErrorQuotaCharge = (if cb.quota then 1 else 0)
      ∧ (∀ can_use_query_cache ast interpreter res c1 c2 q r,
          (chargeQuota env ast interpreter c1).result = .ok q →
          (attachCallbacks inp can_use_query_cache ast q res c2).result = .ok r →
          ∃ attached, r.exception_callback = some attached
            ∧ attached.quota = (!interpreter.ignore_quota && c1.has_quota))
      ∧ (executeQueryImpl env inp c).events.countP Event.isErrorQuotaCharge ≤ 1
      ∧ (executeQuery env internal c).events.countP Event.isErrorQuotaCharge ≤ 1
      ∧ (∀ u, (executeQuery env internal c).result = .ok u →
          (executeQuery env internal c).events.countP Event.isErrorQuotaCharge = 0) := by
  refine ⟨beforeStartHandler_charges inp c, exceptionCallback_run_charges env cb e c, ?_,
    ((chargedOnFailureOnly_executeQueryImpl env inp).holds c).1,
    ((chargedOnFailureOnly_executeQuery env internal).holds c).1,
    ((chargedOnFailureOnly_executeQuery env internal).holds c).2⟩
  intro can_use_query_cache ast interpreter res c1 c2 q r hq hr
  obtain ⟨h1, attached, h2, h3⟩ :=
    captured_quota env inp can_use_query_cache ast interpreter res c1 c2 q r hq hr
  exact ⟨attached, h2, by rw [h3, h1]⟩

/-- C15 (as stated) fails on both paths. An internal statement whose execution fails takes
the before-start path without any ERRORS charge although the context has a quota; a
statement whose interpreter ignores quota and whose result fails while being driven runs the
exception callback without any ERRORS charge. -/
theorem errors_quota_not_charged_for_internal_or_quota_exempt :
    ((executeQueryImpl Env.executeFails
          { input_ast := none, internal := true, stage := .Complete, has_istr := false }
          Context.withQuota).result = .error Exception.sample
        ∧ (executeQueryImpl Env.executeFails
            { input_ast := none, internal := true, stage := .Complete, has_istr := false }
            Context.withQuota).events.countP Event.isErrorQuotaCharge = 0)
      ∧ ((executeQuery Env.ignoresQuotaAndFails false Context.withQuota).result
            = .error Exception.sample
          ∧ Event.exceptionCallbackInvoked
              ∈ (executeQuery Env.ignoresQuotaAndFails false Context.withQuota).events
          ∧ (executeQuery Env.ignoresQuotaAndFails false Context.withQuota).events.countP
              Event.isErrorQuotaCharge = 0) := by
  decide

/-! ### Failures at or after plan execution -/

/-- A sequenced computation that fails after performing an event its first part never
performs: the first part returned, and the failure and the event belong to the rest. -/
theorem bind_fails_after {α β : Type} {m : Exec α} {f : α → Exec β} {c : Context}
    {x : Exception} {e : Event} {P : Event → Prop}
    (hm : OnlyEmits P m) (hne : ¬ P e)
    (hfail : ((m >>= f) c).result = .error x) (hmem : e ∈ ((m >>= f) c).events) :
    ∃ a, (m c).result = .ok a
      ∧ (f a (m c).context).result = .error x
      ∧ e ∈ (f a (m c).context).events
      ∧ ((m >>= f) c).events = (m c).events ++ (f a (m c).context).events
      ∧ ((m >>= f) c).context = (f a (m c).context).context := by
  cases hr : (m c).result with
  | ok a =>
      rw [bind_ok hr] at hfail hmem ⊢
      refine ⟨a, rfl, hfail, ?_, rfl, rfl⟩
      rcases List.mem_append.mp hmem with h | h
      · exact absurd (hm.holds c e h) hne
      · exact h
  | error y =>
      rw [bind_error hr] at hmem
      exact absurd (hm.holds c e hmem) hne

theorem beforeStartHandler_run (inp : Input) (c : Context) :
    (beforeStartHandler inp c).result = .ok () ∧ (beforeStartHandler inp c).context = c := by
  have h1 := finish_current_transaction_result c
  unfold beforeStartHandler
  rw [bind_ok h1.1]
  cases hint : inp.internal <;>
    simp [onExceptionBeforeStart, bind, Exec.bind, getContext, emitWhen_result,
      emitWhen_context, pure, Exec.pure, h1.2]

/-- What the handler of the `catch (...)` blocks records for a statement that is not
internal. -/
theorem beforeStartHandler_records (inp : Input) (c : Context) (hint : inp.internal = false) :
    (c.settings.log_queries = true
        → c.settings.log_queries_min_type.toNat
            ≤ QueryLogElementType.EXCEPTION_BEFORE_START.toNat
        → c.settings.log_queries_min_query_duration_ms = 0
        → c.has_query_log = true
        → Event.queryLogAdd .EXCEPTION_BEFORE_START ∈ (beforeStartHandler inp c).events)
      ∧ (c.settings.enable_query_level_profiling = true
        → Event.insertCnchQueryMetric .EXCEPTION_BEFORE_START
            ∈ (beforeStartHandler inp c).events)
      ∧ (c.span_log_enabled = true
        → Event.spanLogAdd .EXCEPTION_BEFORE_START ∈ (beforeStartHandler inp c).events) := by
  have h1 := finish_current_transaction_result c
  unfold beforeStartHandler
  rw [bind_ok h1.1]
  refine ⟨?_, ?_, ?_⟩
  · intro a b d e
    simp [onExceptionBeforeStart, bind, Exec.bind, getContext, emitWhen_result,
      emitWhen_context, emitWhen_events, pure, Exec.pure, h1.2, hint, a, b, d, e]
  · intro a
    simp [onExceptionBeforeStart, bind, Exec.bind, getContext, emitWhen_result,
      emitWhen_context, emitWhen_events, pure, Exec.pure, h1.2, hint, a]
  · intro a
    simp [onExceptionBeforeStart, bind, Exec.bind, getContext, emitWhen_result,
      emitWhen_context, emitWhen_events, pure, Exec.pure, h1.2, hint, a]

/-- A `try` block that fails with the before-start handler: the handler ran last, on the
context the body left, and the body's exception is rethrown. -/
theorem tryCatchRethrow_beforeStart_fails {α : Type} {m : Exec α} (inp : Input) (c : Context)
    (x : Exception)
    (hfail : (tryCatchRethrow m (beforeStartHandler inp) c).result = .error x) :
    (m c).result = .error x
      ∧ (tryCatchRethrow m (beforeStartHandler inp) c).events
          = (m c).events ++ (beforeStartHandler inp (m c).context).events
      ∧ (tryCatchRethrow m (beforeStartHandler inp) c).context = (m c).context := by
  have hh := beforeStartHandler_run inp (m c).context
  simp only [tryCatchRethrow] at hfail ⊢
  cases hr : (m c).result with
  | ok a => rw [hr] at hfail; simp at hfail
  | error y =>
      rw [hr] at hfail
      simp only [hh.1] at hfail
      simp only [hh.2]
      exact ⟨hfail, trivial, trivial⟩

theorem routing_is_not_execute (e : Event) (h : e.isRoutingEvent = true) :
    e ≠ .interpreterExecute false := by
  intro heq; rw [heq] at h; exact Bool.false_ne_true h

theorem attach_is_not_execute (e : Event) (h : e.isAttachEvent = true) :
    e ≠ .interpreterExecute false := by
  intro heq; rw [heq] at h; exact Bool.false_ne_true h

theorem beforeStart_is_not_execute (e : Event) (h : e.isBeforeStartEvent = true) :
    e ≠ .interpreterExecute false := by
  intro heq; rw [heq] at h; exact Bool.false_ne_true h

theorem bind_pure_fails {α β : Type} {m : Exec α} {g : α → β} {c : Context} {x : Exception}
    (hfail : ((m >>= fun a => pure (g a)) c).result = .error x) :
    (m c).result = .error x
      ∧ ((m >>= fun a => pure (g a)) c).events = (m c).events
      ∧ ((m >>= fun a => pure (g a)) c).context = (m c).context := by
  cases hr : (m c).result with
  | ok a =>
      rw [bind_ok hr] at hfail
      simp [pure, Exec.pure] at hfail
  | error y =>
      rw [bind_error hr] at hfail ⊢
      simp only [Except.error.injEq] at hfail
      subst hfail
      exact ⟨rfl, rfl, rfl⟩

/-- Local execution that fails after `interpreter->execute()` was called: the failure was
raised inside the second `try` block and its handler ran last. -/
theorem attachAndExecute_fails_after_execute (env : Env) (inp : Input) (ast : AST)
    (c : Context) (x : Exception)
    (hfail : (attachAndExecute env inp ast c).result = .error x)
    (hmem : Event.interpreterExecute false ∈ (attachAndExecute env inp ast c).events) :
    ∃ pre, (attachAndExecute env inp ast c).events
        = pre ++ (beforeStartHandler inp (attachAndExecute env inp ast c).context).events := by
  unfold attachAndExecute at hfail hmem ⊢
  obtain ⟨a1, h1, hfail, hmem, hev1, hc1⟩ :=
    bind_fails_after (P := fun e => e ≠ .interpreterExecute false) (onlyEmits_doSomeReplacementForSettings _) (fun h => h rfl) hfail hmem
  rw [hev1, hc1]
  obtain ⟨a2, h2, hfail, hmem, hev2, hc2⟩ :=
    bind_fails_after (P := fun e => e ≠ .interpreterExecute false) (onlyEmits_setQuerySpecificSettings _ ast) (fun h => h rfl) hfail hmem
  rw [hev2, hc2]
  obtain ⟨a3, h3, hfail, hmem, hev3, hc3⟩ :=
    bind_fails_after (P := fun e => e ≠ .interpreterExecute false) (onlyEmits_getContext _) (fun h => h rfl) hfail hmem
  rw [hev3, hc3]
  obtain ⟨a4, h4, hfail, hmem, hev4, hc4⟩ :=
    bind_fails_after (P := fun e => e ≠ .interpreterExecute false) (onlyEmits_attachTransaction env inp ast attach_is_not_execute)
      (fun h => h rfl) hfail hmem
  rw [hev4, hc4]
  obtain ⟨hr, hev5, hc5⟩ := bind_pure_fails hfail
  rw [hev5, hc5]
  obtain ⟨_, hev, hctx⟩ := tryCatchRethrow_beforeStart_fails inp _ x hr
  rw [hev, hctx]
  simp only [← List.append_assoc]
  exact ⟨_, rfl⟩

theorem routing_is_no_while_processing_record (e : Event) (h : e.isRoutingEvent = true) :
    e.isWhileProcessingRecord = false := by
  cases e <;> first | rfl | simp [Event.isRoutingEvent] at h

theorem attach_is_no_while_processing_record (e : Event) (h : e.isAttachEvent = true) :
    e.isWhileProcessingRecord = false := by
  cases e <;> first | rfl | simp [Event.isAttachEvent] at h

theorem beforeStart_is_no_while_processing_record (e : Event)
    (h : e.isBeforeStartEvent = true) : e.isWhileProcessingRecord = false := by
  cases e with
  | queryLogAdd t => cases t <;> first | rfl | simp [Event.isBeforeStartEvent] at h
  | insertCnchQueryMetric t => cases t <;> first | rfl | simp [Event.isBeforeStartEvent] at h
  | spanLogAdd t => cases t <;> first | rfl | simp [Event.isBeforeStartEvent] at h
  | _ => first | rfl | simp [Event.isBeforeStartEvent] at h

theorem execution_is_no_while_processing_record (e : Event) (h : e.isExecutionEvent = true) :
    e.isWhileProcessingRecord = false := by
  cases e with
  | queryLogAdd t => cases t <;> first | rfl | simp [Event.isExecutionEvent] at h
  | insertCnchQueryMetric t => cases t <;> first | rfl | simp [Event.isExecutionEvent] at h
  | spanLogAdd t => cases t <;> first | rfl | simp [Event.isExecutionEvent] at h
  | _ => first | rfl | simp [Event.isExecutionEvent] at h

/-- C13 (amended). A failure of `executeQueryImpl` raised once `interpreter->execute()` has
been called (by that call after any permitted retry, or by any later step) is handled by the
`catch (...)` block of the second `try`: the handler runs last, on the context the failure
left, so that for a statement that is not internal `onExceptionBeforeStart` records the
failure with type `EXCEPTION_BEFORE_START` in the query log (when the logging settings admit
it), in the query metrics (with query-level profiling) and in the span log (when enabled).
`executeQueryImpl` never produces a record of type `EXCEPTION_WHILE_PROCESSING`. -/
theorem failure_at_or_after_execution_recorded_before_start (env : Env) (inp : Input)
    (c : Context) (x : Exception)
    (hfail : (executeQueryImpl env inp c).result = .error x)
    (hreached : Event.interpreterExecute false ∈ (executeQueryImpl env inp c).events) :
    (∃ pre, (executeQueryImpl env inp c).events
        = pre ++ (beforeStartHandler inp (executeQueryImpl env inp c).context).events)
      ∧ (inp.internal = false →
          ((executeQueryImpl env inp c).context.settings.log_queries = true
            → (executeQueryImpl env inp c).context.settings.log_queries_min_type.toNat
                ≤ QueryLogElementType.EXCEPTION_BEFORE_START.toNat
            → (executeQueryImpl env inp c).context.settings.log_queries_min_query_duration_ms = 0
            → (executeQueryImpl env inp c).context.has_query_log = true
            → Event.queryLogAdd .EXCEPTION_BEFORE_START ∈ (executeQueryImpl env inp c).events)
          ∧ ((executeQueryImpl env inp c).context.settings.enable_query_level_profiling = true
            → Event.insertCnchQueryMetric .EXCEPTION_BEFORE_START
                ∈ (executeQueryImpl env inp c).events)
          ∧ ((executeQueryImpl env inp c).context.span_log_enabled = true
            → Event.spanLogAdd .EXCEPTION_BEFORE_START ∈ (executeQueryImpl env inp c).events))
      ∧ (∀ e ∈ (executeQueryImpl env inp c).events, e.isWhileProcessingRecord = false) := by
  have hpre : ∃ pre, (executeQueryImpl env inp c).events
      = pre ++ (beforeStartHandler inp (executeQueryImpl env inp c).context).events := by
    obtain ⟨herr, hrouted, hproceed⟩ := executeQueryImpl_of_firstTry env inp c
    have hfirst : OnlyEmits (fun e => e ≠ Event.interpreterExecute false)
        (tryCatchRethrow (parseAndRoute env inp) (beforeStartHandler inp)) :=
      onlyEmits_tryCatchRethrow
        (onlyEmits_parseAndRoute env inp
          (onlyEmits_parseAndCommit env inp routing_is_not_execute
            (fun h => Event.noConfusion h) (fun h => Event.noConfusion h))
          routing_is_not_execute)
        (onlyEmits_beforeStartHandler inp beforeStart_is_not_execute)
    cases hr : (tryCatchRethrow (parseAndRoute env inp) (beforeStartHandler inp)
        (useGlobalProductMode c).context).result with
    | error y =>
        rw [herr y hr] at hreached
        exact absurd rfl (hfirst.holds _ _ hreached)
    | ok first =>
        cases first with
        | routed ast res =>
            rw [hrouted ast res hr] at hfail
            simp at hfail
        | proceed ast =>
            rw [hproceed ast hr] at hfail hreached ⊢
            dsimp only at hfail hreached ⊢
            have hmem : Event.interpreterExecute false
                ∈ (attachAndExecute env inp ast
                    (tryCatchRethrow (parseAndRoute env inp) (beforeStartHandler inp)
                      (useGlobalProductMode c).context).context).events := by
              rcases List.mem_append.mp hreached with h | h
              · exact absurd rfl (hfirst.holds _ _ h)
              · exact h
            obtain ⟨pre, hpre⟩ := attachAndExecute_fails_after_execute env inp ast _ x hfail hmem
            rw [hpre]
            simp only [← List.append_assoc]
            exact ⟨_, rfl⟩
  refine ⟨hpre, ?_, ?_⟩
  · intro hint
    obtain ⟨pre, hpre⟩ := hpre
    obtain ⟨h1, h2, h3⟩ :=
      beforeStartHandler_records inp (executeQueryImpl env inp c).context hint
    rw [hpre]
    exact ⟨fun a b d e => List.mem_append_right _ (h1 a b d e),
      fun a => List.mem_append_right _ (h2 a), fun a => List.mem_append_right _ (h3 a)⟩
  · exact (onlyEmits_executeQueryImpl_of env inp
      (onlyEmits_parseAndCommit env inp routing_is_no_while_processing_record rfl rfl)
      routing_is_no_while_processing_record beforeStart_is_no_while_processing_record
      attach_is_no_while_processing_record execution_is_no_while_processing_record
      rfl rfl).holds c

theorem failure_at_or_after_execution_recorded_before_start_witness :
    Event.queryLogAdd .EXCEPTION_BEFORE_START
      ∈ (executeQueryImpl Env.executeFails Input.client Context.logging).events :=
  ((failure_at_or_after_execution_recorded_before_start Env.executeFails Input.client
      Context.logging Exception.sample (by decide) (by decide)).2.1 rfl).1
    (by decide) (by decide) (by decide) (by decide)

/-- C13 (as stated) fails: when `interpreter->execute()` throws for a client statement with
query logging on, the failure reaches the caller, a query-log element of type
`EXCEPTION_BEFORE_START` is produced and none of type `EXCEPTION_WHILE_PROCESSING`. -/
theorem execute_failure_logged_as_exception_before_start :
    (executeQueryImpl Env.executeFails Input.client Context.logging).result
        = .error Exception.sample
      ∧ Event.interpreterExecute false
          ∈ (executeQueryImpl Env.executeFails Input.client Context.logging).events
      ∧ Event.queryLogAdd .EXCEPTION_BEFORE_START
          ∈ (executeQueryImpl Env.executeFails Input.client Context.logging).events
      ∧ Event.queryLogAdd .EXCEPTION_WHILE_PROCESSING
          ∉ (executeQueryImpl Env.executeFails Input.client Context.logging).events := by
  decide

/-! ### Failures between the two `try` blocks -/

/-- C12 on the code. An admission failure thrown by `tryQueueQuery` reaches the caller of
`executeQueryImpl` without the before-start finalize path: the transaction that
`prepareCnchTransaction` has just bound stays bound, `finishTransaction` is never called on
it, and neither the ERRORS quota nor a query-log element records the failure. A failure of
`createTransaction` inside `prepareCnchTransaction` is not recorded either. -/
theorem admission_failure_bypasses_before_start_path :
    ((executeQueryImpl Env.queueTimesOut Input.client Context.queueing).result
          = .error { code := .CNCH_QUEUE_QUERY_FAILURE, message := "query queue failed" }
        ∧ (executeQueryImpl Env.queueTimesOut Input.client Context.queueing).events
          = [.parseQuery, .createTransaction true 0, .setCurrentTransaction Transaction.server,
             .trySetVirtualWarehouseAndWorkerGroup, .initCnchServerResource 7,
             .enqueue "vw" "wg"]
        ∧ (executeQueryImpl Env.queueTimesOut Input.client
            Context.queueing).context.current_transaction = some Transaction.server
        ∧ (executeQueryImpl Env.queueTimesOut Input.client Context.queueing).events.all
            (fun e => !e.isBeforeStartEvent) = true)
      ∧ ((executeQueryImpl Env.createTransactionFails Input.client Context.queueing).result
            = .error Exception.sample
          ∧ (executeQueryImpl Env.createTransactionFails Input.client Context.queueing).events
            = [.parseQuery, .createTransaction true 0]) := by
  decide

/-! ### Cache round trip -/

theorem sameIdentity_trans_right (a b k : QueryCacheKey)
    (ha : a.sameIdentity k = true) (hb : b.sameIdentity k = true) :
    a.sameIdentity b = true := by
  simp only [QueryCacheKey.sameIdentity, Bool.and_eq_true, beq_iff_eq] at ha hb ⊢
  obtain ⟨⟨⟨⟨a1, a2⟩, a3⟩, a4⟩, a5⟩ := ha
  obtain ⟨⟨⟨⟨b1, b2⟩, b3⟩, b4⟩, b5⟩ := hb
  exact ⟨⟨⟨⟨a1.trans b1.symm, a2.trans b2.symm⟩, a3.trans b3.symm⟩, a4.trans b4.symm⟩,
    a5.trans b5.symm⟩

/-- A reader whose key has the identity of the stored writer's key hits exactly when its
update time is not later than the writer's. -/
theorem hasCacheEntryForKey_storeEntry (env : Env) (w : QueryCacheWriter) (q : QueryCache)
    (key : QueryCacheKey) (t : TxnTimestamp) (hkey : w.key.sameIdentity key = true) :
    (storeEntry env w q).hasCacheEntryForKey key t = decide (t ≤ w.source_update_time) := by
  have hrest : ∀ e ∈ q.entries.filter (fun e => !e.key.sameIdentity w.key),
      (e.key.sameIdentity key && decide (t ≤ e.update_time)) = false := by
    intro e he
    have hne : e.key.sameIdentity w.key = false := by
      have := (List.mem_filter.mp he).2
      simpa using this
    cases hek : e.key.sameIdentity key with
    | false => rfl
    | true =>
        have := sameIdentity_trans_right e.key w.key key hek hkey
        rw [hne] at this
        exact absurd this Bool.false_ne_true
  have hany : (q.entries.filter (fun e => !e.key.sameIdentity w.key)).any
      (fun e => e.key.sameIdentity key && decide (t ≤ e.update_time)) = false := by
    rw [List.any_eq_false]
    intro e he
    rw [hrest e he]
    exact Bool.false_ne_true
  simp only [QueryCache.hasCacheEntryForKey, storeEntry, List.any_cons, hany, hkey,
    Bool.true_and, Bool.or_false]

/-- The write step of an eligible execution whose run count exceeds the threshold attaches
a writer with the writer's key and the freshness value of the read step. -/
theorem writeQueryCache_attaches_writer (env : Env) (can_use_query_cache : Bool) (ast : AST)
    (cr : CacheRead) (c : Context) (q : QueryCache)
    (hq : c.query_cache = some q)
    (hel : (!cr.read_result_from_query_cache
          && can_use_query_cache && c.settings.enable_writes_to_query_cache
          && decide (cr.res.pipeline.num_streams > 0)
          && (!env.astContainsNonDeterministicFunctions ast
              || c.settings.query_cache_store_results_of_queries_with_nondeterministic_functions))
          = true)
    (hthr : (q.recordQueryRun (writerKey env c ast cr.res)).1
      > c.settings.query_cache_min_query_runs) :
    ∃ r, (writeQueryCache env can_use_query_cache ast cr c).result = .ok r
      ∧ r.pipeline.query_cache_writer
          = some { key := writerKey env c ast cr.res,
                   source_update_time := cr.source_update_time_for_query_cache } := by
  unfold writeQueryCache
  simp [bind, Exec.bind, getContext, pure, Exec.pure, emit, modifyContext, hq, hel, hthr]

/-- The finish callback of an eligible execution stores the writer's entry. -/
theorem finalizeCacheWrite_stores (env : Env) (cb : FinishCallback) (res : BlockIO)
    (c : Context) (q : QueryCache) (w : QueryCacheWriter)
    (hq : c.query_cache = some q)
    (hw : res.pipeline.query_cache_writer = some w)
    (hel : (cb.pulling_pipeline
          && cb.my_can_use_query_cache && cb.enable_writes_to_query_cache
          && (!env.astContainsNonDeterministicFunctions cb.ast
              || cb.query_cache_store_results_of_queries_with_nondeterministic_functions))
          = true) :
    (cb.finalizeCacheWrite env res c).context.query_cache = some (storeEntry env w q) := by
  simp only [Bool.and_eq_true] at hel
  obtain ⟨⟨⟨h1, h2⟩, h3⟩, h4⟩ := hel
  unfold FinishCallback.finalizeCacheWrite finalizeWriteInQueryCache
  simp [bind, Exec.bind, getContext, pure, Exec.pure, emit, modifyContext, hq, hw, h1, h2, h3,
    h4]

/-- C18 (amended). Cache round trip. A first execution that is write-eligible and whose run
count exceeds the threshold attaches a writer with the writer's key and the freshness value
of its read step, and its finish callback stores the writer's entry in the cache. Any later
read-eligible execution of the statement on that cache whose reader key has the identity of
the writer's key and whose freshness value is not zero is served from the cache (the flag
`read_result_from_query_cache` is set and the pipeline is substituted, the cache being left
as it is) when its freshness value equals the writer's, and is not served from the cache
(the fresh result handle is kept) when its freshness value is larger. -/
theorem cache_round_trip_with_nonzero_freshness (env1 : Env) (ast : AST) (cr1 : CacheRead)
    (c1 cF : Context) (q1 qF : QueryCache) (cb : FinishCallback)
    (hq1 : c1.query_cache = some q1)
    (hnot : cr1.read_result_from_query_cache = false)
    (hwrites : c1.settings.enable_writes_to_query_cache = true)
    (hstreams : 0 < cr1.res.pipeline.num_streams)
    (hdet : env1.astContainsNonDeterministicFunctions ast = false
      ∨ c1.settings.query_cache_store_results_of_queries_with_nondeterministic_functions = true)
    (hthr : (q1.recordQueryRun (writerKey env1 c1 ast cr1.res)).1
      > c1.settings.query_cache_min_query_runs)
    (hqF : cF.query_cache = some qF)
    (hcb : cb.ast = ast ∧ cb.pulling_pipeline = true ∧ cb.my_can_use_query_cache = true
      ∧ cb.enable_writes_to_query_cache = true
      ∧ cb.query_cache_store_results_of_queries_with_nondeterministic_functions
          = c1.settings.query_cache_store_results_of_queries_with_nondeterministic_functions) :
    ∃ r1 w,
      (writeQueryCache env1 true ast cr1 c1).result = .ok r1
        ∧ r1.pipeline.query_cache_writer = some w
        ∧ w.key = writerKey env1 c1 ast cr1.res
        ∧ w.source_update_time = cr1.source_update_time_for_query_cache
        ∧ (cb.finalizeCacheWrite env1 r1 cF).context.query_cache = some (storeEntry env1 w qF)
        ∧ ∀ (env : Env) (c : Context) (res : BlockIO) (t : TxnTimestamp),
            c.query_cache = some (storeEntry env1 w qF) →
            c.settings.enable_reads_from_query_cache = true →
            0 < res.pipeline.num_streams →
            res.pipeline.has_all_used_storage_ids = true →
            res.pipeline.used_storage_ids.isEmpty = false →
            ((c.settings.enable_transactional_query_cache = false ∧ t = env.minTS)
              ∨ (c.settings.enable_transactional_query_cache = true
                  ∧ env.getMaxUpdateTime = .ok t)) →
            w.key.sameIdentity (readerKey c ast res) = true →
            t ≠ 0 →
            (t = w.source_update_time →
                ∃ cr, (readQueryCache env true ast res c).result = .ok cr
                  ∧ cr.read_result_from_query_cache = true
                  ∧ cr.res.pipeline = QueryPipeline.readFromQueryCache res.pipeline.header
                  ∧ (readQueryCache env true ast res c).context = c
                  ∧ writeQueryCache env true ast cr c
                      = { events := [], context := c, result := .ok cr.res })
              ∧ (w.source_update_time < t →
                  ∃ cr, (readQueryCache env true ast res c).result = .ok cr
                    ∧ cr.read_result_from_query_cache = false
                    ∧ cr.res = res) := by
  obtain ⟨hast, hpull, hcan, hcbw, hstore⟩ := hcb
  have hel1 : (!cr1.read_result_from_query_cache
        && true && c1.settings.enable_writes_to_query_cache
        && decide (cr1.res.pipeline.num_streams > 0)
        && (!env1.astContainsNonDeterministicFunctions ast
            || c1.settings.query_cache_store_results_of_queries_with_nondeterministic_functions))
        = true := by
    rcases hdet with h | h <;> simp [hnot, hwrites, hstreams, h]
  obtain ⟨r1, hr1, hw1⟩ := writeQueryCache_attaches_writer env1 true ast cr1 c1 q1 hq1 hel1 hthr
  have helF : (cb.pulling_pipeline
        && cb.my_can_use_query_cache && cb.enable_writes_to_query_cache
        && (!env1.astContainsNonDeterministicFunctions cb.ast
            || cb.query_cache_store_results_of_queries_with_nondeterministic_functions))
        = true := by
    rcases hdet with h | h <;> simp [hpull, hcan, hcbw, hast, hstore, h]
  refine ⟨r1, _, hr1, hw1, rfl, rfl,
    finalizeCacheWrite_stores env1 cb r1 cF qF _ hqF hw1 helF, ?_⟩
  intro env c res t hq hreads hn hall hids ht hkey ht0
  have hel : ((true && c.settings.enable_reads_from_query_cache)
        && decide (res.pipeline.num_streams > 0) && res.pipeline.has_all_used_storage_ids
        && !res.pipeline.used_storage_ids.isEmpty) = true := by
    simp [hreads, hn, hall, hids]
  obtain ⟨hctx, ⟨cr, hr, _, hflag, hres⟩, _, _⟩ :=
    readQueryCache_eligible env true ast res c _ hq hel t ht
  rw [hasCacheEntryForKey_storeEntry env1 _ qF _ t hkey] at hflag hres
  have ht0b : (t != 0) = true := by simpa using ht0
  constructor
  · intro heq
    have hle : decide (t ≤ cr1.source_update_time_for_query_cache) = true := by
      simp only [decide_eq_true_eq]; exact Nat.le_of_eq heq
    have hflag1 : cr.read_result_from_query_cache = true := by
      rw [hflag]; simp [ht0b, hle]
    refine ⟨cr, hr, hflag1, ?_, hctx, ?_⟩
    · rw [hres]; simp [ht0b, hle]
    · exact writeQueryCache_not_eligible env true ast cr c (Or.inr (by simp [hflag1]))
  · intro hlt
    have hle : decide (t ≤ cr1.source_update_time_for_query_cache) = false := by
      simp only [decide_eq_false_iff_not, Nat.not_le]; exact hlt
    refine ⟨cr, hr, ?_, ?_⟩
    · rw [hflag]; simp [hle]
    · rw [hres]; simp [hle]

theorem cache_round_trip_with_nonzero_freshness_witness :
    ∃ r1 w,
      (writeQueryCache Env.nominal true (.select { settings := none }) CacheRead.notServed
          (Context.withQueryCache 0)).result = .ok r1
        ∧ r1.pipeline.query_cache_writer = some w := by
  obtain ⟨r1, w, h1, h2, _⟩ :=
    cache_round_trip_with_nonzero_freshness Env.nominal (.select { settings := none })
      CacheRead.notServed (Context.withQueryCache 0) (Context.withQueryCache 0)
      { entries := [], times_executed := [] } { entries := [], times_executed := [] }
      { ast := .select { settings := none }, query_id := "q", my_can_use_query_cache := true,
        enable_writes_to_query_cache := true,
        query_cache_store_results_of_queries_with_nondeterministic_functions := false,
        log_queries := false, log_queries_min_type := .QUERY_START,
        log_queries_min_query_duration_ms := 0, log_processors_profiles := false,
        pulling_pipeline := true }
      rfl rfl rfl (by decide) (Or.inl rfl) (by decide) rfl ⟨rfl, rfl, rfl, rfl, rfl⟩
  exact ⟨r1, w, h1, h2⟩

/-- The round trip on whole runs: a first statement run by `executeQuery` with freshness 5
stores its result; the same statement run again with freshness 5 is served from the cache;
run with freshness 6, after an update of the table, it creates a reader and is not served
from the cache. -/
theorem cache_round_trip_on_sample_runs :
    Event.readFromQueryCache
        ∉ (executeQuery (Env.overT 5) false Context.cached).events
      ∧ Event.readFromQueryCache
        ∈ (executeQueryImpl (Env.overT 5) Input.client
            (Context.cachedAfter (executeQuery (Env.overT 5) false Context.cached))).events
      ∧ Event.readFromQueryCache
        ∉ (executeQueryImpl (Env.overT 6) Input.client
            (Context.cachedAfter (executeQuery (Env.overT 5) false Context.cached))).events
      ∧ ((executeQueryImpl (Env.overT 6) Input.client
            (Context.cachedAfter (executeQuery (Env.overT 5) false Context.cached))).events.any
          Event.isCreateReader) = true := by
  decide

/-- C18 (as stated) fails when the freshness value is zero: a first run with cache reads and
writes enabled and the threshold exceeded stores its result, and the same statement run
again, with the same cache key and the same maximum update time 0, creates no reader and is
not served from the cache. -/
theorem cache_round_trip_fails_with_zero_freshness :
    ((executeQuery (Env.overT 0) false Context.cached).result = .ok ()
        ∧ Event.writeResultIntoQueryCache
            ∈ (executeQuery (Env.overT 0) false Context.cached).events
        ∧ ((executeQuery (Env.overT 0) false Context.cached).context.query_cache.map
            (fun q => q.entries.length)) = some 1)
      ∧ (Event.readFromQueryCache
          ∉ (executeQueryImpl (Env.overT 0) Input.client
              (Context.cachedAfter (executeQuery (Env.overT 0) false Context.cached))).events
        ∧ ((executeQueryImpl (Env.overT 0) Input.client
              (Context.cachedAfter (executeQuery (Env.overT 0) false Context.cached))).events.any
            Event.isCreateReader) = false
        ∧ ((executeQueryImpl (Env.overT 0) Input.client
              (Context.cachedAfter (executeQuery (Env.overT 0) false Context.cached))).result.toOption.map
            (fun r => r.2.pipeline.reads_from_query_cache)) = some false) := by
  decide

/-! ### Admission to the query queue -/

/-- C21. `tryQueueQuery` enqueues exactly when the statement kind is SELECT, SELECT with
UNION, INSERT, DELETE or UPDATE and the context has a current worker group; it then throws
`CNCH_QUEUE_QUERY_FAILURE` if and only if the enqueue result is not `QueueSuccess`. For every
other statement kind, or without a worker group, it returns normally, enqueues nothing and
leaves the context as it is. -/
theorem tryQueueQuery_enqueues_queued_kinds_with_worker_group (env : Env) (ast_type : ASTType)
    (c : Context) :
    (isQueuedType ast_type = true
        ↔ (ast_type = .ASTSelectQuery ∨ ast_type = .ASTSelectWithUnionQuery
            ∨ ast_type = .ASTInsertQuery ∨ ast_type = .ASTDeleteQuery
            ∨ ast_type = .ASTUpdateQuery))
      ∧ ((∃ vw wg, Event.enqueue vw wg ∈ (tryQueueQuery env ast_type c).events)
          ↔ (isQueuedType ast_type = true ∧ c.current_worker_group.isSome = true))
      ∧ (∀ wg, isQueuedType ast_type = true → c.current_worker_group = some wg →
          (tryQueueQuery env ast_type c).events = [.enqueue wg.vw_name wg.id]
            ∧ ((tryQueueQuery env ast_type c).result
                  = .error { code := .CNCH_QUEUE_QUERY_FAILURE, message := "query queue failed" }
                ↔ env.enqueue ≠ .QueueSuccess)
            ∧ ((tryQueueQuery env ast_type c).result = .ok () ↔ env.enqueue = .QueueSuccess))
      ∧ ((isQueuedType ast_type = false ∨ c.current_worker_group = none) →
          (tryQueueQuery env ast_type c).events = []
            ∧ (tryQueueQuery env ast_type c).result = .ok ()
            ∧ (tryQueueQuery env ast_type c).context = c) := by
  refine ⟨by cases ast_type <;> simp [isQueuedType], ?_, ?_, ?_⟩
  · cases hk : isQueuedType ast_type <;> cases hw : c.current_worker_group <;>
      cases hq : env.enqueue <;> cases hv : env.current_vw_worker_group <;>
      simp [tryQueueQuery, bind, Exec.bind, getContext, emit, modifyContext, throwException,
        pure, Exec.pure, hk, hw, hq, hv]
  · intro wg hk hw
    cases hq : env.enqueue <;> cases hv : env.current_vw_worker_group <;>
      simp [tryQueueQuery, bind, Exec.bind, getContext, emit, modifyContext, throwException,
        pure, Exec.pure, hk, hw, hq, hv]
  · intro h
    rcases h with hk | hw
    · simp [tryQueueQuery, bind, Exec.bind, getContext, pure, Exec.pure, hk]
    · cases hk : isQueuedType ast_type <;>
        simp [tryQueueQuery, bind, Exec.bind, getContext, pure, Exec.pure, hk, hw]

/-! ### Transaction attachment -/

/-- C22. On a coordinating server whose context has no bound transaction, when the
coordinator creates the transaction, `prepareCnchTransaction` calls `createTransaction`
exactly once, with the read-only flag `isReadOnlyTransaction(ast)` and with the id of the
session's explicit transaction as primary id when the query is in an interactive session
and 0 otherwise; it binds the new transaction to the context and returns it; and it appends
the statement to the session transaction's statement log if and only if that session
transaction exists and the statement is not read-only. -/
theorem prepareCnchTransaction_creates_one_transaction_on_server (env : Env) (ast : AST)
    (c : Context) (id : TxnTimestamp)
    (hserver : c.server_type = .cnch_server)
    (hnone : c.current_transaction = none)
    (hcreate : env.createTransaction = .ok id) :
    ∃ txn,
      (prepareCnchTransaction env ast c).result = .ok (some txn)
        ∧ txn.id = id
        ∧ txn.read_only = env.isReadOnlyTransaction ast
        ∧ (isQueryInInteractiveSession c = false → txn.primary_txn_id = 0)
        ∧ (∀ s, sessionExplicitTransaction c = some s → txn.primary_txn_id = s.id)
        ∧ (sessionExplicitTransaction c = none → txn.primary_txn_id = 0)
        ∧ (prepareCnchTransaction env ast c).events.countP Event.isCreateTransaction = 1
        ∧ Event.createTransaction txn.read_only txn.primary_txn_id
            ∈ (prepareCnchTransaction env ast c).events
        ∧ Event.setCurrentTransaction txn ∈ (prepareCnchTransaction env ast c).events
        ∧ (prepareCnchTransaction env ast c).context.current_transaction = some txn
        ∧ ((∃ sid, Event.addStatement sid ∈ (prepareCnchTransaction env ast c).events)
            ↔ ((sessionExplicitTransaction c).isSome = true
                ∧ env.isReadOnlyTransaction ast = false))
        ∧ (prepareCnchTransaction env ast c).context.session_statements
            = (if (sessionExplicitTransaction c).isSome && !env.isReadOnlyTransaction ast
               then c.session_statements ++ [ast] else c.session_statements) := by
  cases hro : env.isReadOnlyTransaction ast <;>
    cases hint : isQueryInInteractiveSession c <;>
    cases hexp : asCnchExplicitTransaction c.session_transaction <;>
    simp [prepareCnchTransaction, sessionExplicitTransaction, bind, Exec.bind, getContext, emit,
      ofExcept, modifyContext, pure, Exec.pure, hserver, hnone, hcreate, hro, hint, hexp,
      Event.isCreateTransaction, List.countP_cons]

theorem prepareCnchTransaction_creates_one_transaction_on_server_witness :
    ∃ txn, (prepareCnchTransaction Env.nominal AST.insertIntoT Context.interactive).result
        = .ok (some txn)
      ∧ txn.primary_txn_id = 3 := by
  obtain ⟨txn, h1, _, _, _, h5, _⟩ :=
    prepareCnchTransaction_creates_one_transaction_on_server Env.nominal AST.insertIntoT
      Context.interactive 7 rfl rfl rfl
  exact ⟨txn, h1, h5 Transaction.session (by decide)⟩

/-- The target table read by the worker branch is not empty exactly for an INSERT or a
SYSTEM DEDUP that names a table. -/
theorem workerTargetTable_nonempty (ast : AST) :
    (workerTargetTable ast).2.isEmpty = false
      ↔ ((∃ q, ast = .insert q ∧ q.table_name.isEmpty = false)
          ∨ (∃ q, ast = .system q ∧ q.type = .DEDUP ∧ q.table.isEmpty = false)) := by
  have hempty : ("" : String).isEmpty = true := by decide
  cases ast with
  | insert q => simp [workerTargetTable]
  | system q =>
      cases ht : q.type <;> simp [workerTargetTable, ht, hempty]
  | _ => simp [workerTargetTable, hempty]

/-- C23. `prepareCnchTransaction` attaches nothing on a node that is neither a coordinating
server nor a worker. On a server or a worker whose context already holds a transaction it
returns that transaction and creates none. On a worker with no bound transaction, when the
catalog lookup and the construction of the worker transaction do not throw, it attaches a
transaction if and only if the query is an `INITIAL_QUERY`, the statement is an INSERT or a
SYSTEM DEDUP naming a table, and the storage of that table is a Cnch or Cloud MergeTree. -/
theorem prepareCnchTransaction_attachment_by_role (env : Env) (ast : AST) (c : Context) :
    ((c.server_type ≠ .cnch_server ∧ c.server_type ≠ .cnch_worker) →
        prepareCnchTransaction env ast c = { events := [], context := c, result := .ok none })
      ∧ (∀ txn, (c.server_type = .cnch_server ∨ c.server_type = .cnch_worker) →
          c.current_transaction = some txn →
          prepareCnchTransaction env ast c
            = { events := [], context := c, result := .ok (some txn) })
      ∧ (∀ storage id, c.server_type = .cnch_worker → c.current_transaction = none →
          env.getTable = .ok storage → env.createWorkerTransaction = .ok id →
          (((∃ txn, (prepareCnchTransaction env ast c).result = .ok (some txn)
                ∧ (prepareCnchTransaction env ast c).context.current_transaction = some txn
                ∧ Event.setCurrentTransaction txn ∈ (prepareCnchTransaction env ast c).events)
              ↔ (c.query_kind = .INITIAL_QUERY
                  ∧ ((∃ q, ast = .insert q ∧ q.table_name.isEmpty = false)
                      ∨ (∃ q, ast = .system q ∧ q.type = .DEDUP ∧ q.table.isEmpty = false))
                  ∧ (storage = .StorageCnchMergeTree ∨ storage = .StorageCloudMergeTree)))
            ∧ (¬ (c.query_kind = .INITIAL_QUERY
                  ∧ ((∃ q, ast = .insert q ∧ q.table_name.isEmpty = false)
                      ∨ (∃ q, ast = .system q ∧ q.type = .DEDUP ∧ q.table.isEmpty = false))
                  ∧ (storage = .StorageCnchMergeTree ∨ storage = .StorageCloudMergeTree)) →
                (prepareCnchTransaction env ast c).result = .ok none
                  ∧ (prepareCnchTransaction env ast c).context.current_transaction = none))) := by
  refine ⟨?_, ?_, ?_⟩
  · rintro ⟨h1, h2⟩
    cases hs : c.server_type <;> simp_all [prepareCnchTransaction, bind, Exec.bind, getContext,
      pure, Exec.pure]
  · intro txn hs htxn
    rcases hs with hs | hs <;>
      simp [prepareCnchTransaction, bind, Exec.bind, getContext, pure, Exec.pure, hs, htxn]
  · intro storage id hs hnone htable hcreate
    rw [← workerTargetTable_nonempty]
    cases hk : c.query_kind <;> cases hempty : (workerTargetTable ast).2.isEmpty <;>
      cases storage <;>
      simp [prepareCnchTransaction, bind, Exec.bind, getContext, emit, ofExcept, modifyContext,
        pure, Exec.pure, hs, hnone, htable, hcreate, hk, hempty]

/-! ### What the finish callback does without a process-list element -/

theorem finalizeCacheWrite_context (env : Env) (cb : FinishCallback) (res : BlockIO)
    (c : Context) :
    ∃ q, (cb.finalizeCacheWrite env res c).context = { c with query_cache := q } := by
  unfold FinishCallback.finalizeCacheWrite finalizeWriteInQueryCache
  simp only [bind, Exec.bind, getContext]
  split
  · cases res.pipeline.query_cache_writer
    all_goals simp [Exec.bind, emit, modifyContext, pure, Exec.pure]
    all_goals exact ⟨_, rfl⟩
  · exact ⟨c.query_cache, rfl⟩

/-- The only call the first statement of `finish_callback` makes is
`finalizeWriteInQueryCache`, under the condition on the captured flags. -/
theorem finalizeCacheWrite_events (env : Env) (cb : FinishCallback) (res : BlockIO)
    (c : Context) :
    (cb.finalizeCacheWrite env res c).events
      = (if c.query_cache.isSome && cb.pulling_pipeline
            && cb.my_can_use_query_cache && cb.enable_writes_to_query_cache
            && (!env.astContainsNonDeterministicFunctions cb.ast
                || cb.query_cache_store_results_of_queries_with_nondeterministic_functions)
         then [.finalizeWriteInQueryCache] else []) := by
  unfold FinishCallback.finalizeCacheWrite finalizeWriteInQueryCache
  simp only [bind, Exec.bind, getContext]
  split
  · cases res.pipeline.query_cache_writer <;>
      simp [Exec.bind, emit, modifyContext, pure, Exec.pure]
  · rfl

/-- The events of `finish_callback`: the cache finalization, the transaction completion, and
then, only with a process-list element, the records and the plan-segment cleanup. -/
theorem finishCallback_run_events (env : Env) (cb : FinishCallback) (res : BlockIO)
    (c : Context) :
    (cb.run env res c).result = .ok ()
      ∧ (c.process_list_element = none →
          (cb.run env res c).events
            = (cb.finalizeCacheWrite env res c).events ++ (finish_current_transaction c).events)
      ∧ (c.process_list_element.isSome = true →
          ∃ mid, (cb.run env res c).events
            = (cb.finalizeCacheWrite env res c).events ++ (finish_current_transaction c).events
                ++ mid ++ [.tryCancelPlanSegmentGroup cb.query_id,
                           .finishPlanSegments cb.query_id]) := by
  obtain ⟨q, hq⟩ := finalizeCacheWrite_context env cb res c
  have h1 := finalizeCacheWrite_returns env cb res c
  have h2 := finish_current_transaction_result { c with query_cache := q }
  have h3 : (finish_current_transaction { c with query_cache := q }).events
      = (finish_current_transaction c).events := by
    unfold finish_current_transaction
    cases htxn : c.current_transaction <;> cases hs : c.server_type <;>
      simp [bind, Exec.bind, getContext, emit, pure, Exec.pure, htxn, hs]
  unfold FinishCallback.run
  rw [bind_ok h1, hq, bind_ok h2.1, h2.2, h3]
  cases hp : c.process_list_element with
  | none =>
      simp [bind, Exec.bind, getContext, pure, Exec.pure, hp]
  | some p =>
      simp [bind, Exec.bind, getContext, pure, Exec.pure, hp, emit, emitWhen_result,
        emitWhen_context, emitWhen_events]
      simp only [← List.append_assoc, ← List.cons_append]
      exact ⟨_, rfl⟩

/-- C26 (amended). On every successful completion `finish_callback` returns normally and
calls `finish_current_transaction`, which on a coordinating server requests completion of
the bound transaction, for every statement. It requests cancellation and cleanup of the plan
segments of the query (`tryCancelPlanSegmentGroup` and `finishPlanSegments`, as its last two
calls) when the context has a process-list element, and makes neither request when the
context has none. -/
theorem finish_callback_cleans_plan_segments_with_process_list_element (env : Env)
    (cb : FinishCallback) (res : BlockIO) (c : Context) :
    (cb.run env res c).result = .ok ()
      ∧ (∀ e ∈ (finish_current_transaction c).events, e ∈ (cb.run env res c).events)
      ∧ (∀ txn, c.current_transaction = some txn → c.server_type = .cnch_server →
          Event.finishTransaction txn ∈ (cb.run env res c).events)
      ∧ (c.process_list_element.isSome = true →
          ∃ pre, (cb.run env res c).events
            = pre ++ [.tryCancelPlanSegmentGroup cb.query_id, .finishPlanSegments cb.query_id])
      ∧ (c.process_list_element = none →
          ∀ e ∈ (cb.run env res c).events, e.isPlanSegmentCleanup = false) := by
  obtain ⟨hres, hnone, hsome⟩ := finishCallback_run_events env cb res c
  have hfin : ∀ e ∈ (finish_current_transaction c).events, e ∈ (cb.run env res c).events := by
    intro e he
    cases hp : c.process_list_element with
    | none =>
        rw [hnone hp]
        exact List.mem_append_right _ he
    | some p =>
        obtain ⟨mid, hmid⟩ := hsome (by rw [hp]; rfl)
        rw [hmid]
        exact List.mem_append_left _ (List.mem_append_left _ (List.mem_append_right _ he))
  refine ⟨hres, hfin, ?_, ?_, ?_⟩
  · intro txn htxn hs
    apply hfin
    rw [finish_current_transaction_run c txn ⟨htxn, hs⟩]
    simp
  · intro hp
    obtain ⟨mid, hmid⟩ := hsome hp
    exact ⟨_, hmid⟩
  · intro hp e he
    rw [hnone hp] at he
    rcases List.mem_append.mp he with h | h
    · rw [finalizeCacheWrite_events] at h
      split at h
      · simp only [List.mem_singleton] at h
        rw [h]; rfl
      · simp at h
    · exact (onlyEmits_finish_current_transaction
        (P := fun e => e.isPlanSegmentCleanup = false)
        (by intro e he; cases e <;> first | rfl | simp [Event.isBeforeStartEvent] at he)).holds
        c e h

/-- C26 (as stated) fails for a statement without a process-list element: an internal
statement completes, its finish callback runs and completes the transaction, and no
cancellation or cleanup of plan segments is requested. -/
theorem internal_statement_requests_no_plan_segment_cleanup :
    (executeQuery Env.nominal true Context.server).result = .ok ()
      ∧ Event.finishCallbackInvoked ∈ (executeQuery Env.nominal true Context.server).events
      ∧ (executeQuery Env.nominal true Context.server).events.any
          (fun e => match e with | .finishTransaction _ => true | _ => false) = true
      ∧ (executeQuery Env.nominal true Context.server).events.any
          Event.isPlanSegmentCleanup = false := by
  decide

/-! ### The unguarded `getInfo` of the exception callback -/

/-- C30 on the code. For an internal statement (no process-list element) with
`enable_query_level_profiling` on whose result fails while being driven, the exception
callback runs and calls `getInfo` on the absent process-list element. -/
theorem exception_callback_calls_getInfo_on_absent_element :
    (executeQuery Env.driveFails true Context.profiling).context.process_list_element = none
      ∧ Event.exceptionCallbackInvoked
          ∈ (executeQuery Env.driveFails true Context.profiling).events
      ∧ Event.getInfo false ∈ (executeQuery Env.driveFails true Context.profiling).events := by
  decide

/-- With query-level profiling on, the exception callback calls `getInfo` whether or not the
process-list element is present. -/
theorem exceptionCallback_run_getInfo (env : Env) (cb : ExceptionCallback) (e : Exception)
    (c : Context) (hprof : c.settings.enable_query_level_profiling = true) :
    Event.getInfo c.process_list_element.isSome ∈ (cb.run env e c).events := by
  have h1 := finish_current_transaction_result c
  have hm : Event.getInfo c.process_list_element.isSome ∈ (exceptionQueryMetric c).events := by
    rw [exceptionQueryMetric_run, if_pos hprof]
    cases c.process_list_element <;> simp
  unfold ExceptionCallback.run
  rw [bind_ok h1.1]
  apply List.mem_append_right
  simp only [bind, Exec.bind, getContext, emitWhen_result, emitWhen_context, emitWhen_events,
    h1.2]
  cases hr : (exceptionQueryMetric c).result <;>
    simp [hm, pure, Exec.pure, throwException]

/-! ### The events of each step of local execution -/

theorem registerQuery_emits (env : Env) (inp : Input) (ast : AST) :
    OnlyEmits (fun e => e.isRegisterEvent = true) (registerQuery env inp ast) := by
  unfold registerQuery
  repeat' first
    | intro _
    | exact onlyEmits_pure _ _
    | exact onlyEmits_getContext _
    | exact onlyEmits_modifyContext _ _
    | exact onlyEmits_ofExcept _ _
    | exact onlyEmits_emit rfl
    | apply onlyEmits_bind
    | dsimp only
    | split

theorem buildInterpreter_emits (env : Env) (inp : Input) (ast : AST) :
    OnlyEmits (fun e => e.isBuildEvent = true) (buildInterpreter env inp ast) := by
  unfold buildInterpreter
  repeat' first
    | intro _
    | exact onlyEmits_pure _ _
    | exact onlyEmits_setSetting _ _ _
    | exact onlyEmits_ofExcept _ _
    | exact onlyEmits_emit rfl
    | apply onlyEmits_bind
    | dsimp only
    | split

theorem chargeQuota_emits (env : Env) (ast : AST) (interpreter : Interpreter) :
    OnlyEmits (fun e => e.isQuotaChargeEvent = true) (chargeQuota env ast interpreter) := by
  unfold chargeQuota
  repeat' first
    | intro _
    | exact onlyEmits_pure _ _
    | exact onlyEmits_getContext _
    | exact onlyEmits_ofExcept _ _
    | exact onlyEmits_emit rfl
    | apply onlyEmits_bind
    | dsimp only
    | split

theorem executeInterpreter_emits (env : Env) (interpreter : Interpreter) :
    OnlyEmits (fun e => e.isInterpreterEvent = true) (executeInterpreter env interpreter) := by
  unfold executeInterpreter executeFallback retryExecute turnOffOptimizer turnOffPerfectShard
  repeat' first
    | intro _
    | exact onlyEmits_pure _ _
    | exact onlyEmits_getContext _
    | exact onlyEmits_setSetting _ _ _
    | exact onlyEmits_ofExcept _ _
    | exact onlyEmits_throwException _ _
    | exact onlyEmits_emit rfl
    | apply onlyEmits_bind
    | apply onlyEmits_tryCatch
    | dsimp only
    | split

theorem readQueryCache_emits (env : Env) (can_use_query_cache : Bool) (ast : AST)
    (res : BlockIO) :
    OnlyEmits (fun e => e.isCacheReadEvent = true)
      (readQueryCache env can_use_query_cache ast res) := by
  unfold readQueryCache
  repeat' first
    | intro _
    | exact onlyEmits_pure _ _
    | exact onlyEmits_getContext _
    | exact onlyEmits_ofExcept _ _
    | exact onlyEmits_emit rfl
    | apply onlyEmits_bind
    | dsimp only
    | split

theorem checkKilled_emits (P : Event → Prop) (process_list_entry : Option QueryStatus)
    (res : BlockIO) : OnlyEmits P (checkKilled process_list_entry res) := by
  unfold checkKilled
  repeat' first
    | intro _
    | exact onlyEmits_pure _ _
    | exact onlyEmits_throwException _ _
    | apply onlyEmits_bind
    | dsimp only
    | split

theorem attachLimits_emits (inp : Input) (interpreter : Interpreter) (res : BlockIO) :
    OnlyEmits (fun e => e.isLimitEvent = true) (attachLimits inp interpreter res) := by
  unfold attachLimits
  repeat' first
    | intro _
    | exact onlyEmits_pure _ _
    | exact onlyEmits_emit rfl
    | apply onlyEmits_bind
    | dsimp only
    | split

theorem writeQueryCache_emits (env : Env) (can_use_query_cache : Bool) (ast : AST)
    (cr : CacheRead) :
    OnlyEmits (fun e => e.isCacheWriteEvent = true)
      (writeQueryCache env can_use_query_cache ast cr) := by
  unfold writeQueryCache
  repeat' first
    | intro _
    | exact onlyEmits_pure _ _
    | exact onlyEmits_getContext _
    | exact onlyEmits_modifyContext _ _
    | exact onlyEmits_emit rfl
    | apply onlyEmits_bind
    | dsimp only
    | split

theorem logQueryStart_emits (inp : Input) :
    OnlyEmits (fun e => e.isLogStartEvent = true) (logQueryStart inp) := by
  unfold logQueryStart
  repeat' first
    | intro _
    | exact onlyEmits_pure _ _
    | exact onlyEmits_getContext _
    | exact onlyEmits_emitWhen _ rfl
    | apply onlyEmits_bind
    | dsimp only
    | split

theorem attachCallbacks_emits (P : Event → Prop) (inp : Input) (can_use_query_cache : Bool)
    (ast : AST) (quota : Bool) (res : BlockIO) :
    OnlyEmits P (attachCallbacks inp can_use_query_cache ast quota res) := by
  unfold attachCallbacks
  repeat' first
    | intro _
    | exact onlyEmits_pure _ _
    | exact onlyEmits_getContext _
    | apply onlyEmits_bind
    | dsimp only

/-- The events of local execution, step by step. -/
theorem onlyEmits_executeLocally_by_step {P : Event → Prop} (env : Env) (inp : Input)
    (can_use_query_cache : Bool) (ast : AST)
    (hreg : OnlyEmits P (registerQuery env inp ast))
    (hbuild : OnlyEmits P (buildInterpreter env inp ast))
    (hquota : ∀ i, OnlyEmits P (chargeQuota env ast i))
    (hexec : ∀ i, OnlyEmits P (executeInterpreter env i))
    (hread : ∀ res, OnlyEmits P (readQueryCache env can_use_query_cache ast res))
    (hlim : ∀ i res, OnlyEmits P (attachLimits inp i res))
    (hwrite : ∀ cr, OnlyEmits P (writeQueryCache env can_use_query_cache ast cr))
    (hlog : OnlyEmits P (logQueryStart inp)) :
    OnlyEmits P (executeLocally env inp can_use_query_cache ast) := by
  unfold executeLocally
  repeat' first
    | intro _
    | exact hreg
    | exact hbuild
    | exact hquota _
    | exact hexec _
    | exact hread _
    | exact checkKilled_emits _ _ _
    | exact hlim _ _
    | exact hwrite _
    | exact hlog
    | exact attachCallbacks_emits _ inp _ ast _ _
    | apply onlyEmits_bind

/-- The events of `attachAndExecute`, given those of the second `try` block. -/
theorem onlyEmits_attachAndExecute_with {P : Event → Prop} (env : Env) (inp : Input)
    (ast : AST)
    (hB : ∀ e, e.isBeforeStartEvent = true → P e)
    (hA : ∀ e, e.isAttachEvent = true → P e)
    (hloc : ∀ can_use_query_cache, OnlyEmits P (executeLocally env inp can_use_query_cache ast)) :
    OnlyEmits P (attachAndExecute env inp ast) := by
  unfold attachAndExecute
  repeat' first
    | intro _
    | exact onlyEmits_pure _ _
    | exact onlyEmits_getContext _
    | exact onlyEmits_doSomeReplacementForSettings _
    | exact onlyEmits_setQuerySpecificSettings _ _
    | exact onlyEmits_attachTransaction env inp _ hA
    | exact onlyEmits_tryCatchRethrow (hloc _) (onlyEmits_beforeStartHandler inp hB)
    | apply onlyEmits_bind

theorem returns_parseAndCommit_statement (env : Env) (inp : Input) :
    Returns (fun ast => statementOf env inp = .ok ast) (parseAndCommit env inp) := by
  unfold parseAndCommit
  apply returns_bind (returns_obtainAST env inp)
  intro ast hast
  apply returns_bind_any
  intro _
  apply returns_bind_any
  intro _
  dsimp only
  split
  · apply returns_bind_any
    intro _
    exact returns_pure hast
  · apply returns_bind_any
    intro _
    exact returns_pure hast

/-- The statement the first `try` block hands on is the one `executeQueryImpl` is about. -/
theorem returns_parseAndRoute_statement (env : Env) (inp : Input) :
    Returns (fun first => ∀ ast, first = .proceed ast → statementOf env inp = .ok ast)
      (parseAndRoute env inp) := by
  unfold parseAndRoute
  apply returns_bind (returns_parseAndCommit_statement env inp)
  intro ast hast
  unfold routeOrProceed
  apply returns_bind_any
  intro routed
  cases routed with
  | some res => exact returns_pure (fun a h => by cases h)
  | none =>
      apply returns_bind_any
      intro _
      exact returns_pure (fun a h => by cases h; exact hast)

/-- The events of `executeQueryImpl`, given those of the second `try` block run on the
statement the call is about. -/
theorem onlyEmits_executeQueryImpl_with {P : Event → Prop} (env : Env) (inp : Input)
    (hpc : OnlyEmits P (parseAndCommit env inp))
    (hR : ∀ e, e.isRoutingEvent = true → P e)
    (hB : ∀ e, e.isBeforeStartEvent = true → P e)
    (hA : ∀ e, e.isAttachEvent = true → P e)
    (hloc : ∀ ast can_use_query_cache, statementOf env inp = .ok ast →
      OnlyEmits P (executeLocally env inp can_use_query_cache ast)) :
    OnlyEmits P (executeQueryImpl env inp) := by
  unfold executeQueryImpl
  apply onlyEmits_bind (onlyEmits_useGlobalProductMode _)
  intro _
  apply onlyEmits_bind_returns
    (onlyEmits_tryCatchRethrow (onlyEmits_parseAndRoute env inp hpc hR)
      (onlyEmits_beforeStartHandler inp hB))
    (returns_tryCatchRethrow (returns_parseAndRoute_statement env inp))
  intro first hfirst
  cases first with
  | routed ast res => exact onlyEmits_pure _ _
  | proceed ast =>
      exact onlyEmits_attachAndExecute_with env inp ast hB hA
        (fun can => hloc ast can (hfirst ast rfl))

/-! ### Limits on the result -/

/-- At a stage other than `Complete` the limit step does nothing and returns the result
handle as it is. -/
theorem attachLimits_incomplete_stage (inp : Input) (interpreter : Interpreter) (res : BlockIO)
    (c : Context) (hstage : inp.stage ≠ .Complete) :
    attachLimits inp interpreter res c = { events := [], context := c, result := .ok res } := by
  have h : (inp.stage == QueryProcessingStage.Complete) = false := by
    simpa using hstage
  unfold attachLimits
  cases hi : res.pipeline.initialized <;> cases hin : res.has_in <;>
    simp [h, pure, Exec.pure]

/-- C27. Row and byte ceilings are attached to the result only when the requested stage is
`Complete`: for every other stage `executeQueryImpl` adds no `LimitsCheckingTransform` to a
pipeline and calls `setLimits` on no stream, and its limit step returns the result handle
unchanged; conversely a run that attaches limits was asked for the stage `Complete`. -/
theorem limits_attached_only_at_complete_stage (env : Env) (inp : Input) (c : Context) :
    (inp.stage ≠ .Complete →
        (∀ e ∈ (executeQueryImpl env inp c).events, e.isLimitAttachment = false)
          ∧ ∀ interpreter res c1,
              attachLimits inp interpreter res c1
                = { events := [], context := c1, result := .ok res })
      ∧ ((∃ e ∈ (executeQueryImpl env inp c).events, e.isLimitAttachment = true) →
          inp.stage = .Complete) := by
  have key : inp.stage ≠ .Complete →
      ∀ e ∈ (executeQueryImpl env inp c).events, e.isLimitAttachment = false := by
    intro hstage
    have hlim : ∀ i res, OnlyEmits (fun e => e.isLimitAttachment = false)
        (attachLimits inp i res) := by
      intro i res
      refine ⟨fun c1 e he => ?_⟩
      rw [attachLimits_incomplete_stage inp i res c1 hstage] at he
      simp at he
    refine (onlyEmits_executeQueryImpl_with (P := fun e => e.isLimitAttachment = false) env inp
      (onlyEmits_parseAndCommit env inp ?_ rfl rfl) ?_ ?_ ?_ ?_).holds c
    · intro e he; cases e <;> first | rfl | simp [Event.isRoutingEvent] at he
    · intro e he; cases e <;> first | rfl | simp [Event.isRoutingEvent] at he
    · intro e he; cases e <;> first | rfl | simp [Event.isBeforeStartEvent] at he
    · intro e he; cases e <;> first | rfl | simp [Event.isAttachEvent] at he
    · intro ast can _
      apply onlyEmits_executeLocally_by_step env inp can ast
      · exact (registerQuery_emits env inp ast).mono
          (by intro e he; cases e <;> first | rfl | simp [Event.isRegisterEvent] at he)
      · exact (buildInterpreter_emits env inp ast).mono
          (by intro e he; cases e <;> first | rfl | simp [Event.isBuildEvent] at he)
      · intro i
        exact (chargeQuota_emits env ast i).mono
          (by intro e he; cases e <;> first | rfl | simp [Event.isQuotaChargeEvent] at he)
      · intro i
        exact (executeInterpreter_emits env i).mono
          (by intro e he; cases e <;> first | rfl | simp [Event.isInterpreterEvent] at he)
      · intro res
        exact (readQueryCache_emits env can ast res).mono
          (by intro e he; cases e <;> first | rfl | simp [Event.isCacheReadEvent] at he)
      · exact hlim
      · intro cr
        exact (writeQueryCache_emits env can ast cr).mono
          (by intro e he; cases e <;> first | rfl | simp [Event.isCacheWriteEvent] at he)
      · exact (logQueryStart_emits inp).mono
          (by intro e he; cases e <;> first | rfl | simp [Event.isLogStartEvent] at he)
  refine ⟨fun hstage => ⟨key hstage, fun i res c1 =>
    attachLimits_incomplete_stage inp i res c1 hstage⟩, ?_⟩
  rintro ⟨e, he, hlimit⟩
  by_contra hstage
  rw [key hstage e he] at hlimit
  exact Bool.false_ne_true hlimit

/-! ### At most one retry -/

theorem emitsAtMostOnce_of_onlyEmits {α : Type} {p : Event → Bool} {m : Exec α}
    (h : OnlyEmits (fun e => p e = false) m) : EmitsAtMostOnce p m :=
  ⟨fun c => by rw [onlyEmits_countP_eq_zero h c]; omega⟩

theorem emitsAtMostOnce_bind_left {α β : Type} {p : Event → Bool} {m : Exec α}
    {f : α → Exec β} (hm : OnlyEmits (fun e => p e = false) m)
    (hf : ∀ a, EmitsAtMostOnce p (f a)) : EmitsAtMostOnce p (m >>= f) := by
  refine ⟨fun c => ?_⟩
  have h0 := onlyEmits_countP_eq_zero hm c
  cases hr : (m c).result with
  | ok a =>
      rw [bind_ok hr]
      simp only [List.countP_append, h0, Nat.zero_add]
      exact (hf a).holds _
  | error x =>
      rw [bind_error hr]
      simp only [h0]
      omega

theorem emitsAtMostOnce_bind_right {α β : Type} {p : Event → Bool} {m : Exec α}
    {f : α → Exec β} (hm : EmitsAtMostOnce p m)
    (hf : ∀ a, OnlyEmits (fun e => p e = false) (f a)) : EmitsAtMostOnce p (m >>= f) := by
  refine ⟨fun c => ?_⟩
  cases hr : (m c).result with
  | ok a =>
      rw [bind_ok hr]
      simp only [List.countP_append, onlyEmits_countP_eq_zero (hf a) _, Nat.add_zero]
      exact hm.holds c
  | error x =>
      rw [bind_error hr]
      exact hm.holds c

theorem emitsAtMostOnce_tryCatchRethrow {α : Type} {p : Event → Bool} {m : Exec α}
    {h : Exec Unit} (hm : EmitsAtMostOnce p m) (hh : OnlyEmits (fun e => p e = false) h) :
    EmitsAtMostOnce p (tryCatchRethrow m h) := by
  refine ⟨fun c => ?_⟩
  simp only [tryCatchRethrow]
  cases hr : (m c).result with
  | ok a => exact hm.holds c
  | error x =>
      simp only [List.countP_append, onlyEmits_countP_eq_zero hh _, Nat.add_zero]
      exact hm.holds c

theorem emitsAtMostOnce_tryCatch {α : Type} {p : Event → Bool} {m : Exec α}
    {h : Exception → Exec α} (hm : OnlyEmits (fun e => p e = false) m)
    (hh : ∀ x, EmitsAtMostOnce p (h x)) : EmitsAtMostOnce p (tryCatch m h) := by
  refine ⟨fun c => ?_⟩
  have h0 := onlyEmits_countP_eq_zero hm c
  simp only [tryCatch]
  cases hr : (m c).result with
  | ok a => simp only [h0]; omega
  | error x =>
      simp only [List.countP_append, h0, Nat.zero_add]
      exact (hh x).holds _

theorem retryExecute_once (env : Env) :
    EmitsAtMostOnce Event.isRetryExecution (retryExecute env) := by
  refine ⟨fun c => ?_⟩
  cases hget : env.retryInterpreterFactoryGet <;> cases hexec : env.retryExecute <;>
    simp [retryExecute, bind, Exec.bind, emit, ofExcept, hget, hexec, List.countP_cons,
      Event.isRetryExecution]

theorem executeInterpreter_retries_once (env : Env) (interpreter : Interpreter) :
    EmitsAtMostOnce Event.isRetryExecution (executeInterpreter env interpreter) := by
  unfold executeInterpreter
  apply emitsAtMostOnce_tryCatch
  · repeat' first
      | intro _
      | exact onlyEmits_ofExcept _ _
      | exact onlyEmits_emit rfl
      | apply onlyEmits_bind
  · intro x
    unfold executeFallback
    apply emitsAtMostOnce_bind_left (onlyEmits_getContext _)
    intro context
    dsimp only
    split
    · split
      · apply emitsAtMostOnce_bind_left (m := turnOffOptimizer)
          (by
            unfold turnOffOptimizer
            repeat' first
              | intro _
              | exact onlyEmits_emit rfl
              | exact onlyEmits_setSetting _ _ _
              | apply onlyEmits_bind)
        intro _
        apply emitsAtMostOnce_bind_right (retryExecute_once env)
        intro res
        repeat' first
          | intro _
          | exact onlyEmits_pure _ _
          | exact onlyEmits_setSetting _ _ _
          | apply onlyEmits_bind
      · exact emitsAtMostOnce_of_onlyEmits (onlyEmits_throwException _ _)
    · split
      · apply emitsAtMostOnce_bind_left (m := turnOffPerfectShard)
          (by
            unfold turnOffPerfectShard
            repeat' first
              | intro _
              | exact onlyEmits_emit rfl
              | exact onlyEmits_setSetting _ _ _
              | apply onlyEmits_bind)
        intro _
        exact retryExecute_once env
      · exact emitsAtMostOnce_of_onlyEmits (onlyEmits_throwException _ _)

theorem executeLocally_retries_once (env : Env) (inp : Input) (can_use_query_cache : Bool)
    (ast : AST) :
    EmitsAtMostOnce Event.isRetryExecution (executeLocally env inp can_use_query_cache ast) := by
  unfold executeLocally
  apply emitsAtMostOnce_bind_left ((registerQuery_emits env inp ast).mono
    (by intro e he; cases e <;> first | rfl | simp [Event.isRegisterEvent] at he))
  intro _
  apply emitsAtMostOnce_bind_left ((buildInterpreter_emits env inp ast).mono
    (by intro e he; cases e <;> first | rfl | simp [Event.isBuildEvent] at he))
  intro interpreter
  apply emitsAtMostOnce_bind_left ((chargeQuota_emits env ast interpreter).mono
    (by intro e he; cases e <;> first | rfl | simp [Event.isQuotaChargeEvent] at he))
  intro _
  apply emitsAtMostOnce_bind_right (executeInterpreter_retries_once env interpreter)
  repeat' first
    | intro _
    | exact (readQueryCache_emits env _ ast _).mono
        (by intro e he; cases e <;> first | rfl | simp [Event.isCacheReadEvent] at he)
    | exact checkKilled_emits _ _ _
    | exact (attachLimits_emits inp _ _).mono
        (by intro e he; cases e <;> first | rfl | simp [Event.isLimitEvent] at he)
    | exact (writeQueryCache_emits env _ ast _).mono
        (by intro e he; cases e <;> first | rfl | simp [Event.isCacheWriteEvent] at he)
    | exact (logQueryStart_emits inp).mono
        (by intro e he; cases e <;> first | rfl | simp [Event.isLogStartEvent] at he)
    | exact attachCallbacks_emits _ inp _ ast _ _
    | apply onlyEmits_bind

theorem executeQueryImpl_retries_once (env : Env) (inp : Input) :
    EmitsAtMostOnce Event.isRetryExecution (executeQueryImpl env inp) := by
  have hB : ∀ e : Event, e.isBeforeStartEvent = true → e.isRetryExecution = false := by
    intro e he; cases e <;> first | rfl | simp [Event.isBeforeStartEvent] at he
  have hR : ∀ e : Event, e.isRoutingEvent = true → e.isRetryExecution = false := by
    intro e he; cases e <;> first | rfl | simp [Event.isRoutingEvent] at he
  have hA : ∀ e : Event, e.isAttachEvent = true → e.isRetryExecution = false := by
    intro e he; cases e <;> first | rfl | simp [Event.isAttachEvent] at he
  unfold executeQueryImpl
  apply emitsAtMostOnce_bind_left (onlyEmits_useGlobalProductMode _)
  intro _
  apply emitsAtMostOnce_bind_left
    (onlyEmits_tryCatchRethrow
      (onlyEmits_parseAndRoute env inp (onlyEmits_parseAndCommit env inp hR rfl rfl) hR)
      (onlyEmits_beforeStartHandler inp hB))
  intro first
  cases first with
  | routed ast res => exact emitsAtMostOnce_of_onlyEmits (onlyEmits_pure _ _)
  | proceed ast =>
      show EmitsAtMostOnce Event.isRetryExecution (attachAndExecute env inp ast)
      unfold attachAndExecute
      apply emitsAtMostOnce_bind_left (onlyEmits_doSomeReplacementForSettings _)
      intro _
      apply emitsAtMostOnce_bind_left (onlyEmits_setQuerySpecificSettings _ ast)
      intro _
      apply emitsAtMostOnce_bind_left (onlyEmits_getContext _)
      intro context
      apply emitsAtMostOnce_bind_left (onlyEmits_attachTransaction env inp ast hA)
      intro _
      apply emitsAtMostOnce_bind_right
        (emitsAtMostOnce_tryCatchRethrow (executeLocally_retries_once env inp _ ast)
          (onlyEmits_beforeStartHandler inp hB))
      intro _
      exact onlyEmits_pure _ _

/-- C28. The two fallback policies never both apply to one failure, and the test for the
optimizer-path interpreter comes first: when `interpreter->execute()` fails on the
optimizer-path interpreter with `enable_optimizer_fallback` off, nothing more is called, the
context is untouched and the original error is rethrown, whatever `enable_optimizer`,
`distributed_perfect_shard` and `fallback_perfect_shard` are. No run turns off both the
optimizer and perfect-shard, and at most one retry interpreter is executed, in the execute
step and in a whole call of `executeQueryImpl`. -/
theorem fallback_policies_exclusive_optimizer_first (env : Env) (interpreter : Interpreter)
    (c : Context) (inp : Input) :
    (∀ e, env.execute = .error e → interpreter.is_select_query_use_optimizer = true →
        c.settings.enable_optimizer_fallback = false →
        (executeInterpreter env interpreter c).events = [.interpreterExecute false]
          ∧ (executeInterpreter env interpreter c).result = .error e
          ∧ (executeInterpreter env interpreter c).context = c)
      ∧ ¬ (Event.turnOffOptimizer ∈ (executeInterpreter env interpreter c).events
            ∧ Event.turnOffPerfectShard ∈ (executeInterpreter env interpreter c).events)
      ∧ (Event.turnOffPerfectShard ∈ (executeInterpreter env interpreter c).events →
          interpreter.is_select_query_use_optimizer = false)
      ∧ (executeInterpreter env interpreter c).events.countP Event.isRetryExecution ≤ 1
      ∧ (executeQueryImpl env inp c).events.countP Event.isRetryExecution ≤ 1 := by
  refine ⟨?_, ?_, ?_, (executeInterpreter_retries_once env interpreter).holds c,
    (executeQueryImpl_retries_once env inp).holds c⟩
  · intro e hfail hopt hoff
    simp [executeInterpreter, tryCatch, executeFallback, bind, Exec.bind, emit, ofExcept,
      getContext, throwException, hfail, hopt, hoff]
  · cases hexe : env.execute <;> cases hopt : interpreter.is_select_query_use_optimizer <;>
      cases hfb : c.settings.enable_optimizer_fallback <;>
      cases hps : (!c.settings.enable_optimizer && c.settings.distributed_perfect_shard
        && c.settings.fallback_perfect_shard) <;>
      cases hget : env.retryInterpreterFactoryGet <;> cases hre : env.retryExecute <;>
      simp [executeInterpreter, tryCatch, executeFallback, retryExecute, turnOffOptimizer,
        turnOffPerfectShard, setSetting, modifyContext, bind, Exec.bind, emit, ofExcept,
        getContext, throwException, pure, Exec.pure, hexe, hopt, hfb, hps, hget, hre]
  · cases hexe : env.execute <;> cases hopt : interpreter.is_select_query_use_optimizer <;>
      cases hfb : c.settings.enable_optimizer_fallback <;>
      cases hps : (!c.settings.enable_optimizer && c.settings.distributed_perfect_shard
        && c.settings.fallback_perfect_shard) <;>
      cases hget : env.retryInterpreterFactoryGet <;> cases hre : env.retryExecute <;>
      simp [executeInterpreter, tryCatch, executeFallback, retryExecute, turnOffOptimizer,
        turnOffPerfectShard, setSetting, modifyContext, bind, Exec.bind, emit, ofExcept,
        getContext, throwException, pure, Exec.pure, hexe, hopt, hfb, hps, hget, hre]

/-! ### Locating an event of local execution -/

/-- A sequenced computation that performed an event its first part never performs: the
first part returned, and the event and the outcome belong to the rest. -/
theorem bind_mem_after {α β : Type} {m : Exec α} {f : α → Exec β} {c : Context}
    {e : Event} {P : Event → Prop}
    (hm : OnlyEmits P m) (hne : ¬ P e) (hmem : e ∈ ((m >>= f) c).events) :
    ∃ a, (m c).result = .ok a
      ∧ e ∈ (f a (m c).context).events
      ∧ ((m >>= f) c).result = (f a (m c).context).result := by
  cases hr : (m c).result with
  | ok a =>
      rw [bind_ok hr] at hmem ⊢
      refine ⟨a, rfl, ?_, rfl⟩
      rcases List.mem_append.mp hmem with h | h
      · exact absurd (hm.holds c e h) hne
      · exact h
  | error y =>
      rw [bind_error hr] at hmem
      exact absurd (hm.holds c e hmem) hne

/-- With the before-start handler, a `try` block ends as its body does, and an event the
handler never performs was performed by the body. -/
theorem tryCatchRethrow_beforeStart (α : Type) (m : Exec α) (inp : Input) (c : Context) :
    (tryCatchRethrow m (beforeStartHandler inp) c).result = (m c).result
      ∧ ∀ e, e.isBeforeStartEvent = false →
          e ∈ (tryCatchRethrow m (beforeStartHandler inp) c).events → e ∈ (m c).events := by
  have hh := beforeStartHandler_run inp (m c).context
  simp only [tryCatchRethrow]
  cases hr : (m c).result with
  | ok a => exact ⟨rfl, fun e _ he => he⟩
  | error y =>
      refine ⟨by simp only [hh.1], fun e hne he => ?_⟩
      rcases List.mem_append.mp he with h | h
      · exact h
      · have := (onlyEmits_beforeStartHandler (P := fun e => e.isBeforeStartEvent = true) inp
          (fun _ h => h)).holds _ e h
        rw [hne] at this
        exact absurd this Bool.false_ne_true

theorem try_then_pure {α β : Type} (m : Exec α) (g : α → β) (inp : Input) (c : Context)
    (e : Event) (hB : e.isBeforeStartEvent = false)
    (hmem : e ∈ ((tryCatchRethrow m (beforeStartHandler inp) >>= fun a => pure (g a)) c).events) :
    e ∈ (m c).events
      ∧ ((tryCatchRethrow m (beforeStartHandler inp) >>= fun a => pure (g a)) c).result
          = (m c).result.map g := by
  obtain ⟨ht, hev⟩ := tryCatchRethrow_beforeStart α m inp c
  cases hr : (tryCatchRethrow m (beforeStartHandler inp) c).result with
  | ok a =>
      rw [bind_ok hr] at hmem ⊢
      rw [hr] at ht
      rw [← ht]
      exact ⟨hev e hB (by simpa [pure, Exec.pure] using hmem), rfl⟩
  | error y =>
      rw [bind_error hr] at hmem ⊢
      rw [hr] at ht
      rw [← ht]
      exact ⟨hev e hB hmem, rfl⟩

theorem outside_of_routing (e : Event) (h : e.isRoutingEvent = true) :
    e.isOutsideLocalExecution = true := by
  simp [Event.isOutsideLocalExecution, h]

theorem outside_of_attach (e : Event) (h : e.isAttachEvent = true) :
    e.isOutsideLocalExecution = true := by
  simp [Event.isOutsideLocalExecution, h]

theorem outside_of_beforeStart (e : Event) (h : e.isBeforeStartEvent = true) :
    e.isOutsideLocalExecution = true := by
  simp [Event.isOutsideLocalExecution, h]

/-- An event of `attachAndExecute` that is not performed outside the second `try` block was
performed by `executeLocally`, whose outcome decides that of `attachAndExecute`. -/
theorem attachAndExecute_of_local_event (env : Env) (inp : Input) (ast : AST) (c : Context)
    (e : Event) (hlocal : e.isOutsideLocalExecution = false)
    (hmem : e ∈ (attachAndExecute env inp ast c).events) :
    ∃ can_use_query_cache c1,
      e ∈ (executeLocally env inp can_use_query_cache ast c1).events
        ∧ (attachAndExecute env inp ast c).result
            = ((executeLocally env inp can_use_query_cache ast c1).result.map
                (fun res => (ast, res))) := by
  have hne : ¬ (e.isOutsideLocalExecution = true) := by rw [hlocal]; exact Bool.false_ne_true
  have hB : e.isBeforeStartEvent = false := by
    cases h : e.isBeforeStartEvent
    · rfl
    · exact absurd (outside_of_beforeStart e h) hne
  unfold attachAndExecute at hmem ⊢
  obtain ⟨a1, h1, hmem, hr1⟩ :=
    bind_mem_after (P := fun e => e.isOutsideLocalExecution = true)
      (onlyEmits_doSomeReplacementForSettings _) hne hmem
  rw [hr1]
  obtain ⟨a2, h2, hmem, hr2⟩ :=
    bind_mem_after (P := fun e => e.isOutsideLocalExecution = true)
      (onlyEmits_setQuerySpecificSettings _ ast) hne hmem
  rw [hr2]
  obtain ⟨a3, h3, hmem, hr3⟩ :=
    bind_mem_after (P := fun e => e.isOutsideLocalExecution = true)
      (onlyEmits_getContext _) hne hmem
  rw [hr3]
  obtain ⟨a4, h4, hmem, hr4⟩ :=
    bind_mem_after (P := fun e => e.isOutsideLocalExecution = true)
      (onlyEmits_attachTransaction env inp ast outside_of_attach) hne hmem
  rw [hr4]
  exact ⟨canUseQueryCache a3 inp ast, _,
    try_then_pure (executeLocally env inp (canUseQueryCache a3 inp ast) ast)
      (fun res => (ast, res)) inp _ e hB hmem⟩

/-- An event of `executeQueryImpl` that is not performed outside the second `try` block was
performed by `executeLocally` on the statement the call is about, and the outcome of
`executeLocally` decides that of `executeQueryImpl`. -/
theorem executeQueryImpl_of_local_event (env : Env) (inp : Input) (c : Context) (e : Event)
    (hlocal : e.isOutsideLocalExecution = false)
    (hmem : e ∈ (executeQueryImpl env inp c).events) :
    ∃ ast can_use_query_cache c1,
      statementOf env inp = .ok ast
        ∧ e ∈ (executeLocally env inp can_use_query_cache ast c1).events
        ∧ (executeQueryImpl env inp c).result
            = ((executeLocally env inp can_use_query_cache ast c1).result.map
                (fun res => (ast, res))) := by
  have hne : ¬ (e.isOutsideLocalExecution = true) := by rw [hlocal]; exact Bool.false_ne_true
  obtain ⟨herr, hrouted, hproceed⟩ := executeQueryImpl_of_firstTry env inp c
  have hfirst : OnlyEmits (fun e => e.isOutsideLocalExecution = true)
      (tryCatchRethrow (parseAndRoute env inp) (beforeStartHandler inp)) :=
    onlyEmits_tryCatchRethrow
      (onlyEmits_parseAndRoute env inp
        (onlyEmits_parseAndCommit env inp outside_of_routing (by decide) (by decide))
        outside_of_routing)
      (onlyEmits_beforeStartHandler inp outside_of_beforeStart)
  cases hr : (tryCatchRethrow (parseAndRoute env inp) (beforeStartHandler inp)
      (useGlobalProductMode c).context).result with
  | error y =>
      rw [herr y hr] at hmem
      exact absurd (hfirst.holds _ _ hmem) hne
  | ok first =>
      cases first with
      | routed ast res =>
          rw [hrouted ast res hr] at hmem
          exact absurd (hfirst.holds _ _ hmem) hne
      | proceed ast =>
          have hst := (returns_tryCatchRethrow (h := beforeStartHandler inp)
            (returns_parseAndRoute_statement env inp)).holds _ _ hr ast rfl
          rw [hproceed ast hr] at hmem ⊢
          dsimp only at hmem ⊢
          have hmem2 : e ∈ (attachAndExecute env inp ast
              (tryCatchRethrow (parseAndRoute env inp) (beforeStartHandler inp)
                (useGlobalProductMode c).context).context).events := by
            rcases List.mem_append.mp hmem with h | h
            · exact absurd (hfirst.holds _ _ h) hne
            · exact h
          obtain ⟨can, c1, h1, h2⟩ :=
            attachAndExecute_of_local_event env inp ast _ e hlocal hmem2
          exact ⟨ast, can, c1, hst, h1, h2⟩

/-! ### Exceptions of a computation -/

theorem throws_of_returns {α : Type} (Q : Exception → Prop) {m : Exec α}
    (h : ∀ c, ∃ a, (m c).result = .ok a) : Throws Q m :=
  ⟨fun c x hx => by obtain ⟨a, ha⟩ := h c; rw [ha] at hx; simp at hx⟩

theorem throws_pure {α : Type} (Q : Exception → Prop) (a : α) :
    Throws Q (pure a : Exec α) :=
  throws_of_returns Q (fun _ => ⟨a, rfl⟩)

theorem throws_getContext (Q : Exception → Prop) : Throws Q getContext :=
  throws_of_returns Q (fun c => ⟨c, rfl⟩)

theorem throws_emit (Q : Exception → Prop) (e : Event) : Throws Q (emit e) :=
  throws_of_returns Q (fun _ => ⟨(), rfl⟩)

theorem throws_setSetting (Q : Exception → Prop) (name : SettingName) (value : Nat) :
    Throws Q (setSetting name value) :=
  throws_of_returns Q (fun _ => ⟨(), rfl⟩)

theorem throws_ofExcept {α : Type} {Q : Exception → Prop} {r : Except Exception α}
    (h : ∀ x, r = .error x → Q x) : Throws Q (ofExcept r) :=
  ⟨fun _ x hx => h x hx⟩

theorem throws_throwException {α : Type} {Q : Exception → Prop} {x : Exception} (h : Q x) :
    Throws Q (throwException x : Exec α) :=
  ⟨fun _ y hy => by
    simp only [throwException, Except.error.injEq] at hy
    exact hy ▸ h⟩

theorem throws_bind {α β : Type} {Q : Exception → Prop} {m : Exec α} {f : α → Exec β}
    (hm : Throws Q m) (hf : ∀ a, Throws Q (f a)) : Throws Q (m >>= f) := by
  refine ⟨fun c x hx => ?_⟩
  cases hr : (m c).result with
  | ok a =>
      rw [bind_ok hr] at hx
      exact (hf a).holds _ x hx
  | error y =>
      rw [bind_error hr] at hx
      simp only [Except.error.injEq] at hx
      exact hx ▸ hm.holds c y hr

theorem throws_tryCatch {α : Type} {Q R : Exception → Prop} {m : Exec α}
    {h : Exception → Exec α} (hm : Throws R m) (hh : ∀ x, R x → Throws Q (h x)) :
    Throws Q (tryCatch m h) := by
  refine ⟨fun c x hx => ?_⟩
  simp only [tryCatch] at hx
  cases hr : (m c).result with
  | ok a => rw [hr] at hx; simp at hx
  | error y =>
      rw [hr] at hx
      exact (hh y (hm.holds c y hr)).holds _ x hx

theorem failsWith_bind_left {α β : Type} {Q : Exception → Prop} {m : Exec α}
    (f : α → Exec β) (hm : FailsWith Q m) : FailsWith Q (m >>= f) := by
  refine ⟨fun c => ?_⟩
  obtain ⟨x, hx, hq⟩ := hm.holds c
  exact ⟨x, by rw [bind_error hx], hq⟩

theorem failsWith_bind_right {α β : Type} {Q : Exception → Prop} {m : Exec α}
    {f : α → Exec β} (hm : Throws Q m) (hf : ∀ a, FailsWith Q (f a)) :
    FailsWith Q (m >>= f) := by
  refine ⟨fun c => ?_⟩
  cases hr : (m c).result with
  | ok a =>
      rw [bind_ok hr]
      exact (hf a).holds _
  | error y =>
      exact ⟨y, by rw [bind_error hr], hm.holds c y hr⟩

/-! ### A query killed before execution -/

theorem thrown_init {env : Env} {x : Exception}
    (h : env.initializeExternalTablesIfSet = .error x) : env.cancelledOrThrownBefore x :=
  Or.inr (Or.inl h)

theorem thrown_prepare {env : Env} {x : Exception}
    (h : env.prepareInputStorage = .error x) : env.cancelledOrThrownBefore x :=
  Or.inr (Or.inr (Or.inl h))

theorem thrown_factory {env : Env} {x : Exception}
    (h : env.interpreterFactoryGet = .error x) : env.cancelledOrThrownBefore x :=
  Or.inr (Or.inr (Or.inr (Or.inl h)))

theorem thrown_quota {env : Env} {x : Exception} {t : QuotaType}
    (h : env.quotaUsed t = .error x) : env.cancelledOrThrownBefore x :=
  Or.inr (Or.inr (Or.inr (Or.inr (Or.inl ⟨t, h⟩))))

theorem thrown_check {env : Env} {x : Exception}
    (h : env.quotaCheckExceeded = .error x) : env.cancelledOrThrownBefore x :=
  Or.inr (Or.inr (Or.inr (Or.inr (Or.inr (Or.inl h)))))

theorem thrown_execute {env : Env} {x : Exception}
    (h : env.execute = .error x) : env.cancelledOrThrownBefore x :=
  Or.inr (Or.inr (Or.inr (Or.inr (Or.inr (Or.inr (Or.inl h))))))

theorem thrown_retryFactory {env : Env} {x : Exception}
    (h : env.retryInterpreterFactoryGet = .error x) : env.cancelledOrThrownBefore x :=
  Or.inr (Or.inr (Or.inr (Or.inr (Or.inr (Or.inr (Or.inr (Or.inl h)))))))

theorem thrown_retryExecute {env : Env} {x : Exception}
    (h : env.retryExecute = .error x) : env.cancelledOrThrownBefore x :=
  Or.inr (Or.inr (Or.inr (Or.inr (Or.inr (Or.inr (Or.inr (Or.inr (Or.inl h))))))))

theorem thrown_maxUpdateTime {env : Env} {x : Exception}
    (h : env.getMaxUpdateTime = .error x) : env.cancelledOrThrownBefore x :=
  Or.inr (Or.inr (Or.inr (Or.inr (Or.inr (Or.inr (Or.inr (Or.inr (Or.inr h))))))))

theorem buildInterpreter_throws (env : Env) (inp : Input) (ast : AST) :
    Throws env.cancelledOrThrownBefore (buildInterpreter env inp ast) := by
  unfold buildInterpreter
  repeat' first
    | intro _
    | exact throws_pure _ _
    | exact throws_emit _ _
    | exact throws_setSetting _ _ _
    | exact throws_ofExcept (fun x hx => thrown_init hx)
    | exact throws_ofExcept (fun x hx => thrown_prepare hx)
    | exact throws_ofExcept (fun x hx => thrown_factory hx)
    | exact throws_ofExcept (fun x hx => thrown_quota hx)
    | exact throws_ofExcept (fun x hx => thrown_check hx)
    | exact throws_ofExcept (fun x hx => thrown_retryFactory hx)
    | exact throws_ofExcept (fun x hx => thrown_retryExecute hx)
    | exact throws_ofExcept (fun x hx => thrown_maxUpdateTime hx)
    | apply throws_bind
    | dsimp only
    | split

theorem chargeQuota_throws (env : Env) (ast : AST) (interpreter : Interpreter) :
    Throws env.cancelledOrThrownBefore (chargeQuota env ast interpreter) := by
  unfold chargeQuota
  repeat' first
    | intro _
    | exact throws_pure _ _
    | exact throws_getContext _
    | exact throws_emit _ _
    | exact throws_ofExcept (fun x hx => thrown_init hx)
    | exact throws_ofExcept (fun x hx => thrown_prepare hx)
    | exact throws_ofExcept (fun x hx => thrown_factory hx)
    | exact throws_ofExcept (fun x hx => thrown_quota hx)
    | exact throws_ofExcept (fun x hx => thrown_check hx)
    | exact throws_ofExcept (fun x hx => thrown_retryFactory hx)
    | exact throws_ofExcept (fun x hx => thrown_retryExecute hx)
    | exact throws_ofExcept (fun x hx => thrown_maxUpdateTime hx)
    | apply throws_bind
    | dsimp only
    | split

theorem executeInterpreter_throws (env : Env) (interpreter : Interpreter) :
    Throws env.cancelledOrThrownBefore (executeInterpreter env interpreter) := by
  unfold executeInterpreter
  apply throws_tryCatch (R := fun x => env.execute = .error x)
  · repeat' first
      | intro _
      | exact throws_emit _ _
      | exact throws_ofExcept (fun x hx => hx)
      | apply throws_bind
  · intro x hx
    unfold executeFallback retryExecute turnOffOptimizer turnOffPerfectShard
    repeat' first
      | intro _
      | exact throws_pure _ _
      | exact throws_getContext _
      | exact throws_emit _ _
      | exact throws_setSetting _ _ _
      | exact throws_throwException (thrown_execute hx)
      | exact throws_ofExcept (fun x hx => thrown_init hx)
      | exact throws_ofExcept (fun x hx => thrown_prepare hx)
      | exact throws_ofExcept (fun x hx => thrown_factory hx)
      | exact throws_ofExcept (fun x hx => thrown_quota hx)
      | exact throws_ofExcept (fun x hx => thrown_check hx)
      | exact throws_ofExcept (fun x hx => thrown_retryFactory hx)
      | exact throws_ofExcept (fun x hx => thrown_retryExecute hx)
      | exact throws_ofExcept (fun x hx => thrown_maxUpdateTime hx)
      | apply throws_bind
      | dsimp only
      | split

theorem readQueryCache_throws (env : Env) (can_use_query_cache : Bool) (ast : AST)
    (res : BlockIO) :
    Throws env.cancelledOrThrownBefore (readQueryCache env can_use_query_cache ast res) := by
  unfold readQueryCache
  repeat' first
    | intro _
    | exact throws_pure _ _
    | exact throws_getContext _
    | exact throws_emit _ _
    | exact throws_ofExcept (fun x hx => thrown_init hx)
    | exact throws_ofExcept (fun x hx => thrown_prepare hx)
    | exact throws_ofExcept (fun x hx => thrown_factory hx)
    | exact throws_ofExcept (fun x hx => thrown_quota hx)
    | exact throws_ofExcept (fun x hx => thrown_check hx)
    | exact throws_ofExcept (fun x hx => thrown_retryFactory hx)
    | exact throws_ofExcept (fun x hx => thrown_retryExecute hx)
    | exact throws_ofExcept (fun x hx => thrown_maxUpdateTime hx)
    | apply throws_bind
    | dsimp only
    | split

/-- The check for a killed query on a killed entry: it throws `QUERY_WAS_CANCELLED` and
calls nothing. -/
theorem checkKilled_killed (entry : QueryStatus) (res : BlockIO) (c : Context)
    (hk : entry.is_killed = true) :
    checkKilled (some entry) res c
      = { events := [], context := c,
          result := .error { code := .QUERY_WAS_CANCELLED,
                             message := "Query is killed in pending state" } } := by
  simp [checkKilled, hk, bind, Exec.bind, throwException]

theorem checkKilled_fails (env : Env) (entry : QueryStatus) (res : BlockIO)
    (hk : entry.is_killed = true) :
    FailsWith env.cancelledOrThrownBefore (checkKilled (some entry) res) :=
  ⟨fun c => ⟨_, by rw [checkKilled_killed entry res c hk], Or.inl rfl⟩⟩

/-- Once a killed entry is registered, local execution fails: with `QUERY_WAS_CANCELLED`,
unless a collaborator called before the check threw first. -/
theorem executeLocally_registered_killed (env : Env) (inp : Input)
    (can_use_query_cache : Bool) (ast : AST) (c : Context) (entry : QueryStatus)
    (hreg : (registerQuery env inp ast c).result = .ok (some entry))
    (hk : entry.is_killed = true) :
    ∃ x, (executeLocally env inp can_use_query_cache ast c).result = .error x
      ∧ env.cancelledOrThrownBefore x := by
  unfold executeLocally
  rw [bind_ok hreg]
  dsimp only
  apply FailsWith.holds
  apply failsWith_bind_right (buildInterpreter_throws env inp ast)
  intro interpreter
  apply failsWith_bind_right (chargeQuota_throws env ast interpreter)
  intro quota
  apply failsWith_bind_right (executeInterpreter_throws env interpreter)
  intro res
  apply failsWith_bind_right (readQueryCache_throws env can_use_query_cache ast res)
  intro cr
  exact failsWith_bind_left _ (checkKilled_fails env entry cr.res hk)

/-- The registration step: the process-list insertion happens only for a statement that is
neither internal nor SHOW PROCESSLIST, its outcome is then the outcome of the step, and it
happens for every such statement when the checks before it pass. -/
theorem registerQuery_registers (env : Env) (inp : Input) (ast : AST) (c : Context) :
    (Event.processListInsert ∈ (registerQuery env inp ast c).events →
        inp.internal = false ∧ ast.isShowProcesslist = false
          ∧ (registerQuery env inp ast c).result = env.processListInsert.map some)
      ∧ (env.replaceQueryParameters = .ok () → env.normalizeAST = .ok () →
          env.checkASTSizeLimits = .ok () →
          (Event.processListInsert ∈ (registerQuery env inp ast c).events
            ↔ (inp.internal = false ∧ ast.isShowProcesslist = false))) := by
  cases hp : c.has_query_parameters <;> cases h1 : env.replaceQueryParameters <;>
    cases h2 : env.normalizeAST <;>
    cases hd : (c.settings.max_ast_depth != 0 || c.settings.max_ast_elements != 0) <;>
    cases h3 : env.checkASTSizeLimits <;> cases hi : inp.internal <;>
    cases hs : ast.isShowProcesslist <;> cases h4 : env.processListInsert <;>
    simp [registerQuery, bind, Exec.bind, getContext, emit, ofExcept, modifyContext, pure,
      Exec.pure, Except.map, hp, h1, h2, hd, h3, hi, hs, h4]

/-- An event of a sequenced computation that the rest never performs was performed by the
first part. -/
theorem mem_bind_first {α β : Type} {m : Exec α} {f : α → Exec β} {c : Context} {e : Event}
    {P : Event → Prop} (hf : ∀ a, OnlyEmits P (f a)) (hne : ¬ P e)
    (hmem : e ∈ ((m >>= f) c).events) : e ∈ (m c).events := by
  cases hr : (m c).result with
  | ok a =>
      rw [bind_ok hr] at hmem
      rcases List.mem_append.mp hmem with h | h
      · exact h
      · exact absurd ((hf a).holds _ e h) hne
  | error x =>
      rw [bind_error hr] at hmem
      exact hmem

theorem executeLocally_registration (env : Env) (inp : Input) (can_use_query_cache : Bool)
    (ast : AST) (c : Context)
    (hmem : Event.processListInsert ∈ (executeLocally env inp can_use_query_cache ast c).events) :
    Event.processListInsert ∈ (registerQuery env inp ast c).events := by
  unfold executeLocally at hmem
  refine mem_bind_first (P := fun e => e ≠ Event.processListInsert) ?_ (fun h => h rfl) hmem
  repeat' first
    | intro _
    | exact (buildInterpreter_emits env inp ast).mono
        (by intro e he h; rw [h] at he; exact Bool.false_ne_true he)
    | exact (chargeQuota_emits env ast _).mono
        (by intro e he h; rw [h] at he; exact Bool.false_ne_true he)
    | exact (executeInterpreter_emits env _).mono
        (by intro e he h; rw [h] at he; exact Bool.false_ne_true he)
    | exact (readQueryCache_emits env _ ast _).mono
        (by intro e he h; rw [h] at he; exact Bool.false_ne_true he)
    | exact checkKilled_emits _ _ _
    | exact (attachLimits_emits inp _ _).mono
        (by intro e he h; rw [h] at he; exact Bool.false_ne_true he)
    | exact (writeQueryCache_emits env _ ast _).mono
        (by intro e he h; rw [h] at he; exact Bool.false_ne_true he)
    | exact (logQueryStart_emits inp).mono
        (by intro e he h; rw [h] at he; exact Bool.false_ne_true he)
    | exact attachCallbacks_emits _ inp _ ast _ _
    | apply onlyEmits_bind

/-- C24. `executeQueryImpl` registers the statement with the process list only if it is
neither internal nor SHOW PROCESSLIST, and the registration step registers every such
statement once the checks before it pass. Whenever the registered entry is killed,
`executeQueryImpl` returns no result handle, hence attaches no callback: it fails, with
`QUERY_WAS_CANCELLED` unless a collaborator called between the registration and the check
threw first; the check itself, on a killed entry, throws `QUERY_WAS_CANCELLED` and calls
nothing. -/
theorem killed_entry_fails_with_query_was_cancelled (env : Env) (inp : Input) (c : Context) :
    (Event.processListInsert ∈ (executeQueryImpl env inp c).events →
        inp.internal = false
          ∧ ∃ ast, statementOf env inp = .ok ast ∧ ast.isShowProcesslist = false)
      ∧ (∀ ast c1, env.replaceQueryParameters = .ok () → env.normalizeAST = .ok () →
          env.checkASTSizeLimits = .ok () →
          (Event.processListInsert ∈ (registerQuery env inp ast c1).events
            ↔ (inp.internal = false ∧ ast.isShowProcesslist = false)))
      ∧ (∀ entry, env.processListInsert = .ok entry → entry.is_killed = true →
          Event.processListInsert ∈ (executeQueryImpl env inp c).events →
          ∃ x, (executeQueryImpl env inp c).result = .error x
            ∧ (x.code = .QUERY_WAS_CANCELLED ∨ env.throwsBeforeKillCheck x))
      ∧ (∀ entry res c1, entry.is_killed = true →
          checkKilled (some entry) res c1
            = { events := [], context := c1,
                result := .error { code := .QUERY_WAS_CANCELLED,
                                   message := "Query is killed in pending state" } }) := by
  refine ⟨?_, fun ast c1 => (registerQuery_registers env inp ast c1).2, ?_,
    fun entry res c1 hk => checkKilled_killed entry res c1 hk⟩
  · intro hmem
    obtain ⟨ast, can, c1, hst, hloc, _⟩ :=
      executeQueryImpl_of_local_event env inp c _ (by decide) hmem
    obtain ⟨hi, hs, _⟩ :=
      (registerQuery_registers env inp ast c1).1 (executeLocally_registration env inp can ast c1 hloc)
    exact ⟨hi, ast, hst, hs⟩
  · intro entry hins hk hmem
    obtain ⟨ast, can, c1, hst, hloc, hres⟩ :=
      executeQueryImpl_of_local_event env inp c _ (by decide) hmem
    obtain ⟨_, _, hreg⟩ :=
      (registerQuery_registers env inp ast c1).1 (executeLocally_registration env inp can ast c1 hloc)
    rw [hins] at hreg
    obtain ⟨x, hx, hq⟩ := executeLocally_registered_killed env inp can ast c1 entry hreg hk
    exact ⟨x, by rw [hres, hx]; rfl, hq⟩

theorem killed_entry_fails_with_query_was_cancelled_witness :
    ∃ x, (executeQueryImpl Env.killed Input.client Context.server).result = .error x
      ∧ (x.code = .QUERY_WAS_CANCELLED ∨ Env.killed.throwsBeforeKillCheck x) :=
  (killed_entry_fails_with_query_was_cancelled Env.killed Input.client Context.server).2.2.1
    { is_killed := true } rfl rfl (by decide)

/-- A run in which the registered entry is killed and no collaborator throws: the failure is
`QUERY_WAS_CANCELLED`, raised after `interpreter->execute()`, and it is finalized on the
before-start path. -/
theorem killed_query_on_sample_run :
    (executeQueryImpl Env.killed Input.client Context.server).result
        = .error { code := .QUERY_WAS_CANCELLED, message := "Query is killed in pending state" }
      ∧ (executeQueryImpl Env.killed Input.client Context.server).events
        = [.parseQuery, .createTransaction true 0, .setCurrentTransaction Transaction.server,
           .trySetVirtualWarehouseAndWorkerGroup, .initCnchServerResource 7, .processListInsert,
           .initializeExternalTablesIfSet, .interpreterFactoryGet false,
           .interpreterExecute false, .finishTransaction Transaction.server] := by
  decide

/-! ### The SETTINGS clause of a statement -/

theorem interpretSettings_eq (env : Env) (ast : AST) :
    interpretSettings env ast
      = (match ast.embeddedSettings with
         | some s => executeForCurrentContext env s
         | none => pure ()) := by
  cases ast with
  | select q => cases h : q.settings <;> simp [interpretSettings, AST.embeddedSettings, h]
  | selectWithUnion l s =>
      simp only [interpretSettings, AST.embeddedSettings]
      cases hl : l.getLast? with
      | none => rfl
      | some child =>
          cases child with
          | select last => cases h : last.settings <;> simp [h]
          | nested => rfl
  | insert q => cases h : q.settings_ast <;> simp [interpretSettings, AST.embeddedSettings, h]
  | alter cl s => cases s <;> rfl
  | create s => cases s <;> rfl
  | drop k s => cases s <;> rfl
  | rename s => cases s <;> rfl
  | system q => rfl
  | explain s => cases s <;> rfl
  | showProcesslist s => cases s <;> rfl
  | delete => rfl
  | update => rfl
  | other w s => cases w <;> cases s <;> rfl

/-- Interpreting a clause calls `InterpreterSetQuery` once, whether or not it succeeds. -/
theorem executeForCurrentContext_events (env : Env) (changes : SettingsChanges) (c : Context) :
    (executeForCurrentContext env changes c).events = [.interpreterSetQuery changes] := by
  cases h : env.interpreterSetQuery <;>
    simp [executeForCurrentContext, bind, Exec.bind, emit, ofExcept, modifyContext, h]

theorem routeQuery_emits (env : Env) (res : BlockIO) :
    OnlyEmits (fun e => e.isRouteEvent = true) (routeQuery env res) := by
  unfold routeQuery executeQueryByProxy
  repeat' first
    | intro _
    | exact onlyEmits_pure _ _
    | exact onlyEmits_getContext _
    | exact onlyEmits_ofExcept _ _
    | exact onlyEmits_emit rfl
    | apply onlyEmits_bind
    | dsimp only
    | split

/-- For a statement given as text, the first `try` block ends, when it hands the statement on
to local execution, with the interpretation of the statement's SETTINGS clause. -/
theorem parseAndRoute_applies_clause (env : Env) (inp : Input) (c : Context)
    (ast proceeded : AST) (changes : SettingsChanges)
    (hres : (parseAndRoute env inp c).result = .ok (.proceed proceeded))
    (htext : inp.input_ast = none) (hparse : env.parseQuery = .ok ast)
    (hclause : ast.embeddedSettings = some changes) :
    ∃ pre, (parseAndRoute env inp c).events = pre ++ [.interpreterSetQuery changes] := by
  unfold parseAndRoute at hres ⊢
  obtain ⟨a, ha, hres2, _, hev⟩ := bind_inv hres
  have hst := (returns_parseAndCommit_statement env inp).holds c a ha
  simp only [statementOf, htext, hparse, Except.ok.injEq] at hst
  subst hst
  rw [hev]
  unfold routeOrProceed at hres2 ⊢
  obtain ⟨routed, hr, hres3, _, hev2⟩ := bind_inv hres2
  rw [hev2]
  cases routed with
  | some res => simp [pure, Exec.pure] at hres3
  | none =>
      dsimp only at hres3 ⊢
      obtain ⟨u, hu, _, _, hev3⟩ := bind_inv hres3
      rw [hev3]
      have h1 : (interpretSettingsIfParsed env inp ast
          (routeQuery env BlockIO.fresh (parseAndCommit env inp c).context).context).events
            = [.interpreterSetQuery changes] := by
        simp only [interpretSettingsIfParsed, htext, Option.isNone_none, if_true,
          interpretSettings_eq, hclause, executeForCurrentContext_events]
      rw [h1]
      simp only [pure, Exec.pure, List.append_nil, ← List.append_assoc]
      exact ⟨_, rfl⟩

theorem routing_is_not_factoryGet (e : Event) (h : e.isRoutingEvent = true) :
    e ≠ .interpreterFactoryGet false := by
  intro heq; rw [heq] at h; exact Bool.false_ne_true h

theorem beforeStart_is_not_factoryGet (e : Event) (h : e.isBeforeStartEvent = true) :
    e ≠ .interpreterFactoryGet false := by
  intro heq; rw [heq] at h; exact Bool.false_ne_true h

/-- In `executeQueryImpl` on a statement given as text, the SETTINGS clause of the statement
is interpreted before the interpreter is constructed. -/
theorem executeQueryImpl_applies_clause_first (env : Env) (inp : Input) (c : Context)
    (ast : AST) (changes : SettingsChanges)
    (htext : inp.input_ast = none) (hparse : env.parseQuery = .ok ast)
    (hclause : ast.embeddedSettings = some changes)
    (hbuilt : Event.interpreterFactoryGet false ∈ (executeQueryImpl env inp c).events) :
    ∃ pre post, (executeQueryImpl env inp c).events
        = pre ++ .interpreterSetQuery changes :: post
      ∧ Event.interpreterFactoryGet false ∉ pre
      ∧ Event.interpreterFactoryGet false ∈ post := by
  obtain ⟨herr, hrouted, hproceed⟩ := executeQueryImpl_of_firstTry env inp c
  have hfirst : OnlyEmits (fun e => e ≠ Event.interpreterFactoryGet false)
      (tryCatchRethrow (parseAndRoute env inp) (beforeStartHandler inp)) :=
    onlyEmits_tryCatchRethrow
      (onlyEmits_parseAndRoute env inp
        (onlyEmits_parseAndCommit env inp routing_is_not_factoryGet
          (fun h => Event.noConfusion h) (fun h => Event.noConfusion h))
        routing_is_not_factoryGet)
      (onlyEmits_beforeStartHandler inp beforeStart_is_not_factoryGet)
  cases hr : (tryCatchRethrow (parseAndRoute env inp) (beforeStartHandler inp)
      (useGlobalProductMode c).context).result with
  | error y =>
      rw [herr y hr] at hbuilt
      exact absurd rfl (hfirst.holds _ _ hbuilt)
  | ok first =>
      cases first with
      | routed a res =>
          rw [hrouted a res hr] at hbuilt
          exact absurd rfl (hfirst.holds _ _ hbuilt)
      | proceed a =>
          rw [hproceed a hr] at hbuilt ⊢
          dsimp only at hbuilt ⊢
          obtain ⟨hbody, _, hev⟩ := tryCatchRethrow_inv hr
          obtain ⟨pre, hpre⟩ :=
            parseAndRoute_applies_clause env inp _ ast a changes hbody htext hparse hclause
          have hnot : Event.interpreterFactoryGet false
              ∉ (tryCatchRethrow (parseAndRoute env inp) (beforeStartHandler inp)
                  (useGlobalProductMode c).context).events :=
            fun h => absurd rfl (hfirst.holds _ _ h)
          have hpost : Event.interpreterFactoryGet false
              ∈ (attachAndExecute env inp a
                  (tryCatchRethrow (parseAndRoute env inp) (beforeStartHandler inp)
                    (useGlobalProductMode c).context).context).events := by
            rcases List.mem_append.mp hbuilt with h | h
            · exact absurd h hnot
            · exact h
          rw [hev, hpre] at hnot ⊢
          refine ⟨pre, _, ?_, ?_, hpost⟩
          · simp only [List.append_assoc, List.singleton_append]
          · intro h
            exact hnot (List.mem_append_left _ h)

/-- For a pre-parsed statement `executeQueryImpl` interprets no SETTINGS clause. -/
theorem executeQueryImpl_preparsed_skips_clause (env : Env) (inp : Input)
    (hparsed : inp.input_ast.isSome = true) :
    OnlyEmits (fun e => e.isInterpreterSetQuery = false) (executeQueryImpl env inp) := by
  have hB : ∀ e : Event, e.isBeforeStartEvent = true → e.isInterpreterSetQuery = false := by
    intro e he; cases e <;> first | rfl | simp [Event.isBeforeStartEvent] at he
  have hA : ∀ e : Event, e.isAttachEvent = true → e.isInterpreterSetQuery = false := by
    intro e he; cases e <;> first | rfl | simp [Event.isAttachEvent] at he
  have hX : ∀ e : Event, e.isExecutionEvent = true → e.isInterpreterSetQuery = false := by
    intro e he; cases e <;> first | rfl | simp [Event.isExecutionEvent] at he
  have hskip : ∀ ast, interpretSettingsIfParsed env inp ast = pure () := by
    intro ast
    cases hin : inp.input_ast with
    | none => rw [hin] at hparsed; simp at hparsed
    | some a => simp [interpretSettingsIfParsed, hin]
  have hroute : OnlyEmits (fun e => e.isInterpreterSetQuery = false)
      (parseAndRoute env inp) := by
    have hpc : OnlyEmits (fun e => e.isInterpreterSetQuery = false)
        (parseAndCommit env inp) :=
      onlyEmits_parseAndCommit_of env inp (fun _ => rfl) rfl rfl
    have hR : ∀ e : Event, e.isRouteEvent = true → e.isInterpreterSetQuery = false := by
      intro e he; cases e <;> first | rfl | simp [Event.isRouteEvent] at he
    unfold parseAndRoute
    apply onlyEmits_bind hpc
    intro ast
    unfold routeOrProceed
    apply onlyEmits_bind ((routeQuery_emits env _).mono hR)
    intro routed
    cases routed with
    | some res => exact onlyEmits_pure _ _
    | none =>
        dsimp only
        rw [hskip ast]
        exact onlyEmits_bind (onlyEmits_pure _ _) (fun _ => onlyEmits_pure _ _)
  unfold executeQueryImpl
  apply onlyEmits_bind (onlyEmits_useGlobalProductMode _)
  intro _
  apply onlyEmits_bind
    (onlyEmits_tryCatchRethrow hroute (onlyEmits_beforeStartHandler inp hB))
  intro first
  exact onlyEmits_continueAfterFirstTry env inp first hB hA hX rfl rfl

theorem parseAndInterpretSettings_events (env : Env) (c : Context) (ast : AST)
    (changes : SettingsChanges) (hparse : env.parseQuery = .ok ast)
    (hclause : ast.embeddedSettings = some changes) :
    (parseAndInterpretSettings env c).events = [.parseQuery, .interpreterSetQuery changes] := by
  cases h : env.interpreterSetQuery <;>
    simp [parseAndInterpretSettings, interpretSettings_eq, hclause, executeForCurrentContext,
      bind, Exec.bind, emit, ofExcept, modifyContext, pure, Exec.pure, hparse, h]

/-- For a statement given as text in which `interpretSettings` selects no SETTINGS clause,
`executeQueryImpl` interprets none. -/
theorem executeQueryImpl_no_clause_selected (env : Env) (inp : Input) (ast : AST)
    (htext : inp.input_ast = none) (hparse : env.parseQuery = .ok ast)
    (hclause : ast.embeddedSettings = none) :
    OnlyEmits (fun e => e.isInterpreterSetQuery = false) (executeQueryImpl env inp) := by
  have hB : ∀ e : Event, e.isBeforeStartEvent = true → e.isInterpreterSetQuery = false := by
    intro e he; cases e <;> first | rfl | simp [Event.isBeforeStartEvent] at he
  have hA : ∀ e : Event, e.isAttachEvent = true → e.isInterpreterSetQuery = false := by
    intro e he; cases e <;> first | rfl | simp [Event.isAttachEvent] at he
  have hX : ∀ e : Event, e.isExecutionEvent = true → e.isInterpreterSetQuery = false := by
    intro e he; cases e <;> first | rfl | simp [Event.isExecutionEvent] at he
  have hskip : interpretSettingsIfParsed env inp ast = pure () := by
    simp only [interpretSettingsIfParsed, htext, Option.isNone_none, if_true,
      interpretSettings_eq, hclause]
  have hroute : OnlyEmits (fun e => e.isInterpreterSetQuery = false)
      (parseAndRoute env inp) := by
    have hpc : OnlyEmits (fun e => e.isInterpreterSetQuery = false)
        (parseAndCommit env inp) :=
      onlyEmits_parseAndCommit_of env inp (fun _ => rfl) rfl rfl
    have hR : ∀ e : Event, e.isRouteEvent = true → e.isInterpreterSetQuery = false := by
      intro e he; cases e <;> first | rfl | simp [Event.isRouteEvent] at he
    unfold parseAndRoute
    apply onlyEmits_bind_returns hpc (returns_parseAndCommit_statement env inp)
    intro a ha
    simp only [statementOf, htext, hparse, Except.ok.injEq] at ha
    subst ha
    unfold routeOrProceed
    apply onlyEmits_bind ((routeQuery_emits env _).mono hR)
    intro routed
    cases routed with
    | some res => exact onlyEmits_pure _ _
    | none =>
        dsimp only
        rw [hskip]
        exact onlyEmits_bind (onlyEmits_pure _ _) (fun _ => onlyEmits_pure _ _)
  unfold executeQueryImpl
  apply onlyEmits_bind (onlyEmits_useGlobalProductMode _)
  intro _
  apply onlyEmits_bind
    (onlyEmits_tryCatchRethrow hroute (onlyEmits_beforeStartHandler inp hB))
  intro first
  exact onlyEmits_continueAfterFirstTry env inp first hB hA hX rfl rfl

/-- For a statement given as text, the only SETTINGS clause `executeQueryImpl` interprets
is the one `interpretSettings` selects. -/
theorem executeQueryImpl_interprets_selected_clause_only (env : Env) (inp : Input) (ast : AST)
    (htext : inp.input_ast = none) (hparse : env.parseQuery = .ok ast) :
    OnlyEmits (fun e => ∀ ch, e = Event.interpreterSetQuery ch → ast.embeddedSettings = some ch)
      (executeQueryImpl env inp) := by
  have hB : ∀ e : Event, e.isBeforeStartEvent = true →
      ∀ ch, e = Event.interpreterSetQuery ch → ast.embeddedSettings = some ch := by
    intro e he ch h; rw [h] at he; exact (Bool.false_ne_true he).elim
  have hA : ∀ e : Event, e.isAttachEvent = true →
      ∀ ch, e = Event.interpreterSetQuery ch → ast.embeddedSettings = some ch := by
    intro e he ch h; rw [h] at he; exact (Bool.false_ne_true he).elim
  have hX : ∀ e : Event, e.isExecutionEvent = true →
      ∀ ch, e = Event.interpreterSetQuery ch → ast.embeddedSettings = some ch := by
    intro e he ch h; rw [h] at he; exact (Bool.false_ne_true he).elim
  have hR : ∀ e : Event, e.isRouteEvent = true →
      ∀ ch, e = Event.interpreterSetQuery ch → ast.embeddedSettings = some ch := by
    intro e he ch h; rw [h] at he; exact (Bool.false_ne_true he).elim
  have hinterpret : OnlyEmits
      (fun e => ∀ ch, e = Event.interpreterSetQuery ch → ast.embeddedSettings = some ch)
      (interpretSettingsIfParsed env inp ast) := by
    simp only [interpretSettingsIfParsed, htext, Option.isNone_none, if_true,
      interpretSettings_eq]
    cases hcl : ast.embeddedSettings with
    | none => exact onlyEmits_pure _ _
    | some s =>
        refine ⟨fun c e he => ?_⟩
        rw [executeForCurrentContext_events] at he
        simp only [List.mem_singleton] at he
        intro ch h
        rw [he] at h
        injection h with h
        rw [h]
  have hroute : OnlyEmits
      (fun e => ∀ ch, e = Event.interpreterSetQuery ch → ast.embeddedSettings = some ch)
      (parseAndRoute env inp) := by
    have hpc : OnlyEmits
        (fun e => ∀ ch, e = Event.interpreterSetQuery ch → ast.embeddedSettings = some ch)
        (parseAndCommit env inp) :=
      onlyEmits_parseAndCommit_of env inp (fun _ _ h => Event.noConfusion h)
        (fun _ h => Event.noConfusion h) (fun _ h => Event.noConfusion h)
    unfold parseAndRoute
    apply onlyEmits_bind_returns hpc (returns_parseAndCommit_statement env inp)
    intro a ha
    simp only [statementOf, htext, hparse, Except.ok.injEq] at ha
    subst ha
    unfold routeOrProceed
    apply onlyEmits_bind ((routeQuery_emits env _).mono hR)
    intro routed
    cases routed with
    | some res => exact onlyEmits_pure _ _
    | none =>
        dsimp only
        exact onlyEmits_bind hinterpret (fun _ => onlyEmits_pure _ _)
  unfold executeQueryImpl
  apply onlyEmits_bind (onlyEmits_useGlobalProductMode _)
  intro _
  apply onlyEmits_bind
    (onlyEmits_tryCatchRethrow hroute (onlyEmits_beforeStartHandler inp hB))
  intro first
  exact onlyEmits_continueAfterFirstTry env inp first hB hA hX
    (fun _ h => Event.noConfusion h) (fun _ h => Event.noConfusion h)

/-- C25 (amended). `interpretSettings` applies at most one SETTINGS clause of a statement:
that of a SELECT, that of the last first-order child of a UNION when this child is a plain
SELECT, that of a statement deriving from `ASTQueryWithOutput`, or that of an INSERT
(`AST.embeddedSettings`). For a statement given as text (`input_ast == nullptr`) that is
run locally, `executeQueryImpl` interprets this clause before `InterpreterFactory::get`
constructs the interpreter, and interprets no other clause: none at all when
`interpretSettings` selects none, as for a UNION whose SETTINGS clause is on its first
SELECT. For a pre-parsed statement
`executeQueryImpl` interprets no SETTINGS clause at all; `executeQuery(ReadBuffer &, ...)`
interprets the selected clause itself, before it calls `executeQueryImpl` with the parsed
statement. -/
theorem settings_clause_applied_before_interpreter_for_text (env : Env) (inp : Input)
    (internal : Bool) (c : Context) :
    (∀ ast, interpretSettings env ast
        = (match ast.embeddedSettings with
           | some changes => executeForCurrentContext env changes
           | none => pure ()))
      ∧ (inp.input_ast = none → ∀ ast changes, env.parseQuery = .ok ast →
        ast.embeddedSettings = some changes →
        Event.interpreterFactoryGet false ∈ (executeQueryImpl env inp c).events →
        ∃ pre post, (executeQueryImpl env inp c).events
            = pre ++ .interpreterSetQuery changes :: post
          ∧ Event.interpreterFactoryGet false ∉ pre
          ∧ Event.interpreterFactoryGet false ∈ post)
      ∧ (inp.input_ast = none → ∀ ast, env.parseQuery = .ok ast →
          ast.embeddedSettings = none →
          ∀ e ∈ (executeQueryImpl env inp c).events, e.isInterpreterSetQuery = false)
      ∧ (inp.input_ast = none → ∀ ast, env.parseQuery = .ok ast →
          ∀ changes, Event.interpreterSetQuery changes ∈ (executeQueryImpl env inp c).events →
          ast.embeddedSettings = some changes)
      ∧ (AST.unionWithSettingsOnFirst.embeddedSettings = none
          ∧ Event.interpreterFactoryGet false
              ∈ (executeQueryImpl Env.unionWithSettingsOnFirst Input.client
                  Context.server).events
          ∧ (executeQueryImpl Env.unionWithSettingsOnFirst Input.client
                Context.server).events.any Event.isInterpreterSetQuery = false)
      ∧ (inp.input_ast.isSome = true →
          ∀ e ∈ (executeQueryImpl env inp c).events, e.isInterpreterSetQuery = false)
      ∧ (∀ ast changes, env.parseQuery = .ok ast → ast.embeddedSettings = some changes →
          Event.interpreterFactoryGet false ∈ (executeQuery env internal c).events →
          ∃ pre post, (executeQuery env internal c).events
              = pre ++ .interpreterSetQuery changes :: post
            ∧ Event.interpreterFactoryGet false ∉ pre
            ∧ Event.interpreterFactoryGet false ∈ post) := by
  refine ⟨fun ast => interpretSettings_eq env ast,
    fun htext ast changes hparse hclause hbuilt =>
      executeQueryImpl_applies_clause_first env inp c ast changes htext hparse hclause hbuilt,
    fun htext ast hparse hclause =>
      (executeQueryImpl_no_clause_selected env inp ast htext hparse hclause).holds c,
    fun htext ast hparse changes hmem =>
      (executeQueryImpl_interprets_selected_clause_only env inp ast htext hparse).holds c _
        hmem changes rfl,
    by decide,
    fun hparsed => (executeQueryImpl_preparsed_skips_clause env inp hparsed).holds c, ?_⟩
  intro ast changes hparse hclause hbuilt
  have hev := parseAndInterpretSettings_events env c ast changes hparse hclause
  unfold executeQuery at hbuilt ⊢
  cases hr : (parseAndInterpretSettings env c).result with
  | error x =>
      rw [bind_error hr, hev] at hbuilt
      simp at hbuilt
  | ok a =>
      rw [bind_ok hr, hev] at hbuilt ⊢
      dsimp only at hbuilt ⊢
      refine ⟨[.parseQuery], _, rfl, by simp, ?_⟩
      simpa using hbuilt

theorem settings_clause_applied_before_interpreter_for_text_witness :
    ∃ pre post, (executeQueryImpl Env.selectWithSettings Input.client Context.server).events
        = pre ++ .interpreterSetQuery [{ name := .log_queries, value := 1 }] :: post
      ∧ Event.interpreterFactoryGet false ∉ pre
      ∧ Event.interpreterFactoryGet false ∈ post :=
  (settings_clause_applied_before_interpreter_for_text Env.selectWithSettings Input.client
    false Context.server).2.1 rfl _ _ rfl rfl (by decide)

/-- C25 (as stated) fails for a pre-parsed statement: `executeQuery(query, ast, ...)` run
on `SELECT ... SETTINGS log_queries = 1` constructs the interpreter and returns a result
handle, and `interpretSettings` is never called: no SETTINGS clause is interpreted. -/
theorem preparsed_statement_settings_clause_not_applied :
    AST.selectWithSettings.embeddedSettings = some [{ name := .log_queries, value := 1 }]
      ∧ Event.interpreterFactoryGet false
          ∈ (executeQueryWithAST Env.nominal AST.selectWithSettings false .Complete
              Context.server).events
      ∧ (executeQueryWithAST Env.nominal AST.selectWithSettings false .Complete
            Context.server).events.any Event.isInterpreterSetQuery = false
      ∧ (executeQueryWithAST Env.nominal AST.selectWithSettings false .Complete
            Context.server).result.toOption.isSome = true := by
  decide

/-! ### The finalization of the cache write -/

/-- Events a continuation never emits are counted in the first step alone. -/
theorem countP_bind_left {α β : Type} {m : Exec α} {f : α → Exec β} {p : Event → Bool}
    (hf : ∀ a, OnlyEmits (fun e => p e = false) (f a)) (c : Context) :
    ((m >>= f) c).events.countP p = (m c).events.countP p := by
  cases hr : (m c).result with
  | ok a =>
      rw [bind_ok hr]
      simp only [List.countP_append, onlyEmits_countP_eq_zero (hf a), Nat.add_zero]
  | error x => rw [bind_error hr]

/-- The number of calls of `finalizeWriteInQueryCache` made by `finish_callback`. -/
theorem finishCallback_finalize_count (env : Env) (cb : FinishCallback) (res : BlockIO)
    (c : Context) :
    (cb.run env res c).events.countP Event.isFinalizeWrite
      = (if c.query_cache.isSome && cb.pulling_pipeline
            && cb.my_can_use_query_cache && cb.enable_writes_to_query_cache
            && (!env.astContainsNonDeterministicFunctions cb.ast
                || cb.query_cache_store_results_of_queries_with_nondeterministic_functions)
         then 1 else 0) := by
  have h : (cb.run env res c).events.countP Event.isFinalizeWrite
      = (cb.finalizeCacheWrite env res c).events.countP Event.isFinalizeWrite := by
    unfold FinishCallback.run
    apply countP_bind_left
    unfold finish_current_transaction
    repeat' first
      | intro _
      | exact onlyEmits_pure _ _
      | exact onlyEmits_getContext _
      | exact onlyEmits_emit rfl
      | exact onlyEmits_emitWhen _ rfl
      | apply onlyEmits_bind
      | dsimp only
      | split
  rw [h, finalizeCacheWrite_events]
  split <;> rfl

theorem mem_iff_countP_isFinalizeWrite (l : List Event) :
    Event.finalizeWriteInQueryCache ∈ l ↔ 0 < l.countP Event.isFinalizeWrite := by
  rw [List.countP_pos_iff]
  constructor
  · intro h
    exact ⟨_, h, rfl⟩
  · rintro ⟨e, he, hp⟩
    cases e <;> first | exact he | simp [Event.isFinalizeWrite] at hp

/-- The call is made exactly when a cache exists and the captured flags say so. -/
theorem finishCallback_finalizes_iff (env : Env) (cb : FinishCallback) (res : BlockIO)
    (c : Context) :
    Event.finalizeWriteInQueryCache ∈ (cb.run env res c).events
      ↔ (c.query_cache.isSome = true ∧ cb.pulling_pipeline = true
          ∧ cb.my_can_use_query_cache = true ∧ cb.enable_writes_to_query_cache = true
          ∧ (env.astContainsNonDeterministicFunctions cb.ast = false
              ∨ cb.query_cache_store_results_of_queries_with_nondeterministic_functions = true)) := by
  rw [mem_iff_countP_isFinalizeWrite, finishCallback_finalize_count]
  by_cases h : (c.query_cache.isSome && cb.pulling_pipeline
            && cb.my_can_use_query_cache && cb.enable_writes_to_query_cache
            && (!env.astContainsNonDeterministicFunctions cb.ast
                || cb.query_cache_store_results_of_queries_with_nondeterministic_functions)) = true
  · rw [if_pos h]
    simp only [Bool.and_eq_true, Bool.or_eq_true, Bool.not_eq_true'] at h
    exact ⟨fun _ => ⟨h.1.1.1.1, h.1.1.1.2, h.1.1.2, h.1.2, h.2⟩, fun _ => Nat.one_pos⟩
  · rw [if_neg h]
    simp only [Bool.and_eq_true, Bool.or_eq_true, Bool.not_eq_true'] at h
    exact ⟨fun h0 => absurd h0 (Nat.lt_irrefl 0),
      fun ⟨h1, h2, h3, h4, h5⟩ => absurd ⟨⟨⟨⟨h1, h2⟩, h3⟩, h4⟩, h5⟩ h⟩

/-- A property of the final context and result of a sequence that holds whenever the
continuation emits `e` holds of the sequence when it emits `e` and its first step never
emits `e`. -/
theorem after_bind {α β : Type} {m : Exec α} {f : α → Exec β} {c : Context} {e : Event}
    {P : Event → Prop} (Q : Context → Except Exception β → Prop)
    (hm : OnlyEmits P m) (hne : ¬ P e)
    (hq : ∀ a c1, e ∈ (f a c1).events → Q (f a c1).context (f a c1).result)
    (hmem : e ∈ ((m >>= f) c).events) :
    Q ((m >>= f) c).context ((m >>= f) c).result := by
  cases hr : (m c).result with
  | ok a =>
      rw [bind_ok hr] at hmem ⊢
      rcases List.mem_append.mp hmem with h | h
      · exact absurd (hm.holds c e h) hne
      · exact hq a _ h
  | error y =>
      rw [bind_error hr] at hmem
      exact absurd (hm.holds c e hmem) hne

/-- When the write step attaches a writer, the source's condition held, and the step
changes neither the settings nor the number of streams. -/
theorem writeQueryCache_attached (env : Env) (can_use_query_cache : Bool) (ast : AST)
    (cr : CacheRead) (c : Context)
    (hmem : Event.writeResultIntoQueryCache
      ∈ (writeQueryCache env can_use_query_cache ast cr c).events) :
    ∃ res q, (writeQueryCache env can_use_query_cache ast cr c).result = .ok res
      ∧ (writeQueryCache env can_use_query_cache ast cr c).context
          = { c with query_cache := some q }
      ∧ res.pipeline.num_streams = cr.res.pipeline.num_streams
      ∧ can_use_query_cache = true
      ∧ c.settings.enable_writes_to_query_cache = true
      ∧ 0 < cr.res.pipeline.num_streams
      ∧ (env.astContainsNonDeterministicFunctions ast = false
          ∨ c.settings.query_cache_store_results_of_queries_with_nondeterministic_functions
              = true) := by
  by_cases hel : c.query_cache = none
      ∨ (!cr.read_result_from_query_cache
          && can_use_query_cache && c.settings.enable_writes_to_query_cache
          && decide (cr.res.pipeline.num_streams > 0)
          && (!env.astContainsNonDeterministicFunctions ast
              || c.settings.query_cache_store_results_of_queries_with_nondeterministic_functions))
          = false
  · rw [writeQueryCache_not_eligible env can_use_query_cache ast cr c hel] at hmem
    simp at hmem
  · simp only [not_or, Bool.not_eq_false, Bool.and_eq_true, Bool.or_eq_true,
      Bool.not_eq_true', decide_eq_true_eq] at hel
    obtain ⟨hq, ⟨⟨⟨hread, hcan⟩, hwrites⟩, hstreams⟩, hdet⟩ := hel
    cases hc : c.query_cache with
    | none => exact absurd hc hq
    | some query_cache =>
        by_cases hthr : (query_cache.recordQueryRun (writerKey env c ast cr.res)).1
            > c.settings.query_cache_min_query_runs
        · refine ⟨{ cr.res with
                pipeline := { cr.res.pipeline with
                  query_cache_writer :=
                    some { key := writerKey env c ast cr.res,
                           source_update_time := cr.source_update_time_for_query_cache } } },
            (query_cache.recordQueryRun (writerKey env c ast cr.res)).2, ?_, ?_, rfl,
            hcan, hwrites, hstreams, hdet⟩
          all_goals
            unfold writeQueryCache
            simp [bind, Exec.bind, getContext, pure, Exec.pure, emit, modifyContext, hc, hread,
              hcan, hwrites, hstreams, hdet, hthr]
        · exfalso
          unfold writeQueryCache at hmem
          simp [bind, Exec.bind, getContext, pure, Exec.pure, emit, modifyContext, hc, hread,
            hcan, hwrites, hstreams, hdet, hthr] at hmem

theorem logQueryStart_run (inp : Input) (c : Context) :
    (logQueryStart inp c).result = .ok () ∧ (logQueryStart inp c).context = c := by
  have h : ∀ (b1 b2 : Bool) (e1 e2 : Event),
      ((emitWhen b1 e1 >>= fun _ => emitWhen b2 e2) c).result = .ok ()
        ∧ ((emitWhen b1 e1 >>= fun _ => emitWhen b2 e2) c).context = c := by
    intro b1 b2 e1 e2
    cases b1 <;> cases b2 <;> exact ⟨rfl, rfl⟩
  exact h _ _ _ _

/-- When local execution attaches a cache writer, it returns a result handle whose
`finish_callback` will finalize the cache write. -/
theorem executeLocally_writer_finalized (env : Env) (inp : Input) (can_use_query_cache : Bool)
    (ast : AST) (c : Context)
    (hmem : Event.writeResultIntoQueryCache
      ∈ (executeLocally env inp can_use_query_cache ast c).events) :
    ∃ r cb, (executeLocally env inp can_use_query_cache ast c).result = .ok r
      ∧ r.finish_callback = some cb
      ∧ Event.finalizeWriteInQueryCache
          ∈ (cb.run env r (executeLocally env inp can_use_query_cache ast c).context).events := by
  unfold executeLocally at hmem ⊢
  refine after_bind (fun ctx res => ∃ r cb, res = .ok r ∧ r.finish_callback = some cb
      ∧ Event.finalizeWriteInQueryCache ∈ (cb.run env r ctx).events)
    (registerQuery_emits env inp ast) (by decide) (fun entry c1 hmem => ?_) hmem
  refine after_bind (fun ctx res => ∃ r cb, res = .ok r ∧ r.finish_callback = some cb
      ∧ Event.finalizeWriteInQueryCache ∈ (cb.run env r ctx).events)
    (buildInterpreter_emits env inp ast) (by decide) (fun interpreter c2 hmem => ?_) hmem
  refine after_bind (fun ctx res => ∃ r cb, res = .ok r ∧ r.finish_callback = some cb
      ∧ Event.finalizeWriteInQueryCache ∈ (cb.run env r ctx).events)
    (chargeQuota_emits env ast interpreter) (by decide) (fun quota c3 hmem => ?_) hmem
  refine after_bind (fun ctx res => ∃ r cb, res = .ok r ∧ r.finish_callback = some cb
      ∧ Event.finalizeWriteInQueryCache ∈ (cb.run env r ctx).events)
    (executeInterpreter_emits env interpreter) (by decide) (fun res c4 hmem => ?_) hmem
  refine after_bind (fun ctx res => ∃ r cb, res = .ok r ∧ r.finish_callback = some cb
      ∧ Event.finalizeWriteInQueryCache ∈ (cb.run env r ctx).events)
    (readQueryCache_emits env can_use_query_cache ast res) (by decide)
    (fun cr c5 hmem => ?_) hmem
  refine after_bind (fun ctx res => ∃ r cb, res = .ok r ∧ r.finish_callback = some cb
      ∧ Event.finalizeWriteInQueryCache ∈ (cb.run env r ctx).events)
    (checkKilled_emits (fun e => e.isLimitEvent = true) entry cr.res) (by decide) (fun res1 c6 hmem => ?_) hmem
  refine after_bind (fun ctx res => ∃ r cb, res = .ok r ∧ r.finish_callback = some cb
      ∧ Event.finalizeWriteInQueryCache ∈ (cb.run env r ctx).events)
    (attachLimits_emits inp interpreter res1) (by decide) (fun res2 c7 hmem => ?_) hmem
  have hw : Event.writeResultIntoQueryCache
      ∈ (writeQueryCache env can_use_query_cache ast { cr with res := res2 } c7).events := by
    refine mem_bind_first (P := fun e => e.isLogStartEvent = true) ?_ (by decide) hmem
    intro res3
    exact onlyEmits_bind (logQueryStart_emits inp) (fun _ => attachCallbacks_emits _ _ _ _ _ _)
  obtain ⟨res3, q, hres, hctx, hn, hcan, hwrites, hstreams, hdet⟩ :=
    writeQueryCache_attached env can_use_query_cache ast { cr with res := res2 } c7 hw
  rw [bind_ok hres, hctx]
  dsimp only
  rw [bind_ok (logQueryStart_run inp _).1, (logQueryStart_run inp _).2]
  refine ⟨_, _, rfl, rfl, ?_⟩
  rw [finishCallback_finalizes_iff]
  refine ⟨rfl, ?_, hcan, hwrites, hdet⟩
  simp only [decide_eq_true_eq]
  rw [hn]
  exact hstreams

/-- C29. The callback `finish_callback` calls `finalizeWriteInQueryCache` exactly when a
query cache exists, the pipeline had at least one stream when the callback was attached
(`pulling_pipeline`), `can_use_query_cache` and `enable_writes_to_query_cache` held then,
and the statement is deterministic or caching of non-deterministic statements is allowed;
it calls it at most once. The flags are those captured by the attachment of the callbacks.
Whenever local execution attaches a cache writer it returns a callback that will make the
call; the converse fails: an execution whose run count is below the threshold, and one
served from the cache, attach no writer and still make the call. -/
theorem finish_callback_finalizes_cache_write_iff_eligible (env : Env) (inp : Input)
    (can_use_query_cache : Bool) (ast : AST) (quota : Bool) (res streams : BlockIO)
    (cb : FinishCallback) (c : Context) :
    ((Event.finalizeWriteInQueryCache ∈ (cb.run env streams c).events
        ↔ (c.query_cache.isSome = true ∧ cb.pulling_pipeline = true
            ∧ cb.my_can_use_query_cache = true ∧ cb.enable_writes_to_query_cache = true
            ∧ (env.astContainsNonDeterministicFunctions cb.ast = false
                ∨ cb.query_cache_store_results_of_queries_with_nondeterministic_functions
                    = true)))
      ∧ (cb.run env streams c).events.countP Event.isFinalizeWrite ≤ 1)
    ∧ (∃ r captured, (attachCallbacks inp can_use_query_cache ast quota res c).result = .ok r
        ∧ r.finish_callback = some captured
        ∧ captured.ast = ast
        ∧ captured.pulling_pipeline = decide (res.pipeline.num_streams > 0)
        ∧ captured.my_can_use_query_cache = can_use_query_cache
        ∧ captured.enable_writes_to_query_cache = c.settings.enable_writes_to_query_cache
        ∧ captured.query_cache_store_results_of_queries_with_nondeterministic_functions
            = c.settings.query_cache_store_results_of_queries_with_nondeterministic_functions)
    ∧ (Event.writeResultIntoQueryCache
          ∈ (executeLocally env inp can_use_query_cache ast c).events →
        ∃ r attached, (executeLocally env inp can_use_query_cache ast c).result = .ok r
          ∧ r.finish_callback = some attached
          ∧ Event.finalizeWriteInQueryCache
              ∈ (attached.run env r
                  (executeLocally env inp can_use_query_cache ast c).context).events)
    ∧ (Event.writeResultIntoQueryCache
          ∈ (executeQuery (Env.overT 1) false Context.cached).events
        ∧ Event.finalizeWriteInQueryCache
          ∈ (executeQuery (Env.overT 1) false Context.cached).events)
    ∧ (Event.writeResultIntoQueryCache
          ∉ (executeQuery Env.nominal false (Context.withQueryCache 5)).events
        ∧ Event.finalizeWriteInQueryCache
          ∈ (executeQuery Env.nominal false (Context.withQueryCache 5)).events)
    ∧ (Event.readFromQueryCache
          ∈ (executeQuery (Env.overT 1) false
              (Context.cachedAfter (executeQuery (Env.overT 1) false Context.cached))).events
        ∧ Event.writeResultIntoQueryCache
          ∉ (executeQuery (Env.overT 1) false
              (Context.cachedAfter (executeQuery (Env.overT 1) false Context.cached))).events
        ∧ Event.finalizeWriteInQueryCache
          ∈ (executeQuery (Env.overT 1) false
              (Context.cachedAfter
                (executeQuery (Env.overT 1) false Context.cached))).events) := by
  refine ⟨⟨finishCallback_finalizes_iff env cb streams c, ?_⟩,
    ⟨_, _, rfl, rfl, rfl, rfl, rfl, rfl, rfl⟩,
    executeLocally_writer_finalized env inp can_use_query_cache ast c,
    by decide, by decide, by decide⟩
  rw [finishCallback_finalize_count]
  split <;> decide

end DB
